import Mathlib

/-!
Well-model coordinator (StandardWellsDense): economic limits, the well-only solve,
the preparation of a time step and the assembly, the linear-operator actions,
the projection of a control target into the well state, the construction of the
well container, the derivation of the perforation geometry, the average
formation volume factors and the efficiency factors of the perforations; and the
check of the deck keywords that flow does not support.

A shallow embedding of `opm/autodiff/StandardWellsDense_impl.hpp` and of
`opm/autodiff/MissingFeatures.cpp`.

Conventions of the embedding.

* A value of type `double` is a rational `ℚ`; `std::abs` is `|.|` and the
  comparisons are the exact ones. Where a statement depends on the rounding of
  the arithmetic, each operation on `double` is rounded to the nearest double
  (`Double.round`, IEEE 754 binary64, ties to even, gradual underflow), one
  operation at a time: the sum of `checkRateEconLimits`, the rate branch and
  the well-solution entries of `updateWellStateWithTarget`, the vector update of
  `applyScaleAdd` and the sums of `computeAverageFormationFactor`. The
  embedding has no infinity and no NaN: a division by zero and a result of
  magnitude `2^1024` or more are outside it, and the statements on rounded
  results are made for divisors that are not zero and for magnitudes far below
  the overflow. The other computations are written with the exact operations.
* An `int` is an `Int`; the cartesian index of `computeRepRadiusPerfLength`,
  the one place where the source multiplies grid dimensions, is computed in
  32-bit arithmetic (`wrapInt32`).
* `std::vector<T>` is a `List T`; an element read `v[i]` is `v.getD i 0` and
  an element write `v[i] = a` is `v.set i a` (every access made on a
  well-formed well state is in range).
* The arrays of the C struct `Wells` are functions of the index.
* `assert` is compiled out (`NDEBUG`); the asserted conditions are quoted in
  comments next to the place where the source states them.
* The dereference of a null `wells_` pointer and an access `well_container_[w]`
  outside the container are failures: the methods that make them return an
  `Option`, and `none` is the failure.
* The methods that throw return an `Except WellModelError`: `OPM_THROW` of a
  `std::logic_error`, of a `std::runtime_error` or of a `NumericalProblem` is an
  error with the message of the source, and the dereference of a null pointer
  is the error `null_pointer`.
* `OpmLog` calls are modelled by the list of messages they emit; `OPM_MESSAGE`
  only prints and is quoted in a comment.
* A `std::map` is the list of its bindings.
-/

namespace Opm

/-! ## Double-precision arithmetic -/

namespace Double

/-- The integer nearest to an exact value, a tie going to the even
neighbour. -/
def roundHalfEven (q : ℚ) : Int :=
  if q - ⌊q⌋ < 1 / 2 then ⌊q⌋
  else if 1 / 2 < q - ⌊q⌋ then ⌊q⌋ + 1
  else if ⌊q⌋ % 2 = 0 then ⌊q⌋ else ⌊q⌋ + 1

/-- The binary exponent of the double nearest to `x`: the `e` with
`2^e ≤ |x| < 2^(e+1)`, and `-1022` for the smaller values (the subnormal
range). -/
def exponent (x : ℚ) : Int := max (Int.log 2 |x|) (-1022)

/-- The double nearest to the exact value `x` (IEEE 754 binary64, rounding to
nearest, ties to even): a multiple of `2^(e-52)` for the exponent `e` of `x`,
that is, 53 significant bits in the normal range and the multiples of
`2^(-1074)` below it. An exact value of magnitude `2^1024` or more, which
overflows to an infinity in the source, is outside the embedding. -/
def round (x : ℚ) : ℚ :=
  (roundHalfEven (x * 2 ^ (52 - exponent x)) : ℚ) * 2 ^ (exponent x - 52)

/-- The sum `a + b` of two values of type `double`. -/
def add (a b : ℚ) : ℚ := round (a + b)

/-- The difference `a - b` of two values of type `double`. -/
def sub (a b : ℚ) : ℚ := round (a - b)

/-- The product `a * b` of two values of type `double`. -/
def mul (a b : ℚ) : ℚ := round (a * b)

/-- The quotient `a / b` of two values of type `double`, for `b` other than
zero. -/
def div (a b : ℚ) : ℚ := round (a / b)

/-- An integer of magnitude at most `M`, as a value of type `double`. -/
def isInt (M : Nat) (u : ℚ) : Prop := u.den = 1 ∧ u.num.natAbs ≤ M

instance (M : Nat) (u : ℚ) : Decidable (isInt M u) := by
  unfold isInt
  infer_instance

end Double

/-- The value of an integer expression in the 32-bit type `int`
(two's complement). -/
def wrapInt32 (x : Int) : Int := (x + 2 ^ 31) % 2 ^ 32 - 2 ^ 31

/-! ## Data model -/

/-- The three phases `Water`, `Oil`, `Gas` that index `phase_pos`. -/
inductive Phase where
  | Water
  | Oil
  | Gas
  deriving DecidableEq

/-- The fields of `PhaseUsage` read by the well model. -/
structure PhaseUsage where
  num_phases : Nat
  phase_used : Phase → Bool
  phase_pos : Phase → Nat

/-- The well type stored in `Wells::type`; `OTHER` stands for any value that is
neither of the two enumerators. -/
inductive WellType where
  | INJECTOR
  | PRODUCER
  | OTHER
  deriving DecidableEq

namespace WellEcon

/-- The enumeration `WellEcon::QuantityLimitEnum`. -/
inductive QuantityLimitEnum where
  | RATE
  | POTN
  deriving DecidableEq

end WellEcon

/-- The observable content of the parser class `WellEconProductionLimits`:
every accessor the well model calls, except the three aggregate queries below,
is a field. -/
structure WellEconProductionLimits where
  onMinOilRate : Bool := false
  minOilRate : ℚ := 0
  onMinGasRate : Bool := false
  minGasRate : ℚ := 0
  onMinLiquidRate : Bool := false
  minLiquidRate : ℚ := 0
  onMinReservoirFluidRate : Bool := false
  minReservoirFluidRate : ℚ := 0
  onMaxWaterCut : Bool := false
  maxWaterCut : ℚ := 0
  onMaxGasOilRatio : Bool := false
  maxGasOilRatio : ℚ := 0
  onMaxWaterGasRatio : Bool := false
  maxWaterGasRatio : ℚ := 0
  onMaxGasLiquidRatio : Bool := false
  maxGasLiquidRatio : ℚ := 0
  quantityLimit : WellEcon.QuantityLimitEnum := WellEcon.QuantityLimitEnum.RATE
  endRun : Bool := false
  validFollowonWell : Bool := false

namespace WellEconProductionLimits

/-- Modelled from the spec: the class `WellEconProductionLimits` belongs to the
parser library and is not under `src/`. A rate limit is one of the minimum oil,
gas, liquid and reservoir-fluid rates; `onAnyRateLimit` tells whether one of
them is on. -/
def onAnyRateLimit (l : WellEconProductionLimits) : Bool :=
  l.onMinOilRate || l.onMinGasRate || l.onMinLiquidRate || l.onMinReservoirFluidRate

/-- Modelled from the spec: the class `WellEconProductionLimits` is not under
`src/`. A ratio limit is one of the maximum water cut, gas-oil, water-gas and
gas-liquid ratios; `onAnyRatioLimit` tells whether one of them is on. -/
def onAnyRatioLimit (l : WellEconProductionLimits) : Bool :=
  l.onMaxWaterCut || l.onMaxGasOilRatio || l.onMaxWaterGasRatio || l.onMaxGasLiquidRatio

/-- Modelled from the spec: the class `WellEconProductionLimits` is not under
`src/`. A limit is effective when a ratio limit or a rate limit is on. -/
def onAnyEffectiveLimit (l : WellEconProductionLimits) : Bool :=
  l.onAnyRatioLimit || l.onAnyRateLimit

end WellEconProductionLimits

namespace WellCommon

/-- The enumeration `WellCommon::StatusEnum`. -/
inductive StatusEnum where
  | OPEN
  | STOP
  | SHUT
  | AUTO
  deriving DecidableEq

end WellCommon

namespace WellInjector

/-- The enumeration `WellInjector::TypeEnum`. -/
inductive TypeEnum where
  | WATER
  | GAS
  | OIL
  | MULTI
  deriving DecidableEq

end WellInjector

namespace WellCompletion

/-- The enumeration `WellCompletion::StateEnum`; `OTHER` stands for any value
that is neither `OPEN` nor `SHUT`. -/
inductive StateEnum where
  | OPEN
  | SHUT
  | OTHER
  deriving DecidableEq

/-- The enumeration `WellCompletion::DirectionEnum`; `OTHER` stands for any
value that is none of the three enumerators. -/
inductive DirectionEnum where
  | X
  | Y
  | Z
  | OTHER
  deriving DecidableEq

end WellCompletion

/-- The completion (`Completion`) of a schedule well as far as the well model
reads it. -/
structure Completion where
  getState : WellCompletion.StateEnum
  getI : Int
  getJ : Int
  getK : Int
  getDiameter : ℚ
  getDirection : WellCompletion.DirectionEnum

/-- The schedule well (`Well`) as far as the well model reads it; the argument
of the accessors is the report step. `injectorType` is
`getInjectionProperties(step).injectorType`. -/
structure Well where
  name : String
  getAutomaticShutIn : Bool
  getEconProductionLimits : Nat → WellEconProductionLimits
  getStatus : Nat → WellCommon.StatusEnum
  isMultiSegment : Nat → Bool
  injectorType : Nat → WellInjector.TypeEnum
  getSolventFraction : Nat → ℚ
  getCompletions : Nat → List Completion

/-- The schedule, reduced to its well lookup `Schedule::getWell`. -/
structure Schedule where
  getWell : String → Well

/-- The entry of the well map: `[0]` the well index, `[1]` the index of the
first perforation, `[2]` the number of perforations. -/
structure WellMapEntryType where
  well_number : Nat
  perf_start : Nat
  perf_number : Nat

/-- The well state (`WellState`), externally owned. `wellMap` is the lookup
`wellMap().find(name)->second`, which the source asserts to succeed. -/
structure WellState where
  numPhases : Nat
  numWells : Nat := 0
  bhp : List ℚ := []
  thp : List ℚ := []
  wellRates : List ℚ := []
  perfPhaseRates : List ℚ := []
  currentControls : List Int := []
  wellSolutions : List ℚ := []
  wellMap : String → WellMapEntryType := fun _ => ⟨0, 0, 0⟩
  solventWellRate : Nat → ℚ := fun _ => 0
  isNewWell : Nat → Bool := fun _ => false

/-- The C struct `Wells`, as far as the coordinator reads it. The current
control of `ctrls[w]` is mutable and kept apart (`SimState.ctrl_current`). -/
structure Wells where
  number_of_wells : Nat
  number_of_phases : Nat
  name : Nat → String
  type : Nat → WellType
  well_connpos : Nat → Nat
  well_cells : Int → Int
  comp_frac : Nat → ℚ

/-- Modelled from the spec: the class `DynamicListEconLimited` is not under
`src/`. It accumulates the well names to shut, the well names to stop, and the
(well name, cell index) pairs of the connections to close. -/
structure DynamicListEconLimited where
  shut_wells : List String := []
  stopped_wells : List String := []
  closed_connections : List (String × Int) := []
  deriving DecidableEq

namespace DynamicListEconLimited

/-- Modelled from the spec: `addShutWell` records a well name to shut. -/
def addShutWell (l : DynamicListEconLimited) (well_name : String) : DynamicListEconLimited :=
  { l with shut_wells := l.shut_wells ++ [well_name] }

/-- Modelled from the spec: `addStoppedWell` records a well name to stop. -/
def addStoppedWell (l : DynamicListEconLimited) (well_name : String) : DynamicListEconLimited :=
  { l with stopped_wells := l.stopped_wells ++ [well_name] }

/-- Modelled from the spec: `addClosedConnectionsForWell` records a
(well name, cell index) pair of a connection to close. -/
def addClosedConnectionsForWell (l : DynamicListEconLimited) (well_name : String)
    (cell_closed_connection : Int) : DynamicListEconLimited :=
  { l with closed_connections := l.closed_connections ++ [(well_name, cell_closed_connection)] }

end DynamicListEconLimited

/-- Modelled from the spec: the class `WellNode` is not under `src/`. A leaf of
the well collection stands for one well: it carries the name of the well, the
index of the well in the `Wells` struct (`selfIndex`), whether the well is an
injector, the index of the control that the group has assigned to the well
(`groupControlIndex`, negative when there is none) and the flag that tells
individual control from group control. -/
structure WellNode where
  name : String
  selfIndex : Nat
  isInjector : Bool
  groupControlIndex : Int
  individualControl : Bool

namespace WellNode

/-- Modelled from the spec: `setIndividualControl` sets the flag of the node. -/
def setIndividualControl (node : WellNode) (individual_control : Bool) : WellNode :=
  { node with individualControl := individual_control }

end WellNode

/-- Modelled from the spec: `WellCollection::findWellNode(name)` is the first
leaf of that name; `none` when no leaf has the name. -/
def findWellNode (leaf_nodes : List WellNode) (name : String) : Option WellNode :=
  leaf_nodes.find? fun node => decide (node.name = name)

/-- Modelled from the spec: the leaves of the collection after the call
`findWellNode(name).setIndividualControl(individual_control)`. -/
def setIndividualControlOf (leaf_nodes : List WellNode) (name : String)
    (individual_control : Bool) : List WellNode :=
  match leaf_nodes with
  | [] => []
  | node :: rest =>
    if node.name = name then node.setIndividualControl individual_control :: rest
    else node :: setIndividualControlOf rest name individual_control

/-- Severity of a log message. -/
inductive LogLevel where
  | warning
  | info
  deriving DecidableEq

/-- The messages sent to `OpmLog`, oldest first: severity and text (for a
tagged warning, the tag). -/
abbrev OpmLog := List (LogLevel × String)

/-- The tuple `(violated, last_connection, worst_offending_connection,
violation_extent)` returned by the ratio checks. -/
structure RatioCheckTuple where
  violated : Bool
  last_connection : Bool
  worst_offending_connection : Int
  violation_extent : ℚ

/-- The members of the class `StandardWellsDense` that the economic-limit
evaluator reads. `INVALIDCONNECTION` is a constant of the class header, which
is not under `src/`; it is kept as a parameter. -/
structure EconContext where
  phase_usage_ : PhaseUsage
  active_ : Phase → Bool
  INVALIDCONNECTION : Int

/-! ## Economic-limit evaluator -/

/-- The method `checkRateEconLimits`: the result and the messages logged. The
liquid rate `oil_rate + water_rate` is the sum rounded to a double. -/
def checkRateEconLimits (ctx : EconContext) (econ_production_limits : WellEconProductionLimits)
    (well_state : WellState) (well_number : Nat) : Bool × OpmLog :=
  let pu := ctx.phase_usage_
  let np := well_state.numPhases
  -- assert(active_[Oil])
  if econ_production_limits.onMinOilRate &&
      decide (|well_state.wellRates.getD (well_number * np + pu.phase_pos Phase.Oil) 0|
        < econ_production_limits.minOilRate) then
    (true, [])
  -- assert(active_[Gas])
  else if econ_production_limits.onMinGasRate &&
      decide (|well_state.wellRates.getD (well_number * np + pu.phase_pos Phase.Gas) 0|
        < econ_production_limits.minGasRate) then
    (true, [])
  -- assert(active_[Oil]); assert(active_[Water])
  else if econ_production_limits.onMinLiquidRate &&
      decide (|Double.add (well_state.wellRates.getD (well_number * np + pu.phase_pos Phase.Oil) 0)
          (well_state.wellRates.getD (well_number * np + pu.phase_pos Phase.Water) 0)|
        < econ_production_limits.minLiquidRate) then
    (true, [])
  else if econ_production_limits.onMinReservoirFluidRate then
    (false, [(LogLevel.warning, "NOT_SUPPORTING_MIN_RESERVOIR_FLUID_RATE")])
  else
    (false, [])

/-- The water cut computed at the head of `checkMaxWaterCutLimit` from the
well rates: `water_rate / liquid_rate`, and `0.0` when the liquid rate is zero. -/
def wellWaterCut (ctx : EconContext) (well_state : WellState) (well_number : Nat) : ℚ :=
  let np := well_state.numPhases
  let pu := ctx.phase_usage_
  let oil_rate := well_state.wellRates.getD (well_number * np + pu.phase_pos Phase.Oil) 0
  let water_rate := well_state.wellRates.getD (well_number * np + pu.phase_pos Phase.Water) 0
  let liquid_rate := oil_rate + water_rate
  if |liquid_rate| ≠ 0 then water_rate / liquid_rate else 0

/-- The water cut of the perforation of global index `i_perf`, as computed in
the body of the first loop of `checkMaxWaterCutLimit`. -/
def perfWaterCut (ctx : EconContext) (well_state : WellState) (i_perf : Nat) : ℚ :=
  let np := well_state.numPhases
  let pu := ctx.phase_usage_
  let oil_perf_rate := well_state.perfPhaseRates.getD (i_perf * np + pu.phase_pos Phase.Oil) 0
  let water_perf_rate := well_state.perfPhaseRates.getD (i_perf * np + pu.phase_pos Phase.Water) 0
  let liquid_perf_rate := oil_perf_rate + water_perf_rate
  if |liquid_perf_rate| ≠ 0 then water_perf_rate / liquid_perf_rate else 0

/-- The vector `water_cut_perf` built by the first loop of
`checkMaxWaterCutLimit`. -/
def waterCutPerf (ctx : EconContext) (well_state : WellState) (perf_start perf_number : Nat) :
    List ℚ :=
  (List.range perf_number).map fun perf => perfWaterCut ctx well_state (perf_start + perf)

/-- The second loop of `checkMaxWaterCutLimit`: the state is
`(worst_offending_connection, max_water_cut_perf)`. -/
def worstOffendingScan (water_cut_perf : List ℚ) (perf_number : Nat) (init : Int × ℚ) : Int × ℚ :=
  (List.range perf_number).foldl
    (fun st perf =>
      if water_cut_perf.getD perf 0 > st.2 then ((perf : Int), water_cut_perf.getD perf 0) else st)
    init

/-- The method `checkMaxWaterCutLimit`. -/
def checkMaxWaterCutLimit (ctx : EconContext) (econ_production_limits : WellEconProductionLimits)
    (well_state : WellState) (map_entry : WellMapEntryType) : RatioCheckTuple :=
  let well_number := map_entry.well_number
  -- assert(active_[Oil]); assert(active_[Water])
  let water_cut := wellWaterCut ctx well_state well_number
  let max_water_cut_limit := econ_production_limits.maxWaterCut
  if water_cut > max_water_cut_limit then
    let perf_start := map_entry.perf_start
    let perf_number := map_entry.perf_number
    let water_cut_perf := waterCutPerf ctx well_state perf_start perf_number
    if perf_number = 1 then
      ⟨true, true, 0, water_cut_perf.getD 0 0 / max_water_cut_limit⟩
    else
      let scan := worstOffendingScan water_cut_perf perf_number (ctx.INVALIDCONNECTION, 0)
      -- assert(max_water_cut_perf != 0.)
      -- assert((worst_offending_connection >= 0) && (worst_offending_connection < perf_number))
      ⟨true, false, scan.1, scan.2 / max_water_cut_limit⟩
  else
    ⟨false, false, ctx.INVALIDCONNECTION, -1⟩

/-- The method `checkRatioEconLimits`: the tuple and the messages logged. -/
def checkRatioEconLimits (ctx : EconContext) (econ_production_limits : WellEconProductionLimits)
    (well_state : WellState) (map_entry : WellMapEntryType) : RatioCheckTuple × OpmLog :=
  let init : RatioCheckTuple := ⟨false, false, ctx.INVALIDCONNECTION, -1⟩
  let r1 : RatioCheckTuple :=
    if econ_production_limits.onMaxWaterCut then
      let water_cut_return := checkMaxWaterCutLimit ctx econ_production_limits well_state map_entry
      if water_cut_return.violated then
        if water_cut_return.violation_extent > init.violation_extent then
          ⟨true, water_cut_return.last_connection, water_cut_return.worst_offending_connection,
            water_cut_return.violation_extent⟩
        else
          { init with violated := true }
      else init
    else init
  let log1 : OpmLog :=
    if econ_production_limits.onMaxGasOilRatio then [(LogLevel.warning, "NOT_SUPPORTING_MAX_GOR")]
    else []
  let log2 : OpmLog :=
    if econ_production_limits.onMaxWaterGasRatio then [(LogLevel.warning, "NOT_SUPPORTING_MAX_WGR")]
    else []
  let log3 : OpmLog :=
    if econ_production_limits.onMaxGasLiquidRatio then [(LogLevel.warning, "NOT_SUPPORTING_MAX_GLR")]
    else []
  -- if (any_limit_violated): assert(worst_offending_connection >= 0); assert(violation_extent > 1.)
  (r1, log1 ++ log2 ++ log3)

/-- One pass of the loop of `updateListEconLimited`, for the well of index `w`:
the directive list and the log before the pass are mapped to those after it. -/
def updateListEconLimitedWell (ctx : EconContext) (schedule : Schedule) (current_step : Nat)
    (wells_struct : Wells) (well_state : WellState) (w : Nat)
    (acc : DynamicListEconLimited × OpmLog) : DynamicListEconLimited × OpmLog :=
  let well_name := wells_struct.name w
  let well_ecl := schedule.getWell well_name
  let econ_production_limits := well_ecl.getEconProductionLimits current_step
  -- economic limits only apply for production wells
  if wells_struct.type w ≠ WellType.PRODUCER then acc
  -- if no limit is effective here, then continue to the next well
  else if econ_production_limits.onAnyEffectiveLimit = false then acc
  else
    let log_potn : OpmLog :=
      if econ_production_limits.quantityLimit = WellEcon.QuantityLimitEnum.POTN then
        [(LogLevel.warning, "NOT_SUPPORTING_POTN")]
      else []
    -- assert(i_well != well_map.end())
    let map_entry := well_state.wellMap well_name
    let well_number := map_entry.well_number
    let rate_check : Bool × OpmLog :=
      if econ_production_limits.onAnyRateLimit then
        checkRateEconLimits ctx econ_production_limits well_state well_number
      else (false, [])
    if rate_check.1 then
      let log_endrun : OpmLog :=
        if econ_production_limits.endRun then [(LogLevel.warning, "NOT_SUPPORTING_ENDRUN")]
        else []
      let log_followon : OpmLog :=
        if econ_production_limits.validFollowonWell then
          [(LogLevel.warning, "NOT_SUPPORTING_FOLLOWONWELL")]
        else []
      let log := acc.2 ++ log_potn ++ rate_check.2 ++ log_endrun ++ log_followon
      if well_ecl.getAutomaticShutIn then
        (acc.1.addShutWell well_name,
          log ++ [(LogLevel.info, "well " ++ well_name ++ " will be shut in due to economic limit")])
      else
        (acc.1.addStoppedWell well_name,
          log ++ [(LogLevel.info, "well " ++ well_name ++ " will be stopped due to economic limit")])
      -- the well is closed, not need to check other limits
    else
      -- checking for ratio related limits
      let ratio_check : RatioCheckTuple × OpmLog :=
        if econ_production_limits.onAnyRatioLimit then
          checkRatioEconLimits ctx econ_production_limits well_state map_entry
        else (⟨false, false, 0, 0⟩, [])
      let log := acc.2 ++ log_potn ++ rate_check.2 ++ ratio_check.2
      if ratio_check.1.violated then
        let last_connection := ratio_check.1.last_connection
        let worst_offending_connection := ratio_check.1.worst_offending_connection
        let perf_start := map_entry.perf_start
        -- assert((worst_offending_connection >= 0) && (worst_offending_connection < map_entry[2]))
        let cell_worst_offending_connection :=
          wells_struct.well_cells ((perf_start : Int) + worst_offending_connection)
        let list1 := acc.1.addClosedConnectionsForWell well_name cell_worst_offending_connection
        let log1 := log ++ [(LogLevel.info, "Connection " ++ toString worst_offending_connection
          ++ " for well " ++ well_name ++ " will be closed due to economic limit")]
        if last_connection then
          (list1.addShutWell well_name,
            log1 ++ [(LogLevel.info, well_name ++ " will be shut due to the last connection closed")])
        else (list1, log1)
      else (acc.1, log)

/-- The loop `for (int w = 0; w < nw; ++w)` of `updateListEconLimited`, run
over the wells `0, ..., n - 1`. -/
def updateListEconLimitedLoop (ctx : EconContext) (schedule : Schedule) (current_step : Nat)
    (wells_struct : Wells) (well_state : WellState) :
    Nat → DynamicListEconLimited × OpmLog → DynamicListEconLimited × OpmLog
  | 0, acc => acc
  | n + 1, acc =>
    updateListEconLimitedWell ctx schedule current_step wells_struct well_state n
      (updateListEconLimitedLoop ctx schedule current_step wells_struct well_state n acc)

/-- The method `updateListEconLimited`. With no wells on the process
`wells_struct` is a null pointer (`none`). The result is the directive list
after the call and the messages logged. -/
def updateListEconLimited (ctx : EconContext) (schedule : Schedule) (current_step : Nat)
    (wells_struct : Option Wells) (well_state : WellState)
    (list_econ_limited : DynamicListEconLimited) : DynamicListEconLimited × OpmLog :=
  match wells_struct with
  | none => (list_econ_limited, [])
  | some ws =>
    updateListEconLimitedLoop ctx schedule current_step ws well_state ws.number_of_wells
      (list_econ_limited, [])

/-! ## Construction of the well container -/

/-- The ways in which a method of the well model fails: the exceptions thrown
with `OPM_THROW`, and the dereference of a null pointer. -/
inductive WellModelError where
  | logic_error (msg : String)
  | numerical_problem (msg : String)
  | runtime_error (msg : String)
  | null_pointer
  deriving DecidableEq

/-- The test `wells_ ? (wells_->number_of_wells > 0) : false` of
`localWellsActive()`, as a function of the member `wells_`. -/
def localWellsActiveOf (wells_ : Option Wells) : Bool :=
  match wells_ with
  | some W => decide (W.number_of_wells > 0)
  | none => false

/-- The search loop of `createWellContainer`: the first well of `wells_ecl_`
whose name is `well_name`; `none` when the loop ends with
`index_well == nw_wells_ecl`. -/
def findWellEcl (wells_ecl_ : List Well) (well_name : String) : Option Well :=
  wells_ecl_.find? fun well => decide (well_name = well.name)

/-- One pass of the loop of `createWellContainer`, for the well of index `w`:
the container before the pass is mapped to the container after it, or an
exception is thrown. `mk` stands for the constructor of the well unit
`StandardWell(well_ecl, current_timeIdx_, wells_arg)`. -/
def createWellContainerWell {U : Type} (mk : Well → Nat → Wells → U) (wells_ecl_ : List Well)
    (current_timeIdx_ : Nat) (wells_arg : Wells) (w : Nat) (well_container_ : List U) :
    Except WellModelError (List U) :=
  let well_name := wells_arg.name w
  -- finding the location of the well in wells_ecl
  match findWellEcl wells_ecl_ well_name with
  | none =>
    -- It should be able to find in wells_ecl.
    Except.error
      (WellModelError.logic_error ("Could not find well " ++ well_name ++ " in wells_ecl "))
  | some well_ecl =>
    if well_ecl.getStatus current_timeIdx_ = WellCommon.StatusEnum.SHUT then
      Except.ok well_container_
    else if well_ecl.isMultiSegment current_timeIdx_ then
      Except.error (WellModelError.numerical_problem "Not handling Multisegment Wells for now")
    else
      Except.ok (well_container_ ++ [mk well_ecl current_timeIdx_ wells_arg])

/-- The loop `for (int w = 0; w < nw; ++w)` of `createWellContainer`, run over
the wells `0, ..., n - 1` from the empty container. -/
def createWellContainerLoop {U : Type} (mk : Well → Nat → Wells → U) (wells_ecl_ : List Well)
    (current_timeIdx_ : Nat) (wells_arg : Wells) : Nat → Except WellModelError (List U)
  | 0 => Except.ok []
  | n + 1 =>
    match createWellContainerLoop mk wells_ecl_ current_timeIdx_ wells_arg n with
    | Except.error e => Except.error e
    | Except.ok well_container_ =>
      createWellContainerWell mk wells_ecl_ current_timeIdx_ wells_arg n well_container_

/-- The method `createWellContainer`, as a function of the members `wells_`,
`number_of_wells_`, `wells_ecl_` and `current_timeIdx_` that it reads: the
container it leaves in `well_container_`, or the failure. -/
def createWellContainer {U : Type} (mk : Well → Nat → Wells → U) (wells_ : Option Wells)
    (number_of_wells_ : Nat) (wells_ecl_ : List Well) (current_timeIdx_ : Nat)
    (wells_arg : Option Wells) : Except WellModelError (List U) :=
  -- well_container_.clear()
  -- There might be no wells in the process
  if localWellsActiveOf wells_ then
    match wells_arg with
    | none => Except.error WellModelError.null_pointer
    | some wa => createWellContainerLoop mk wells_ecl_ current_timeIdx_ wa number_of_wells_
  else Except.ok []

/-- The constructor `StandardWellsDense(wells_arg, ..., wells_ecl, ...,
current_timeIdx)` as far as the container goes: it sets `wells_` to
`wells_arg`, `number_of_wells_` to `wells_arg->number_of_wells` (0 for a null
pointer), and calls `createWellContainer(wells_arg)`. -/
def constructWellContainer {U : Type} (mk : Well → Nat → Wells → U) (wells_arg : Option Wells)
    (wells_ecl : List Well) (current_timeIdx : Nat) : Except WellModelError (List U) :=
  createWellContainer mk wells_arg
    (match wells_arg with
      | some W => W.number_of_wells
      | none => 0)
    wells_ecl current_timeIdx wells_arg

/-! ## The projection of a control target into the well state -/

/-- The type of a control, `well_controls_iget_type`. -/
inductive WellControlType where
  | BHP
  | RESERVOIR_RATE
  | SURFACE_RATE
  | THP
  deriving DecidableEq

/-- The data of a `WellControls` read through the accessors
`well_controls_iget_*`; the first argument is the index of the control and
`iget_distr i p` is `well_controls_iget_distr(wc, i)[p]`. -/
structure WellControls where
  iget_type : Int → WellControlType
  iget_target : Int → ℚ
  iget_distr : Int → Nat → ℚ
  iget_vfp : Int → Int
  iget_alq : Int → ℚ

/-- The queries made on `vfp_properties_`: for the injection tables
`getInj()->getTable(vfp)->getDatumDepth()` and
`getInj()->bhp(vfp, aqua, liquid, vapour, thp)`, for the production tables
`getProd()->getTable(vfp)->getDatumDepth()` and
`getProd()->bhp(vfp, aqua, liquid, vapour, thp, alq)`. -/
structure VFPProperties where
  inj_getDatumDepth : Int → ℚ
  inj_bhp : Int → ℚ → ℚ → ℚ → ℚ → ℚ
  prod_getDatumDepth : Int → ℚ
  prod_bhp : Int → ℚ → ℚ → ℚ → ℚ → ℚ → ℚ

/-- The members of the class `StandardWellsDense` that
`updateWellStateWithTarget` and `wsolvent` read. `vfp_properties_` is `none` for
a null pointer. Three things come from headers that are not under `src/` and
are kept as parameters: `phaseIndex` gives the integer values of the enumerators
`Water`, `Oil` and `Gas` where the source uses them as array indices
(`g[Water]`, `distr[Gas]`); `XvarWell`, `WFrac`, `GFrac` and `SFrac` are the
positions of the primary variables in the well solution; and
`computeHydrostaticCorrection` is the helper
`wellhelpers::computeHydrostaticCorrection(wells, w, vfp_ref_depth, rho,
gravity)`. -/
structure TargetContext where
  wells_ : Option Wells
  phase_usage_ : PhaseUsage
  active_ : Phase → Bool
  gravity_ : ℚ
  well_perforation_densities_ : List ℚ
  vfp_properties_ : Option VFPProperties
  has_solvent_ : Bool
  wells_ecl_ : List Well
  current_timeIdx_ : Nat
  phaseIndex : Phase → Nat
  XvarWell : Nat
  WFrac : Nat
  GFrac : Nat
  SFrac : Nat
  computeHydrostaticCorrection : Wells → Nat → ℚ → ℚ → ℚ → ℚ

/-- The method `wsolvent`, with `W` for `wells()`: the solvent fraction of the
first gas injector of `wells_ecl_` that is not SHUT and bears the name of the
well; `0.0` without solvent, and when no such well is found
(`assert(false)`). -/
def wsolvent (ctx : TargetContext) (W : Wells) (well_index : Nat) : ℚ :=
  if ctx.has_solvent_ = false then 0
  else
    match ctx.wells_ecl_.find? (fun well =>
        decide (well.getStatus ctx.current_timeIdx_ ≠ WellCommon.StatusEnum.SHUT) &&
        decide (well.injectorType ctx.current_timeIdx_ = WellInjector.TypeEnum.GAS) &&
        decide (well.name = W.name well_index)) with
    | some well => well.getSolventFraction ctx.current_timeIdx_
    | none => 0

/-- The counting loop of `updateWellStateWithTarget`: the number of phases
`phase < np` with `distr[phase] > 0.0`. -/
def numPhasesWithTargetsUnderThisControl (np : Nat) (distr : Nat → ℚ) : Nat :=
  (List.range np).foldl (fun n phase => if distr phase > 0 then n + 1 else n) 0

/-- The summing loop of `updateWellStateWithTarget`: the sum of
`wellRates()[np * well_index + phase] * distr[phase]` over the phases
`phase < np` with `distr[phase] > 0.0`, accumulated from `0.0` in the order of
the phases, each product and each sum rounded to a double. -/
def originalRatesUnderPhaseControl (np well_index : Nat) (distr : Nat → ℚ)
    (wellRates : List ℚ) : ℚ :=
  (List.range np).foldl
    (fun acc phase =>
      if distr phase > 0 then
        Double.add acc (Double.mul (wellRates.getD (np * well_index + phase) 0) (distr phase))
      else acc)
    0

/-- The rate branch (`RESERVOIR_RATE`, `SURFACE_RATE`) of the first switch of
`updateWellStateWithTarget`: the vector `wellRates()` after it. The quotients
and the products are rounded to a double; the conversion of the `int` count of
the phases is exact. -/
def targetRates (W : Wells) (well_index : Nat) (target : ℚ) (distr : Nat → ℚ)
    (wellRates : List ℚ) : Except WellModelError (List ℚ) :=
  let np := W.number_of_phases
  -- checking the number of the phases under control
  let numPhases := numPhasesWithTargetsUnderThisControl np distr
  -- assert(numPhasesWithTargetsUnderThisControl > 0)
  match W.type well_index with
  | WellType.INJECTOR =>
    -- assert(numPhasesWithTargetsUnderThisControl == 1)
    Except.ok ((List.range np).foldl
      (fun r phase =>
        if distr phase > 0 then
          r.set (np * well_index + phase) (Double.div target (distr phase))
        else r.set (np * well_index + phase) 0)
      wellRates)
  | WellType.PRODUCER =>
    let original_rates_under_phase_control :=
      originalRatesUnderPhaseControl np well_index distr wellRates
    if original_rates_under_phase_control ≠ 0 then
      let scaling_factor := Double.div target original_rates_under_phase_control
      Except.ok ((List.range np).foldl
        (fun r phase =>
          r.set (np * well_index + phase)
            (Double.mul (r.getD (np * well_index + phase) 0) scaling_factor))
        wellRates)
    else
      -- separating targets equally between phases under control
      let target_rate_divided := Double.div target (numPhases : ℚ)
      Except.ok ((List.range np).foldl
        (fun r phase =>
          if distr phase > 0 then
            r.set (np * well_index + phase) (Double.div target_rate_divided (distr phase))
          else r.set (np * well_index + phase) target_rate_divided)
        wellRates)
  | WellType.OTHER =>
    Except.error (WellModelError.logic_error "Expected PRODUCER or INJECTOR type of well")

/-- The first switch of `updateWellStateWithTarget`, with `W` for `wells()`: the
well state after it. -/
def targetIntoState (ctx : TargetContext) (W : Wells) (wc : WellControls) (current : Int)
    (well_index : Nat) (xw : WellState) : Except WellModelError WellState :=
  let np := W.number_of_phases
  let target := wc.iget_target current
  let distr := wc.iget_distr current
  match wc.iget_type current with
  | WellControlType.BHP => Except.ok { xw with bhp := xw.bhp.set well_index target }
  | WellControlType.THP =>
    let xw1 := { xw with thp := xw.thp.set well_index target }
    let pu := ctx.phase_usage_
    let aqua : ℚ :=
      if ctx.active_ Phase.Water then
        xw1.wellRates.getD (well_index * np + pu.phase_pos Phase.Water) 0
      else 0
    let liquid : ℚ :=
      if ctx.active_ Phase.Oil then
        xw1.wellRates.getD (well_index * np + pu.phase_pos Phase.Oil) 0
      else 0
    let vapour : ℚ :=
      if ctx.active_ Phase.Gas then
        xw1.wellRates.getD (well_index * np + pu.phase_pos Phase.Gas) 0
      else 0
    let vfp := wc.iget_vfp current
    let thp := wc.iget_target current
    let alq := wc.iget_alq current
    -- pick the density in the top layer
    let perf := W.well_connpos well_index
    let rho := ctx.well_perforation_densities_.getD perf 0
    match W.type well_index with
    | WellType.INJECTOR =>
      match ctx.vfp_properties_ with
      | none => Except.error WellModelError.null_pointer
      | some vfp_properties =>
        let dp := ctx.computeHydrostaticCorrection W well_index
          (vfp_properties.inj_getDatumDepth vfp) rho ctx.gravity_
        Except.ok { xw1 with
          bhp := xw1.bhp.set well_index (vfp_properties.inj_bhp vfp aqua liquid vapour thp - dp) }
    | WellType.PRODUCER =>
      match ctx.vfp_properties_ with
      | none => Except.error WellModelError.null_pointer
      | some vfp_properties =>
        let dp := ctx.computeHydrostaticCorrection W well_index
          (vfp_properties.prod_getDatumDepth vfp) rho ctx.gravity_
        Except.ok { xw1 with
          bhp := xw1.bhp.set well_index
            (vfp_properties.prod_bhp vfp aqua liquid vapour thp alq - dp) }
    | WellType.OTHER =>
      Except.error (WellModelError.logic_error "Expected PRODUCER or INJECTOR type of well")
  | WellControlType.RESERVOIR_RATE =>
    match targetRates W well_index target distr xw.wellRates with
    | Except.error e => Except.error e
    | Except.ok r => Except.ok { xw with wellRates := r }
  | WellControlType.SURFACE_RATE =>
    match targetRates W well_index target distr xw.wellRates with
    | Except.error e => Except.error e
    | Except.ok r => Except.ok { xw with wellRates := r }

/-- The vector `g` of `updateWellStateWithTarget`: `{1.0, 1.0, 0.01}`,
overwritten by `distr` for a `RESERVOIR_RATE` control. The literal `0.01` is
the double nearest to `1 / 100`. -/
def targetWeights (np : Nat) (type : WellControlType) (distr : Nat → ℚ) : List ℚ :=
  if type = WellControlType.RESERVOIR_RATE then
    (List.range np).foldl (fun g phase => g.set phase (distr phase))
      [1, 1, Double.round (1 / 100)]
  else [1, 1, Double.round (1 / 100)]

/-- The loop `tot_well_rate += g[p] * wellRates()[np * well_index + p]`, from
`0.0`, each product and each sum rounded to a double. -/
def totWellRate (np well_index : Nat) (g wellRates : List ℚ) : ℚ :=
  (List.range np).foldl
    (fun acc p =>
      Double.add acc (Double.mul (g.getD p 0) (wellRates.getD (np * well_index + p) 0))) 0

/-- The second switch of `updateWellStateWithTarget`: the vector
`wellSolutions()` after it. The products and the sums of the accumulation are
rounded to a double. -/
def targetXvarWell (ctx : TargetContext) (W : Wells) (type : WellControlType) (well_index : Nat) (g : List ℚ)
    (xw : WellState) : List ℚ :=
  let np := W.number_of_phases
  let nw := W.number_of_wells
  let i := nw * ctx.XvarWell + well_index
  match type with
  | WellControlType.RESERVOIR_RATE => xw.wellSolutions.set i (xw.bhp.getD well_index 0)
  | WellControlType.SURFACE_RATE => xw.wellSolutions.set i (xw.bhp.getD well_index 0)
  | _ =>
    -- case THP, case BHP
    let ws0 := xw.wellSolutions.set i 0
    if W.type well_index = WellType.INJECTOR then
      (List.range np).foldl
        (fun ws p =>
          ws.set i (Double.add (ws.getD i 0)
            (Double.mul (xw.wellRates.getD (np * well_index + p) 0)
              (W.comp_frac (np * well_index + p)))))
        ws0
    else
      (List.range np).foldl
        (fun ws p =>
          ws.set i (Double.add (ws.getD i 0)
            (Double.mul (g.getD p 0) (xw.wellRates.getD (np * well_index + p) 0))))
        ws0

/-- The last part of `updateWellStateWithTarget`, which sets the fractions of
the well solution: the vector `wellSolutions()` after it, from the vector `ws`
left by the second switch. The fractions of a well with a total rate other than
zero are computed with rounded operations, `(g * rate) / tot_well_rate` from
the left; the fractions of a well without rate are the constants of the
source. -/
def targetFractions (ctx : TargetContext) (W : Wells) (distr : Nat → ℚ) (well_index : Nat)
    (g : List ℚ) (xw : WellState) (ws : List ℚ) : Except WellModelError (List ℚ) :=
  let np := W.number_of_phases
  let nw := W.number_of_wells
  let Water := ctx.phaseIndex Phase.Water
  let Gas := ctx.phaseIndex Phase.Gas
  let tot_well_rate := totWellRate np well_index g xw.wellRates
  if |tot_well_rate| > 0 then
    let ws1 :=
      if ctx.active_ Phase.Water then
        ws.set (ctx.WFrac * nw + well_index)
          (Double.div (Double.mul (g.getD Water 0) (xw.wellRates.getD (np * well_index + Water) 0))
            tot_well_rate)
      else ws
    let ws2 :=
      if ctx.active_ Phase.Gas then
        ws1.set (ctx.GFrac * nw + well_index)
          (Double.div
            (Double.mul (g.getD Gas 0)
              (Double.sub (xw.wellRates.getD (np * well_index + Gas) 0)
                (xw.solventWellRate well_index)))
            tot_well_rate)
      else ws1
    let ws3 :=
      if ctx.has_solvent_ then
        ws2.set (ctx.SFrac * nw + well_index)
          (Double.div (Double.mul (g.getD Gas 0) (xw.solventWellRate well_index)) tot_well_rate)
      else ws2
    Except.ok ws3
  else
    match W.type well_index with
    | WellType.INJECTOR =>
      -- only single phase injection handled
      let ws1 :=
        if ctx.active_ Phase.Water then
          if distr Water > 0 then ws.set (ctx.WFrac * nw + well_index) 1
          else ws.set (ctx.WFrac * nw + well_index) 0
        else ws
      let ws2 :=
        if ctx.active_ Phase.Gas then
          if distr Gas > 0 then
            let ws2a := ws1.set (ctx.GFrac * nw + well_index)
              (1 - wsolvent ctx W well_index)
            if ctx.has_solvent_ then
              ws2a.set (ctx.SFrac * nw + well_index) (wsolvent ctx W well_index)
            else ws2a
          else ws1.set (ctx.GFrac * nw + well_index) 0
        else ws1
      Except.ok ws2
    | WellType.PRODUCER =>
      let ws1 :=
        if ctx.active_ Phase.Water then
          ws.set (ctx.WFrac * nw + well_index) (1 / (np : ℚ))
        else ws
      let ws2 :=
        if ctx.active_ Phase.Gas then
          ws1.set (ctx.GFrac * nw + well_index) (1 / (np : ℚ))
        else ws1
      Except.ok ws2
    | WellType.OTHER =>
      Except.error (WellModelError.logic_error "Expected PRODUCER or INJECTOR type of well")

/-- The method `updateWellStateWithTarget(wc, current, well_index, xw)`: the
well state at return, or the failure (the writes made to `xw` before a throw
are not kept in the failure). -/
def updateWellStateWithTarget (ctx : TargetContext) (wc : WellControls) (current : Int)
    (well_index : Nat) (xw : WellState) : Except WellModelError WellState :=
  match ctx.wells_ with
  | none => Except.error WellModelError.null_pointer
  | some W =>
    -- number of phases
    let np := W.number_of_phases
    let distr := wc.iget_distr current
    match targetIntoState ctx W wc current well_index xw with
    | Except.error e => Except.error e
    | Except.ok xw1 =>
      let g := targetWeights np (wc.iget_type current) distr
      let ws := targetXvarWell ctx W (wc.iget_type current) well_index g xw1
      match targetFractions ctx W distr well_index g xw1 ws with
      | Except.error e => Except.error e
      | Except.ok ws1 => Except.ok { xw1 with wellSolutions := ws1 }

/-! ## The coordinator and the well-only solve `solveWellEq` -/

/-- The two fields of `SimulatorReport` that the well model sets. -/
structure SimulatorReport where
  converged : Bool
  total_well_iterations : Nat
  deriving DecidableEq

/-- The mutable data the coordinator works on: the well state passed by
reference, the current control index of each `wells().ctrls[w]`
(`well_controls_get_current`), the leaves of the well collection
(`getLeafNodes()`), and everything else that the well units, the simulator and
the well collection keep (`ext`). -/
structure SimState (ι : Type) where
  well_state : WellState
  ctrl_current : Nat → Int
  leaf_nodes : List WellNode
  ext : ι

/-- The interface of a well unit (`StandardWell`) as the coordinator calls it.
The bodies are not part of the coordinator; each call may read and change the
whole of the mutable data. -/
structure StandardWell (ι : Type) where
  assembleWellEq : Bool → SimState ι → SimState ι
  getWellConvergence : List ℚ → SimState ι → Bool
  wellEqIteration : SimState ι → SimState ι
  updateWellControl : SimState ι → SimState ι
  setWellVariables : SimState ι → SimState ι
  computeWellConnectionPressures : SimState ι → SimState ι
  computeAccumWell : SimState ι → SimState ι
  apply_r : SimState ι → List ℚ → List ℚ
  apply : SimState ι → List ℚ → List ℚ → List ℚ
  computeWellPotentials : SimState ι → List ℚ

/-- The queries and the operations of the well collection (`WellCollection`)
that the coordinator calls, apart from `findWellNode` and `getLeafNodes`. The
class is not under `src/`: each operation may change the whole of the mutable
data. -/
structure WellCollection (ι : Type) where
  groupControlActive : SimState ι → Bool
  groupTargetConverged : List ℚ → SimState ι → Bool
  requireWellPotentials : SimState ι → Bool
  setGuideRatesWithPotentials : List ℚ → SimState ι → SimState ι
  havingVREPGroups : SimState ι → Bool
  applyVREPGroupControls : List ℚ → List ℚ → SimState ι → SimState ι
  groupControlApplied : SimState ι → Bool
  applyGroupControls : SimState ι → SimState ι
  updateWellTargets : List ℚ → SimState ι → SimState ι

/-- The members of the coordinator `StandardWellsDense` used by the assembly, the
preparation of a time step, the well-only solve and the linear-operator
actions. `wells_` is `none` for a null pointer and `solve_welleq_initially_` is
the flag of `param_`. `numComponents`, `computeAverageFormationFactor` and
`updateGroupControls` are methods whose effect on the mutable data is kept as
a parameter here: the results on `solveWellEq` and `assemble` hold for every
such effect. `ctrls s w` is the data of `wells().ctrls[w]` other than its
current index, `target_ s` are the members that `updateWellStateWithTarget`
reads (its `wells_` is replaced by the member `wells_` at the call), and
`calcCoeff` is `rate_converter_.calcCoeff(rates, fipreg, coeff)`. -/
structure StandardWellsDense (ι : Type) where
  wells_active_ : Bool
  wells_ : Option Wells
  number_of_wells_ : Nat
  number_of_phases_ : Nat
  well_container_ : List (StandardWell ι)
  well_collection_ : WellCollection ι
  numComponents : Nat
  computeAverageFormationFactor : SimState ι → List ℚ → List ℚ
  updateGroupControls : SimState ι → SimState ι
  solve_welleq_initially_ : Bool
  ctrls : SimState ι → Nat → WellControls
  target_ : SimState ι → TargetContext
  calcCoeff : List ℚ → Int → List ℚ → List ℚ

namespace StandardWellsDense

variable {ι : Type}

/-- The method `wells()`: it dereferences `wells_` (`assert(wells_ != 0)`);
`none` stands for the failed dereference of a null pointer. -/
def wells (m : StandardWellsDense ι) : Option Wells := m.wells_

/-- The method `wellsActive()`. -/
def wellsActive (m : StandardWellsDense ι) : Bool := m.wells_active_

/-- The method `localWellsActive()`. -/
def localWellsActive (m : StandardWellsDense ι) : Bool :=
  match m.wells_ with
  | some W => decide (W.number_of_wells > 0)
  | none => false

/-- The method `assembleWellEq`: the loop `for (w = 0; w < number_of_wells_; ++w)`
over `well_container_[w]`; `none` when an index is outside the container. -/
def assembleWellEq (m : StandardWellsDense ι) (only_wells : Bool) (s : SimState ι) :
    Option (SimState ι) :=
  (List.range m.number_of_wells_).foldlM
    (fun s w => (m.well_container_.get? w).map fun well => well.assembleWellEq only_wells s) s

/-- The method `getWellConvergence`: every well unit is asked, and the result is
false as soon as one of them is not converged. -/
def getWellConvergence (m : StandardWellsDense ι) (B_avg : List ℚ) (s : SimState ι) : Bool :=
  m.well_container_.foldl
    (fun converged_well well =>
      if well.getWellConvergence B_avg s = false then false else converged_well)
    true

/-- The method `updateWellControls`. -/
def updateWellControls (m : StandardWellsDense ι) (s : SimState ι) : SimState ι :=
  if m.wellsActive = false then s
  else m.well_container_.foldl (fun s well => well.updateWellControl s) s

/-- The method `setWellVariables`. -/
def setWellVariables (m : StandardWellsDense ι) (s : SimState ι) : SimState ι :=
  m.well_container_.foldl (fun s well => well.setWellVariables s) s

/-- The convergence test of one pass of the loop of `solveWellEq`, on the state
left by the assembly: the well convergence and, if group control is active, the
convergence of the group targets for the current well rates. -/
def solveWellEqConverged (m : StandardWellsDense ι) (B_avg : List ℚ) (s : SimState ι) : Bool :=
  let converged := m.getWellConvergence B_avg s
  if m.well_collection_.groupControlActive s then
    converged && m.well_collection_.groupTargetConverged s.well_state.wellRates s
  else converged

/-- The rest of one pass of the loop of `solveWellEq` after a failed test: the
Newton step `wellEqIteration` of every well unit if there are local wells, then
the refresh of the controls, the group targets and the well variables if wells
are active. -/
def solveWellEqUpdate (m : StandardWellsDense ι) (s : SimState ι) : SimState ι :=
  let s1 :=
    if m.localWellsActive then m.well_container_.foldl (fun s well => well.wellEqIteration s) s
    else s
  if m.wellsActive then
    m.setWellVariables (m.updateGroupControls (m.updateWellControls s1))
  else s1

/-- The loop `do ... while (it < 15)` of `solveWellEq`, entered with the counter
`it`: the result is `(converged, it, state)` at the exit of the loop. -/
def solveWellEqLoop (m : StandardWellsDense ι) (B_avg : List ℚ) (it : Nat) (s : SimState ι) :
    Option (Bool × Nat × SimState ι) :=
  match m.assembleWellEq true s with
  | none => none
  | some s1 =>
    if m.solveWellEqConverged B_avg s1 then some (true, it, s1)
    else if it + 1 < 15 then m.solveWellEqLoop B_avg (it + 1) (m.solveWellEqUpdate s1)
    else some (false, it + 1, m.solveWellEqUpdate s1)
termination_by 15 - it

/-- The loop that recovers the old well controls:
`well_controls_set_current(wells().ctrls[w], currentControls()[w])` for
`w < nw`. -/
def recoverWellControls (nw : Nat) (currentControls : List Int) (ctrl_current : Nat → Int) :
    Nat → Int :=
  (List.range nw).foldl (fun c w => Function.update c w (currentControls.getD w 0)) ctrl_current

/-- The method `solveWellEq`: the report and the mutable data at return. -/
def solveWellEq (m : StandardWellsDense ι) (s : SimState ι) :
    Option (SimulatorReport × SimState ι) :=
  match m.wells with
  | none => none
  | some W =>
    let nw := W.number_of_wells
    let well_state0 := s.well_state
    let B_avg := m.computeAverageFormationFactor s (List.replicate m.numComponents 0)
    match m.solveWellEqLoop B_avg 0 s with
    | none => none
    | some (converged, it, s1) =>
      let s2 : SimState ι :=
        if converged = false then
          { s1 with
            well_state := well_state0
            ctrl_current := recoverWellControls nw well_state0.currentControls s1.ctrl_current }
        else s1
      some (⟨converged, it⟩, s2)

/-- The mutable data at the head of pass `k` of the loop of `solveWellEq` when
none of the earlier passes left the loop: `k` times an assembly followed by the
update. -/
def solveWellEqPasses (m : StandardWellsDense ι) : Nat → SimState ι → Option (SimState ι)
  | 0, s => some s
  | k + 1, s =>
    match m.solveWellEqPasses k s with
    | none => none
    | some sk => (m.assembleWellEq true sk).map m.solveWellEqUpdate

/-- The outcome of the convergence test of pass `k` of the loop of
`solveWellEq` (passes are counted from 0), when none of the earlier passes left
the loop. -/
def solveWellEqTestAt (m : StandardWellsDense ι) (B_avg : List ℚ) (s : SimState ι) (k : Nat) :
    Option Bool :=
  match m.solveWellEqPasses k s with
  | none => none
  | some sk => (m.assembleWellEq true sk).map (m.solveWellEqConverged B_avg)

end StandardWellsDense

/-- The schedule wells `a` and `b` differ at step `step` at most in the options
that the evaluator does not support: the quantity-limit kind, the end-run flag,
the follow-on well and the minimum reservoir-fluid-rate limit. -/
def differOnlyInUnsupported (step : Nat) (a b : Well) : Prop :=
  b.getAutomaticShutIn = a.getAutomaticShutIn ∧
  ∃ (q : WellEcon.QuantityLimitEnum) (e f o : Bool) (v : ℚ),
    b.getEconProductionLimits step =
      { a.getEconProductionLimits step with
        quantityLimit := q, endRun := e, validFollowonWell := f,
        onMinReservoirFluidRate := o, minReservoirFluidRate := v }

/-! ## The linear-operator actions `apply` and `applyScaleAdd` -/

/-- The reservoir-space vector `BVector`, flattened to the list of its
entries. -/
abbrev BVector := List ℚ

namespace BVector

/-- The sum of two vectors, entry by entry, each sum rounded to a double. -/
def add (a b : BVector) : BVector := List.zipWith (fun u v => Double.add u v) a b

/-- The update `Ax.axpy(alpha, y)`: `Ax[i] += alpha * y[i]` entry by entry, the
product and the sum rounded to a double. -/
def axpy (Ax : BVector) (alpha : ℚ) (y : BVector) : BVector :=
  List.zipWith (fun u v => Double.add u (Double.mul alpha v)) Ax y

/-- Specification: the exact sum of two vectors, entry by entry, with no
rounding. -/
def exactAdd (a b : BVector) : BVector := List.zipWith (fun u v => u + v) a b

/-- The call `v.resize(n)`. -/
def resize (v : BVector) (n : Nat) : BVector := v.take n ++ List.replicate (n - v.length) 0

end BVector

namespace StandardWellsDense

variable {ι : Type}

/-- The method `apply(r)`. -/
def apply_r (m : StandardWellsDense ι) (s : SimState ι) (r : BVector) : BVector :=
  if m.localWellsActive = false then r
  else m.well_container_.foldl (fun r well => well.apply_r s r) r

/-- The method `apply(x, Ax)`: the vector `Ax` at return. -/
def apply (m : StandardWellsDense ι) (s : SimState ι) (x Ax : BVector) : BVector :=
  if m.localWellsActive = false then Ax
  else m.well_container_.foldl (fun Ax well => well.apply s x Ax) Ax

/-- The method `applyScaleAdd(alpha, x, Ax)`: the vector `Ax` and the mutable
member `scaleAddRes_` at return. -/
def applyScaleAdd (m : StandardWellsDense ι) (s : SimState ι) (alpha : ℚ) (x Ax : BVector)
    (scaleAddRes_ : BVector) : BVector × BVector :=
  if m.localWellsActive = false then (Ax, scaleAddRes_)
  else
    let scaleAddRes_1 :=
      if scaleAddRes_.length ≠ Ax.length then BVector.resize scaleAddRes_ Ax.length
      else scaleAddRes_
    -- scaleAddRes_ = 0.0
    let scaleAddRes_2 : BVector := List.replicate scaleAddRes_1.length 0
    -- scaleAddRes_ = - C D^-1 B x
    let scaleAddRes_3 := m.apply s x scaleAddRes_2
    -- Ax = Ax + alpha * scaleAddRes_
    (BVector.axpy Ax alpha scaleAddRes_3, scaleAddRes_3)

/-- The method `computeWellConnectionPressures`. -/
def computeWellConnectionPressures (m : StandardWellsDense ι) (s : SimState ι) : SimState ι :=
  if m.localWellsActive = false then s
  else m.well_container_.foldl (fun s well => well.computeWellConnectionPressures s) s

/-- The method `computeAccumWells`. -/
def computeAccumWells (m : StandardWellsDense ι) (s : SimState ι) : SimState ι :=
  m.well_container_.foldl (fun s well => well.computeAccumWell s) s

end StandardWellsDense

/-! ## The preparation of a time step and the assembly -/

namespace StandardWellsDense

variable {ι : Type}

/-- The method `resetWellControlFromState(xw)`: the current control of every
well `w < wells_->number_of_wells` is set to `xw.currentControls()[w]`; `none`
for a null `wells_`. -/
def resetWellControlFromState (m : StandardWellsDense ι) (xw : WellState)
    (ctrl_current : Nat → Int) : Option (Nat → Int) :=
  match m.wells_ with
  | none => none
  | some W => some (recoverWellControls W.number_of_wells xw.currentControls ctrl_current)

/-- One pass of the first loop of `prepareTimeStep`, for the well `w`: the
controls are reset from the well state and, if group control is active, a well
without a valid control is put on the control of its group and the node of the
well is flagged as under group control or under individual control. `none`
when the collection has no node for the well. -/
def prepareTimeStepWell (m : StandardWellsDense ι) (W : Wells) (w : Nat) (s : SimState ι) :
    Option (SimState ι) :=
  -- we need to synchronize these two.
  match m.resetWellControlFromState s.well_state s.ctrl_current with
  | none => none
  | some c =>
    let s1 : SimState ι := { s with ctrl_current := c }
    if m.well_collection_.groupControlActive s1 then
      match findWellNode s1.leaf_nodes (W.name w) with
      | none => none
      | some well_node =>
        let ctrl_index := s1.ctrl_current w
        let group_control_index := well_node.groupControlIndex
        let s2 : SimState ι :=
          if group_control_index ≥ 0 ∧ ctrl_index < 0 then
            -- put well under group control
            { s1 with
              ctrl_current := Function.update s1.ctrl_current w group_control_index
              well_state :=
                { s1.well_state with
                  currentControls := s1.well_state.currentControls.set w group_control_index } }
          else s1
        -- updated ctrl_index from the well control
        let ctrl_index1 := s2.ctrl_current w
        if well_node.groupControlIndex ≥ 0 ∧ ctrl_index1 = well_node.groupControlIndex then
          -- under group control
          some { s2 with leaf_nodes := setIndividualControlOf s2.leaf_nodes (W.name w) false }
        else
          -- individual control
          some { s2 with leaf_nodes := setIndividualControlOf s2.leaf_nodes (W.name w) true }
    else some s1

/-- The first loop of `prepareTimeStep`, run over the wells `0, ..., nw - 1`. -/
def prepareTimeStepControls (m : StandardWellsDense ι) (W : Wells) (nw : Nat) (s : SimState ι) :
    Option (SimState ι) :=
  (List.range nw).foldlM (fun s w => m.prepareTimeStepWell W w s) s

/-- One pass of the loop of `computeWellVoidageRates`, for the well `w`; the
state is `(convert_coeff, well_voidage_rates, voidage_conversion_coeffs)`. -/
def computeWellVoidageRatesWell (m : StandardWellsDense ι) (W : Wells) (well_state : WellState)
    (w : Nat) (st : List ℚ × List ℚ × List ℚ) : List ℚ × List ℚ × List ℚ :=
  let np := well_state.numPhases
  let is_producer := decide (W.type w = WellType.PRODUCER)
  if is_producer then
    let well_rates := (List.range np).map fun p => - well_state.wellRates.getD (np * w + p) 0
    -- the average hydrocarbon conditions of the whole field will be used
    let convert_coeff := m.calcCoeff well_rates 0 st.1
    let inner_product := (List.range np).foldl
      (fun acc p => acc + well_rates.getD p 0 * convert_coeff.getD p 0) 0
    (convert_coeff, st.2.1.set w inner_product, st.2.2)
  else
    let well_rates := (List.range np).map fun p => well_state.wellRates.getD (np * w + p) 0
    let convert_coeff := m.calcCoeff well_rates 0 st.1
    (convert_coeff, st.2.1,
      (List.range convert_coeff.length).foldl
        (fun coeffs p => coeffs.set (np * w + p) (convert_coeff.getD p 0)) st.2.2)

/-- The method `computeWellVoidageRates`: the vectors `well_voidage_rates` and
`voidage_conversion_coeffs` at return. -/
def computeWellVoidageRates (m : StandardWellsDense ι) (well_state : WellState)
    (well_voidage_rates voidage_conversion_coeffs : List ℚ) : Option (List ℚ × List ℚ) :=
  if m.localWellsActive = false then some (well_voidage_rates, voidage_conversion_coeffs)
  else
    match m.wells with
    | none => none
    | some W =>
      let nw := well_state.numWells
      let np := well_state.numPhases
      -- we calculate the voidage rate for each well, that means the sum of all the phases.
      let rates0 := well_voidage_rates.take nw
        ++ List.replicate (nw - well_voidage_rates.length) 0
      -- store the conversion coefficients, while only for the use of injection wells.
      let coeffs0 := voidage_conversion_coeffs.take (nw * np)
        ++ List.replicate (nw * np - voidage_conversion_coeffs.length) 1
      let convert_coeff0 : List ℚ := List.replicate np 1
      let st := (List.range nw).foldl
        (fun st w => m.computeWellVoidageRatesWell W well_state w st)
        (convert_coeff0, rates0, coeffs0)
      some (st.2.1, st.2.2)

/-- One pass of the loop of `applyVREPGroupControl` over the leaves of the
collection, for the leaf `well_node`. -/
def applyVREPGroupControlNode (m : StandardWellsDense ι) (s : SimState ι)
    (well_node : WellNode) : Option (SimState ι) :=
  if well_node.isInjector = true ∧ well_node.individualControl = false then
    let well_index := well_node.selfIndex
    match m.wells with
    | none => none
    | some _ =>
      some { s with
        well_state :=
          { s.well_state with
            currentControls :=
              s.well_state.currentControls.set well_index well_node.groupControlIndex }
        ctrl_current := Function.update s.ctrl_current well_index well_node.groupControlIndex }
  else some s

/-- The method `applyVREPGroupControl`. -/
def applyVREPGroupControl (m : StandardWellsDense ι) (s : SimState ι) : Option (SimState ι) :=
  if m.well_collection_.havingVREPGroups s then
    match m.computeWellVoidageRates s.well_state [] [] with
    | none => none
    | some (well_voidage_rates, voidage_conversion_coeffs) =>
      let s1 := m.well_collection_.applyVREPGroupControls well_voidage_rates
        voidage_conversion_coeffs s
      -- for the wells under group control, update the control index for the well_state and
      -- well_controls
      s1.leaf_nodes.foldlM (fun s well_node => m.applyVREPGroupControlNode s well_node) s1
  else some s

/-- The method `computeWellPotentials`: the vector `well_potentials` at return;
`none` when an index is outside the container. -/
def computeWellPotentials (m : StandardWellsDense ι) (s : SimState ι)
    (well_potentials : List ℚ) : Option (List ℚ) :=
  -- number of wells and phases
  let nw := m.number_of_wells_
  let np := m.number_of_phases_
  let well_potentials0 := well_potentials.take (nw * np)
    ++ List.replicate (nw * np - well_potentials.length) 0
  (List.range nw).foldlM
    (fun wp w =>
      (m.well_container_.get? w).map fun well =>
        let potentials := well.computeWellPotentials s
        -- putting the sucessfully calculated potentials to the well_potentials
        (List.range np).foldl (fun wp p => wp.set (w * np + p) |potentials.getD p 0|) wp)
    well_potentials0

/-- The part of `prepareTimeStep` between its two loops, which is run when
group control is active. -/
def prepareTimeStepGroup (m : StandardWellsDense ι) (s : SimState ι) : Option (SimState ι) :=
  if m.well_collection_.groupControlActive s then
    let r1 : Option (SimState ι) :=
      if m.well_collection_.requireWellPotentials s then
        -- calculate the well potentials
        let sa := m.setWellVariables s
        let sb := m.computeWellConnectionPressures sa
        match m.computeWellPotentials sb [] with
        | none => none
        | some well_potentials =>
          -- update/setup guide rates for each well based on the well_potentials
          some (m.well_collection_.setGuideRatesWithPotentials well_potentials sb)
      else some s
    match r1 with
    | none => none
    | some s1 =>
      match m.applyVREPGroupControl s1 with
      | none => none
      | some s2 =>
        if m.well_collection_.groupControlApplied s2 = false then
          some (m.well_collection_.applyGroupControls s2)
        else some (m.well_collection_.updateWellTargets s2.well_state.wellRates s2)
  else some s

/-- One pass of the last loop of `prepareTimeStep`, for the well `w`: the well
state takes the current control of the well and the target of that control;
`none` when `updateWellStateWithTarget` throws. -/
def prepareTimeStepTarget (m : StandardWellsDense ι) (w : Nat) (s : SimState ι) :
    Option (SimState ι) :=
  let wc := m.ctrls s w
  let control := s.ctrl_current w
  let well_state1 : WellState :=
    { s.well_state with currentControls := s.well_state.currentControls.set w control }
  match updateWellStateWithTarget { m.target_ s with wells_ := m.wells_ } wc control w
      well_state1 with
  | Except.error _ => none
  | Except.ok well_state2 =>
    -- The wells are not considered to be newly added
    -- for next time step
    let well_state3 : WellState :=
      if well_state2.isNewWell w then
        { well_state2 with isNewWell := Function.update well_state2.isNewWell w false }
      else well_state2
    some { s with well_state := well_state3 }

/-- The method `prepareTimeStep`: the mutable data at return; `none` for the
dereference of a null `wells_` and for the other failures of its parts. -/
def prepareTimeStep (m : StandardWellsDense ι) (s : SimState ι) : Option (SimState ι) :=
  match m.wells with
  | none => none
  | some W =>
    let nw := W.number_of_wells
    match m.prepareTimeStepControls W nw s with
    | none => none
    | some s1 =>
      match m.prepareTimeStepGroup s1 with
      | none => none
      | some s2 =>
        -- since the controls are all updated, we should update well_state accordingly
        (List.range nw).foldlM (fun s w => m.prepareTimeStepTarget w s) s2

/-- The method `assemble`: the report and the mutable data at return.
`report0` is the default-constructed `SimulatorReport`, whose constructor is not
under `src/`. -/
def assemble (m : StandardWellsDense ι) (report0 : SimulatorReport) (iterationIdx : Nat)
    (s : SimState ι) : Option (SimulatorReport × SimState ι) :=
  match (if iterationIdx = 0 then m.prepareTimeStep s else some s) with
  | none => none
  | some s1 =>
    if m.wellsActive = false then some (report0, s1)
    else
      let s2 := m.updateWellControls s1
      let s3 := m.updateGroupControls s2
      -- Set the primary variables for the wells
      let s4 := m.setWellVariables s3
      let s5 :=
        if iterationIdx = 0 then m.computeAccumWells (m.computeWellConnectionPressures s4)
        else s4
      match (if m.solve_welleq_initially_ = true ∧ iterationIdx = 0 then
          -- solve the well equations as a pre-processing step
          m.solveWellEq s5
        else some (report0, s5)) with
      | none => none
      | some (report, s6) =>
        match m.assembleWellEq false s6 with
        | none => none
        | some s7 => some ({ report with converged := true }, s7)

end StandardWellsDense

/-! ## The derivation of the perforation geometry -/

/-- The queries made on the grid through `UgGridHelpers`: the number of cells,
the array `globalCell(grid)` (`none` for a null pointer), the array
`cartDims(grid)`, and the cube dimensions
`WellsManagerDetail::getCubeDim<3>(cell_to_faces, begin_face_centroids, cell)`
of a cell, a helper that is not under `src/`. -/
structure Grid where
  numCells : Nat
  globalCell : Option (Nat → Int)
  cartDims : Nat → Int
  getCubeDim : Int → ℚ × ℚ × ℚ

/-- The map `std::map<int,int>`, as the list of its bindings. -/
abbrev CartesianToCompressed := List (Int × Int)

namespace CartesianToCompressed

/-- The call `map.find(key)`: the value bound to the key, `none` for
`map.end()`. -/
def find (map : CartesianToCompressed) (key : Int) : Option Int :=
  (List.find? (fun kv => decide (kv.1 = key)) map).map fun kv => kv.2

/-- The call `map.insert(std::make_pair(key, value))`, which leaves the map
unchanged when the key is already bound. -/
def insert (map : CartesianToCompressed) (key value : Int) : CartesianToCompressed :=
  match find map key with
  | some _ => map
  | none => map ++ [(key, value)]

end CartesianToCompressed

/-- The method `setupCompressedToCartesian`: the map `cartesian_to_compressed`
at return. -/
def setupCompressedToCartesian (global_cell : Option (Nat → Int)) (number_of_cells : Nat)
    (cartesian_to_compressed : CartesianToCompressed) : CartesianToCompressed :=
  match global_cell with
  | some global_cell =>
    (List.range number_of_cells).foldl
      (fun map (i : Nat) => CartesianToCompressed.insert map (global_cell i) (i : Int))
      cartesian_to_compressed
  | none =>
    (List.range number_of_cells).foldl
      (fun map (i : Nat) => CartesianToCompressed.insert map (i : Int) (i : Int))
      cartesian_to_compressed

/-- The members of the class `StandardWellsDense` that
`computeRepRadiusPerfLength` reads, with what it takes from headers that are
not under `src/` and from the C library: the square root `std::sqrt`, the
constants `M_PI` and `unit::feet`, and the text
`WellCompletion::StateEnum2String` of a completion state. -/
structure GeometryContext where
  wells_ : Option Wells
  wells_ecl_ : List Well
  current_timeIdx_ : Nat
  sqrt : ℚ → ℚ
  M_PI : ℚ
  feet : ℚ
  StateEnum2String : WellCompletion.StateEnum → String

/-- The three vectors that `computeRepRadiusPerfLength` fills. -/
structure PerfGeometry where
  wells_rep_radius_ : List ℚ
  wells_perf_length_ : List ℚ
  wells_bore_diameter_ : List ℚ

/-- The body of the loop of `computeRepRadiusPerfLength` over the completions
of a well, for one completion: the three vectors after it, or the exception
thrown. The cartesian index is an `int` computed in 32-bit arithmetic. -/
def computeRepRadiusPerfLengthCompletion (ctx : GeometryContext) (grid : Grid)
    (cartesian_to_compressed : CartesianToCompressed) (well : Well) (g : PerfGeometry)
    (completion : Completion) : Except WellModelError PerfGeometry :=
  if completion.getState = WellCompletion.StateEnum.OPEN then
    let i := completion.getI
    let j := completion.getJ
    let k := completion.getK
    let cpgdim := grid.cartDims
    -- int cart_grid_indx = i + cpgdim[0]*(j + cpgdim[1]*k)
    let cart_grid_indx := wrapInt32 (i + cpgdim 0 * (j + cpgdim 1 * k))
    match CartesianToCompressed.find cartesian_to_compressed cart_grid_indx with
    | none =>
      Except.error (WellModelError.runtime_error
        ("Cell with i,j,k indices " ++ toString i ++ " " ++ toString j ++ " " ++ toString k
          ++ " not found in grid (well = " ++ well.name ++ ")"))
    | some cell =>
      let radius0 := 1 / 2 * completion.getDiameter
      -- OPM_MESSAGE("**** Warning: Well bore internal radius set to " << radius)
      let radius := if radius0 ≤ 0 then 1 / 2 * ctx.feet else radius0
      let cubical := grid.getCubeDim cell
      let direction := completion.getDirection
      let dims : Option (ℚ × ℚ) :=
        match direction with
        | WellCompletion.DirectionEnum.X =>
          some (ctx.sqrt (cubical.2.1 * cubical.2.2 / ctx.M_PI), cubical.1)
        | WellCompletion.DirectionEnum.Y =>
          some (ctx.sqrt (cubical.1 * cubical.2.2 / ctx.M_PI), cubical.2.1)
        | WellCompletion.DirectionEnum.Z =>
          some (ctx.sqrt (cubical.1 * cubical.2.1 / ctx.M_PI), cubical.2.2)
        | WellCompletion.DirectionEnum.OTHER => none
      match dims with
      | none =>
        Except.error (WellModelError.runtime_error " Dirtecion of well is not supported ")
      | some (re, perf_length) =>
        let repR := ctx.sqrt (re * radius)
        Except.ok
          { wells_rep_radius_ := g.wells_rep_radius_ ++ [repR]
            wells_perf_length_ := g.wells_perf_length_ ++ [perf_length]
            wells_bore_diameter_ := g.wells_bore_diameter_ ++ [2 * radius] }
  else if completion.getState ≠ WellCompletion.StateEnum.SHUT then
    Except.error (WellModelError.runtime_error
      ("Completion state: " ++ ctx.StateEnum2String completion.getState ++ " not handled"))
  else Except.ok g

/-- The loop over a list of completions, from the first one on. -/
def computeRepRadiusPerfLengthCompletions (ctx : GeometryContext) (grid : Grid)
    (cartesian_to_compressed : CartesianToCompressed) (well : Well) :
    PerfGeometry → List Completion → Except WellModelError PerfGeometry
  | g, [] => Except.ok g
  | g, completion :: rest =>
    match computeRepRadiusPerfLengthCompletion ctx grid cartesian_to_compressed well g
        completion with
    | Except.error e => Except.error e
    | Except.ok g1 =>
      computeRepRadiusPerfLengthCompletions ctx grid cartesian_to_compressed well g1 rest

/-- The body of the loop of `computeRepRadiusPerfLength` over `wells_ecl_`, for
one well: a SHUT well is skipped. -/
def computeRepRadiusPerfLengthWell (ctx : GeometryContext) (grid : Grid)
    (cartesian_to_compressed : CartesianToCompressed) (g : PerfGeometry) (well : Well) :
    Except WellModelError PerfGeometry :=
  let timeStep := ctx.current_timeIdx_
  if well.getStatus timeStep = WellCommon.StatusEnum.SHUT then Except.ok g
  else
    -- COMPDAT handling
    computeRepRadiusPerfLengthCompletions ctx grid cartesian_to_compressed well g
      (well.getCompletions timeStep)

/-- The loop over a list of schedule wells, from the first one on. -/
def computeRepRadiusPerfLengthWells (ctx : GeometryContext) (grid : Grid)
    (cartesian_to_compressed : CartesianToCompressed) :
    PerfGeometry → List Well → Except WellModelError PerfGeometry
  | g, [] => Except.ok g
  | g, well :: rest =>
    match computeRepRadiusPerfLengthWell ctx grid cartesian_to_compressed g well with
    | Except.error e => Except.error e
    | Except.ok g1 => computeRepRadiusPerfLengthWells ctx grid cartesian_to_compressed g1 rest

/-- The method `computeRepRadiusPerfLength(grid)`: the three vectors at return,
from their values `g` at the call, or the failure. -/
def computeRepRadiusPerfLength (ctx : GeometryContext) (grid : Grid) (g : PerfGeometry) :
    Except WellModelError PerfGeometry :=
  let number_of_cells := grid.numCells
  let global_cell := grid.globalCell
  if ctx.wells_ecl_.length = 0 then
    -- OPM_MESSAGE("No wells specified in Schedule section, initializing no wells")
    Except.ok g
  else
    match ctx.wells_ with
    | none => Except.error WellModelError.null_pointer
    | some _ =>
      let g0 : PerfGeometry :=
        { wells_rep_radius_ := [], wells_perf_length_ := [], wells_bore_diameter_ := [] }
      let cartesian_to_compressed := setupCompressedToCartesian global_cell number_of_cells []
      computeRepRadiusPerfLengthWells ctx grid cartesian_to_compressed g0 ctx.wells_ecl_

/-! ## The average formation volume factors -/

/-- The quantities that `computeAverageFormationFactor` reads from the element
context of one interior element: `fs.invB(ebosPhaseIdx).value()` and
`intQuants.solventInverseFormationVolumeFactor().value()`. -/
structure IntensiveQuantities where
  invB : Nat → ℚ
  solventInverseFormationVolumeFactor : ℚ

/-- The members of the class `StandardWellsDense` that
`computeAverageFormationFactor` reads, with the constants of headers that are
not under `src/`: the index `solventSaturationIdx` and the phase indices
`FluidSystem::waterPhaseIdx`, `oilPhaseIdx` and `gasPhaseIdx`. -/
structure FormationFactorContext where
  wells_ : Option Wells
  has_solvent_ : Bool
  global_nc_ : Int
  solventSaturationIdx : Nat
  waterPhaseIdx : Nat
  oilPhaseIdx : Nat
  gasPhaseIdx : Nat

namespace FormationFactorContext

/-- The method `init`, as far as the members read by
`computeAverageFormationFactor` go: its first statement stores the argument
`global_nc` in `global_nc_`, with or without local wells, and the rest of the
method sets none of these members. -/
def init (ctx : FormationFactorContext) (global_nc : Int) : FormationFactorContext :=
  -- has to be set always for the convergence check!
  { ctx with global_nc_ := global_nc }

/-- The method `flowPhaseToEbosPhaseIdx`. -/
def flowPhaseToEbosPhaseIdx (ctx : FormationFactorContext) (phaseIdx : Nat) : Nat :=
  -- assert(phaseIdx < 3)
  let flowToEbos := [ctx.waterPhaseIdx, ctx.oilPhaseIdx, ctx.gasPhaseIdx]
  flowToEbos.getD phaseIdx 0

end FormationFactorContext

/-- The body of the loop of `computeAverageFormationFactor` over the interior
elements, for one element: the vector `B_avg` after it. The quotient
`1 / invB` and the sum `B += ...` are rounded to a double. -/
def computeAverageFormationFactorElem (ctx : FormationFactorContext) (np : Nat)
    (B_avg : List ℚ) (intQuants : IntensiveQuantities) : List ℚ :=
  let B_avg1 := (List.range np).foldl
    (fun B phaseIdx =>
      let ebosPhaseIdx := ctx.flowPhaseToEbosPhaseIdx phaseIdx
      B.set phaseIdx (Double.add (B.getD phaseIdx 0) (Double.div 1 (intQuants.invB ebosPhaseIdx))))
    B_avg
  if ctx.has_solvent_ then
    B_avg1.set ctx.solventSaturationIdx
      (Double.add (B_avg1.getD ctx.solventSaturationIdx 0)
        (Double.div 1 intQuants.solventInverseFormationVolumeFactor))
  else B_avg1

/-- The loop of `computeAverageFormationFactor` over the interior elements of
the process, listed in the order of the traversal. -/
def computeAverageFormationFactorLocal (ctx : FormationFactorContext) (np : Nat)
    (elements : List IntensiveQuantities) (B_avg : List ℚ) : List ℚ :=
  elements.foldl (computeAverageFormationFactorElem ctx np) B_avg

/-- Modelled from the spec: the collective `grid.comm().sum(data, size)` of the
grid library replaces every entry by the sum of the entries of all the
processes at that position; `others` lists the vectors that the other processes
bring to the collective. The sum is made in double precision; the order of the
reduction is the choice of the library, and here the entries of the other
processes are added one after the other, in the order of the list, to the entry
of the process. -/
def commSum (B_avg : List ℚ) (others : List (List ℚ)) : List ℚ :=
  (List.range B_avg.length).map fun i =>
    (others.map fun v => v.getD i 0).foldl Double.add (B_avg.getD i 0)

/-- The method `computeAverageFormationFactor`: the vector `B_avg` at return;
`none` for the dereference of a null `wells_` in `numPhases()`. `elements` are
the interior elements of the process and `others` the vectors that the other
processes bring to the global sum. -/
def computeAverageFormationFactor (ctx : FormationFactorContext)
    (elements : List IntensiveQuantities) (others : List (List ℚ)) (B_avg : List ℚ) :
    Option (List ℚ) :=
  match ctx.wells_ with
  | none => none
  | some W =>
    let np := W.number_of_phases
    let B_avg1 := computeAverageFormationFactorLocal ctx np elements B_avg
    -- compute global average
    let B_avg2 := commSum B_avg1 others
    -- bval /= global_nc_, with the conversion of the long int to a double
    some (B_avg2.map fun bval => Double.div bval (Double.round (ctx.global_nc_ : ℚ)))

/-! ## The perforation geometry in the words of the specification -/

/-- Specification: the completions that `computeRepRadiusPerfLength` processes
are the OPEN completions of the schedule wells that are not SHUT at the current
step, in the order of the wells and, within a well, of its completions. -/
def openCompletionsProcessed (ctx : GeometryContext) : List Completion :=
  (ctx.wells_ecl_.filter fun well =>
      decide (well.getStatus ctx.current_timeIdx_ ≠ WellCommon.StatusEnum.SHUT)).flatMap
    fun well =>
      (well.getCompletions ctx.current_timeIdx_).filter fun completion =>
        decide (completion.getState = WellCompletion.StateEnum.OPEN)

/-- Specification: the bore diameter of a completion is the diameter of the
completion when that is positive, and one foot otherwise. -/
def specBoreDiameter (ctx : GeometryContext) (completion : Completion) : ℚ :=
  if 0 < completion.getDiameter then completion.getDiameter else ctx.feet

/-- Specification: the perforation length is the extent of the cell along the
direction of the completion, `cubical[0]` for X, `cubical[1]` for Y and
`cubical[2]` for Z. No length is specified for another direction, for which
the method throws; the value 0 stands there. -/
def specPerfLength (cubical : ℚ × ℚ × ℚ) (direction : WellCompletion.DirectionEnum) : ℚ :=
  match direction with
  | WellCompletion.DirectionEnum.X => cubical.1
  | WellCompletion.DirectionEnum.Y => cubical.2.1
  | WellCompletion.DirectionEnum.Z => cubical.2.2
  | WellCompletion.DirectionEnum.OTHER => 0

/-! ## The efficiency factors of the perforations -/

/-- The members of the class `StandardWellsDense` that
`calculateEfficiencyFactors` reads: `wells_`, and the leaves of the well
collection with the accessor `WellNode::getAccumulativeEfficiencyFactor`, which
is not under `src/` and is kept as a parameter. -/
structure EfficiencyContext where
  wells_ : Option Wells
  leaf_nodes : List WellNode
  getAccumulativeEfficiencyFactor : WellNode → ℚ

/-- The member `well_perforation_efficiency_factors_` as the constructor
initialises it: `wells_->well_connpos[wells_->number_of_wells]` entries `1.0`,
and no entry for a null `wells_`. -/
def wellPerfEfficiencyFactorsInit (wells_ : Option Wells) : List ℚ :=
  List.replicate
    (match wells_ with
      | some W => W.well_connpos W.number_of_wells
      | none => 0)
    1

namespace EfficiencyContext

/-- One pass of the loop of `calculateEfficiencyFactors`, for the well `w`:
the vector `well_perforation_efficiency_factors_` after it; `none` when the
collection has no node for the well. -/
def calculateEfficiencyFactorsWell (ctx : EfficiencyContext) (W : Wells) (w : Nat)
    (factors : List ℚ) : Option (List ℚ) :=
  let well_name := W.name w
  match findWellNode ctx.leaf_nodes well_name with
  | none => none
  | some well_node =>
    let well_efficiency_factor := ctx.getAccumulativeEfficiencyFactor well_node
    -- assign the efficiency factor to each perforation related.
    some ((List.range' (W.well_connpos w) (W.well_connpos (w + 1) - W.well_connpos w)).foldl
      (fun factors perf => factors.set perf well_efficiency_factor) factors)

/-- The method `calculateEfficiencyFactors`: the vector
`well_perforation_efficiency_factors_` at return. -/
def calculateEfficiencyFactors (ctx : EfficiencyContext) (factors : List ℚ) :
    Option (List ℚ) :=
  if localWellsActiveOf ctx.wells_ = false then some factors
  else
    match ctx.wells_ with
    | none => none
    | some W =>
      let nw := W.number_of_wells
      (List.range nw).foldlM (fun factors w => ctx.calculateEfficiencyFactorsWell W w factors)
        factors

/-- The method `init`, as far as the vector
`well_perforation_efficiency_factors_` goes: it returns at once without local
wells and calls `calculateEfficiencyFactors` otherwise; the rest of the method
does not write the vector. -/
def init (ctx : EfficiencyContext) (factors : List ℚ) : Option (List ℚ) :=
  if localWellsActiveOf ctx.wells_ = false then some factors
  else ctx.calculateEfficiencyFactors factors

end EfficiencyContext

/-! ## The check of the deck keywords (`MissingFeatures.cpp`) -/

/-- The deck keyword (`DeckKeyword`) as far as `checkKeywords` reads it. -/
structure DeckKeyword where
  name : String
  getFileName : String
  getLineNumber : Nat

/-- The vector `unsupported_keywords` of `checkKeywords`, entry by entry as the
initialiser list of the source gives it. The source has no comma between the
literals `"AQUNUM"` and `"BLOCK_PROBE"`, which stand on two consecutive lines:
adjacent string literals are concatenated by the compiler, and the two make the
single entry `"AQUNUM" "BLOCK_PROBE"`. -/
def unsupported_keywords : List String :=
  ["ACTDIMS", "ADSALNOD", "API", "AQUCON", "AQUDIMS", "AQUNUM" ++
    "BLOCK_PROBE", "COMPLUMP", "COMPSEGS", "CONNECTION", "CPR",
    "DATE", "ECHO", "EDITNNC", "ENDINC", "ENDNUM", "ENDPOINT_SPECIFIERS",
    "ENDSKIP", "ENKSRVD", "ENPTVD", "EQLNUM", "EQUALREG",
    "EXCEL", "EXTRAPMS", "FILED_PROBE", "FILLEPS", "FIPNUM", "FMTIN",
    "FMTOUT", "FULLIMP", "GDORIENT", "GECON", "GEFAC", "GRIDUNIT",
    "GROUP_PROBE", "GRUPNET", "IMKRVD", "IMPES", "IMPTVD", "MAPUNITS",
    "MAXVALUE", "MEMORY", "MESSAGES", "MINVALUE", "MONITOR", "MSGFILE",
    "MULT_XYZ", "NETBALAN", "NEXTSTEP", "NOCASC", "NOECHO",
    "NOGGF", "NOINSPEC", "NOMONITO", "NONNC", "NORSSPEC", "NOSIM",
    "NSTACK", "NUMRES", "NUPCOL", "OILVISCT", "OLDTRAN", "OPTIONS",
    "PARALLEL", "PBVD", "PCG", "PERFORMACE_PROBE", "PERMXY", "PERMYZ",
    "PERMZX", "PIMTDIMS", "PIMULTAB", "PLMIXPAR", "PLYADSS", "PLYDHFLF",
    "RADFIN4", "REGDIMS", "REGION_PROBE", "RKTRMDIR", "ROCKCOMP", "ROCKOPTS",
    "ROCKTAB", "RPTGRID", "RPTONLY", "RPTONLYO", "RPTPROS", "PRTRST", "RPTRUNSP",
    "RPTSCHED", "RPTSOL", "RTEMPVD", "RUNSUM", "SATOPTS", "SAVE", "SEPARATE",
    "SKIP", "SKIP100", "SKIP300", "SKIPREST", "SMRYDIMS", "SPECGRID", "SSOL",
    "SUMTHIN", "TEMP", "THCONR", "TRACER", "TRACERS", "UDADIMS", "UDQDIMS",
    "UNIFIN", "UNIFOUT", "VAPPARS", "VISCREF", "WATVISCT", "WELL_PROBE",
    "WPAVE", "WPIMULT", "WPITAB", "WRFT", "WRFTPLT", "WSEGDIMS", "WTEMP",
    "WTEST", "WTRACER", "ZIPPY2"]

/-- The message that `checkKeywords` passes to `OpmLog::error` for a keyword. -/
def checkKeywordsMessage (keyword : DeckKeyword) : String :=
  "Keyword '" ++ keyword.name ++ "' is not supported by flow.\n"
    ++ "In file " ++ keyword.getFileName ++ ", line " ++ toString keyword.getLineNumber ++ "\n"

/-- The function `checkKeywords(deck, parser)`: the messages passed to
`OpmLog::error`, oldest first. The deck is the list of its keywords in the order
of `getKeyword(idx)`, and `checkDeck` is the result of the parser function
`checkDeck(deck, parser)`, which is not under `src/`. -/
def checkKeywords (checkDeck : List DeckKeyword → Bool) (deck : List DeckKeyword) :
    List String :=
  -- check deck and keyword for flow and parser.
  if checkDeck deck then
    deck.foldl
      (fun log keyword =>
        match unsupported_keywords.find? (fun entry => entry == keyword.name) with
        | some _ => log ++ [checkKeywordsMessage keyword]
        | none => log)
      []
  else []

/-! ## The consistency of a directive list -/

/-- The directives of the list `l` are consistent and name only wells that
satisfy `used`: no well is both in the shut list and in the stopped list, a
stopped well has no closed-connection directive, and a well has at most one
closed-connection directive. -/
def consistentDirectives (used : String → Prop) (l : DynamicListEconLimited) : Prop :=
  (∀ x ∈ l.shut_wells, used x) ∧
  (∀ x ∈ l.stopped_wells, used x) ∧
  (∀ e ∈ l.closed_connections, used e.1) ∧
  (∀ x ∈ l.shut_wells, x ∉ l.stopped_wells) ∧
  (∀ x ∈ l.stopped_wells, ∀ e ∈ l.closed_connections, e.1 ≠ x) ∧
  (∀ x : String, (l.closed_connections.filter fun e => decide (e.1 = x)).length ≤ 1)

/-! ## Concrete inputs used to instantiate the theorems -/

/-- Three active phases stored in the order water, oil, gas. -/
def fxPhaseUsage : PhaseUsage :=
  ⟨3, fun _ => true, fun p => match p with
    | Phase.Water => 0
    | Phase.Oil => 1
    | Phase.Gas => 2⟩

/-- The evaluator context for three active phases, with `-100000` for the
constant `INVALIDCONNECTION`. -/
def fxCtx : EconContext := ⟨fxPhaseUsage, fun _ => true, -100000⟩

/-- A `Wells` struct with the single well `P1` of type `t`; the perforation of
index `i` lies in cell `100 + i`. -/
def fxWells (t : WellType) : Wells :=
  { number_of_wells := 1
    number_of_phases := 3
    name := fun _ => "P1"
    type := fun _ => t
    well_connpos := fun w => w
    well_cells := fun i => 100 + i
    comp_frac := fun _ => 0 }

/-- A schedule whose wells all carry the limits `l` and the automatic shut-in
flag `auto`. -/
def fxSchedule (auto : Bool) (l : WellEconProductionLimits) : Schedule :=
  ⟨fun n =>
    { name := n
      getAutomaticShutIn := auto
      getEconProductionLimits := fun _ => l
      getStatus := fun _ => WellCommon.StatusEnum.OPEN
      isMultiSegment := fun _ => false
      injectorType := fun _ => WellInjector.TypeEnum.WATER
      getSolventFraction := fun _ => 0
      getCompletions := fun _ => [] }⟩

/-- Limits with a minimum oil rate of 100. -/
def fxMinOil : WellEconProductionLimits := { onMinOilRate := true, minOilRate := 100 }

/-- Limits with a maximum water cut of 0.8. -/
def fxMaxWaterCut : WellEconProductionLimits := { onMaxWaterCut := true, maxWaterCut := 4 / 5 }

/-- One well with one perforation, producing oil at rate 50. -/
def fxStateOil50 : WellState :=
  { numPhases := 3, wellRates := [0, 50, 0], perfPhaseRates := [0, 50, 0],
    wellMap := fun _ => ⟨0, 0, 1⟩ }

/-- One well with three perforations of local water cuts 0.9, 0.95 and 0.6;
the water cut of the well is 31/35. -/
def fxStateThreePerf : WellState :=
  { numPhases := 3, wellRates := [-31, -4, 0],
    perfPhaseRates := [-9, -1, 0, -19, -1, 0, -3, -2, 0],
    wellMap := fun _ => ⟨0, 0, 3⟩ }

/-- One well with one perforation. The well rates give a water cut of 0.9; in
the perforation oil flows into the formation (rate 2) while water is produced
(rate -1), a local water cut of -1. -/
def fxStateCrossflow : WellState :=
  { numPhases := 3, wellRates := [-9, -1, 0], perfPhaseRates := [-1, 2, 0],
    wellMap := fun _ => ⟨0, 0, 1⟩ }

/-- A schedule well named `n` with the status `st` and the multi-segment flag
`ms` at every step. -/
def fxWellEcl (n : String) (st : WellCommon.StatusEnum) (ms : Bool) : Well :=
  { name := n
    getAutomaticShutIn := true
    getEconProductionLimits := fun _ => {}
    getStatus := fun _ => st
    isMultiSegment := fun _ => ms
    injectorType := fun _ => WellInjector.TypeEnum.WATER
    getSolventFraction := fun _ => 0
    getCompletions := fun _ => [] }

/-- A `Wells` struct with the two producers `P1` and `P2`. -/
def fxWellsTwo : Wells :=
  { number_of_wells := 2
    number_of_phases := 3
    name := fun w => if w = 0 then "P1" else "P2"
    type := fun _ => WellType.PRODUCER
    well_connpos := fun w => w
    well_cells := fun i => 100 + i
    comp_frac := fun _ => 0 }

/-- Controls whose every entry has the type `t`, the target `target` and the
distribution `distr`, with the VFP table 1 and the lift quantity 7. -/
def fxControls (t : WellControlType) (target : ℚ) (distr : Nat → ℚ) : WellControls :=
  { iget_type := fun _ => t
    iget_target := fun _ => target
    iget_distr := fun _ => distr
    iget_vfp := fun _ => 1
    iget_alq := fun _ => 7 }

/-- The distribution `{0, 1, 0}` of an oil-rate control. -/
def fxDistrOil : Nat → ℚ := fun p => if p = 1 then 1 else 0

/-- The distribution `{1, 1, 0}` of a liquid-rate control. -/
def fxDistrLiquid : Nat → ℚ := fun p => if p < 2 then 1 else 0

/-- VFP tables with the datum depth 2000 whose `bhp` is a linear expression of
its arguments. -/
def fxVFP : VFPProperties :=
  { inj_getDatumDepth := fun _ => 2000
    inj_bhp := fun _ aqua liquid vapour thp => thp + aqua + 2 * liquid + 3 * vapour
    prod_getDatumDepth := fun _ => 2000
    prod_bhp := fun _ aqua liquid vapour thp alq =>
      thp + aqua + 2 * liquid + 3 * vapour + 5 * alq }

/-- A three-phase context without solvent over the wells `fxWellsTwo`: the
enumerators `Water`, `Oil`, `Gas` are 0, 1, 2, the positions `XvarWell`,
`WFrac`, `GFrac`, `SFrac` are 0, 1, 2, 3, and the hydrostatic correction is
`rho * gravity * vfp_ref_depth / 1000`. -/
def fxTargetCtx : TargetContext :=
  { wells_ := some fxWellsTwo
    phase_usage_ := fxPhaseUsage
    active_ := fun _ => true
    gravity_ := 10
    well_perforation_densities_ := [800, 900]
    vfp_properties_ := some fxVFP
    has_solvent_ := false
    wells_ecl_ := []
    current_timeIdx_ := 0
    phaseIndex := fun p => match p with
      | Phase.Water => 0
      | Phase.Oil => 1
      | Phase.Gas => 2
    XvarWell := 0
    WFrac := 1
    GFrac := 2
    SFrac := 3
    computeHydrostaticCorrection := fun _ _ vfp_ref_depth rho gravity =>
      rho * gravity * vfp_ref_depth / 1000 }

/-- A state of two three-phase wells: the first one has the rates 10, 30, 200
of water, oil and gas, the second one the rates 1, 2, 3. -/
def fxStateTwo : WellState :=
  { numPhases := 3
    bhp := [250, 260]
    thp := [40, 50]
    wellRates := [10, 30, 200, 1, 2, 3]
    wellSolutions := [0, 0, 0, 0, 0, 0] }

/-- The state `fxStateTwo` with all the rates of the first well at zero. -/
def fxStateTwoIdle : WellState :=
  { numPhases := 3
    bhp := [250, 260]
    thp := [40, 50]
    wellRates := [0, 0, 0, 1, 2, 3]
    wellSolutions := [0, 0, 0, 0, 0, 0] }

/-- A well unit that never converges. The mutable data of the example carries a
counter of the assemblies made; the Newton step moves the well rates and the
control update switches every well to control 7. -/
def fxNeverConverging : StandardWell Nat :=
  { assembleWellEq := fun _ s => { s with ext := s.ext + 1 }
    getWellConvergence := fun _ _ => false
    wellEqIteration := fun s =>
      { s with well_state := { s.well_state with wellRates := 1 :: s.well_state.wellRates } }
    updateWellControl := fun s =>
      { s with
        well_state := { s.well_state with currentControls := s.well_state.currentControls.map fun _ => 7 }
        ctrl_current := fun _ => 7 }
    setWellVariables := fun s => s
    computeWellConnectionPressures := fun s => s
    computeAccumWell := fun s => s
    apply_r := fun _ r => r
    apply := fun _ _ Ax => Ax
    computeWellPotentials := fun _ => [] }

/-- A well collection without group control and without VREP groups, whose
operations change nothing. -/
def fxCollection : WellCollection Nat :=
  { groupControlActive := fun _ => false
    groupTargetConverged := fun _ _ => true
    requireWellPotentials := fun _ => false
    setGuideRatesWithPotentials := fun _ s => s
    havingVREPGroups := fun _ => false
    applyVREPGroupControls := fun _ _ s => s
    groupControlApplied := fun _ => true
    applyGroupControls := fun s => s
    updateWellTargets := fun _ s => s }

/-- A coordinator with the single well unit `fxNeverConverging` and no group
control; every control of the well is a BHP control of target 300. -/
def fxModel : StandardWellsDense Nat :=
  { wells_active_ := true
    wells_ := some (fxWells WellType.PRODUCER)
    number_of_wells_ := 1
    number_of_phases_ := 3
    well_container_ := [fxNeverConverging]
    well_collection_ := fxCollection
    numComponents := 3
    computeAverageFormationFactor := fun _ B => B
    updateGroupControls := fun s => s
    solve_welleq_initially_ := true
    ctrls := fun _ _ => fxControls WellControlType.BHP 300 fxDistrOil
    target_ := fun _ => fxTargetCtx
    calcCoeff := fun _ _ coeff => coeff }

/-- The mutable data at the entry of the example: the well is on control 2 and
no assembly has been made. -/
def fxEntry : SimState Nat :=
  { well_state := { fxStateOil50 with currentControls := [2] }
    ctrl_current := fun _ => 2
    leaf_nodes := []
    ext := 0 }

/-- A well unit that passes its convergence test once `n` assemblies have been
made, and otherwise behaves as `fxNeverConverging`. -/
def fxConvergesAt (n : Nat) : StandardWell Nat :=
  { fxNeverConverging with getWellConvergence := fun _ s => decide (n ≤ s.ext) }

/-- A coordinator whose single well unit converges at its fourth assembly. -/
def fxModelConverging : StandardWellsDense Nat :=
  { fxModel with well_container_ := [fxConvergesAt 4] }

/-- A well unit whose `apply` adds the vector `c` to `Ax` and whose other
operations change nothing. -/
def fxAdding (c : BVector) : StandardWell Nat :=
  { fxNeverConverging with apply := fun _ _ Ax => BVector.add Ax c }

/-- A coordinator with the three well units that add `[1, 2]`, `[10, 20]` and
`[100, 200]`. -/
def fxModelAdding : StandardWellsDense Nat :=
  { fxModel with well_container_ := [fxAdding [1, 2], fxAdding [10, 20], fxAdding [100, 200]] }

/-- A coordinator built from a null `Wells` struct: wells are not active and
there is no well unit. -/
def fxModelNoWells : StandardWellsDense Nat :=
  { fxModel with
    wells_active_ := false, wells_ := none, number_of_wells_ := 0, number_of_phases_ := 0,
    well_container_ := [] }

/-- One producer with two perforations and crossflow in both. The well rates
(-9 of water, -1 of oil) are the sums of the perforation rates and give a water
cut of 0.9; the first perforation produces water (-10) while oil flows into the
formation (11), a local water cut of -10; the second one produces oil (-12)
while water flows into the formation (1), a local water cut of -1/11. -/
def fxStateCrossflowTwo : WellState :=
  { numPhases := 3, wellRates := [-9, -1, 0], perfPhaseRates := [-10, 11, 0, 1, -12, 0],
    wellMap := fun _ => ⟨0, 0, 2⟩ }
/-- A coordinator over the wells `fxWellsTwo` whose collection has group
control active and, besides, changes nothing. -/
def fxModelGroup : StandardWellsDense Nat :=
  { fxModel with
    wells_ := some fxWellsTwo
    number_of_wells_ := 2
    well_container_ := [fxNeverConverging, fxNeverConverging]
    well_collection_ := { fxCollection with groupControlActive := fun _ => true } }

/-- The data at the start of a time step after a restart: both wells have lost
their control (index -1); the group has assigned the control 1 to `P1` and
none to `P2` (index -1), and both nodes were flagged as under group control. -/
def fxEntryGroup : SimState Nat :=
  { well_state := { numPhases := 3, numWells := 2, currentControls := [-1, -1] }
    ctrl_current := fun _ => -1
    leaf_nodes := [⟨"P1", 0, false, 1, false⟩, ⟨"P2", 1, false, -1, false⟩]
    ext := 0 }

/-- A `Wells` struct with the injector `I1`, the producer `P2` and the injector
`I3`. -/
def fxWellsThree : Wells :=
  { number_of_wells := 3
    number_of_phases := 3
    name := fun w => if w = 0 then "I1" else if w = 1 then "P2" else "I3"
    type := fun w => if w = 1 then WellType.PRODUCER else WellType.INJECTOR
    well_connpos := fun w => w
    well_cells := fun i => 100 + i
    comp_frac := fun _ => 0 }

/-- A coordinator over the wells `fxWellsThree` whose collection has VREP
groups and, besides, changes nothing. -/
def fxModelVREP : StandardWellsDense Nat :=
  { fxModelGroup with
    wells_ := some fxWellsThree
    number_of_wells_ := 3
    well_container_ := [fxNeverConverging, fxNeverConverging, fxNeverConverging]
    well_collection_ :=
      { fxCollection with groupControlActive := fun _ => true, havingVREPGroups := fun _ => true } }

/-- Three wells on the control 0: the leaf of the first one is an injector
under group control with the group-control index 3, the leaf of the second one
a producer under group control, the leaf of the third one an injector under
individual control. -/
def fxEntryVREP : SimState Nat :=
  { well_state := { numPhases := 3, numWells := 3, currentControls := [0, 0, 0],
                    wellRates := [1, 2, 3, 4, 5, 6, 7, 8, 9] }
    ctrl_current := fun _ => 0
    leaf_nodes := [⟨"I1", 0, true, 3, false⟩, ⟨"P2", 1, false, 2, false⟩,
      ⟨"I3", 2, true, 4, true⟩]
    ext := 0 }

/-- A grid of 2 x 2 x 1 cells without a `globalCell` array, whose cells are
cubes of side 10. -/
def fxGrid : Grid :=
  { numCells := 4
    globalCell := none
    cartDims := fun d => if d = 2 then 1 else 2
    getCubeDim := fun _ => (10, 10, 10) }

/-- A completion in the cell `(i, 0, 0)` with the diameter 1/5. -/
def fxCompletion (st : WellCompletion.StateEnum) (i : Int)
    (dir : WellCompletion.DirectionEnum) : Completion :=
  { getState := st, getI := i, getJ := 0, getK := 0, getDiameter := 1 / 5, getDirection := dir }

/-- The OPEN schedule well `P1` with the completions `cs` at every step. -/
def fxWellCompletions (st : WellCommon.StatusEnum) (cs : List Completion) : Well :=
  { fxWellEcl "P1" st false with getCompletions := fun _ => cs }

/-- The geometry context of the single schedule well `well`; the square root
is replaced by the identity and `M_PI` by 3. -/
def fxGeometryCtx (well : Well) : GeometryContext :=
  { wells_ := some (fxWells WellType.PRODUCER)
    wells_ecl_ := [well]
    current_timeIdx_ := 0
    sqrt := fun x => x
    M_PI := 3
    feet := 381 / 1250
    StateEnum2String := fun st =>
      match st with
      | WellCompletion.StateEnum.OPEN => "OPEN"
      | WellCompletion.StateEnum.SHUT => "SHUT"
      | WellCompletion.StateEnum.OTHER => "AUTO" }

/-- A three-phase context without solvent, with the phases of the simulator
in the order oil, water, gas (`waterPhaseIdx = 1`, `oilPhaseIdx = 0`,
`gasPhaseIdx = 2`). -/
def fxFormationCtx : FormationFactorContext :=
  { wells_ := some (fxWells WellType.PRODUCER)
    has_solvent_ := false
    global_nc_ := 0
    solventSaturationIdx := 3
    waterPhaseIdx := 1
    oilPhaseIdx := 0
    gasPhaseIdx := 2 }

/-- An interior element whose inverse formation volume factors are `1 / bo`,
`1 / bw`, `1 / bg` for oil, water and gas. -/
def fxElement (bo bw bg : ℚ) : IntensiveQuantities :=
  { invB := fun idx => if idx = 0 then 1 / bo else if idx = 1 then 1 / bw else 1 / bg
    solventInverseFormationVolumeFactor := 1 }

/-- A coordinator over the wells `fxWellsThree` whose rate converter returns
the coefficients 2, 3, 5 for the phases stored at 0, 1, 2, whatever the
rates. -/
def fxModelVoidage : StandardWellsDense Nat :=
  { fxModelVREP with
    calcCoeff := fun _ _ coeff => (List.range coeff.length).map fun (p : Nat) =>
      if p = 0 then (2 : ℚ) else if p = 1 then 3 else 5 }

/-- A schedule over the wells `P1` and `P2`: `P1` has a minimum oil rate of 100
and is stopped, not shut, when it violates a limit; `P2` has a maximum water
cut of 0.8. -/
def fxScheduleTwo : Schedule :=
  ⟨fun n =>
    { name := n
      getAutomaticShutIn := false
      getEconProductionLimits := fun _ => if n = "P1" then fxMinOil else fxMaxWaterCut
      getStatus := fun _ => WellCommon.StatusEnum.OPEN
      isMultiSegment := fun _ => false
      injectorType := fun _ => WellInjector.TypeEnum.WATER
      getSolventFraction := fun _ => 0
      getCompletions := fun _ => [] }⟩

/-- Two producers: `P1` produces oil at the rate 50 through one perforation,
`P2` has two perforations of local water cuts 0.95 and 0.75 and the water cut
0.9. -/
def fxStateTwoProducers : WellState :=
  { numPhases := 3
    wellRates := [0, -50, 0, -27, -3, 0]
    perfPhaseRates := [0, -50, 0, -19, -1, 0, -9, -3, 0]
    wellMap := fun n => if n = "P1" then ⟨0, 0, 1⟩ else ⟨1, 1, 2⟩ }

/-- A `Wells` struct of a two-phase run with the single producer `P1`. -/
def fxWellsOilWater : Wells :=
  { fxWells WellType.PRODUCER with number_of_phases := 2 }

/-- The context of a two-phase run of water and oil over `fxWellsOilWater`: the
gas phase is not active. -/
def fxTargetCtxOilWater : TargetContext :=
  { fxTargetCtx with
    wells_ := some fxWellsOilWater
    active_ := fun p => decide (p ≠ Phase.Gas) }

/-- A producer of a two-phase run that does not flow; the entry of the well
solution at the position of the gas fraction holds 5. -/
def fxStateOilWaterIdle : WellState :=
  { numPhases := 2
    bhp := [250]
    thp := [40]
    wellRates := [0, 0]
    wellSolutions := [0, 0, 5] }

/-- The context `fxTargetCtx` over a single well of type `t`. -/
def fxTargetCtxOne (t : WellType) : TargetContext :=
  { fxTargetCtx with wells_ := some (fxWells t) }

/-- A three-phase well that does not flow. -/
def fxStateOneIdle : WellState :=
  { numPhases := 3
    bhp := [250]
    thp := [40]
    wellRates := [0, 0, 0]
    wellSolutions := [7, 7, 7] }

/-- The distribution `{1, 0, 0}` of a water-rate control. -/
def fxDistrWater : Nat → ℚ := fun p => if p = 0 then 1 else 0

/-- A `Wells` struct with the producers `P1`, of three perforations, and `P2`,
of two. -/
def fxWellsPerfs : Wells :=
  { fxWellsTwo with well_connpos := fun w => if w = 0 then 0 else if w = 1 then 3 else 5 }

/-- The leaves `P1` and `P2` with the accumulated efficiency factors 1/2 and
3/4. -/
def fxEfficiencyCtx : EfficiencyContext :=
  { wells_ := some fxWellsPerfs
    leaf_nodes := [⟨"P1", 0, false, -1, true⟩, ⟨"P2", 1, false, -1, true⟩]
    getAccumulativeEfficiencyFactor := fun node => if node.name = "P1" then 1 / 2 else 3 / 4 }

/-- A deck with the keywords `AQUDIMS`, `AQUNUM`, `BLOCK_PROBE` and `COMPLUMP`
on the lines 10 to 13 of the file `CASE.DATA`. -/
def fxDeck : List DeckKeyword :=
  [⟨"AQUDIMS", "CASE.DATA", 10⟩, ⟨"AQUNUM", "CASE.DATA", 11⟩,
    ⟨"BLOCK_PROBE", "CASE.DATA", 12⟩, ⟨"COMPLUMP", "CASE.DATA", 13⟩]

/-- A completion in the cell `(i, 0, 0)` with the diameter `d`. -/
def fxCompletionDiameter (st : WellCompletion.StateEnum) (i : Int)
    (dir : WellCompletion.DirectionEnum) (d : ℚ) : Completion :=
  { fxCompletion st i dir with getDiameter := d }

/-- A grid of 2 x 2 x 1 cells without a `globalCell` array, whose cells have
the extents 10, 20 and 5. -/
def fxGridBox : Grid := { fxGrid with getCubeDim := fun _ => (10, 20, 5) }

/-- Limits with the minimum liquid rate `v` as the only limit. -/
def fxMinLiquid (v : ℚ) : WellEconProductionLimits := { onMinLiquidRate := true, minLiquidRate := v }

/-- One well with the water rate `0.2` and the oil rate `0.1`, the doubles
nearest to 2/10 and to 1/10. -/
def fxStateLiquid : WellState :=
  { numPhases := 3, wellRates := [Double.round (2 / 10), Double.round (1 / 10), 0] }

/-- A well unit that never converges and counts what is done to it: the mutable
data of the example carries the number of assemblies and the number of Newton
steps made. The Newton step also moves the well rates, and the control update
switches every well to the control 7. -/
def fxCounting : StandardWell (Nat × Nat) :=
  { assembleWellEq := fun _ s => { s with ext := (s.ext.1 + 1, s.ext.2) }
    getWellConvergence := fun _ _ => false
    wellEqIteration := fun s =>
      { s with
        well_state := { s.well_state with wellRates := 1 :: s.well_state.wellRates }
        ext := (s.ext.1, s.ext.2 + 1) }
    updateWellControl := fun s =>
      { s with
        well_state := { s.well_state with currentControls := s.well_state.currentControls.map fun _ => 7 }
        ctrl_current := fun _ => 7 }
    setWellVariables := fun s => s
    computeWellConnectionPressures := fun s => s
    computeAccumWell := fun s => s
    apply_r := fun _ r => r
    apply := fun _ _ Ax => Ax
    computeWellPotentials := fun _ => [] }

/-- A coordinator with the single well unit `fxCounting` and no group
control. -/
def fxModelCounting : StandardWellsDense (Nat × Nat) :=
  { wells_active_ := true
    wells_ := some (fxWells WellType.PRODUCER)
    number_of_wells_ := 1
    number_of_phases_ := 3
    well_container_ := [fxCounting]
    well_collection_ :=
      { groupControlActive := fun _ => false
        groupTargetConverged := fun _ _ => true
        requireWellPotentials := fun _ => false
        setGuideRatesWithPotentials := fun _ s => s
        havingVREPGroups := fun _ => false
        applyVREPGroupControls := fun _ _ s => s
        groupControlApplied := fun _ => true
        applyGroupControls := fun s => s
        updateWellTargets := fun _ s => s }
    numComponents := 3
    computeAverageFormationFactor := fun _ B => B
    updateGroupControls := fun s => s
    solve_welleq_initially_ := true
    ctrls := fun _ _ => fxControls WellControlType.BHP 300 fxDistrOil
    target_ := fun _ => fxTargetCtx
    calcCoeff := fun _ _ coeff => coeff }

/-- The mutable data at the entry of the example: the well is on control 2, and
no assembly and no Newton step has been made. -/
def fxEntryCounting : SimState (Nat × Nat) :=
  { well_state := { fxStateOil50 with currentControls := [2] }
    ctrl_current := fun _ => 2
    leaf_nodes := []
    ext := (0, 0) }

/-- A coordinator with the three well units that add `[10^16]`, `[1]` and
`[1]`. -/
def fxModelAddingLarge : StandardWellsDense Nat :=
  { fxModel with
    well_container_ := [fxAdding [10000000000000000], fxAdding [1], fxAdding [1]] }

/-- A coordinator with two well units that add `[1]` each. -/
def fxModelAddingOnes : StandardWellsDense Nat :=
  { fxModel with well_container_ := [fxAdding [1], fxAdding [1]] }

/-- A three-phase well with the rates 1 of water, 49 of oil and 0 of gas. -/
def fxStateOneFlowing : WellState :=
  { numPhases := 3
    bhp := [250]
    thp := [40]
    wellRates := [1, 49, 0]
    wellSolutions := [7, 7, 7] }

/-- The distribution `{0, 49, 0}` of a reservoir-rate control on the oil
phase. -/
def fxDistrOil49 : Nat → ℚ := fun p => if p = 1 then 49 else 0

/-- A three-phase well with the rates 1 of water, 48 of oil and 0 of gas. -/
def fxStateOneLiquid : WellState :=
  { numPhases := 3
    bhp := [250]
    thp := [40]
    wellRates := [1, 48, 0]
    wellSolutions := [7, 7, 7] }

/-- A three-phase well with the rates 16 of water, 48 of oil and 0 of gas. -/
def fxStateOnePowers : WellState :=
  { numPhases := 3
    bhp := [250]
    thp := [40]
    wellRates := [16, 48, 0]
    wellSolutions := [7, 7, 7] }

/-- A grid of 4 active cells without a `globalCell` array whose cartesian
dimensions are 65536 x 65536 x 1. -/
def fxGridWide : Grid := { fxGrid with cartDims := fun d => if d = 2 then 1 else 65536 }

/-- An OPEN completion in the direction Z with the indices `(0, 0, 1)`. -/
def fxCompletionLayer : Completion :=
  { fxCompletion WellCompletion.StateEnum.OPEN 0 WellCompletion.DirectionEnum.Z with getK := 1 }

/-- A coordinator over the well `P1` whose collection has group control active
and not yet applied; the application of the group controls switches the control
set of every well to the control 1 and leaves the well state alone. -/
def fxModelSwitching : StandardWellsDense Nat :=
  { fxModel with
    well_collection_ :=
      { fxCollection with
        groupControlActive := fun _ => true
        groupControlApplied := fun _ => false
        applyGroupControls := fun s => { s with ctrl_current := fun _ => 1 } } }

/-- The data at the start of the first time step of a newly added well: the well
state records the control 2 and flags the well as new, and the control set of the
well is on the control 0; the node of the well has no group control. -/
def fxEntryNew : SimState Nat :=
  { well_state := { fxStateOil50 with currentControls := [2], isNewWell := fun _ => true }
    ctrl_current := fun _ => 0
    leaf_nodes := [⟨"P1", 0, false, -1, false⟩]
    ext := 0 }

/-! ## Lemmas on the double-precision arithmetic -/

namespace Double

theorem roundHalfEven_of_near (q : ℚ) (n : Int) (h1 : (n : ℚ) - 1 / 2 < q) (h2 : q < (n : ℚ) + 1 / 2) :
    roundHalfEven q = n := by
  unfold roundHalfEven
  have hf1 : (⌊q⌋ : ℚ) ≤ q := Int.floor_le q
  have hf2 : q < (⌊q⌋ : ℚ) + 1 := Int.lt_floor_add_one q
  by_cases hlt : q - ⌊q⌋ < 1 / 2
  · rw [if_pos hlt]
    have h3 : ((⌊q⌋ : Int) : ℚ) < (n : ℚ) + 1 := by linarith
    have h4 : ((n : Int) : ℚ) < (⌊q⌋ : ℚ) + 1 := by linarith
    have h5 : ⌊q⌋ < n + 1 := by exact_mod_cast h3
    have h6 : n < ⌊q⌋ + 1 := by exact_mod_cast h4
    omega
  · rw [if_neg hlt]
    have hge : 1 / 2 ≤ q - ⌊q⌋ := not_lt.mp hlt
    have h3 : ((⌊q⌋ : Int) : ℚ) + 1 < (n : ℚ) + 1 := by linarith
    have h4 : ((n : Int) : ℚ) < (⌊q⌋ : ℚ) + 1 + 1 := by linarith
    have h5 : ⌊q⌋ + 1 < n + 1 := by exact_mod_cast h3
    have h6 : n < ⌊q⌋ + 1 + 1 := by exact_mod_cast h4
    have hgt : 1 / 2 < q - ⌊q⌋ := by
      rcases lt_or_eq_of_le hge with h | h
      · exact h
      · exfalso
        have hn : n = ⌊q⌋ + 1 := by omega
        rw [hn] at h1
        push_cast at h1
        linarith
    rw [if_pos hgt]
    omega

theorem roundHalfEven_of_tie (q : ℚ) (n : Int) (h : q = (n : ℚ) + 1 / 2) :
    roundHalfEven q = if n % 2 = 0 then n else n + 1 := by
  have hfl : ⌊q⌋ = n := by
    rw [Int.floor_eq_iff]
    constructor <;> linarith
  unfold roundHalfEven
  rw [hfl]
  have hr : q - (n : ℚ) = 1 / 2 := by linarith
  rw [hr, if_neg (lt_irrefl _), if_neg (lt_irrefl _)]

theorem roundHalfEven_intCast (n : Int) : roundHalfEven (n : ℚ) = n :=
  roundHalfEven_of_near _ n (by linarith) (by linarith)

theorem exponent_eq (x : ℚ) (e : Int) (h1 : (2 : ℚ) ^ e ≤ |x|) (h2 : |x| < (2 : ℚ) ^ (e + 1))
    (he : -1022 ≤ e) : exponent x = e := by
  have hpos : 0 < |x| := lt_of_lt_of_le (zpow_pos (by norm_num) e) h1
  have hl1 : e ≤ Int.log 2 |x| := (Int.zpow_le_iff_le_log (by norm_num) hpos).mp (by exact_mod_cast h1)
  have hl2 : Int.log 2 |x| < e + 1 := (Int.lt_zpow_iff_log_lt (by norm_num) hpos).mp (by exact_mod_cast h2)
  unfold exponent
  omega

theorem exponent_subnormal (x : ℚ) (hx : x ≠ 0) (h : |x| < (2 : ℚ) ^ (-1022 : Int)) : exponent x = -1022 := by
  have hpos : 0 < |x| := abs_pos.mpr hx
  · unfold exponent
    have hl2 : Int.log 2 |x| < -1022 := (Int.lt_zpow_iff_log_lt (by norm_num) hpos).mp (by exact_mod_cast h)
    omega

@[simp]
theorem round_zero : round 0 = 0 := by
  simp [round, roundHalfEven]

theorem round_of_near (x : ℚ) (e n : Int) (h1 : (2 : ℚ) ^ e ≤ |x|) (h2 : |x| < (2 : ℚ) ^ (e + 1))
    (he : -1022 ≤ e) (hn1 : (n : ℚ) - 1 / 2 < x * 2 ^ (52 - e)) (hn2 : x * 2 ^ (52 - e) < (n : ℚ) + 1 / 2) :
    round x = (n : ℚ) * 2 ^ (e - 52) := by
  unfold round
  rw [exponent_eq x e h1 h2 he, roundHalfEven_of_near _ n hn1 hn2]

theorem round_of_tie (x : ℚ) (e n : Int) (h1 : (2 : ℚ) ^ e ≤ |x|) (h2 : |x| < (2 : ℚ) ^ (e + 1))
    (he : -1022 ≤ e) (hn : x * 2 ^ (52 - e) = (n : ℚ) + 1 / 2) :
    round x = ((if n % 2 = 0 then n else n + 1 : Int) : ℚ) * 2 ^ (e - 52) := by
  unfold round
  rw [exponent_eq x e h1 h2 he, roundHalfEven_of_tie _ n hn]

/-- A value m * 2^k with |m| < 2^53 and k not below -1074 is a double: rounding keeps it. -/
theorem round_exact (m k : Int) (hm : |m| < 2 ^ 53) (hk : -1074 ≤ k) :
    round ((m : ℚ) * 2 ^ k) = (m : ℚ) * 2 ^ k := by
  by_cases hm0 : m = 0
  · subst hm0; simp [round_zero]
  have h2 : (2 : ℚ) ≠ 0 := by norm_num
  have hle : exponent ((m : ℚ) * 2 ^ k) ≤ 52 + k := by
    unfold exponent
    have habs : 0 < |(m : ℚ) * 2 ^ k| := abs_pos.mpr (mul_ne_zero (by exact_mod_cast hm0) (zpow_ne_zero k h2))
    have hlt : |(m : ℚ) * 2 ^ k| < (2 : ℚ) ^ (53 + k) := by
      rw [abs_mul, abs_of_pos (zpow_pos (by norm_num : (0 : ℚ) < 2) k), zpow_add₀ h2]
      have hmq : |(m : ℚ)| < 2 ^ (53 : Int) := by
        have h3 : ((|m| : Int) : ℚ) < ((2 ^ 53 : Int) : ℚ) := Int.cast_lt.mpr hm
        rw [Int.cast_abs] at h3
        norm_num at h3 ⊢
        exact h3
      exact mul_lt_mul_of_pos_right hmq (zpow_pos (by norm_num) k)
    have hl2 : Int.log 2 |(m : ℚ) * 2 ^ k| < 53 + k :=
      (Int.lt_zpow_iff_log_lt (by norm_num) habs).mp (by exact_mod_cast hlt)
    omega
  unfold round
  generalize exponent ((m : ℚ) * 2 ^ k) = e at hle
  obtain ⟨j, hj⟩ : ∃ j : Nat, (j : Int) = k + 52 - e := ⟨(k + 52 - e).toNat, Int.toNat_of_nonneg (by omega)⟩
  have hq : (m : ℚ) * 2 ^ k * 2 ^ (52 - e) = ((m * 2 ^ j : Int) : ℚ) := by
    rw [mul_assoc, ← zpow_add₀ h2]
    have : k + (52 - e) = (j : Int) := by omega
    rw [this]
    push_cast
    rw [zpow_natCast]
  rw [hq, roundHalfEven_intCast]
  push_cast
  rw [← zpow_natCast, hj, mul_assoc, ← zpow_add₀ h2]
  congr 2
  omega

theorem round_intCast (n : Int) (h : |n| < 2 ^ 53) : round (n : ℚ) = n := by
  simpa using round_exact n 0 h (by norm_num)

theorem round_natCast (n : Nat) (h : n < 2 ^ 53) : round (n : ℚ) = n := by
  have := round_intCast (n : Int) (by rw [abs_of_nonneg (Int.natCast_nonneg n)]; exact_mod_cast h)
  simpa using this

@[simp]
theorem round_ofNat (n : Nat) (h : n < 2 ^ 53) :
    round (no_index (OfNat.ofNat n : ℚ)) = OfNat.ofNat n := by
  have := round_natCast n h
  simpa using this

theorem round_one : round 1 = 1 := by simp

@[simp]
theorem round_neg (x : ℚ) : round (-x) = - round x := by
  have hexp : exponent (-x) = exponent x := by unfold exponent; rw [abs_neg]
  unfold round
  rw [hexp]
  generalize exponent x = e
  have key : ∀ q : ℚ, roundHalfEven (-q) = - roundHalfEven q := by
    intro q
    have hf1 : (⌊q⌋ : ℚ) ≤ q := Int.floor_le q
    have hf2 : q < (⌊q⌋ : ℚ) + 1 := Int.lt_floor_add_one q
    rcases lt_trichotomy (q - ⌊q⌋) (1 / 2) with h | h | h
    · have hq : roundHalfEven q = ⌊q⌋ := roundHalfEven_of_near q _ (by linarith) (by linarith)
      rw [hq]
      exact roundHalfEven_of_near _ _ (by push_cast; linarith) (by push_cast; linarith)
    · have hq := roundHalfEven_of_tie q ⌊q⌋ (by linarith)
      have hnq := roundHalfEven_of_tie (-q) (-⌊q⌋ - 1) (by push_cast; linarith)
      rw [hq, hnq]
      split_ifs <;> omega
    · have hq : roundHalfEven q = ⌊q⌋ + 1 := roundHalfEven_of_near q _ (by push_cast; linarith) (by push_cast; linarith)
      rw [hq]
      exact roundHalfEven_of_near _ _ (by push_cast; linarith) (by push_cast; linarith)
  rw [neg_mul, key]
  push_cast
  ring

theorem isInt_iff (M : Nat) (u : ℚ) : isInt M u ↔ ∃ z : Int, u = (z : ℚ) ∧ z.natAbs ≤ M := by
  unfold isInt
  constructor
  · rintro ⟨hd, hn⟩
    exact ⟨u.num, (Rat.coe_int_num_of_den_eq_one hd).symm, hn⟩
  · rintro ⟨z, rfl, hz⟩
    exact ⟨rfl, by simpa using hz⟩

theorem isInt_zero (M : Nat) : isInt M 0 := ⟨rfl, by simp⟩

theorem isInt_mono (M N : Nat) (u : ℚ) (h : isInt M u) (hMN : M ≤ N) : isInt N u :=
  ⟨h.1, Nat.le_trans h.2 hMN⟩

theorem isInt_add (B M : Nat) (u v : ℚ) (hu : isInt B u) (hv : isInt M v) :
    isInt (B + M) (u + v) := by
  obtain ⟨a, rfl, ha⟩ := (isInt_iff B u).mp hu
  obtain ⟨b, rfl, hb⟩ := (isInt_iff M v).mp hv
  refine (isInt_iff _ _).mpr ⟨a + b, by push_cast; rfl, ?_⟩
  omega

/-- An integer of magnitude below `2^53` is a double. -/
theorem round_of_isInt (M : Nat) (u : ℚ) (hu : isInt M u) (hM : M < 2 ^ 53) : round u = u := by
  obtain ⟨a, rfl, ha⟩ := (isInt_iff M u).mp hu
  apply round_intCast
  have h1 : |a| = (a.natAbs : Int) := Int.abs_eq_natAbs a
  rw [h1]
  have h2 : a.natAbs < 2 ^ 53 := Nat.lt_of_le_of_lt ha hM
  exact_mod_cast h2

/-- The sum of two integers is exact when the magnitudes stay below `2^53`. -/
theorem add_of_isInt (B M : Nat) (u v : ℚ) (hu : isInt B u) (hv : isInt M v)
    (h : B + M < 2 ^ 53) : add u v = u + v :=
  round_of_isInt (B + M) (u + v) (isInt_add B M u v hu hv) h

end Double

/-! ## Lemmas on the economic-limit evaluator -/

theorem waterCutPerf_getD (ctx : EconContext) (well_state : WellState) (perf_start n p : Nat)
    (hp : p < n) :
    (waterCutPerf ctx well_state perf_start n).getD p 0
      = perfWaterCut ctx well_state (perf_start + p) := by
  simp [waterCutPerf, List.getD_eq_getElem?_getD, hp]

theorem worstOffendingScan_succ (wcp : List ℚ) (n : Nat) (init : Int × ℚ) :
    worstOffendingScan wcp (n + 1) init
      = if wcp.getD n 0 > (worstOffendingScan wcp n init).2 then ((n : Int), wcp.getD n 0)
        else worstOffendingScan wcp n init := by
  simp [worstOffendingScan, List.range_succ, List.foldl_append]

/-- Invariant of the scan for the worst-offending connection: the running
maximum bounds every value seen, and either nothing exceeded the initial
maximum or the state is the first index at which the maximum is attained. -/
theorem worstOffendingScan_spec (wcp : List ℚ) (i0 : Int) (m0 : ℚ) (n : Nat) :
    (∀ p, p < n → wcp.getD p 0 ≤ (worstOffendingScan wcp n (i0, m0)).2) ∧
    m0 ≤ (worstOffendingScan wcp n (i0, m0)).2 ∧
    (worstOffendingScan wcp n (i0, m0) = (i0, m0) ∨
      ∃ c : Nat, c < n ∧ worstOffendingScan wcp n (i0, m0) = ((c : Int), wcp.getD c 0) ∧
        m0 < wcp.getD c 0 ∧ ∀ p, p < c → wcp.getD p 0 < wcp.getD c 0) := by
  induction n with
  | zero => simp [worstOffendingScan]
  | succ n ih =>
    obtain ⟨hle, hm0, hcase⟩ := ih
    rw [worstOffendingScan_succ]
    by_cases hgt : wcp.getD n 0 > (worstOffendingScan wcp n (i0, m0)).2
    · rw [if_pos hgt]
      refine ⟨?_, ?_, Or.inr ⟨n, Nat.lt_succ_self n, rfl, ?_, ?_⟩⟩
      · intro p hp
        rcases Nat.lt_succ_iff_lt_or_eq.mp hp with h | h
        · exact le_of_lt (lt_of_le_of_lt (hle p h) hgt)
        · subst h; exact le_refl _
      · exact le_of_lt (lt_of_le_of_lt hm0 hgt)
      · exact lt_of_le_of_lt hm0 hgt
      · intro p hp
        exact lt_of_le_of_lt (hle p hp) hgt
    · rw [if_neg hgt]
      refine ⟨?_, hm0, ?_⟩
      · intro p hp
        rcases Nat.lt_succ_iff_lt_or_eq.mp hp with h | h
        · exact hle p h
        · subst h; exact not_lt.mp hgt
      · rcases hcase with h | ⟨c, hc, h1, h2, h3⟩
        · exact Or.inl h
        · exact Or.inr ⟨c, Nat.lt_succ_of_lt hc, h1, h2, h3⟩

theorem checkRateEconLimits_fst_iff (ctx : EconContext) (l : WellEconProductionLimits)
    (well_state : WellState) (well_number : Nat) :
    (checkRateEconLimits ctx l well_state well_number).1 = true ↔
      (l.onMinOilRate = true ∧
        |well_state.wellRates.getD
            (well_number * well_state.numPhases + ctx.phase_usage_.phase_pos Phase.Oil) 0|
          < l.minOilRate) ∨
      (l.onMinGasRate = true ∧
        |well_state.wellRates.getD
            (well_number * well_state.numPhases + ctx.phase_usage_.phase_pos Phase.Gas) 0|
          < l.minGasRate) ∨
      (l.onMinLiquidRate = true ∧
        |Double.add
            (well_state.wellRates.getD
              (well_number * well_state.numPhases + ctx.phase_usage_.phase_pos Phase.Oil) 0)
            (well_state.wellRates.getD
              (well_number * well_state.numPhases + ctx.phase_usage_.phase_pos Phase.Water) 0)|
          < l.minLiquidRate) := by
  unfold checkRateEconLimits
  simp only []
  split_ifs with h1 h2 h3 h4 <;> simp_all

theorem checkRateEconLimits_onAnyRateLimit (ctx : EconContext) (l : WellEconProductionLimits)
    (well_state : WellState) (well_number : Nat)
    (h : (checkRateEconLimits ctx l well_state well_number).1 = true) :
    l.onAnyRateLimit = true := by
  rw [checkRateEconLimits_fst_iff] at h
  unfold WellEconProductionLimits.onAnyRateLimit
  rcases h with h | h | h <;> simp [h.1]

/-- The tuple returned by `checkRatioEconLimits`, in terms of the one returned
by `checkMaxWaterCutLimit`. -/
theorem checkRatioEconLimits_fst (ctx : EconContext) (l : WellEconProductionLimits)
    (well_state : WellState) (map_entry : WellMapEntryType) :
    (checkRatioEconLimits ctx l well_state map_entry).1 =
      if l.onMaxWaterCut = true ∧ (checkMaxWaterCutLimit ctx l well_state map_entry).violated = true then
        if (checkMaxWaterCutLimit ctx l well_state map_entry).violation_extent > -1 then
          ⟨true, (checkMaxWaterCutLimit ctx l well_state map_entry).last_connection,
            (checkMaxWaterCutLimit ctx l well_state map_entry).worst_offending_connection,
            (checkMaxWaterCutLimit ctx l well_state map_entry).violation_extent⟩
        else ⟨true, false, ctx.INVALIDCONNECTION, -1⟩
      else ⟨false, false, ctx.INVALIDCONNECTION, -1⟩ := by
  unfold checkRatioEconLimits
  simp only []
  split_ifs <;> simp_all

theorem checkRatioEconLimits_violated (ctx : EconContext) (l : WellEconProductionLimits)
    (well_state : WellState) (map_entry : WellMapEntryType) :
    (checkRatioEconLimits ctx l well_state map_entry).1.violated
      = (l.onMaxWaterCut && (checkMaxWaterCutLimit ctx l well_state map_entry).violated) := by
  rw [checkRatioEconLimits_fst]
  split_ifs with h1 h2 <;> simp_all

/-- The directive list after the pass of `updateListEconLimited` for well `w`,
as a function of the list before it. -/
theorem updateListEconLimitedWell_fst (ctx : EconContext) (schedule : Schedule)
    (current_step : Nat) (wells_struct : Wells) (well_state : WellState) (w : Nat)
    (acc : DynamicListEconLimited × OpmLog) :
    (updateListEconLimitedWell ctx schedule current_step wells_struct well_state w acc).1 =
      if wells_struct.type w ≠ WellType.PRODUCER then acc.1
      else if (checkRateEconLimits ctx
          ((schedule.getWell (wells_struct.name w)).getEconProductionLimits current_step)
          well_state (well_state.wellMap (wells_struct.name w)).well_number).1 = true then
        if (schedule.getWell (wells_struct.name w)).getAutomaticShutIn = true then
          acc.1.addShutWell (wells_struct.name w)
        else acc.1.addStoppedWell (wells_struct.name w)
      else if (checkRatioEconLimits ctx
          ((schedule.getWell (wells_struct.name w)).getEconProductionLimits current_step)
          well_state (well_state.wellMap (wells_struct.name w))).1.violated = true then
        if (checkRatioEconLimits ctx
            ((schedule.getWell (wells_struct.name w)).getEconProductionLimits current_step)
            well_state (well_state.wellMap (wells_struct.name w))).1.last_connection = true then
          (acc.1.addClosedConnectionsForWell (wells_struct.name w)
            (wells_struct.well_cells (((well_state.wellMap (wells_struct.name w)).perf_start : Int)
              + (checkRatioEconLimits ctx
                  ((schedule.getWell (wells_struct.name w)).getEconProductionLimits current_step)
                  well_state (well_state.wellMap (wells_struct.name w))).1.worst_offending_connection))).addShutWell
            (wells_struct.name w)
        else
          acc.1.addClosedConnectionsForWell (wells_struct.name w)
            (wells_struct.well_cells (((well_state.wellMap (wells_struct.name w)).perf_start : Int)
              + (checkRatioEconLimits ctx
                  ((schedule.getWell (wells_struct.name w)).getEconProductionLimits current_step)
                  well_state (well_state.wellMap (wells_struct.name w))).1.worst_offending_connection))
      else acc.1 := by
  have hrate := checkRateEconLimits_onAnyRateLimit ctx
    ((schedule.getWell (wells_struct.name w)).getEconProductionLimits current_step)
    well_state (well_state.wellMap (wells_struct.name w)).well_number
  have hratio := checkRatioEconLimits_violated ctx
    ((schedule.getWell (wells_struct.name w)).getEconProductionLimits current_step)
    well_state (well_state.wellMap (wells_struct.name w))
  unfold updateListEconLimitedWell
  simp only []
  by_cases hprod : wells_struct.type w = WellType.PRODUCER
  · simp only [hprod, ne_eq, not_true_eq_false, if_false]
    by_cases hv : (checkRateEconLimits ctx
          ((schedule.getWell (wells_struct.name w)).getEconProductionLimits current_step)
          well_state (well_state.wellMap (wells_struct.name w)).well_number).1 = true
    · have h1 := hrate hv
      have h2 : ((schedule.getWell (wells_struct.name w)).getEconProductionLimits
          current_step).onAnyEffectiveLimit = true := by
        unfold WellEconProductionLimits.onAnyEffectiveLimit
        simp [h1]
      simp only [h1, h2, hv, if_true]
      split_ifs <;> simp_all
    · simp only [hv]
      by_cases hr : (checkRatioEconLimits ctx
          ((schedule.getWell (wells_struct.name w)).getEconProductionLimits current_step)
          well_state (well_state.wellMap (wells_struct.name w))).1.violated = true
      · have h3 : ((schedule.getWell (wells_struct.name w)).getEconProductionLimits
            current_step).onMaxWaterCut = true := by
          rw [hratio] at hr
          simp only [Bool.and_eq_true] at hr
          exact hr.1
        have h4 : ((schedule.getWell (wells_struct.name w)).getEconProductionLimits
            current_step).onAnyRatioLimit = true := by
          unfold WellEconProductionLimits.onAnyRatioLimit
          simp [h3]
        have h5 : ((schedule.getWell (wells_struct.name w)).getEconProductionLimits
            current_step).onAnyEffectiveLimit = true := by
          unfold WellEconProductionLimits.onAnyEffectiveLimit
          simp [h4]
        simp only [h4, h5, hr, if_true]
        split_ifs <;> simp_all
      · simp only [hr]
        split_ifs <;> simp_all
  · simp [hprod]

theorem updateListEconLimitedWell_mono (ctx : EconContext) (schedule : Schedule)
    (current_step : Nat) (wells_struct : Wells) (well_state : WellState) (w : Nat)
    (acc : DynamicListEconLimited × OpmLog) :
    (∀ x, x ∈ acc.1.shut_wells →
      x ∈ (updateListEconLimitedWell ctx schedule current_step wells_struct well_state w acc).1.shut_wells) ∧
    (∀ x, x ∈ acc.1.stopped_wells →
      x ∈ (updateListEconLimitedWell ctx schedule current_step wells_struct well_state w acc).1.stopped_wells) ∧
    (∀ x, x ∈ acc.1.closed_connections →
      x ∈ (updateListEconLimitedWell ctx schedule current_step wells_struct well_state w
        acc).1.closed_connections) := by
  rw [updateListEconLimitedWell_fst]
  split_ifs <;>
    simp [DynamicListEconLimited.addShutWell, DynamicListEconLimited.addStoppedWell,
      DynamicListEconLimited.addClosedConnectionsForWell] <;> tauto

theorem updateListEconLimitedLoop_mono (ctx : EconContext) (schedule : Schedule)
    (current_step : Nat) (wells_struct : Wells) (well_state : WellState)
    (acc : DynamicListEconLimited × OpmLog) (n k : Nat) :
    (∀ x, x ∈ (updateListEconLimitedLoop ctx schedule current_step wells_struct well_state n
          acc).1.shut_wells →
      x ∈ (updateListEconLimitedLoop ctx schedule current_step wells_struct well_state (n + k)
          acc).1.shut_wells) ∧
    (∀ x, x ∈ (updateListEconLimitedLoop ctx schedule current_step wells_struct well_state n
          acc).1.stopped_wells →
      x ∈ (updateListEconLimitedLoop ctx schedule current_step wells_struct well_state (n + k)
          acc).1.stopped_wells) ∧
    (∀ x, x ∈ (updateListEconLimitedLoop ctx schedule current_step wells_struct well_state n
          acc).1.closed_connections →
      x ∈ (updateListEconLimitedLoop ctx schedule current_step wells_struct well_state (n + k)
          acc).1.closed_connections) := by
  induction k with
  | zero => simp
  | succ k ih =>
    obtain ⟨h1, h2, h3⟩ := ih
    obtain ⟨g1, g2, g3⟩ := updateListEconLimitedWell_mono ctx schedule current_step wells_struct
      well_state (n + k)
      (updateListEconLimitedLoop ctx schedule current_step wells_struct well_state (n + k) acc)
    refine ⟨fun x hx => ?_, fun x hx => ?_, fun x hx => ?_⟩
    · exact g1 x (h1 x hx)
    · exact g2 x (h2 x hx)
    · exact g3 x (h3 x hx)

/-- Whatever the pass for well `w` adds stays in the list that
`updateListEconLimited` returns. -/
theorem updateListEconLimited_keeps (ctx : EconContext) (schedule : Schedule)
    (current_step : Nat) (W : Wells) (well_state : WellState) (L0 : DynamicListEconLimited)
    (w : Nat) (hw : w < W.number_of_wells) :
    (∀ x, x ∈ (updateListEconLimitedLoop ctx schedule current_step W well_state (w + 1)
          (L0, [])).1.shut_wells →
      x ∈ (updateListEconLimited ctx schedule current_step (some W) well_state L0).1.shut_wells) ∧
    (∀ x, x ∈ (updateListEconLimitedLoop ctx schedule current_step W well_state (w + 1)
          (L0, [])).1.stopped_wells →
      x ∈ (updateListEconLimited ctx schedule current_step (some W) well_state L0).1.stopped_wells) ∧
    (∀ x, x ∈ (updateListEconLimitedLoop ctx schedule current_step W well_state (w + 1)
          (L0, [])).1.closed_connections →
      x ∈ (updateListEconLimited ctx schedule current_step (some W) well_state
          L0).1.closed_connections) := by
  have h := updateListEconLimitedLoop_mono ctx schedule current_step W well_state (L0, [])
    (w + 1) (W.number_of_wells - (w + 1))
  have e : w + 1 + (W.number_of_wells - (w + 1)) = W.number_of_wells := by omega
  rw [e] at h
  exact h

/-- Claim C1. A producer whose rate check `checkRateEconLimits` reports a
violation (which makes a limit effective): the pass of `updateListEconLimited`
for that well appends the well name to the shut list when automatic shut-in is
set and to the stopped list otherwise, and changes nothing else; in particular
it adds no closed-connection directive, whatever the ratio limits and the water
cut are. The name is in the list that `updateListEconLimited` returns. -/
theorem updateListEconLimited_rate_violation (ctx : EconContext) (schedule : Schedule)
    (current_step : Nat) (W : Wells) (well_state : WellState) (L0 : DynamicListEconLimited)
    (acc : DynamicListEconLimited × OpmLog) (w : Nat)
    (hw : w < W.number_of_wells)
    (hprod : W.type w = WellType.PRODUCER)
    (hviol : (checkRateEconLimits ctx
        ((schedule.getWell (W.name w)).getEconProductionLimits current_step)
        well_state (well_state.wellMap (W.name w)).well_number).1 = true) :
    ((schedule.getWell (W.name w)).getAutomaticShutIn = true →
      (updateListEconLimitedWell ctx schedule current_step W well_state w acc).1
          = { acc.1 with shut_wells := acc.1.shut_wells ++ [W.name w] } ∧
      W.name w ∈ (updateListEconLimited ctx schedule current_step (some W) well_state
          L0).1.shut_wells) ∧
    ((schedule.getWell (W.name w)).getAutomaticShutIn = false →
      (updateListEconLimitedWell ctx schedule current_step W well_state w acc).1
          = { acc.1 with stopped_wells := acc.1.stopped_wells ++ [W.name w] } ∧
      W.name w ∈ (updateListEconLimited ctx schedule current_step (some W) well_state
          L0).1.stopped_wells) ∧
    (updateListEconLimitedWell ctx schedule current_step W well_state w acc).1.closed_connections
      = acc.1.closed_connections := by
  have hpass : ∀ a : DynamicListEconLimited × OpmLog,
      (updateListEconLimitedWell ctx schedule current_step W well_state w a).1 =
        if (schedule.getWell (W.name w)).getAutomaticShutIn = true then
          a.1.addShutWell (W.name w)
        else a.1.addStoppedWell (W.name w) := by
    intro a
    rw [updateListEconLimitedWell_fst]
    simp [hprod, hviol]
  obtain ⟨k1, k2, _⟩ := updateListEconLimited_keeps ctx schedule current_step W well_state L0 w hw
  refine ⟨fun hauto => ⟨?_, ?_⟩, fun hauto => ⟨?_, ?_⟩, ?_⟩
  · rw [hpass, if_pos hauto]; rfl
  · apply k1
    show W.name w ∈ (updateListEconLimitedWell ctx schedule current_step W well_state w _).1.shut_wells
    rw [hpass, if_pos hauto]
    simp [DynamicListEconLimited.addShutWell]
  · rw [hpass, if_neg (by simp [hauto])]; rfl
  · apply k2
    show W.name w ∈ (updateListEconLimitedWell ctx schedule current_step W well_state w _).1.stopped_wells
    rw [hpass, if_neg (by simp [hauto])]
    simp [DynamicListEconLimited.addStoppedWell]
  · rw [hpass]
    split_ifs <;> rfl

/-- Instance of C1: minimum oil rate 100, oil rate 50, automatic shut-in set;
the rate check reports a violation, the well `P1` is shut and no connection is
closed. -/
theorem updateListEconLimited_rate_violation_witness :
    (checkRateEconLimits fxCtx fxMinOil fxStateOil50 0).1 = true ∧
    (updateListEconLimited fxCtx (fxSchedule true fxMinOil) 0 (some (fxWells WellType.PRODUCER))
        fxStateOil50 {}).1 = ⟨["P1"], [], []⟩ ∧
    "P1" ∈ (updateListEconLimited fxCtx (fxSchedule true fxMinOil) 0
        (some (fxWells WellType.PRODUCER)) fxStateOil50 {}).1.shut_wells := by
  have hviol : (checkRateEconLimits fxCtx fxMinOil fxStateOil50 0).1 = true := by
    norm_num [checkRateEconLimits, fxCtx, fxMinOil, fxStateOil50, fxPhaseUsage]
  have h := updateListEconLimited_rate_violation fxCtx (fxSchedule true fxMinOil) 0
    (fxWells WellType.PRODUCER) fxStateOil50 {} ({}, []) 0 (by decide) rfl hviol
  exact ⟨hviol, (h.1 rfl).1, (h.1 rfl).2⟩

/-- With at least two connections, a violated limit and a connection of
positive local water cut, the scan of `checkMaxWaterCutLimit` ends on the first
index at which the local water cut is maximal. -/
theorem checkMaxWaterCutLimit_first_max (ctx : EconContext)
    (l : WellEconProductionLimits) (well_state : WellState) (map_entry : WellMapEntryType)
    (hperf : 2 ≤ map_entry.perf_number)
    (hviol : wellWaterCut ctx well_state map_entry.well_number > l.maxWaterCut)
    (hpos : ∃ p, p < map_entry.perf_number ∧
      0 < perfWaterCut ctx well_state (map_entry.perf_start + p)) :
    (checkMaxWaterCutLimit ctx l well_state map_entry).violated = true ∧
    (checkMaxWaterCutLimit ctx l well_state map_entry).last_connection = false ∧
    ∃ c : Nat, c < map_entry.perf_number ∧
      (checkMaxWaterCutLimit ctx l well_state map_entry).worst_offending_connection = (c : Int) ∧
      (∀ p, p < map_entry.perf_number →
        perfWaterCut ctx well_state (map_entry.perf_start + p)
          ≤ perfWaterCut ctx well_state (map_entry.perf_start + c)) ∧
      (∀ p, p < c →
        perfWaterCut ctx well_state (map_entry.perf_start + p)
          < perfWaterCut ctx well_state (map_entry.perf_start + c)) := by
  have hne : map_entry.perf_number ≠ 1 := by omega
  obtain ⟨hle, _, hcase⟩ := worstOffendingScan_spec
    (waterCutPerf ctx well_state map_entry.perf_start map_entry.perf_number)
    ctx.INVALIDCONNECTION 0 map_entry.perf_number
  have hres : checkMaxWaterCutLimit ctx l well_state map_entry =
      ⟨true, false,
        (worstOffendingScan (waterCutPerf ctx well_state map_entry.perf_start map_entry.perf_number)
          map_entry.perf_number (ctx.INVALIDCONNECTION, 0)).1,
        (worstOffendingScan (waterCutPerf ctx well_state map_entry.perf_start map_entry.perf_number)
          map_entry.perf_number (ctx.INVALIDCONNECTION, 0)).2 / l.maxWaterCut⟩ := by
    unfold checkMaxWaterCutLimit
    simp only [gt_iff_lt] at hviol ⊢
    rw [if_pos hviol, if_neg hne]
  rw [hres]
  refine ⟨rfl, rfl, ?_⟩
  rcases hcase with h | ⟨c, hc, h1, _, h3⟩
  · exfalso
    obtain ⟨p, hp, hp0⟩ := hpos
    have := hle p hp
    rw [h, waterCutPerf_getD ctx well_state _ _ _ hp] at this
    exact absurd hp0 (not_lt.mpr this)
  · refine ⟨c, hc, ?_, ?_, ?_⟩
    · rw [h1]
    · intro p hp
      have := hle p hp
      rw [h1, waterCutPerf_getD ctx well_state _ _ _ hp,
        waterCutPerf_getD ctx well_state _ _ _ hc] at this
      exact this
    · intro p hp
      have := h3 p hp
      rw [waterCutPerf_getD ctx well_state _ _ _ (lt_trans hp hc),
        waterCutPerf_getD ctx well_state _ _ _ hc] at this
      exact this

theorem fxStateThreePerf_cuts :
    wellWaterCut fxCtx fxStateThreePerf 0 = 31 / 35 ∧
    perfWaterCut fxCtx fxStateThreePerf 0 = 9 / 10 ∧
    perfWaterCut fxCtx fxStateThreePerf 1 = 19 / 20 ∧
    perfWaterCut fxCtx fxStateThreePerf 2 = 3 / 5 := by
  refine ⟨?_, ?_, ?_, ?_⟩ <;>
    norm_num [wellWaterCut, perfWaterCut, fxCtx, fxStateThreePerf, fxPhaseUsage]

/-- The last-connection rule holds for a single connection whose violation
extent (local water cut divided by the limit) exceeds `-1`: the pass closes
connection 0 and shuts the well. -/
theorem updateListEconLimitedWell_last_connection (ctx : EconContext) (schedule : Schedule)
    (current_step : Nat) (W : Wells) (well_state : WellState)
    (acc : DynamicListEconLimited × OpmLog) (w : Nat)
    (hprod : W.type w = WellType.PRODUCER)
    (hnorate : (checkRateEconLimits ctx
        ((schedule.getWell (W.name w)).getEconProductionLimits current_step)
        well_state (well_state.wellMap (W.name w)).well_number).1 = false)
    (hon : ((schedule.getWell (W.name w)).getEconProductionLimits current_step).onMaxWaterCut = true)
    (hone : (well_state.wellMap (W.name w)).perf_number = 1)
    (hviol : wellWaterCut ctx well_state (well_state.wellMap (W.name w)).well_number
      > ((schedule.getWell (W.name w)).getEconProductionLimits current_step).maxWaterCut)
    (hext : perfWaterCut ctx well_state (well_state.wellMap (W.name w)).perf_start
      / ((schedule.getWell (W.name w)).getEconProductionLimits current_step).maxWaterCut > -1) :
    (updateListEconLimitedWell ctx schedule current_step W well_state w acc).1
      = { acc.1 with
          shut_wells := acc.1.shut_wells ++ [W.name w]
          closed_connections := acc.1.closed_connections
            ++ [(W.name w, W.well_cells ((well_state.wellMap (W.name w)).perf_start : Int))] } := by
  have hmax : checkMaxWaterCutLimit ctx
      ((schedule.getWell (W.name w)).getEconProductionLimits current_step) well_state
      (well_state.wellMap (W.name w)) =
      ⟨true, true, 0, perfWaterCut ctx well_state (well_state.wellMap (W.name w)).perf_start
        / ((schedule.getWell (W.name w)).getEconProductionLimits current_step).maxWaterCut⟩ := by
    unfold checkMaxWaterCutLimit
    simp only [gt_iff_lt] at hviol ⊢
    rw [if_pos hviol, if_pos hone, hone]
    have := waterCutPerf_getD ctx well_state (well_state.wellMap (W.name w)).perf_start 1 0
      (by decide)
    simp only [Nat.add_zero] at this
    rw [this]
  have hratio := checkRatioEconLimits_fst ctx
    ((schedule.getWell (W.name w)).getEconProductionLimits current_step) well_state
    (well_state.wellMap (W.name w))
  rw [hmax] at hratio
  simp only [hon, true_and, if_true] at hratio
  rw [if_pos hext] at hratio
  rw [updateListEconLimitedWell_fst, hratio]
  simp [hprod, hnorate, DynamicListEconLimited.addShutWell,
    DynamicListEconLimited.addClosedConnectionsForWell]

/-- The ratio checks on the state `fxStateCrossflow`, for any value `inv` of the
constant `INVALIDCONNECTION`: `checkMaxWaterCutLimit` reports the last
connection with the violation extent -5/4, and `checkRatioEconLimits` drops
that result. -/
theorem fxStateCrossflow_checks (inv : Int) :
    wellWaterCut ⟨fxPhaseUsage, fun _ => true, inv⟩ fxStateCrossflow 0 = 9 / 10 ∧
    perfWaterCut ⟨fxPhaseUsage, fun _ => true, inv⟩ fxStateCrossflow 0 = -1 ∧
    (checkRateEconLimits ⟨fxPhaseUsage, fun _ => true, inv⟩ fxMaxWaterCut fxStateCrossflow 0).1
      = false ∧
    checkMaxWaterCutLimit ⟨fxPhaseUsage, fun _ => true, inv⟩ fxMaxWaterCut fxStateCrossflow
      ⟨0, 0, 1⟩ = ⟨true, true, 0, -5 / 4⟩ ∧
    (checkRatioEconLimits ⟨fxPhaseUsage, fun _ => true, inv⟩ fxMaxWaterCut fxStateCrossflow
      ⟨0, 0, 1⟩).1 = ⟨true, false, inv, -1⟩ := by
  have hcut : wellWaterCut ⟨fxPhaseUsage, fun _ => true, inv⟩ fxStateCrossflow 0 = 9 / 10 := by
    norm_num [wellWaterCut, fxStateCrossflow, fxPhaseUsage]
  have hperf : perfWaterCut ⟨fxPhaseUsage, fun _ => true, inv⟩ fxStateCrossflow 0 = -1 := by
    norm_num [perfWaterCut, fxStateCrossflow, fxPhaseUsage]
  have hrate : (checkRateEconLimits ⟨fxPhaseUsage, fun _ => true, inv⟩ fxMaxWaterCut
      fxStateCrossflow 0).1 = false := by
    simp [checkRateEconLimits, fxMaxWaterCut]
  have hmax : checkMaxWaterCutLimit ⟨fxPhaseUsage, fun _ => true, inv⟩ fxMaxWaterCut
      fxStateCrossflow ⟨0, 0, 1⟩ = ⟨true, true, 0, -5 / 4⟩ := by
    have hget := waterCutPerf_getD ⟨fxPhaseUsage, fun _ => true, inv⟩ fxStateCrossflow 0 1 0
      (by decide)
    rw [hperf] at hget
    unfold checkMaxWaterCutLimit
    simp only [hcut, hget]
    norm_num [fxMaxWaterCut]
  refine ⟨hcut, hperf, hrate, hmax, ?_⟩
  rw [checkRatioEconLimits_fst, hmax]
  norm_num [fxMaxWaterCut]

/-- The directives of `updateListEconLimited` on the state `fxStateCrossflow`,
for any value `inv` of the constant `INVALIDCONNECTION`. -/
theorem fxStateCrossflow_directives (inv : Int) :
    (updateListEconLimited ⟨fxPhaseUsage, fun _ => true, inv⟩ (fxSchedule true fxMaxWaterCut) 0
      (some (fxWells WellType.PRODUCER)) fxStateCrossflow {}).1
      = ⟨[], [], [("P1", 100 + inv)]⟩ := by
  obtain ⟨_, _, hrate, _, hratio⟩ := fxStateCrossflow_checks inv
  show (updateListEconLimitedWell ⟨fxPhaseUsage, fun _ => true, inv⟩
    (fxSchedule true fxMaxWaterCut) 0 (fxWells WellType.PRODUCER) fxStateCrossflow 0
    ({}, [])).1 = _
  rw [updateListEconLimitedWell_fst]
  have e1 : (fxStateCrossflow.wellMap ((fxWells WellType.PRODUCER).name 0)) = ⟨0, 0, 1⟩ := rfl
  have e2 : ((fxSchedule true fxMaxWaterCut).getWell
      ((fxWells WellType.PRODUCER).name 0)).getEconProductionLimits 0 = fxMaxWaterCut := rfl
  rw [e1, e2, hratio]
  simp [hrate, fxWells, DynamicListEconLimited.addClosedConnectionsForWell]

/-- Claim C3, evaluated at a failing input. The producer `P1` has no rate limit,
an active maximum water cut of 0.8, exactly one connection and a well water cut
of 0.9, but a local water cut of -1 in its connection. `updateListEconLimited`
does not shut the well, and the connection it closes is not connection 0
(cell 100): `checkRatioEconLimits` discards the water-cut result because the
violation extent -5/4 does not exceed its initial -1, and returns
`INVALIDCONNECTION` with `last_connection = false`. The well is not shut
whatever the value of `INVALIDCONNECTION` is. -/
theorem updateListEconLimited_last_connection_crossflow :
    (fxWells WellType.PRODUCER).type 0 = WellType.PRODUCER ∧
    (checkRateEconLimits fxCtx fxMaxWaterCut fxStateCrossflow 0).1 = false ∧
    fxMaxWaterCut.onMaxWaterCut = true ∧
    (fxStateCrossflow.wellMap "P1").perf_number = 1 ∧
    wellWaterCut fxCtx fxStateCrossflow 0 = 9 / 10 ∧
    fxMaxWaterCut.maxWaterCut = 4 / 5 ∧
    perfWaterCut fxCtx fxStateCrossflow 0 = -1 ∧
    (fxWells WellType.PRODUCER).well_cells 0 = 100 ∧
    (updateListEconLimited fxCtx (fxSchedule true fxMaxWaterCut) 0
      (some (fxWells WellType.PRODUCER)) fxStateCrossflow {}).1
      = ⟨[], [], [("P1", -99900)]⟩ ∧
    "P1" ∉ (updateListEconLimited fxCtx (fxSchedule true fxMaxWaterCut) 0
      (some (fxWells WellType.PRODUCER)) fxStateCrossflow {}).1.shut_wells ∧
    ("P1", (100 : Int)) ∉ (updateListEconLimited fxCtx (fxSchedule true fxMaxWaterCut) 0
      (some (fxWells WellType.PRODUCER)) fxStateCrossflow {}).1.closed_connections ∧
    (∀ inv : Int,
      (updateListEconLimited ⟨fxPhaseUsage, fun _ => true, inv⟩ (fxSchedule true fxMaxWaterCut) 0
        (some (fxWells WellType.PRODUCER)) fxStateCrossflow {}).1.shut_wells = []) := by
  obtain ⟨hcut, hperf, hrate, _, _⟩ := fxStateCrossflow_checks (-100000)
  have hres : (updateListEconLimited fxCtx (fxSchedule true fxMaxWaterCut) 0
      (some (fxWells WellType.PRODUCER)) fxStateCrossflow {}).1
      = ⟨[], [], [("P1", -99900)]⟩ := fxStateCrossflow_directives (-100000)
  refine ⟨rfl, hrate, rfl, rfl, hcut, rfl, hperf, rfl, hres, ?_, ?_, ?_⟩
  · rw [hres]; simp
  · rw [hres]; simp
  · intro inv
    rw [fxStateCrossflow_directives inv]

/-- The pass of `updateListEconLimited` for a producer with no rate-limit
violation, at least two connections and a violated maximum water cut: it
appends exactly one closed-connection directive, for the cell
`well_cells[perf_start + worst]` where `worst` is the index that the ratio check
returns, and leaves the shut list and the stopped list as they were; the
directive is in the list that `updateListEconLimited` returns. When the limit
is positive and a connection has a positive local water cut, `worst` is the
first connection of maximal local water cut; otherwise it need not be a
connection of the well. -/
theorem updateListEconLimited_closes_worst_connection (ctx : EconContext) (schedule : Schedule)
    (current_step : Nat) (W : Wells) (well_state : WellState) (L0 : DynamicListEconLimited)
    (acc : DynamicListEconLimited × OpmLog) (w : Nat)
    (hw : w < W.number_of_wells)
    (hprod : W.type w = WellType.PRODUCER)
    (hnorate : (checkRateEconLimits ctx
        ((schedule.getWell (W.name w)).getEconProductionLimits current_step)
        well_state (well_state.wellMap (W.name w)).well_number).1 = false)
    (hon : ((schedule.getWell (W.name w)).getEconProductionLimits current_step).onMaxWaterCut = true)
    (hperf : 2 ≤ (well_state.wellMap (W.name w)).perf_number)
    (hviol : wellWaterCut ctx well_state (well_state.wellMap (W.name w)).well_number
      > ((schedule.getWell (W.name w)).getEconProductionLimits current_step).maxWaterCut) :
    (updateListEconLimitedWell ctx schedule current_step W well_state w acc).1
      = { acc.1 with
          closed_connections := acc.1.closed_connections
            ++ [(W.name w, W.well_cells (((well_state.wellMap (W.name w)).perf_start : Int)
                + (checkRatioEconLimits ctx
                    ((schedule.getWell (W.name w)).getEconProductionLimits current_step)
                    well_state (well_state.wellMap (W.name w))).1.worst_offending_connection))] } ∧
    (W.name w, W.well_cells (((well_state.wellMap (W.name w)).perf_start : Int)
        + (checkRatioEconLimits ctx
            ((schedule.getWell (W.name w)).getEconProductionLimits current_step)
            well_state (well_state.wellMap (W.name w))).1.worst_offending_connection))
      ∈ (updateListEconLimited ctx schedule current_step (some W) well_state
          L0).1.closed_connections ∧
    ((0 < ((schedule.getWell (W.name w)).getEconProductionLimits current_step).maxWaterCut ∧
        ∃ p, p < (well_state.wellMap (W.name w)).perf_number ∧
          0 < perfWaterCut ctx well_state ((well_state.wellMap (W.name w)).perf_start + p)) →
      ∃ c : Nat, c < (well_state.wellMap (W.name w)).perf_number ∧
        (checkRatioEconLimits ctx
            ((schedule.getWell (W.name w)).getEconProductionLimits current_step)
            well_state (well_state.wellMap (W.name w))).1.worst_offending_connection = (c : Int) ∧
        (∀ p, p < (well_state.wellMap (W.name w)).perf_number →
          perfWaterCut ctx well_state ((well_state.wellMap (W.name w)).perf_start + p)
            ≤ perfWaterCut ctx well_state ((well_state.wellMap (W.name w)).perf_start + c)) ∧
        (∀ p, p < c →
          perfWaterCut ctx well_state ((well_state.wellMap (W.name w)).perf_start + p)
            < perfWaterCut ctx well_state ((well_state.wellMap (W.name w)).perf_start + c))) := by
  have hne : (well_state.wellMap (W.name w)).perf_number ≠ 1 := by omega
  have hmax : checkMaxWaterCutLimit ctx
      ((schedule.getWell (W.name w)).getEconProductionLimits current_step) well_state
      (well_state.wellMap (W.name w)) =
      ⟨true, false,
        (worstOffendingScan (waterCutPerf ctx well_state (well_state.wellMap (W.name w)).perf_start
            (well_state.wellMap (W.name w)).perf_number)
          (well_state.wellMap (W.name w)).perf_number (ctx.INVALIDCONNECTION, 0)).1,
        (worstOffendingScan (waterCutPerf ctx well_state (well_state.wellMap (W.name w)).perf_start
            (well_state.wellMap (W.name w)).perf_number)
          (well_state.wellMap (W.name w)).perf_number (ctx.INVALIDCONNECTION, 0)).2
          / ((schedule.getWell (W.name w)).getEconProductionLimits current_step).maxWaterCut⟩ := by
    unfold checkMaxWaterCutLimit
    simp only [gt_iff_lt] at hviol ⊢
    rw [if_pos hviol, if_neg hne]
  have hratio := checkRatioEconLimits_fst ctx
    ((schedule.getWell (W.name w)).getEconProductionLimits current_step) well_state
    (well_state.wellMap (W.name w))
  have hviolated : (checkRatioEconLimits ctx
      ((schedule.getWell (W.name w)).getEconProductionLimits current_step) well_state
      (well_state.wellMap (W.name w))).1.violated = true := by
    rw [checkRatioEconLimits_violated, hon, hmax]; rfl
  have hlast : (checkRatioEconLimits ctx
      ((schedule.getWell (W.name w)).getEconProductionLimits current_step) well_state
      (well_state.wellMap (W.name w))).1.last_connection = false := by
    rw [hratio, hmax]
    simp only [hon, and_self, if_true]
    split_ifs <;> rfl
  have hpass : ∀ a : DynamicListEconLimited × OpmLog,
      (updateListEconLimitedWell ctx schedule current_step W well_state w a).1
      = { a.1 with
          closed_connections := a.1.closed_connections
            ++ [(W.name w, W.well_cells (((well_state.wellMap (W.name w)).perf_start : Int)
                + (checkRatioEconLimits ctx
                    ((schedule.getWell (W.name w)).getEconProductionLimits current_step)
                    well_state (well_state.wellMap (W.name w))).1.worst_offending_connection))] } := by
    intro a
    rw [updateListEconLimitedWell_fst]
    simp [hprod, hnorate, hviolated, hlast, DynamicListEconLimited.addClosedConnectionsForWell]
  refine ⟨hpass acc, ?_, ?_⟩
  · apply (updateListEconLimited_keeps ctx schedule current_step W well_state L0 w hw).2.2
    show _ ∈ (updateListEconLimitedWell ctx schedule current_step W well_state w _).1.closed_connections
    rw [hpass]
    simp
  · rintro ⟨hlim, hpos⟩
    have hfirst := checkMaxWaterCutLimit_first_max ctx
      ((schedule.getWell (W.name w)).getEconProductionLimits current_step) well_state
      (well_state.wellMap (W.name w)) hperf hviol hpos
    have hnonneg := (worstOffendingScan_spec
      (waterCutPerf ctx well_state (well_state.wellMap (W.name w)).perf_start
        (well_state.wellMap (W.name w)).perf_number)
      ctx.INVALIDCONNECTION 0 (well_state.wellMap (W.name w)).perf_number).2.1
    have hext : (checkMaxWaterCutLimit ctx
        ((schedule.getWell (W.name w)).getEconProductionLimits current_step) well_state
        (well_state.wellMap (W.name w))).violation_extent > -1 := by
      rw [hmax]
      have := div_nonneg hnonneg (le_of_lt hlim)
      simp only [gt_iff_lt]
      linarith
    have hworst : (checkRatioEconLimits ctx
        ((schedule.getWell (W.name w)).getEconProductionLimits current_step) well_state
        (well_state.wellMap (W.name w))).1.worst_offending_connection =
        (checkMaxWaterCutLimit ctx
          ((schedule.getWell (W.name w)).getEconProductionLimits current_step) well_state
          (well_state.wellMap (W.name w))).worst_offending_connection := by
      rw [hratio, if_pos ⟨hon, hfirst.1⟩, if_pos hext]
    rw [hworst]
    exact hfirst.2.2

/-- The pass on local water cuts 0.9, 0.95 and 0.6 with the limit 0.8: the
connection that the ratio check returns is closed and the well is neither shut
nor stopped. -/
theorem updateListEconLimited_three_connections :
    wellWaterCut fxCtx fxStateThreePerf 0 > fxMaxWaterCut.maxWaterCut ∧
    (checkRateEconLimits fxCtx fxMaxWaterCut fxStateThreePerf 0).1 = false ∧
    (updateListEconLimited fxCtx (fxSchedule true fxMaxWaterCut) 0
      (some (fxWells WellType.PRODUCER)) fxStateThreePerf {}).1
      = ⟨[], [], [("P1", (fxWells WellType.PRODUCER).well_cells (0 +
          (checkRatioEconLimits fxCtx fxMaxWaterCut fxStateThreePerf
            ⟨0, 0, 3⟩).1.worst_offending_connection))]⟩ := by
  have hviol : wellWaterCut fxCtx fxStateThreePerf 0 > fxMaxWaterCut.maxWaterCut := by
    rw [fxStateThreePerf_cuts.1]; norm_num [fxMaxWaterCut]
  have hrate : (checkRateEconLimits fxCtx fxMaxWaterCut fxStateThreePerf 0).1 = false := by
    simp [checkRateEconLimits, fxMaxWaterCut]
  exact ⟨hviol, hrate,
    (updateListEconLimited_closes_worst_connection fxCtx (fxSchedule true fxMaxWaterCut) 0
      (fxWells WellType.PRODUCER) fxStateThreePerf {} ({}, []) 0 (by decide) rfl hrate rfl
      (by decide) hviol).1⟩

/-- Claim C5, as amended. `checkRateEconLimits` returns true exactly when the
minimum oil rate is on and `|oil rate|` is below it, or the minimum gas rate is
on and `|gas rate|` is below it, or the minimum liquid rate is on and the
magnitude of the liquid rate, the sum `oil rate + water rate` rounded to a
double, is below it; the minimum reservoir-fluid-rate limit, on or off and
whatever its value, does not change the result. -/
theorem checkRateEconLimits_spec (ctx : EconContext) (l : WellEconProductionLimits)
    (well_state : WellState) (well_number : Nat) :
    ((checkRateEconLimits ctx l well_state well_number).1 = true ↔
      (l.onMinOilRate = true ∧
        |well_state.wellRates.getD
            (well_number * well_state.numPhases + ctx.phase_usage_.phase_pos Phase.Oil) 0|
          < l.minOilRate) ∨
      (l.onMinGasRate = true ∧
        |well_state.wellRates.getD
            (well_number * well_state.numPhases + ctx.phase_usage_.phase_pos Phase.Gas) 0|
          < l.minGasRate) ∨
      (l.onMinLiquidRate = true ∧
        |Double.add
            (well_state.wellRates.getD
              (well_number * well_state.numPhases + ctx.phase_usage_.phase_pos Phase.Oil) 0)
            (well_state.wellRates.getD
              (well_number * well_state.numPhases + ctx.phase_usage_.phase_pos Phase.Water) 0)|
          < l.minLiquidRate)) ∧
    (∀ (o : Bool) (v : ℚ),
      (checkRateEconLimits ctx { l with onMinReservoirFluidRate := o, minReservoirFluidRate := v }
          well_state well_number).1
        = (checkRateEconLimits ctx l well_state well_number).1) := by
  refine ⟨checkRateEconLimits_fst_iff ctx l well_state well_number, ?_⟩
  intro o v
  rw [Bool.eq_iff_iff, checkRateEconLimits_fst_iff, checkRateEconLimits_fst_iff]

/-- Claim C6. A well that is not a `PRODUCER`, or a producer on which no
economic limit is effective: the pass of `updateListEconLimited` for that well
leaves the directive list (and the log) as they were, whatever the rates are. If
this holds of every well, `updateListEconLimited` returns the list it was
given. -/
theorem updateListEconLimited_skips_well (ctx : EconContext) (schedule : Schedule)
    (current_step : Nat) (W : Wells) (well_state : WellState) (L0 : DynamicListEconLimited)
    (acc : DynamicListEconLimited × OpmLog) (w : Nat)
    (hskip : W.type w ≠ WellType.PRODUCER ∨
      ((schedule.getWell (W.name w)).getEconProductionLimits current_step).onAnyEffectiveLimit
        = false) :
    updateListEconLimitedWell ctx schedule current_step W well_state w acc = acc ∧
    ((∀ v, v < W.number_of_wells → W.type v ≠ WellType.PRODUCER ∨
        ((schedule.getWell (W.name v)).getEconProductionLimits current_step).onAnyEffectiveLimit
          = false) →
      updateListEconLimited ctx schedule current_step (some W) well_state L0 = (L0, [])) := by
  have hpass : ∀ (v : Nat) (a : DynamicListEconLimited × OpmLog),
      (W.type v ≠ WellType.PRODUCER ∨
        ((schedule.getWell (W.name v)).getEconProductionLimits current_step).onAnyEffectiveLimit
          = false) →
      updateListEconLimitedWell ctx schedule current_step W well_state v a = a := by
    intro v a h
    unfold updateListEconLimitedWell
    simp only []
    rcases h with h | h
    · rw [if_pos h]
    · split_ifs
      · rfl
      · rfl
  refine ⟨hpass w acc hskip, fun hall => ?_⟩
  have hloop : ∀ n, n ≤ W.number_of_wells →
      updateListEconLimitedLoop ctx schedule current_step W well_state n (L0, []) = (L0, []) := by
    intro n
    induction n with
    | zero => intro _; rfl
    | succ n ih =>
      intro hn
      show updateListEconLimitedWell ctx schedule current_step W well_state n _ = _
      rw [ih (Nat.le_of_succ_le hn)]
      exact hpass n _ (hall n hn)
  exact hloop _ (le_refl _)

/-- Instance of C6: an injector whose rates violate the minimum oil rate gets no
directive. -/
theorem updateListEconLimited_skips_well_witness :
    (fxWells WellType.INJECTOR).type 0 ≠ WellType.PRODUCER ∧
    updateListEconLimited fxCtx (fxSchedule true fxMinOil) 0 (some (fxWells WellType.INJECTOR))
      fxStateOil50 {} = ({}, []) :=
  ⟨by decide,
    (updateListEconLimited_skips_well fxCtx (fxSchedule true fxMinOil) 0
      (fxWells WellType.INJECTOR) fxStateOil50 {} ({}, []) 0 (Or.inl (by decide))).2
      (fun _ _ => Or.inl (by simp [fxWells]))⟩

/-- What `checkRatioEconLimits` does: with the maximum water cut off it reports
no violation; its violation flag is that of `checkMaxWaterCutLimit`; the
gas-oil, water-gas and gas-liquid ratio limits do not change its result; and
its result is that of `checkMaxWaterCutLimit` unless that one reports a
violation with an extent of at most `-1`. -/
theorem checkRatioEconLimits_only_water_cut (ctx : EconContext) (l : WellEconProductionLimits)
    (well_state : WellState) (map_entry : WellMapEntryType) :
    (l.onMaxWaterCut = false →
      (checkRatioEconLimits ctx l well_state map_entry).1
        = ⟨false, false, ctx.INVALIDCONNECTION, -1⟩) ∧
    (l.onMaxWaterCut = true →
      (checkRatioEconLimits ctx l well_state map_entry).1.violated
        = (checkMaxWaterCutLimit ctx l well_state map_entry).violated) ∧
    (l.onMaxWaterCut = true →
      ((checkMaxWaterCutLimit ctx l well_state map_entry).violated = false ∨
        (checkMaxWaterCutLimit ctx l well_state map_entry).violation_extent > -1) →
      (checkRatioEconLimits ctx l well_state map_entry).1
        = checkMaxWaterCutLimit ctx l well_state map_entry) ∧
    (∀ (g w gl : Bool) (gv wv glv : ℚ),
      (checkRatioEconLimits ctx
          { l with onMaxGasOilRatio := g, maxGasOilRatio := gv, onMaxWaterGasRatio := w,
                   maxWaterGasRatio := wv, onMaxGasLiquidRatio := gl, maxGasLiquidRatio := glv }
          well_state map_entry).1
        = (checkRatioEconLimits ctx l well_state map_entry).1) := by
  refine ⟨?_, ?_, ?_, ?_⟩
  · intro h
    rw [checkRatioEconLimits_fst]
    simp [h]
  · intro h
    rw [checkRatioEconLimits_violated, h]
    simp
  · intro h hcase
    rw [checkRatioEconLimits_fst]
    by_cases hv : (checkMaxWaterCutLimit ctx l well_state map_entry).violated = true
    · have hext : (checkMaxWaterCutLimit ctx l well_state map_entry).violation_extent > -1 := by
        rcases hcase with h1 | h1
        · rw [h1] at hv; exact absurd hv (by decide)
        · exact h1
      rw [if_pos ⟨h, hv⟩, if_pos hext, ← hv]
    · rw [if_neg (fun hh => hv hh.2)]
      unfold checkMaxWaterCutLimit at hv ⊢
      simp only [] at hv ⊢
      split_ifs at hv ⊢ <;> simp_all
  · intro g w gl gv wv glv
    rw [checkRatioEconLimits_fst, checkRatioEconLimits_fst]
    rfl

/-- Claim C7, evaluated at a failing input. The maximum water cut 0.8 is
active, the well has one connection, its water cut is 0.9 and the local water
cut of the connection is -1. `checkMaxWaterCutLimit` returns
`(true, true, 0, -5/4)`, `checkRatioEconLimits` returns
`(true, false, INVALIDCONNECTION, -1)`: the two results differ, whatever the
value of `INVALIDCONNECTION` is. -/
theorem checkRatioEconLimits_crossflow :
    fxMaxWaterCut.onMaxWaterCut = true ∧
    checkMaxWaterCutLimit fxCtx fxMaxWaterCut fxStateCrossflow ⟨0, 0, 1⟩
      = ⟨true, true, 0, -5 / 4⟩ ∧
    (checkRatioEconLimits fxCtx fxMaxWaterCut fxStateCrossflow ⟨0, 0, 1⟩).1
      = ⟨true, false, fxCtx.INVALIDCONNECTION, -1⟩ ∧
    (∀ inv : Int,
      (checkRatioEconLimits ⟨fxPhaseUsage, fun _ => true, inv⟩ fxMaxWaterCut fxStateCrossflow
        ⟨0, 0, 1⟩).1
      ≠ checkMaxWaterCutLimit ⟨fxPhaseUsage, fun _ => true, inv⟩ fxMaxWaterCut fxStateCrossflow
        ⟨0, 0, 1⟩) := by
  obtain ⟨_, _, _, hmax, hratio⟩ := fxStateCrossflow_checks (-100000)
  refine ⟨rfl, hmax, hratio, ?_⟩
  intro inv
  obtain ⟨_, _, _, hmax2, hratio2⟩ := fxStateCrossflow_checks inv
  rw [hratio2, hmax2]
  intro h
  have := congrArg RatioCheckTuple.last_connection h
  simp at this

theorem updateListEconLimitedWell_unsupported (ctx : EconContext) (schedule schedule2 : Schedule)
    (current_step : Nat) (W : Wells) (well_state : WellState) (w : Nat)
    (acc acc2 : DynamicListEconLimited × OpmLog) (hacc : acc2.1 = acc.1)
    (h : differOnlyInUnsupported current_step (schedule.getWell (W.name w))
      (schedule2.getWell (W.name w))) :
    (updateListEconLimitedWell ctx schedule2 current_step W well_state w acc2).1
      = (updateListEconLimitedWell ctx schedule current_step W well_state w acc).1 := by
  obtain ⟨hauto, q, e, f, o, v, hl⟩ := h
  have hrate : (checkRateEconLimits ctx
      ((schedule2.getWell (W.name w)).getEconProductionLimits current_step) well_state
      (well_state.wellMap (W.name w)).well_number).1
      = (checkRateEconLimits ctx
      ((schedule.getWell (W.name w)).getEconProductionLimits current_step) well_state
      (well_state.wellMap (W.name w)).well_number).1 := by
    rw [hl, Bool.eq_iff_iff, checkRateEconLimits_fst_iff, checkRateEconLimits_fst_iff]
  have hratio : (checkRatioEconLimits ctx
      ((schedule2.getWell (W.name w)).getEconProductionLimits current_step) well_state
      (well_state.wellMap (W.name w))).1
      = (checkRatioEconLimits ctx
      ((schedule.getWell (W.name w)).getEconProductionLimits current_step) well_state
      (well_state.wellMap (W.name w))).1 := by
    rw [hl, checkRatioEconLimits_fst, checkRatioEconLimits_fst]
    rfl
  rw [updateListEconLimitedWell_fst, updateListEconLimitedWell_fst, hrate, hratio, hauto, hacc]

/-- Claim C8. Two runs of `updateListEconLimited` whose schedules differ, for
the wells of the `Wells` struct, at most in the quantity-limit kind (POTN or
RATE), the end-run flag, the follow-on well and the minimum
reservoir-fluid-rate limit return the same shut, stopped and closed-connection
directives. -/
theorem updateListEconLimited_unsupported_options (ctx : EconContext)
    (schedule schedule2 : Schedule) (current_step : Nat) (wells_struct : Option Wells)
    (well_state : WellState) (L0 : DynamicListEconLimited)
    (h : ∀ W, wells_struct = some W → ∀ w, w < W.number_of_wells →
      differOnlyInUnsupported current_step (schedule.getWell (W.name w))
        (schedule2.getWell (W.name w))) :
    (updateListEconLimited ctx schedule2 current_step wells_struct well_state L0).1
      = (updateListEconLimited ctx schedule current_step wells_struct well_state L0).1 := by
  cases wells_struct with
  | none => rfl
  | some W =>
    have hloop : ∀ n, n ≤ W.number_of_wells →
        (updateListEconLimitedLoop ctx schedule2 current_step W well_state n (L0, [])).1
          = (updateListEconLimitedLoop ctx schedule current_step W well_state n (L0, [])).1 := by
      intro n
      induction n with
      | zero => intro _; rfl
      | succ n ih =>
        intro hn
        exact updateListEconLimitedWell_unsupported ctx schedule schedule2 current_step W
          well_state n _ _ (ih (Nat.le_of_succ_le hn)) (h W rfl n hn)
    exact hloop _ (le_refl _)

/-- Instance of C8: the run with a POTN limit, the end-run flag, a follow-on
well and a minimum reservoir-fluid rate gives the directives of the run
without them. -/
theorem updateListEconLimited_unsupported_options_witness :
    (updateListEconLimited fxCtx
        (fxSchedule true { fxMinOil with
          quantityLimit := WellEcon.QuantityLimitEnum.POTN, endRun := true,
          validFollowonWell := true, onMinReservoirFluidRate := true,
          minReservoirFluidRate := 1000 })
        0 (some (fxWells WellType.PRODUCER)) fxStateOil50 {}).1
      = (updateListEconLimited fxCtx (fxSchedule true fxMinOil) 0
        (some (fxWells WellType.PRODUCER)) fxStateOil50 {}).1 :=
  updateListEconLimited_unsupported_options fxCtx (fxSchedule true fxMinOil)
    (fxSchedule true { fxMinOil with
      quantityLimit := WellEcon.QuantityLimitEnum.POTN, endRun := true,
      validFollowonWell := true, onMinReservoirFluidRate := true,
      minReservoirFluidRate := 1000 })
    0 (some (fxWells WellType.PRODUCER)) fxStateOil50 {}
    (fun _ _ _ _ => ⟨rfl, WellEcon.QuantityLimitEnum.POTN, true, true, true, 1000, rfl⟩)

namespace StandardWellsDense

variable {ι : Type}

/-! ## Lemmas on the well-only solve -/

theorem assembleWellEq_some (m : StandardWellsDense ι) (only_wells : Bool) (s : SimState ι)
    (hlen : m.number_of_wells_ ≤ m.well_container_.length) :
    ∃ s1, m.assembleWellEq only_wells s = some s1 := by
  unfold assembleWellEq
  generalize m.number_of_wells_ = n at hlen
  induction n with
  | zero => exact ⟨s, rfl⟩
  | succ n ih =>
    obtain ⟨s1, h1⟩ := ih (Nat.le_of_succ_le hlen)
    rw [List.range_succ, List.foldlM_append, h1]
    have hn : n < m.well_container_.length := hlen
    simp [List.getElem?_eq_getElem hn]

theorem solveWellEqPasses_succ (m : StandardWellsDense ι) (s sk s1 : SimState ι) (k : Nat)
    (hk : m.solveWellEqPasses k s = some sk) (ha : m.assembleWellEq true sk = some s1) :
    m.solveWellEqPasses (k + 1) s = some (m.solveWellEqUpdate s1) := by
  show (match m.solveWellEqPasses k s with
    | none => none
    | some sk => (m.assembleWellEq true sk).map m.solveWellEqUpdate) = _
  rw [hk]
  show (m.assembleWellEq true sk).map m.solveWellEqUpdate = _
  rw [ha]
  rfl

theorem solveWellEqPasses_some (m : StandardWellsDense ι) (s : SimState ι)
    (hlen : m.number_of_wells_ ≤ m.well_container_.length) (k : Nat) :
    ∃ sk, m.solveWellEqPasses k s = some sk := by
  induction k with
  | zero => exact ⟨s, rfl⟩
  | succ k ih =>
    obtain ⟨sk, hk⟩ := ih
    obtain ⟨s1, h1⟩ := m.assembleWellEq_some true sk hlen
    exact ⟨m.solveWellEqUpdate s1, m.solveWellEqPasses_succ s sk s1 k hk h1⟩

theorem solveWellEqTestAt_some (m : StandardWellsDense ι) (B_avg : List ℚ) (s : SimState ι)
    (hlen : m.number_of_wells_ ≤ m.well_container_.length) (k : Nat) :
    ∃ b, m.solveWellEqTestAt B_avg s k = some b := by
  obtain ⟨sk, hk⟩ := m.solveWellEqPasses_some s hlen k
  obtain ⟨s1, h1⟩ := m.assembleWellEq_some true sk hlen
  refine ⟨m.solveWellEqConverged B_avg s1, ?_⟩
  unfold solveWellEqTestAt
  simp only [hk, h1, Option.map_some']

/-- The states behind an outcome of the test of pass `k`. -/
theorem solveWellEqTestAt_eq_some (m : StandardWellsDense ι) (B_avg : List ℚ) (s : SimState ι)
    (k : Nat) (b : Bool) (h : m.solveWellEqTestAt B_avg s k = some b) :
    ∃ sk s1, m.solveWellEqPasses k s = some sk ∧ m.assembleWellEq true sk = some s1 ∧
      m.solveWellEqConverged B_avg s1 = b := by
  unfold solveWellEqTestAt at h
  cases hk : m.solveWellEqPasses k s with
  | none => simp [hk] at h
  | some sk =>
    simp only [hk] at h
    cases h1 : m.assembleWellEq true sk with
    | none => simp [h1] at h
    | some s1 =>
      simp only [h1, Option.map_some', Option.some.injEq] at h
      exact ⟨sk, s1, rfl, h1, h⟩

theorem solveWellEqLoop_converged (m : StandardWellsDense ι) (B_avg : List ℚ) (it : Nat)
    (s s1 : SimState ι) (ha : m.assembleWellEq true s = some s1)
    (hc : m.solveWellEqConverged B_avg s1 = true) :
    m.solveWellEqLoop B_avg it s = some (true, it, s1) := by
  rw [solveWellEqLoop, ha]
  simp [hc]

theorem solveWellEqLoop_step (m : StandardWellsDense ι) (B_avg : List ℚ) (it : Nat)
    (s s1 : SimState ι) (ha : m.assembleWellEq true s = some s1)
    (hc : m.solveWellEqConverged B_avg s1 = false) (hit : it + 1 < 15) :
    m.solveWellEqLoop B_avg it s = m.solveWellEqLoop B_avg (it + 1) (m.solveWellEqUpdate s1) := by
  rw [solveWellEqLoop, ha]
  simp [hc, hit]

theorem solveWellEqLoop_last (m : StandardWellsDense ι) (B_avg : List ℚ) (it : Nat)
    (s s1 : SimState ι) (ha : m.assembleWellEq true s = some s1)
    (hc : m.solveWellEqConverged B_avg s1 = false) (hit : ¬ it + 1 < 15) :
    m.solveWellEqLoop B_avg it s = some (false, it + 1, m.solveWellEqUpdate s1) := by
  rw [solveWellEqLoop, ha]
  simp [hc, hit]

/-- As long as the tests fail, the loop entered at the counter 0 is the loop
entered at the counter `k` on the data at the head of pass `k`. -/
theorem solveWellEqLoop_passes (m : StandardWellsDense ι) (B_avg : List ℚ) (s : SimState ι)
    (k : Nat) (hk : k < 15)
    (hfail : ∀ j, j < k → m.solveWellEqTestAt B_avg s j = some false) :
    ∃ sk, m.solveWellEqPasses k s = some sk ∧
      m.solveWellEqLoop B_avg 0 s = m.solveWellEqLoop B_avg k sk := by
  induction k with
  | zero => exact ⟨s, rfl, rfl⟩
  | succ k ih =>
    obtain ⟨sk, hsk, hloop⟩ := ih (Nat.lt_of_succ_lt hk)
      (fun j hj => hfail j (Nat.lt_succ_of_lt hj))
    obtain ⟨sk2, s1, h1, h2, h3⟩ := m.solveWellEqTestAt_eq_some B_avg s k false
      (hfail k (Nat.lt_succ_self k))
    rw [hsk] at h1
    cases h1
    refine ⟨m.solveWellEqUpdate s1, m.solveWellEqPasses_succ s sk s1 k hsk h2, ?_⟩
    rw [hloop, m.solveWellEqLoop_step B_avg k sk s1 h2 h3 hk]

theorem recoverWellControls_apply (nw : Nat) (cc : List Int) (c : Nat → Int) (w : Nat) :
    recoverWellControls nw cc c w = if w < nw then cc.getD w 0 else c w := by
  unfold recoverWellControls
  induction nw with
  | zero => simp
  | succ n ih =>
    rw [List.range_succ, List.foldl_append]
    simp only [List.foldl_cons, List.foldl_nil]
    by_cases hw : w = n
    · subst hw
      simp
    · rw [Function.update_noteq hw, ih]
      by_cases h1 : w < n
      · simp [h1, Nat.lt_succ_of_lt h1]
      · have : ¬ w < n + 1 := by omega
        simp [h1, this]

theorem getWellConvergence_iff (m : StandardWellsDense ι) (B_avg : List ℚ) (s : SimState ι) :
    m.getWellConvergence B_avg s = true ↔
      ∀ well, well ∈ m.well_container_ → well.getWellConvergence B_avg s = true := by
  unfold getWellConvergence
  have key : ∀ (l : List (StandardWell ι)) (acc : Bool),
      l.foldl (fun converged_well well =>
          if well.getWellConvergence B_avg s = false then false else converged_well) acc = true ↔
        acc = true ∧ ∀ well, well ∈ l → well.getWellConvergence B_avg s = true := by
    intro l
    induction l with
    | nil => intro acc; simp
    | cons a l ih =>
      intro acc
      rw [List.foldl_cons, ih]
      by_cases ha : a.getWellConvergence B_avg s = false
      · simp [ha]
      · simp only [ha, if_false]
        have ha2 : a.getWellConvergence B_avg s = true := by simpa using ha
        simp [ha2]
  rw [key]
  simp

/-- The result of `solveWellEq` when the tests of the 15 passes all fail. -/
theorem solveWellEq_of_all_fail (m : StandardWellsDense ι) (W : Wells) (s : SimState ι)
    (hW : m.wells_ = some W)
    (hfail : ∀ k, k < 15 →
      m.solveWellEqTestAt (m.computeAverageFormationFactor s (List.replicate m.numComponents 0))
        s k = some false) :
    ∃ s15, m.solveWellEqPasses 15 s = some s15 ∧
      m.solveWellEq s = some (⟨false, 15⟩,
        { well_state := s.well_state
          ctrl_current := fun w =>
            if w < W.number_of_wells then s.well_state.currentControls.getD w 0
            else s15.ctrl_current w
          leaf_nodes := s15.leaf_nodes
          ext := s15.ext }) := by
  obtain ⟨s14, hs14, hloop⟩ := m.solveWellEqLoop_passes _ s 14 (by decide)
    (fun j hj => hfail j (Nat.lt_succ_of_lt hj))
  obtain ⟨sk2, s1, h1, h2, h3⟩ := m.solveWellEqTestAt_eq_some _ s 14 false (hfail 14 (by decide))
  rw [hs14] at h1
  cases h1
  rw [m.solveWellEqLoop_last _ 14 s14 s1 h2 h3 (by decide)] at hloop
  refine ⟨m.solveWellEqUpdate s1, m.solveWellEqPasses_succ s s14 s1 14 hs14 h2, ?_⟩
  have hrec : recoverWellControls W.number_of_wells s.well_state.currentControls
      (m.solveWellEqUpdate s1).ctrl_current
      = fun w => if w < W.number_of_wells then s.well_state.currentControls.getD w 0
          else (m.solveWellEqUpdate s1).ctrl_current w :=
    funext fun w => recoverWellControls_apply _ _ _ w
  unfold solveWellEq wells
  rw [hW]
  simp only [hloop]
  simp only [if_true, hrec]

/-- The result of `solveWellEq` when the test of pass `k` is the first that
succeeds. -/
theorem solveWellEq_of_first_success (m : StandardWellsDense ι) (W : Wells) (s : SimState ι)
    (hW : m.wells_ = some W) (k : Nat) (hk : k < 15)
    (hsucc : m.solveWellEqTestAt
      (m.computeAverageFormationFactor s (List.replicate m.numComponents 0)) s k = some true)
    (hfail : ∀ j, j < k →
      m.solveWellEqTestAt (m.computeAverageFormationFactor s (List.replicate m.numComponents 0))
        s j = some false) :
    ∃ sk s1, m.solveWellEqPasses k s = some sk ∧ m.assembleWellEq true sk = some s1 ∧
      m.solveWellEq s = some (⟨true, k⟩, s1) := by
  obtain ⟨sk, hsk, hloop⟩ := m.solveWellEqLoop_passes _ s k hk hfail
  obtain ⟨sk2, s1, h1, h2, h3⟩ := m.solveWellEqTestAt_eq_some _ s k true hsucc
  rw [hsk] at h1
  cases h1
  rw [m.solveWellEqLoop_converged _ k sk s1 h2 h3] at hloop
  refine ⟨sk, s1, hsk, h2, ?_⟩
  unfold solveWellEq wells
  rw [hW]
  simp only [hloop]
  simp

theorem fxModel_assembleWellEq (s : SimState Nat) :
    fxModel.assembleWellEq true s = some { s with ext := s.ext + 1 } := rfl

theorem fxModel_solveWellEqUpdate_ext (s : SimState Nat) :
    (fxModel.solveWellEqUpdate s).ext = s.ext := rfl

theorem fxModel_solveWellEqPasses_ext (s : SimState Nat) (k : Nat) :
    ∃ sk, fxModel.solveWellEqPasses k s = some sk ∧ sk.ext = s.ext + k := by
  induction k with
  | zero => exact ⟨s, rfl, rfl⟩
  | succ k ih =>
    obtain ⟨sk, hk, hext⟩ := ih
    refine ⟨_, fxModel.solveWellEqPasses_succ s sk _ k hk (fxModel_assembleWellEq sk), ?_⟩
    rw [fxModel_solveWellEqUpdate_ext]
    show sk.ext + 1 = s.ext + (k + 1)
    omega

theorem fxModel_solveWellEqTestAt (B_avg : List ℚ) (s : SimState Nat) (k : Nat) :
    fxModel.solveWellEqTestAt B_avg s k = some false := by
  obtain ⟨sk, hk, _⟩ := fxModel_solveWellEqPasses_ext s k
  unfold solveWellEqTestAt
  rw [hk]
  rfl

/-- Claim C10. With the wells present and every container access in range:
the convergence test of a pass holds exactly when every well unit's test passes
and, if group control is active, the group targets are converged for the
current well rates; `solveWellEq` returns `converged = true` exactly when the
test of one of its at most 15 passes holds; it then stops at the first such
pass `k < 15`, with `total_well_iterations = k` (the Newton steps taken before)
and the data left by the assembly of that pass, not the entry snapshot; and
with group control active and group targets never converged it returns
`converged = false` after 15 passes, whatever the well units answer. -/
theorem solveWellEq_converged_iff (m : StandardWellsDense ι) (W : Wells) (s : SimState ι)
    (hW : m.wells_ = some W) (hlen : m.number_of_wells_ ≤ m.well_container_.length) :
    (∀ (B_avg : List ℚ) (s1 : SimState ι),
      m.solveWellEqConverged B_avg s1 = true ↔
        (∀ well, well ∈ m.well_container_ → well.getWellConvergence B_avg s1 = true) ∧
        (m.well_collection_.groupControlActive s1 = true →
          m.well_collection_.groupTargetConverged s1.well_state.wellRates s1 = true)) ∧
    ((∃ r s2, m.solveWellEq s = some (r, s2) ∧ r.converged = true) ↔
      ∃ k, k < 15 ∧
        m.solveWellEqTestAt (m.computeAverageFormationFactor s (List.replicate m.numComponents 0))
          s k = some true) ∧
    (∀ k, k < 15 →
      m.solveWellEqTestAt (m.computeAverageFormationFactor s (List.replicate m.numComponents 0))
        s k = some true →
      (∀ j, j < k →
        m.solveWellEqTestAt (m.computeAverageFormationFactor s (List.replicate m.numComponents 0))
          s j = some false) →
      ∃ sk s1, m.solveWellEqPasses k s = some sk ∧ m.assembleWellEq true sk = some s1 ∧
        m.solveWellEq s = some (⟨true, k⟩, s1)) ∧
    ((∀ s1, m.well_collection_.groupControlActive s1 = true ∧
        m.well_collection_.groupTargetConverged s1.well_state.wellRates s1 = false) →
      ∃ s2, m.solveWellEq s = some (⟨false, 15⟩, s2)) := by
  have htest : ∀ (B_avg : List ℚ) (s1 : SimState ι),
      m.solveWellEqConverged B_avg s1 = true ↔
        (∀ well, well ∈ m.well_container_ → well.getWellConvergence B_avg s1 = true) ∧
        (m.well_collection_.groupControlActive s1 = true →
          m.well_collection_.groupTargetConverged s1.well_state.wellRates s1 = true) := by
    intro B_avg s1
    unfold solveWellEqConverged
    simp only []
    by_cases hg : m.well_collection_.groupControlActive s1 = true
    · rw [if_pos hg, Bool.and_eq_true, getWellConvergence_iff]
      simp [hg]
    · rw [if_neg hg, getWellConvergence_iff]
      simp [hg]
  have hfirst := fun k hk h1 h2 => m.solveWellEq_of_first_success W s hW k hk h1 h2
  refine ⟨htest, ⟨?_, ?_⟩, hfirst, ?_⟩
  · rintro ⟨r, s2, hres, hconv⟩
    by_contra hno
    have hfail : ∀ k, k < 15 →
        m.solveWellEqTestAt
          (m.computeAverageFormationFactor s (List.replicate m.numComponents 0)) s k
          = some false := by
      intro k hk
      obtain ⟨b, hb⟩ := m.solveWellEqTestAt_some
        (m.computeAverageFormationFactor s (List.replicate m.numComponents 0)) s hlen k
      cases b with
      | false => exact hb
      | true => exact absurd ⟨k, hk, hb⟩ hno
    obtain ⟨s15, _, hall⟩ := m.solveWellEq_of_all_fail W s hW hfail
    rw [hall] at hres
    cases hres
    cases hconv
  · intro hex
    classical
    have hk0 := Nat.find_spec hex
    have hmin := fun j (hj : j < Nat.find hex) => Nat.find_min hex hj
    have hfail : ∀ j, j < Nat.find hex →
        m.solveWellEqTestAt
          (m.computeAverageFormationFactor s (List.replicate m.numComponents 0)) s j
          = some false := by
      intro j hj
      obtain ⟨b, hb⟩ := m.solveWellEqTestAt_some
        (m.computeAverageFormationFactor s (List.replicate m.numComponents 0)) s hlen j
      cases b with
      | false => exact hb
      | true => exact absurd ⟨lt_trans hj hk0.1, hb⟩ (hmin j hj)
    obtain ⟨sk, s1, _, _, hres⟩ := hfirst _ hk0.1 hk0.2 hfail
    exact ⟨_, _, hres, rfl⟩
  · intro hgroup
    have hfail : ∀ k, k < 15 →
        m.solveWellEqTestAt
          (m.computeAverageFormationFactor s (List.replicate m.numComponents 0)) s k
          = some false := by
      intro k _
      obtain ⟨sk, hk⟩ := m.solveWellEqPasses_some s hlen k
      obtain ⟨s1, h1⟩ := m.assembleWellEq_some true sk hlen
      unfold solveWellEqTestAt
      simp only [hk, h1, Option.map_some', Option.some.injEq]
      unfold solveWellEqConverged
      simp [(hgroup s1).1, (hgroup s1).2]
    obtain ⟨s15, _, hall⟩ := m.solveWellEq_of_all_fail W s hW hfail
    exact ⟨_, hall⟩

/-- Instance of C10: the well unit converges at its fourth assembly. The tests
of the passes 0, 1 and 2 fail and the test of pass 3 holds; `solveWellEq`
reports `converged = true` and `total_well_iterations = 3`, and returns the
data of the fourth assembly with the rates of the three Newton steps. -/
theorem solveWellEq_converged_iff_witness :
    (∀ j, j < 3 → fxModelConverging.solveWellEqTestAt [0, 0, 0] fxEntry j = some false) ∧
    fxModelConverging.solveWellEqTestAt [0, 0, 0] fxEntry 3 = some true ∧
    ∃ s1, fxModelConverging.solveWellEq fxEntry = some (⟨true, 3⟩, s1) ∧
      s1.ext = 4 ∧ s1.well_state.wellRates = [1, 1, 1, 0, 50, 0] := by
  have hfail : ∀ j, j < 3 →
      fxModelConverging.solveWellEqTestAt [0, 0, 0] fxEntry j = some false := by
    intro j hj
    interval_cases j <;> rfl
  have hsucc : fxModelConverging.solveWellEqTestAt [0, 0, 0] fxEntry 3 = some true := rfl
  obtain ⟨sk, s1, hk, ha, hres⟩ :=
    (solveWellEq_converged_iff fxModelConverging (fxWells WellType.PRODUCER) fxEntry rfl
      (by decide)).2.2.1 3 (by decide) hsucc hfail
  have hk3 : fxModelConverging.solveWellEqPasses 3 fxEntry
      = some { well_state := { fxEntry.well_state with
                  wellRates := [1, 1, 1, 0, 50, 0], currentControls := [7] }
               ctrl_current := fun _ => 7
               leaf_nodes := []
               ext := 3 } := rfl
  rw [hk3] at hk
  cases hk
  have ha2 : fxModelConverging.assembleWellEq true
      { well_state := { fxEntry.well_state with
            wellRates := [1, 1, 1, 0, 50, 0], currentControls := [7] }
        ctrl_current := fun _ => 7
        leaf_nodes := []
        ext := 3 }
      = some { well_state := { fxEntry.well_state with
                  wellRates := [1, 1, 1, 0, 50, 0], currentControls := [7] }
               ctrl_current := fun _ => 7
               leaf_nodes := []
               ext := 4 } := rfl
  rw [ha2] at ha
  cases ha
  exact ⟨hfail, hsucc, _, hres, rfl, rfl⟩

end StandardWellsDense

/-! ## The construction of the well container -/

theorem createWellContainerLoop_error_mono {U : Type} (mk : Well → Nat → Wells → U)
    (wells_ecl_ : List Well) (current_timeIdx_ : Nat) (wells_arg : Wells) (n k : Nat)
    (h : ∃ e, createWellContainerLoop mk wells_ecl_ current_timeIdx_ wells_arg n
      = Except.error e) :
    ∃ e, createWellContainerLoop mk wells_ecl_ current_timeIdx_ wells_arg (n + k)
      = Except.error e := by
  induction k with
  | zero => exact h
  | succ k ih =>
    obtain ⟨e, he⟩ := ih
    refine ⟨e, ?_⟩
    show (match createWellContainerLoop mk wells_ecl_ current_timeIdx_ wells_arg (n + k) with
      | Except.error e => Except.error e
      | Except.ok well_container_ =>
        createWellContainerWell mk wells_ecl_ current_timeIdx_ wells_arg (n + k) well_container_)
      = _
    rw [he]

/-- If the pass for the well `w` throws on every container, the loop over more
than `w` wells throws. -/
theorem createWellContainerLoop_error_of_pass {U : Type} (mk : Well → Nat → Wells → U)
    (wells_ecl_ : List Well) (current_timeIdx_ : Nat) (wells_arg : Wells) (w nw : Nat)
    (hw : w < nw)
    (h : ∀ c : List U, ∃ e,
      createWellContainerWell mk wells_ecl_ current_timeIdx_ wells_arg w c = Except.error e) :
    ∃ e, createWellContainerLoop mk wells_ecl_ current_timeIdx_ wells_arg nw
      = Except.error e := by
  have hstep : ∃ e, createWellContainerLoop mk wells_ecl_ current_timeIdx_ wells_arg (w + 1)
      = Except.error e := by
    show ∃ e, (match createWellContainerLoop mk wells_ecl_ current_timeIdx_ wells_arg w with
      | Except.error e => Except.error e
      | Except.ok well_container_ =>
        createWellContainerWell mk wells_ecl_ current_timeIdx_ wells_arg w well_container_)
      = Except.error e
    cases hl : createWellContainerLoop mk wells_ecl_ current_timeIdx_ wells_arg w with
    | error e => exact ⟨e, rfl⟩
    | ok c => exact h c
  have := createWellContainerLoop_error_mono mk wells_ecl_ current_timeIdx_ wells_arg (w + 1)
    (nw - (w + 1)) hstep
  have e : w + 1 + (nw - (w + 1)) = nw := by omega
  rw [e] at this
  exact this

theorem constructWellContainer_some {U : Type} (mk : Well → Nat → Wells → U) (W : Wells)
    (wells_ecl : List Well) (current_timeIdx : Nat) (hlocal : 0 < W.number_of_wells) :
    constructWellContainer mk (some W) wells_ecl current_timeIdx
      = createWellContainerLoop mk wells_ecl current_timeIdx W W.number_of_wells := by
  unfold constructWellContainer createWellContainer localWellsActiveOf
  simp [hlocal]

/-- Claim C19. With local wells, if the name of some well of the `Wells` struct
is the name of no well of `wells_ecl`, the construction of the well container
throws: the result is an exception and no container. -/
theorem constructWellContainer_absent_name {U : Type} (mk : Well → Nat → Wells → U) (W : Wells)
    (wells_ecl : List Well) (current_timeIdx : Nat) (w : Nat)
    (hw : w < W.number_of_wells)
    (habsent : ∀ well, well ∈ wells_ecl → well.name ≠ W.name w) :
    localWellsActiveOf (some W) = true ∧
    ∃ e, constructWellContainer mk (some W) wells_ecl current_timeIdx = Except.error e := by
  have hlocal : 0 < W.number_of_wells := Nat.lt_of_le_of_lt (Nat.zero_le w) hw
  refine ⟨by simp [localWellsActiveOf, hlocal], ?_⟩
  rw [constructWellContainer_some mk W wells_ecl current_timeIdx hlocal]
  apply createWellContainerLoop_error_of_pass mk wells_ecl current_timeIdx W w _ hw
  intro c
  have hfind : findWellEcl wells_ecl (W.name w) = none := by
    unfold findWellEcl
    rw [List.find?_eq_none]
    intro well hwell
    simpa using fun h => habsent well hwell h.symm
  unfold createWellContainerWell
  simp only [hfind]
  exact ⟨_, rfl⟩

/-- Instance of C19: the struct holds `P1` and `P2`, the schedule list only
`P1`; the construction throws the logic error on `P2`. -/
theorem constructWellContainer_absent_name_witness :
    (∀ well, well ∈ [fxWellEcl "P1" WellCommon.StatusEnum.OPEN false] →
      well.name ≠ fxWellsTwo.name 1) ∧
    (∃ e, constructWellContainer (fun well _ _ => well.name) (some fxWellsTwo)
      [fxWellEcl "P1" WellCommon.StatusEnum.OPEN false] 0 = Except.error e) := by
  have h : ∀ well, well ∈ [fxWellEcl "P1" WellCommon.StatusEnum.OPEN false] →
      well.name ≠ fxWellsTwo.name 1 := by
    intro well hwell
    simp only [List.mem_singleton] at hwell
    subst hwell
    decide
  exact ⟨h, (constructWellContainer_absent_name (fun well _ _ => well.name) fxWellsTwo
    [fxWellEcl "P1" WellCommon.StatusEnum.OPEN false] 0 1 (by decide) h).2⟩

/-- Claim C20, as amended. If some well of the `Wells` struct is found in
`wells_ecl`, is not SHUT at the current step and is a multi-segment well at
that step, the construction of the well container throws. -/
theorem constructWellContainer_multisegment {U : Type} (mk : Well → Nat → Wells → U) (W : Wells)
    (wells_ecl : List Well) (current_timeIdx : Nat) (w : Nat) (well_ecl : Well)
    (hw : w < W.number_of_wells)
    (hfound : findWellEcl wells_ecl (W.name w) = some well_ecl)
    (hopen : well_ecl.getStatus current_timeIdx ≠ WellCommon.StatusEnum.SHUT)
    (hms : well_ecl.isMultiSegment current_timeIdx = true) :
    ∃ e, constructWellContainer mk (some W) wells_ecl current_timeIdx = Except.error e := by
  have hlocal : 0 < W.number_of_wells := Nat.lt_of_le_of_lt (Nat.zero_le w) hw
  rw [constructWellContainer_some mk W wells_ecl current_timeIdx hlocal]
  apply createWellContainerLoop_error_of_pass mk wells_ecl current_timeIdx W w _ hw
  intro c
  unfold createWellContainerWell
  simp only [hfound, hopen, hms, if_false, if_true]
  exact ⟨_, rfl⟩

/-- Instance of the amended C20: an OPEN multi-segment well is rejected. -/
theorem constructWellContainer_multisegment_witness :
    ∃ e, constructWellContainer (fun well _ _ => well.name)
      (some (fxWells WellType.PRODUCER)) [fxWellEcl "P1" WellCommon.StatusEnum.OPEN true] 0
      = Except.error e :=
  constructWellContainer_multisegment (fun well _ _ => well.name) (fxWells WellType.PRODUCER)
    [fxWellEcl "P1" WellCommon.StatusEnum.OPEN true] 0 0
    (fxWellEcl "P1" WellCommon.StatusEnum.OPEN true) (by decide)
    (by simp [findWellEcl, fxWells, fxWellEcl]) (by decide) rfl

/-- Claim C20, refuted as stated. The only well `P1` of the `Wells` struct is a
multi-segment well at the current step and its status is SHUT: the construction
does not throw, it returns the empty container. -/
theorem constructWellContainer_shut_multisegment :
    (fxWells WellType.PRODUCER).number_of_wells = 1 ∧
    findWellEcl [fxWellEcl "P1" WellCommon.StatusEnum.SHUT true]
      ((fxWells WellType.PRODUCER).name 0)
      = some (fxWellEcl "P1" WellCommon.StatusEnum.SHUT true) ∧
    (fxWellEcl "P1" WellCommon.StatusEnum.SHUT true).isMultiSegment 0 = true ∧
    constructWellContainer (fun well _ _ => well.name) (some (fxWells WellType.PRODUCER))
      [fxWellEcl "P1" WellCommon.StatusEnum.SHUT true] 0 = Except.ok [] := by
  refine ⟨rfl, by simp [findWellEcl, fxWells, fxWellEcl], rfl, ?_⟩
  simp [constructWellContainer, createWellContainer, localWellsActiveOf, createWellContainerLoop,
    createWellContainerWell, findWellEcl, fxWells, fxWellEcl]

/-! ## Lemmas on vectors -/

namespace BVector

theorem exactAdd_right_comm (a b c : BVector) :
    exactAdd (exactAdd a b) c = exactAdd (exactAdd a c) b := by
  unfold exactAdd
  induction a generalizing b c with
  | nil => simp
  | cons u a ih =>
    cases b with
    | nil => cases c <;> simp
    | cons v b =>
      cases c with
      | nil => simp
      | cons w c =>
        simp only [List.zipWith_cons_cons, List.cons.injEq]
        exact ⟨by ring, ih b c⟩

theorem exactAdd_assoc (a b c : BVector) :
    exactAdd (exactAdd a b) c = exactAdd a (exactAdd b c) := by
  unfold exactAdd
  induction a generalizing b c with
  | nil => simp
  | cons u a ih =>
    cases b with
    | nil => cases c <;> simp
    | cons v b =>
      cases c with
      | nil => simp
      | cons w c =>
        simp only [List.zipWith_cons_cons, List.cons.injEq]
        exact ⟨by ring, ih b c⟩

/-- Adding to `a` what was added to the zero vector of the size of `a`. -/
theorem exactAdd_zero_add (a c : BVector) :
    exactAdd a (exactAdd (List.replicate a.length 0) c) = exactAdd a c := by
  unfold exactAdd
  induction a generalizing c with
  | nil => simp
  | cons u a ih =>
    cases c with
    | nil => simp
    | cons w c =>
      simp only [List.length_cons, List.replicate_succ, List.zipWith_cons_cons, zero_add,
        List.cons.injEq, true_and]
      exact ih c

theorem foldl_exactAdd_assoc (a b : BVector) (cs : List BVector) :
    cs.foldl exactAdd (exactAdd a b) = exactAdd a (cs.foldl exactAdd b) := by
  induction cs generalizing b with
  | nil => rfl
  | cons c cs ih =>
    simp only [List.foldl_cons]
    rw [exactAdd_assoc, ih]

theorem exactAdd_zeros (a : BVector) : exactAdd a (List.replicate a.length 0) = a := by
  unfold exactAdd
  induction a with
  | nil => rfl
  | cons u a ih =>
    simp only [List.length_cons, List.replicate_succ, List.zipWith_cons_cons, add_zero,
      List.cons.injEq, true_and]
    exact ih

theorem resize_length (v : BVector) (n : Nat) : (resize v n).length = n := by
  unfold resize
  simp only [List.length_append, List.length_take, List.length_replicate]
  omega

end BVector

namespace StandardWellsDense

variable {ι : Type}

/-! ## The linear-operator actions -/

theorem localWellsActive_eq_false_iff (m : StandardWellsDense ι) :
    m.localWellsActive = false ↔
      m.wells_ = none ∨ ∃ W, m.wells_ = some W ∧ W.number_of_wells = 0 := by
  unfold localWellsActive
  cases h : m.wells_ with
  | none => simp
  | some W => simp

/-- With additive well units, `apply(x, Ax)` adds the contributions of the
well units of the container to `Ax`, one after the other. -/
theorem apply_eq_foldl_add (m : StandardWellsDense ι) (s : SimState ι) (x Ax : BVector)
    (c : StandardWell ι → BVector)
    (hinv : m.localWellsActive = false → m.well_container_ = [])
    (hadd : ∀ well, well ∈ m.well_container_ → ∀ y, well.apply s x y = BVector.add y (c well)) :
    m.apply s x Ax = (m.well_container_.map c).foldl BVector.add Ax := by
  unfold apply
  by_cases hl : m.localWellsActive = false
  · rw [if_pos hl, hinv hl]
    rfl
  · rw [if_neg hl]
    generalize m.well_container_ = l at hadd
    induction l generalizing Ax with
    | nil => rfl
    | cons a l ih =>
      simp only [List.foldl_cons, List.map_cons]
      rw [hadd a (List.mem_cons_self a l) Ax]
      exact ih _ (fun well hw y => hadd well (List.mem_cons_of_mem a hw) y)

/-- Claim C12. With zero local wells (a null `Wells` struct, or one with
`number_of_wells = 0`), `apply(r)`, `apply(x, Ax)` and
`applyScaleAdd(alpha, x, Ax)` return (the model has no failure) and leave `r`,
respectively `Ax` and the member `scaleAddRes_`, as they were, for every `x`
and `alpha`. -/
theorem apply_no_local_wells (m : StandardWellsDense ι) (s : SimState ι) (alpha : ℚ)
    (r x Ax scaleAddRes_ : BVector)
    (h : m.wells_ = none ∨ ∃ W, m.wells_ = some W ∧ W.number_of_wells = 0) :
    m.apply_r s r = r ∧ m.apply s x Ax = Ax ∧
      m.applyScaleAdd s alpha x Ax scaleAddRes_ = (Ax, scaleAddRes_) := by
  have hl : m.localWellsActive = false := (m.localWellsActive_eq_false_iff).mpr h
  unfold apply_r apply applyScaleAdd
  simp [hl]

/-- Instance of C12: a `Wells` struct with `number_of_wells = 0` and a container
that would change the vectors; nothing is changed. -/
theorem apply_no_local_wells_witness :
    ({ fxModelAdding with
        wells_ := some { fxWells WellType.PRODUCER with number_of_wells := 0 } } :
      StandardWellsDense Nat).applyScaleAdd fxEntry 2 [1, 1] [5, 6] [] = ([5, 6], []) :=
  (apply_no_local_wells
    ({ fxModelAdding with
        wells_ := some { fxWells WellType.PRODUCER with number_of_wells := 0 } } :
      StandardWellsDense Nat)
    fxEntry 2 [] [1, 1] [5, 6] []
    (Or.inr ⟨{ fxWells WellType.PRODUCER with number_of_wells := 0 }, rfl, rfl⟩)).2.2

theorem apply_length (m : StandardWellsDense ι) (s : SimState ι) (x y : BVector)
    (h : ∀ well, well ∈ m.well_container_ → ∀ z, (well.apply s x z).length = z.length) :
    (m.apply s x y).length = y.length := by
  unfold apply
  split_ifs
  · rfl
  · generalize m.well_container_ = l at h
    induction l generalizing y with
    | nil => rfl
    | cons a l ih =>
      simp only [List.foldl_cons]
      rw [ih _ (fun well hw z => h well (List.mem_cons_of_mem a hw) z),
        h a (List.mem_cons_self a l)]

theorem applyScaleAdd_eq (m : StandardWellsDense ι) (s : SimState ι) (alpha : ℚ)
    (x Ax scaleAddRes_ : BVector) (hlocal : m.localWellsActive = true) :
    m.applyScaleAdd s alpha x Ax scaleAddRes_
      = (BVector.axpy Ax alpha (m.apply s x (List.replicate Ax.length 0)),
          m.apply s x (List.replicate Ax.length 0)) := by
  unfold applyScaleAdd
  simp only [hlocal, Bool.true_eq_false, if_false]
  have hlen : (if scaleAddRes_.length ≠ Ax.length then BVector.resize scaleAddRes_ Ax.length
      else scaleAddRes_).length = Ax.length := by
    split_ifs with h
    · exact BVector.resize_length _ _
    · exact not_not.mp h
  rw [hlen]

end StandardWellsDense

/-! ## Lemmas on the projection of a control target -/

theorem getD_set_rat (l : List ℚ) (j i : Nat) (a : ℚ) :
    (l.set j a).getD i 0 = if j = i ∧ j < l.length then a else l.getD i 0 := by
  simp only [List.getD_eq_getElem?_getD, List.getElem?_set]
  by_cases hji : j = i
  · subst hji
    by_cases hj : j < l.length
    · simp [hj]
    · simp [hj, List.getElem?_eq_none (Nat.le_of_not_lt hj)]
  · simp [hji]

theorem foldl_range_set_length (G : List ℚ → Nat → ℚ) (b : Nat) (r0 : List ℚ) (n : Nat) :
    ((List.range n).foldl (fun r ph => r.set (b + ph) (G r ph)) r0).length = r0.length := by
  induction n with
  | zero => simp
  | succ n ih => rw [List.range_succ, List.foldl_append]; simpa using ih

theorem foldl_range_set_getD (F : Nat → ℚ → ℚ) (b : Nat) (r0 : List ℚ) (n i : Nat) :
    ((List.range n).foldl (fun r ph => r.set (b + ph) (F ph (r.getD (b + ph) 0))) r0).getD i 0
      = if b ≤ i ∧ i < b + n ∧ i < r0.length then F (i - b) (r0.getD i 0) else r0.getD i 0 := by
  induction n generalizing i with
  | zero =>
    have : ¬ (b ≤ i ∧ i < b + 0 ∧ i < r0.length) := by omega
    rw [if_neg this]
    simp
  | succ n ih =>
    rw [List.range_succ, List.foldl_append]
    simp only [List.foldl_cons, List.foldl_nil]
    rw [getD_set_rat,
      foldl_range_set_length (fun r ph => F ph (r.getD (b + ph) 0)) b r0 n, ih (b + n), ih i]
    have h1 : ¬ (b ≤ b + n ∧ b + n < b + n ∧ b + n < r0.length) := by omega
    rw [if_neg h1]
    by_cases hi : b + n = i
    · subst hi
      by_cases hl : b + n < r0.length
      · have h2 : b ≤ b + n ∧ b + n < b + (n + 1) ∧ b + n < r0.length := by omega
        rw [if_pos ⟨rfl, hl⟩, if_pos h2, Nat.add_sub_cancel_left]
      · have h2 : ¬ (b + n = b + n ∧ b + n < r0.length) := by omega
        have h3 : ¬ (b ≤ b + n ∧ b + n < b + (n + 1) ∧ b + n < r0.length) := by omega
        rw [if_neg h2, if_neg h1, if_neg h3]
    · have h2 : ¬ (b + n = i ∧ b + n < r0.length) := by omega
      rw [if_neg h2]
      by_cases h3 : b ≤ i ∧ i < b + n ∧ i < r0.length
      · have h4 : b ≤ i ∧ i < b + (n + 1) ∧ i < r0.length := by omega
        rw [if_pos h3, if_pos h4]
      · have h4 : ¬ (b ≤ i ∧ i < b + (n + 1) ∧ i < r0.length) := by omega
        rw [if_neg h3, if_neg h4]

theorem foldl_range_cond_sum (c : Nat → Prop) [DecidablePred c] (f : Nat → ℚ) (n : Nat) :
    (List.range n).foldl (fun acc p => if c p then acc + f p else acc) 0
      = ∑ p in (Finset.range n).filter c, f p := by
  induction n with
  | zero => simp
  | succ n ih =>
    rw [List.range_succ, List.foldl_append, ih, Finset.range_succ, Finset.filter_insert]
    by_cases h : c n
    · simp [h, add_comm]
    · simp [h]

theorem foldl_range_sum (f : Nat → ℚ) (n : Nat) :
    (List.range n).foldl (fun acc p => acc + f p) 0 = ∑ p in Finset.range n, f p := by
  induction n with
  | zero => simp
  | succ n ih =>
    rw [List.range_succ, List.foldl_append, ih, Finset.sum_range_succ]
    simp

theorem foldl_range_count (c : Nat → Prop) [DecidablePred c] (n : Nat) :
    (List.range n).foldl (fun k p => if c p then k + 1 else k) 0
      = ((Finset.range n).filter c).card := by
  induction n with
  | zero => simp
  | succ n ih =>
    rw [List.range_succ, List.foldl_append, ih, Finset.range_succ, Finset.filter_insert]
    by_cases h : c n
    · simp [h]
    · simp [h]

theorem getD_of_length_le (l : List ℚ) (i : Nat) (h : l.length ≤ i) : l.getD i 0 = 0 := by
  simp [List.getD_eq_getElem?_getD, List.getElem?_eq_none h]

theorem numPhasesWithTargetsUnderThisControl_eq (np : Nat) (distr : Nat → ℚ) :
    numPhasesWithTargetsUnderThisControl np distr
      = ((Finset.range np).filter (fun p => 0 < distr p)).card := by
  rw [← foldl_range_count]
  unfold numPhasesWithTargetsUnderThisControl
  simp only [gt_iff_lt]

theorem targetFractions_ok (ctx : TargetContext) (W : Wells) (distr : Nat → ℚ)
    (well_index : Nat) (g : List ℚ) (xw : WellState) (ws : List ℚ)
    (htype : W.type well_index = WellType.PRODUCER ∨ W.type well_index = WellType.INJECTOR) :
    ∃ ws1, targetFractions ctx W distr well_index g xw ws = Except.ok ws1 := by
  unfold targetFractions
  by_cases hT : |totWellRate W.number_of_phases well_index g xw.wellRates| > 0
  · simp only [if_pos hT]
    exact ⟨_, rfl⟩
  · rcases htype with h | h
    · simp only [if_neg hT, h]
      exact ⟨_, rfl⟩
    · simp only [if_neg hT, h]
      exact ⟨_, rfl⟩

theorem updateWellStateWithTarget_of_rates (ctx : TargetContext) (W : Wells) (wc : WellControls)
    (current : Int) (well_index : Nat) (xw : WellState) (r : List ℚ)
    (hwells : ctx.wells_ = some W)
    (htype : W.type well_index = WellType.PRODUCER ∨ W.type well_index = WellType.INJECTOR)
    (hctrl : wc.iget_type current = WellControlType.SURFACE_RATE
      ∨ wc.iget_type current = WellControlType.RESERVOIR_RATE)
    (hr : targetRates W well_index (wc.iget_target current) (wc.iget_distr current) xw.wellRates
      = Except.ok r) :
    ∃ xw1, updateWellStateWithTarget ctx wc current well_index xw = Except.ok xw1
      ∧ xw1.wellRates = r := by
  have h1 : targetIntoState ctx W wc current well_index xw
      = Except.ok { xw with wellRates := r } := by
    unfold targetIntoState
    rcases hctrl with h | h
    · simp only [h, hr]
    · simp only [h, hr]
  obtain ⟨ws1, hws1⟩ := targetFractions_ok ctx W (wc.iget_distr current) well_index
    (targetWeights W.number_of_phases (wc.iget_type current) (wc.iget_distr current))
    { xw with wellRates := r }
    (targetXvarWell ctx W (wc.iget_type current) well_index
      (targetWeights W.number_of_phases (wc.iget_type current) (wc.iget_distr current))
      { xw with wellRates := r }) htype
  refine ⟨{ { xw with wellRates := r } with wellSolutions := ws1 }, ?_, rfl⟩
  unfold updateWellStateWithTarget
  simp only [hwells, h1, hws1]

theorem targetIntoState_thp (ctx : TargetContext) (W : Wells) (vfp_properties : VFPProperties)
    (wc : WellControls) (current : Int) (well_index : Nat) (xw : WellState)
    (hvfp : ctx.vfp_properties_ = some vfp_properties)
    (hctrl : wc.iget_type current = WellControlType.THP)
    (htype : W.type well_index = WellType.PRODUCER ∨ W.type well_index = WellType.INJECTOR) :
    ∃ bhp, targetIntoState ctx W wc current well_index xw
        = Except.ok { xw with
            thp := xw.thp.set well_index (wc.iget_target current)
            bhp := xw.bhp.set well_index bhp } ∧
      bhp = if W.type well_index = WellType.PRODUCER then
          vfp_properties.prod_bhp (wc.iget_vfp current)
              (if ctx.active_ Phase.Water then
                xw.wellRates.getD
                  (well_index * W.number_of_phases + ctx.phase_usage_.phase_pos Phase.Water) 0
              else 0)
              (if ctx.active_ Phase.Oil then
                xw.wellRates.getD
                  (well_index * W.number_of_phases + ctx.phase_usage_.phase_pos Phase.Oil) 0
              else 0)
              (if ctx.active_ Phase.Gas then
                xw.wellRates.getD
                  (well_index * W.number_of_phases + ctx.phase_usage_.phase_pos Phase.Gas) 0
              else 0)
              (wc.iget_target current) (wc.iget_alq current)
            - ctx.computeHydrostaticCorrection W well_index
                (vfp_properties.prod_getDatumDepth (wc.iget_vfp current))
                (ctx.well_perforation_densities_.getD (W.well_connpos well_index) 0)
                ctx.gravity_
        else
          vfp_properties.inj_bhp (wc.iget_vfp current)
              (if ctx.active_ Phase.Water then
                xw.wellRates.getD
                  (well_index * W.number_of_phases + ctx.phase_usage_.phase_pos Phase.Water) 0
              else 0)
              (if ctx.active_ Phase.Oil then
                xw.wellRates.getD
                  (well_index * W.number_of_phases + ctx.phase_usage_.phase_pos Phase.Oil) 0
              else 0)
              (if ctx.active_ Phase.Gas then
                xw.wellRates.getD
                  (well_index * W.number_of_phases + ctx.phase_usage_.phase_pos Phase.Gas) 0
              else 0)
              (wc.iget_target current)
            - ctx.computeHydrostaticCorrection W well_index
                (vfp_properties.inj_getDatumDepth (wc.iget_vfp current))
                (ctx.well_perforation_densities_.getD (W.well_connpos well_index) 0)
                ctx.gravity_ := by
  unfold targetIntoState
  rcases htype with h | h
  · simp only [hctrl, h, hvfp]
    exact ⟨_, rfl, by simp⟩
  · simp only [hctrl, h, hvfp]
    exact ⟨_, rfl, by simp⟩

theorem updateWellStateWithTarget_of_state (ctx : TargetContext) (W : Wells)
    (wc : WellControls) (current : Int) (well_index : Nat) (xw xw1 : WellState)
    (hwells : ctx.wells_ = some W)
    (htype : W.type well_index = WellType.PRODUCER ∨ W.type well_index = WellType.INJECTOR)
    (h1 : targetIntoState ctx W wc current well_index xw = Except.ok xw1) :
    ∃ ws1, targetFractions ctx W (wc.iget_distr current) well_index
          (targetWeights W.number_of_phases (wc.iget_type current) (wc.iget_distr current)) xw1
          (targetXvarWell ctx W (wc.iget_type current) well_index
            (targetWeights W.number_of_phases (wc.iget_type current) (wc.iget_distr current))
            xw1) = Except.ok ws1 ∧
      updateWellStateWithTarget ctx wc current well_index xw
        = Except.ok { xw1 with wellSolutions := ws1 } := by
  obtain ⟨ws1, hws1⟩ := targetFractions_ok ctx W (wc.iget_distr current) well_index
    (targetWeights W.number_of_phases (wc.iget_type current) (wc.iget_distr current)) xw1
    (targetXvarWell ctx W (wc.iget_type current) well_index
      (targetWeights W.number_of_phases (wc.iget_type current) (wc.iget_distr current))
      xw1) htype
  refine ⟨ws1, hws1, ?_⟩
  unfold updateWellStateWithTarget
  simp only [hwells, h1, hws1]

theorem foldl_range_set_at_length (G : List ℚ → Nat → ℚ) (i : Nat) (r0 : List ℚ) (n : Nat) :
    ((List.range n).foldl (fun r p => r.set i (G r p)) r0).length = r0.length := by
  induction n with
  | zero => simp
  | succ n ih => rw [List.range_succ, List.foldl_append]; simpa using ih

theorem foldl_range_accumulate_getD (f : Nat → ℚ) (i : Nat) (ws0 : List ℚ) (n j : Nat) :
    ((List.range n).foldl (fun ws p => ws.set i (ws.getD i 0 + f p)) ws0).getD j 0
      = if j = i ∧ i < ws0.length then ws0.getD i 0 + ∑ p in Finset.range n, f p
        else ws0.getD j 0 := by
  induction n generalizing j with
  | zero =>
    by_cases h : j = i ∧ i < ws0.length
    · rw [if_pos h, h.1]; simp
    · rw [if_neg h]; simp
  | succ n ih =>
    rw [List.range_succ, List.foldl_append]
    simp only [List.foldl_cons, List.foldl_nil]
    rw [getD_set_rat, foldl_range_set_at_length (fun ws p => ws.getD i 0 + f p) i ws0 n,
      ih i, ih j, Finset.sum_range_succ]
    by_cases hl : i < ws0.length
    · by_cases hj : j = i
      · subst hj
        rw [if_pos ⟨rfl, hl⟩, if_pos ⟨rfl, hl⟩, if_pos ⟨rfl, hl⟩, add_assoc]
      · have h1 : ¬ (i = j ∧ i < ws0.length) := fun h => hj h.1.symm
        have h2 : ¬ (j = i ∧ i < ws0.length) := fun h => hj h.1
        rw [if_neg h1, if_neg h2, if_neg h2]
    · have h1 : ¬ (i = j ∧ i < ws0.length) := fun h => hl h.2
      have h2 : ¬ (j = i ∧ i < ws0.length) := fun h => hl h.2
      rw [if_neg h1, if_neg h2, if_neg h2]

theorem targetIntoState_pressure (ctx : TargetContext) (W : Wells) (wc : WellControls)
    (current : Int) (well_index : Nat) (xw : WellState)
    (hprod : W.type well_index = WellType.PRODUCER)
    (hctrl : wc.iget_type current = WellControlType.BHP
      ∨ wc.iget_type current = WellControlType.THP)
    (hvfp : wc.iget_type current = WellControlType.THP → ctx.vfp_properties_ ≠ none) :
    ∃ xw1, targetIntoState ctx W wc current well_index xw = Except.ok xw1 ∧
      xw1.wellRates = xw.wellRates ∧ xw1.wellSolutions = xw.wellSolutions ∧
      xw1.solventWellRate = xw.solventWellRate := by
  rcases hctrl with h | h
  · refine ⟨{ xw with bhp := xw.bhp.set well_index (wc.iget_target current) }, ?_, rfl, rfl, rfl⟩
    unfold targetIntoState
    simp only [h]
  · obtain ⟨vfp_properties, hv⟩ := Option.ne_none_iff_exists'.mp (hvfp h)
    obtain ⟨bhp, hb, _⟩ := targetIntoState_thp ctx W vfp_properties wc current well_index xw
      hv h (Or.inl hprod)
    exact ⟨_, hb, rfl, rfl, rfl⟩

namespace StandardWellsDense

variable {ι : Type}

/-! ## The assembly -/

/-- The report and the data that `assemble` returns at the first iteration of a
time step when wells are active and the initial well-only solve is requested:
whatever the report of `solveWellEq` says, `converged` is set to true after the
final assembly. -/
theorem assemble_of_initial_solve (m : StandardWellsDense ι) (report0 r : SimulatorReport)
    (s s1 s6 s7 : SimState ι)
    (hact : m.wellsActive = true) (hinit : m.solve_welleq_initially_ = true)
    (hprep : m.prepareTimeStep s = some s1)
    (hsolve : m.solveWellEq (m.computeAccumWells (m.computeWellConnectionPressures
      (m.setWellVariables (m.updateGroupControls (m.updateWellControls s1))))) = some (r, s6))
    (hasm : m.assembleWellEq false s6 = some s7) :
    m.assemble report0 0 s = some (⟨true, r.total_well_iterations⟩, s7) := by
  unfold assemble
  simp only [if_true, hprep, hact, Bool.true_eq_false, if_false, hinit, and_self, hsolve, hasm]

/-- Claim C11, as amended. When `assemble` runs the initial well-only solve
(`iterationIdx = 0`, `solve_welleq_initially_` set, wells active), the report
it returns has `converged = true` and the `total_well_iterations` of the report
of `solveWellEq`, whatever that report says; when the solve exhausts its 15
iterations without converging, `assemble` returns `(true, 15)`. -/
theorem assemble_report_after_initial_solve (m : StandardWellsDense ι)
    (report0 r : SimulatorReport) (s s1 s6 s7 : SimState ι)
    (hact : m.wellsActive = true) (hinit : m.solve_welleq_initially_ = true)
    (hprep : m.prepareTimeStep s = some s1)
    (hsolve : m.solveWellEq (m.computeAccumWells (m.computeWellConnectionPressures
      (m.setWellVariables (m.updateGroupControls (m.updateWellControls s1))))) = some (r, s6))
    (hasm : m.assembleWellEq false s6 = some s7) :
    m.assemble report0 0 s = some (⟨true, r.total_well_iterations⟩, s7) ∧
    (r = ⟨false, 15⟩ → m.assemble report0 0 s = some (⟨true, 15⟩, s7)) := by
  have h := m.assemble_of_initial_solve report0 r s s1 s6 s7 hact hinit hprep hsolve hasm
  refine ⟨h, fun hr => ?_⟩
  rw [h, hr]

theorem fxModel_assembleWellEqFinal (s : SimState Nat) :
    fxModel.assembleWellEq false s = some { s with ext := s.ext + 1 } := rfl

/-- The last loop of `prepareTimeStep` on the example `fxModel`: the control of
the well is a BHP control and the projection of its target returns. -/
theorem fxModel_prepareTimeStepTarget (s : SimState Nat) :
    ∃ s1, fxModel.prepareTimeStepTarget 0 s = some s1 := by
  obtain ⟨xw1, h1, _, _, _⟩ := targetIntoState_pressure
    { fxTargetCtx with wells_ := some (fxWells WellType.PRODUCER) } (fxWells WellType.PRODUCER)
    (fxControls WellControlType.BHP 300 fxDistrOil) (s.ctrl_current 0) 0
    { s.well_state with currentControls := s.well_state.currentControls.set 0 (s.ctrl_current 0) }
    rfl (Or.inl rfl) (by simp [fxControls])
  obtain ⟨ws1, _, hok⟩ := updateWellStateWithTarget_of_state
    { fxTargetCtx with wells_ := some (fxWells WellType.PRODUCER) } (fxWells WellType.PRODUCER)
    (fxControls WellControlType.BHP 300 fxDistrOil) (s.ctrl_current 0) 0
    { s.well_state with currentControls := s.well_state.currentControls.set 0 (s.ctrl_current 0) }
    xw1 rfl (Or.inl rfl) h1
  have hok1 : updateWellStateWithTarget { fxModel.target_ s with wells_ := fxModel.wells_ }
      (fxModel.ctrls s 0) (s.ctrl_current 0) 0
      { s.well_state with
        currentControls := s.well_state.currentControls.set 0 (s.ctrl_current 0) }
      = Except.ok { xw1 with wellSolutions := ws1 } := hok
  unfold prepareTimeStepTarget
  simp only [hok1]
  exact ⟨_, rfl⟩

/-- The preparation of the time step on the example `fxModel` returns. -/
theorem fxModel_prepareTimeStep : ∃ s1, fxModel.prepareTimeStep fxEntry = some s1 := by
  have hc : fxModel.prepareTimeStepControls (fxWells WellType.PRODUCER) 1 fxEntry
      = some { fxEntry with
          ctrl_current := recoverWellControls 1 fxEntry.well_state.currentControls
            fxEntry.ctrl_current } := rfl
  have hg : ∀ s : SimState Nat, fxModel.prepareTimeStepGroup s = some s := fun _ => rfl
  obtain ⟨s1, h1⟩ := fxModel_prepareTimeStepTarget
    { fxEntry with
      ctrl_current := recoverWellControls 1 fxEntry.well_state.currentControls
        fxEntry.ctrl_current }
  refine ⟨s1, ?_⟩
  show (match fxModel.prepareTimeStepControls (fxWells WellType.PRODUCER) 1 fxEntry with
    | none => none
    | some s1 =>
      match fxModel.prepareTimeStepGroup s1 with
      | none => none
      | some s2 => (List.range 1).foldlM (fun s w => fxModel.prepareTimeStepTarget w s) s2) = _
  rw [hc]
  simp only [hg]
  show (fxModel.prepareTimeStepTarget 0 _).bind _ = _
  rw [h1]
  rfl

/-- The initial well-only solve of `assemble` on the example `fxModel`: the
well unit never converges and `solveWellEq` reports `(false, 15)`. -/
theorem fxModel_initial_solve (s : SimState Nat) :
    ∃ s6, fxModel.solveWellEq (fxModel.computeAccumWells (fxModel.computeWellConnectionPressures
      (fxModel.setWellVariables (fxModel.updateGroupControls (fxModel.updateWellControls s)))))
      = some (⟨false, 15⟩, s6) := by
  obtain ⟨s15, _, h⟩ := solveWellEq_of_all_fail fxModel (fxWells WellType.PRODUCER)
    (fxModel.computeAccumWells (fxModel.computeWellConnectionPressures
      (fxModel.setWellVariables (fxModel.updateGroupControls (fxModel.updateWellControls s)))))
    rfl (fun k _ => fxModel_solveWellEqTestAt _ _ k)
  exact ⟨_, h⟩

/-- Instance of the amended C11: the well unit never converges, the solve
reports `(false, 15)`, and `assemble` returns `(true, 15)`. -/
theorem assemble_report_after_initial_solve_witness :
    ∃ s7, fxModel.assemble ⟨false, 0⟩ 0 fxEntry = some (⟨true, 15⟩, s7) := by
  obtain ⟨s1, h1⟩ := fxModel_prepareTimeStep
  obtain ⟨s6, h6⟩ := fxModel_initial_solve s1
  exact ⟨_, (assemble_report_after_initial_solve fxModel ⟨false, 0⟩ ⟨false, 15⟩ fxEntry s1
    s6 _ rfl rfl h1 h6 (fxModel_assembleWellEqFinal s6)).2 rfl⟩

/-- Claim C11, refuted as stated. On the example `fxModel` wells are active,
the initial solve is requested, the preparation of the time step returns, the
well unit never converges and `solveWellEq` returns the report `(false, 15)`;
the report that `assemble` returns at `iterationIdx = 0` is `(true, 15)`, not a
report with `converged = false`. -/
theorem assemble_reports_converged_after_failed_solve :
    fxModel.wellsActive = true ∧ fxModel.solve_welleq_initially_ = true ∧
    (∃ s1, fxModel.prepareTimeStep fxEntry = some s1 ∧
      ∃ s6, fxModel.solveWellEq (fxModel.computeAccumWells
        (fxModel.computeWellConnectionPressures (fxModel.setWellVariables
          (fxModel.updateGroupControls (fxModel.updateWellControls s1)))))
        = some (⟨false, 15⟩, s6)) ∧
    (∃ s7, fxModel.assemble ⟨false, 0⟩ 0 fxEntry = some (⟨true, 15⟩, s7)) ∧
    ¬ ∃ r s7, fxModel.assemble ⟨false, 0⟩ 0 fxEntry = some (r, s7) ∧ r.converged = false := by
  obtain ⟨s1, h1⟩ := fxModel_prepareTimeStep
  obtain ⟨s6, h6⟩ := fxModel_initial_solve s1
  have h := assemble_of_initial_solve fxModel ⟨false, 0⟩ ⟨false, 15⟩ fxEntry s1 s6 _
    rfl rfl h1 h6 (fxModel_assembleWellEqFinal s6)
  refine ⟨rfl, rfl, ⟨s1, h1, s6, h6⟩, ⟨_, h⟩, ?_⟩
  rintro ⟨r, s7, hr, hconv⟩
  rw [h] at hr
  cases hr
  cases hconv

/-- The method `assemble` at a later iteration when wells are not active: the
default report and the data of the call are returned. -/
theorem assemble_inactive (m : StandardWellsDense ι) (report0 : SimulatorReport)
    (iterationIdx : Nat) (s : SimState ι) (hidx : iterationIdx ≠ 0)
    (hact : m.wellsActive = false) :
    m.assemble report0 iterationIdx s = some (report0, s) := by
  unfold assemble
  simp only [if_neg hidx, hact, if_true]

/-- The method `prepareTimeStep` on a null `Wells` struct: `wells()` is
dereferenced first. -/
theorem prepareTimeStep_null (m : StandardWellsDense ι) (s : SimState ι)
    (hnull : m.wells_ = none) : m.prepareTimeStep s = none := by
  unfold prepareTimeStep wells
  simp only [hnull]

/-- Claim C30, evaluated at a failing input. The coordinator `fxModelNoWells`
is the one built from a null `Wells` struct: `wells_` is null, wells are not
active and the container is empty. At `iterationIdx = 0` the method `assemble`
calls `prepareTimeStep`, which dereferences `wells()`: the call fails, for this
coordinator and for every coordinator with a null `wells_`. At a later
iteration `assemble` returns the default report and leaves the data as they
were. -/
theorem assemble_first_iteration_null_wells :
    fxModelNoWells.wells_ = none ∧ fxModelNoWells.wellsActive = false ∧
    fxModelNoWells.localWellsActive = false ∧
    constructWellContainer (fun _ _ _ => fxNeverConverging) none [] 0
      = Except.ok fxModelNoWells.well_container_ ∧
    fxModelNoWells.prepareTimeStep fxEntry = none ∧
    fxModelNoWells.assemble ⟨false, 0⟩ 0 fxEntry = none ∧
    (∀ (ι : Type) (m : StandardWellsDense ι) (report0 : SimulatorReport) (s : SimState ι),
      m.wells_ = none → m.assemble report0 0 s = none) ∧
    (∀ iterationIdx : Nat, iterationIdx ≠ 0 →
      fxModelNoWells.assemble ⟨false, 0⟩ iterationIdx fxEntry = some (⟨false, 0⟩, fxEntry)) := by
  have hall : ∀ (ι : Type) (m : StandardWellsDense ι) (report0 : SimulatorReport)
      (s : SimState ι), m.wells_ = none → m.assemble report0 0 s = none := by
    intro ι m report0 s hnull
    unfold assemble
    simp only [if_true, m.prepareTimeStep_null s hnull]
  refine ⟨rfl, rfl, rfl, ?_, prepareTimeStep_null _ _ rfl, hall _ _ _ _ rfl, hall, ?_⟩
  · simp [constructWellContainer, createWellContainer, localWellsActiveOf, fxModelNoWells,
      fxModel]
  · intro k hk
    exact assemble_inactive _ _ k _ hk rfl

end StandardWellsDense

/-! ## The ratio checks with no positive local water cut -/

/-- The ratio checks on the state `fxStateCrossflowTwo`, for any value `inv` of
the constant `INVALIDCONNECTION`: no local water cut is positive, the scan of
`checkMaxWaterCutLimit` keeps its initial state, and both checks report a
violation with the connection `inv` and the violation extent 0. -/
theorem fxStateCrossflowTwo_checks (inv : Int) :
    wellWaterCut ⟨fxPhaseUsage, fun _ => true, inv⟩ fxStateCrossflowTwo 0 = 9 / 10 ∧
    perfWaterCut ⟨fxPhaseUsage, fun _ => true, inv⟩ fxStateCrossflowTwo 0 = -10 ∧
    perfWaterCut ⟨fxPhaseUsage, fun _ => true, inv⟩ fxStateCrossflowTwo 1 = -1 / 11 ∧
    checkMaxWaterCutLimit ⟨fxPhaseUsage, fun _ => true, inv⟩ fxMaxWaterCut fxStateCrossflowTwo
      ⟨0, 0, 2⟩ = ⟨true, false, inv, 0⟩ ∧
    (checkRatioEconLimits ⟨fxPhaseUsage, fun _ => true, inv⟩ fxMaxWaterCut fxStateCrossflowTwo
      ⟨0, 0, 2⟩).1 = ⟨true, false, inv, 0⟩ := by
  have hcut : wellWaterCut ⟨fxPhaseUsage, fun _ => true, inv⟩ fxStateCrossflowTwo 0 = 9 / 10 := by
    norm_num [wellWaterCut, fxStateCrossflowTwo, fxPhaseUsage]
  have hperf0 : perfWaterCut ⟨fxPhaseUsage, fun _ => true, inv⟩ fxStateCrossflowTwo 0 = -10 := by
    norm_num [perfWaterCut, fxStateCrossflowTwo, fxPhaseUsage]
  have hperf1 :
      perfWaterCut ⟨fxPhaseUsage, fun _ => true, inv⟩ fxStateCrossflowTwo 1 = -1 / 11 := by
    norm_num [perfWaterCut, fxStateCrossflowTwo, fxPhaseUsage]
  have hmax : checkMaxWaterCutLimit ⟨fxPhaseUsage, fun _ => true, inv⟩ fxMaxWaterCut
      fxStateCrossflowTwo ⟨0, 0, 2⟩ = ⟨true, false, inv, 0⟩ := by
    have hget0 := waterCutPerf_getD ⟨fxPhaseUsage, fun _ => true, inv⟩ fxStateCrossflowTwo 0 2 0
      (by decide)
    have hget1 := waterCutPerf_getD ⟨fxPhaseUsage, fun _ => true, inv⟩ fxStateCrossflowTwo 0 2 1
      (by decide)
    rw [hperf0] at hget0
    rw [hperf1] at hget1
    unfold checkMaxWaterCutLimit
    simp only [hcut]
    have hscan : worstOffendingScan
        (waterCutPerf ⟨fxPhaseUsage, fun _ => true, inv⟩ fxStateCrossflowTwo 0 2) 2 (inv, 0)
        = (inv, 0) := by
      unfold worstOffendingScan
      have hr : List.range 2 = [0, 1] := rfl
      rw [hr]
      simp only [List.foldl_cons, List.foldl_nil, hget0, hget1]
      norm_num
    simp only [hscan]
    norm_num [fxMaxWaterCut]
  refine ⟨hcut, hperf0, hperf1, hmax, ?_⟩
  rw [checkRatioEconLimits_fst, hmax]
  norm_num [fxMaxWaterCut]

/-- The directives of `updateListEconLimited` on the state
`fxStateCrossflowTwo`, for any value `inv` of the constant
`INVALIDCONNECTION`. -/
theorem fxStateCrossflowTwo_directives (inv : Int) :
    (updateListEconLimited ⟨fxPhaseUsage, fun _ => true, inv⟩ (fxSchedule true fxMaxWaterCut) 0
      (some (fxWells WellType.PRODUCER)) fxStateCrossflowTwo {}).1
      = ⟨[], [], [("P1", 100 + inv)]⟩ := by
  obtain ⟨_, _, _, _, hratio⟩ := fxStateCrossflowTwo_checks inv
  have hrate : (checkRateEconLimits ⟨fxPhaseUsage, fun _ => true, inv⟩ fxMaxWaterCut
      fxStateCrossflowTwo 0).1 = false := by
    simp [checkRateEconLimits, fxMaxWaterCut]
  show (updateListEconLimitedWell ⟨fxPhaseUsage, fun _ => true, inv⟩
    (fxSchedule true fxMaxWaterCut) 0 (fxWells WellType.PRODUCER) fxStateCrossflowTwo 0
    ({}, [])).1 = _
  rw [updateListEconLimitedWell_fst]
  have e1 : (fxStateCrossflowTwo.wellMap ((fxWells WellType.PRODUCER).name 0)) = ⟨0, 0, 2⟩ := rfl
  have e2 : ((fxSchedule true fxMaxWaterCut).getWell
      ((fxWells WellType.PRODUCER).name 0)).getEconProductionLimits 0 = fxMaxWaterCut := rfl
  rw [e1, e2, hratio]
  simp [hrate, fxWells, DynamicListEconLimited.addClosedConnectionsForWell]

/-- Claim C28, evaluated at a failing input. The producer `P1` has two
connections, a well water cut of 0.9 above the limit 0.8, and the local water
cuts -10 and -1/11, none of them positive. `checkMaxWaterCutLimit` reports the
violation and returns the connection `INVALIDCONNECTION`, which its scan never
replaced: for every value of that constant outside `0, 1` the returned
connection is not a connection of the well, and `updateListEconLimited` closes
the cell `well_cells[perf_start + INVALIDCONNECTION]`. -/
theorem checkMaxWaterCutLimit_invalid_connection :
    (fxStateCrossflowTwo.wellMap "P1").perf_number = 2 ∧
    wellWaterCut fxCtx fxStateCrossflowTwo 0 = 9 / 10 ∧
    fxMaxWaterCut.maxWaterCut = 4 / 5 ∧
    perfWaterCut fxCtx fxStateCrossflowTwo 0 = -10 ∧
    perfWaterCut fxCtx fxStateCrossflowTwo 1 = -1 / 11 ∧
    checkMaxWaterCutLimit fxCtx fxMaxWaterCut fxStateCrossflowTwo ⟨0, 0, 2⟩
      = ⟨true, false, -100000, 0⟩ ∧
    (∀ inv : Int, ¬ (0 ≤ inv ∧ inv < 2) →
      (checkMaxWaterCutLimit ⟨fxPhaseUsage, fun _ => true, inv⟩ fxMaxWaterCut fxStateCrossflowTwo
        ⟨0, 0, 2⟩).violated = true ∧
      ¬ (0 ≤ (checkMaxWaterCutLimit ⟨fxPhaseUsage, fun _ => true, inv⟩ fxMaxWaterCut
            fxStateCrossflowTwo ⟨0, 0, 2⟩).worst_offending_connection ∧
          (checkMaxWaterCutLimit ⟨fxPhaseUsage, fun _ => true, inv⟩ fxMaxWaterCut
            fxStateCrossflowTwo ⟨0, 0, 2⟩).worst_offending_connection < 2)) ∧
    (updateListEconLimited fxCtx (fxSchedule true fxMaxWaterCut) 0
      (some (fxWells WellType.PRODUCER)) fxStateCrossflowTwo {}).1
      = ⟨[], [], [("P1", -99900)]⟩ := by
  obtain ⟨hcut, hperf0, hperf1, hmax, _⟩ := fxStateCrossflowTwo_checks (-100000)
  refine ⟨rfl, hcut, rfl, hperf0, hperf1, hmax, ?_, fxStateCrossflowTwo_directives (-100000)⟩
  intro inv hinv
  obtain ⟨_, _, _, hmax2, _⟩ := fxStateCrossflowTwo_checks inv
  rw [hmax2]
  exact ⟨rfl, hinv⟩

/-- Claim C29, evaluated at a failing input. The maximum water cut 0.8 is
positive and active, the water cut of the well is 0.9, and the local water cuts
of its two connections are -10 and -1/11. `checkRatioEconLimits` reports a
violated ratio limit with the violation extent 0, which is not greater than 1,
whatever the value of `INVALIDCONNECTION` is. -/
theorem checkRatioEconLimits_extent_not_above_one :
    fxMaxWaterCut.onMaxWaterCut = true ∧
    0 < fxMaxWaterCut.maxWaterCut ∧
    fxMaxWaterCut.maxWaterCut < wellWaterCut fxCtx fxStateCrossflowTwo 0 ∧
    (checkRatioEconLimits fxCtx fxMaxWaterCut fxStateCrossflowTwo ⟨0, 0, 2⟩).1
      = ⟨true, false, fxCtx.INVALIDCONNECTION, 0⟩ ∧
    (∀ inv : Int,
      (checkRatioEconLimits ⟨fxPhaseUsage, fun _ => true, inv⟩ fxMaxWaterCut fxStateCrossflowTwo
        ⟨0, 0, 2⟩).1.violated = true ∧
      ¬ (1 < (checkRatioEconLimits ⟨fxPhaseUsage, fun _ => true, inv⟩ fxMaxWaterCut
        fxStateCrossflowTwo ⟨0, 0, 2⟩).1.violation_extent)) := by
  obtain ⟨hcut, _, _, _, hratio⟩ := fxStateCrossflowTwo_checks (-100000)
  refine ⟨rfl, by norm_num [fxMaxWaterCut], ?_, hratio, ?_⟩
  · have hcut2 : wellWaterCut fxCtx fxStateCrossflowTwo 0 = 9 / 10 := hcut
    rw [hcut2]
    norm_num [fxMaxWaterCut]
  · intro inv
    obtain ⟨_, _, _, _, hratio2⟩ := fxStateCrossflowTwo_checks inv
    rw [hratio2]
    exact ⟨rfl, by norm_num⟩

/-! ## Wells of an unexpected type -/

/-- Claim C27. For a well whose type is neither PRODUCER nor INJECTOR and a
control of type THP, SURFACE_RATE or RESERVOIR_RATE, `updateWellStateWithTarget`
throws the logic error "Expected PRODUCER or INJECTOR type of well". -/
theorem updateWellStateWithTarget_unexpected_type (ctx : TargetContext) (W : Wells)
    (wc : WellControls) (current : Int) (well_index : Nat) (xw : WellState)
    (hwells : ctx.wells_ = some W)
    (htype : W.type well_index ≠ WellType.PRODUCER ∧ W.type well_index ≠ WellType.INJECTOR)
    (hctrl : wc.iget_type current = WellControlType.THP
      ∨ wc.iget_type current = WellControlType.SURFACE_RATE
      ∨ wc.iget_type current = WellControlType.RESERVOIR_RATE) :
    updateWellStateWithTarget ctx wc current well_index xw
      = Except.error
          (WellModelError.logic_error "Expected PRODUCER or INJECTOR type of well") := by
  have hother : W.type well_index = WellType.OTHER := by
    cases h : W.type well_index with
    | INJECTOR => exact absurd h htype.2
    | PRODUCER => exact absurd h htype.1
    | OTHER => rfl
  have h1 : targetIntoState ctx W wc current well_index xw
      = Except.error
          (WellModelError.logic_error "Expected PRODUCER or INJECTOR type of well") := by
    unfold targetIntoState
    rcases hctrl with h | h | h
    · simp only [h, hother]
    · simp only [h, targetRates, hother]
    · simp only [h, targetRates, hother]
  unfold updateWellStateWithTarget
  simp only [hwells, h1]

/-- Instance of C27: a well of another type is switched onto a THP control. -/
theorem updateWellStateWithTarget_unexpected_type_witness :
    updateWellStateWithTarget { fxTargetCtx with wells_ := some (fxWells WellType.OTHER) }
        (fxControls WellControlType.THP 90 fxDistrOil) 0 0 fxStateTwo
      = Except.error
          (WellModelError.logic_error "Expected PRODUCER or INJECTOR type of well") :=
  updateWellStateWithTarget_unexpected_type
    { fxTargetCtx with wells_ := some (fxWells WellType.OTHER) } (fxWells WellType.OTHER)
    (fxControls WellControlType.THP 90 fxDistrOil) 0 0 fxStateTwo rfl
    ⟨by simp [fxWells], by simp [fxWells]⟩ (Or.inl rfl)

/-! ## The content of the well container -/

theorem createWellContainerLoop_ok {U : Type} (mk : Well → Nat → Wells → U)
    (wells_ecl_ : List Well) (current_timeIdx_ : Nat) (wells_arg : Wells) (n : Nat)
    (c : List U)
    (h : createWellContainerLoop mk wells_ecl_ current_timeIdx_ wells_arg n = Except.ok c) :
    c = (List.range n).filterMap fun w =>
      match findWellEcl wells_ecl_ (wells_arg.name w) with
      | some well_ecl =>
        if well_ecl.getStatus current_timeIdx_ = WellCommon.StatusEnum.SHUT then none
        else some (mk well_ecl current_timeIdx_ wells_arg)
      | none => none := by
  induction n generalizing c with
  | zero =>
    simp only [createWellContainerLoop] at h
    cases h
    rfl
  | succ n ih =>
    simp only [createWellContainerLoop] at h
    cases hl : createWellContainerLoop mk wells_ecl_ current_timeIdx_ wells_arg n with
    | error e => rw [hl] at h; cases h
    | ok c0 =>
      rw [hl] at h
      simp only at h
      have hc0 := ih c0 hl
      rw [List.range_succ, List.filterMap_append, ← hc0]
      unfold createWellContainerWell at h
      cases hf : findWellEcl wells_ecl_ (wells_arg.name n) with
      | none => simp only [hf] at h; cases h
      | some well_ecl =>
        simp only [hf] at h
        by_cases hs : well_ecl.getStatus current_timeIdx_ = WellCommon.StatusEnum.SHUT
        · rw [if_pos hs] at h
          cases h
          simp [hf, hs]
        · rw [if_neg hs] at h
          by_cases hm : well_ecl.isMultiSegment current_timeIdx_ = true
          · rw [if_pos hm] at h; cases h
          · rw [if_neg hm] at h
            cases h
            simp [hf, hs]

theorem createWellContainerLoop_total {U : Type} (mk : Well → Nat → Wells → U)
    (wells_ecl_ : List Well) (current_timeIdx_ : Nat) (wells_arg : Wells) (n : Nat)
    (h : ∀ w, w < n → ∃ well_ecl, findWellEcl wells_ecl_ (wells_arg.name w) = some well_ecl ∧
      (well_ecl.getStatus current_timeIdx_ = WellCommon.StatusEnum.SHUT
        ∨ well_ecl.isMultiSegment current_timeIdx_ = false)) :
    ∃ c, createWellContainerLoop mk wells_ecl_ current_timeIdx_ wells_arg n = Except.ok c := by
  induction n with
  | zero => exact ⟨[], rfl⟩
  | succ n ih =>
    obtain ⟨c0, hc0⟩ := ih (fun w hw => h w (Nat.lt_succ_of_lt hw))
    obtain ⟨well_ecl, hf, hok⟩ := h n (Nat.lt_succ_self n)
    simp only [createWellContainerLoop, hc0, createWellContainerWell, hf]
    by_cases hs : well_ecl.getStatus current_timeIdx_ = WellCommon.StatusEnum.SHUT
    · exact ⟨c0, by rw [if_pos hs]⟩
    · rcases hok with hok | hok
      · exact absurd hok hs
      · exact ⟨_, by rw [if_neg hs, hok]; rfl⟩

/-- Claim C21. When the construction succeeds, the well container holds, in the
order of the `Wells` struct, the well unit of each well of the struct whose
schedule well is not SHUT at the current step, and nothing for a SHUT well;
with no local wells (a null struct or one without wells) the construction
succeeds with the empty container. The construction succeeds when every well
of the struct is found in `wells_ecl` and is SHUT or not multi-segment. -/
theorem constructWellContainer_not_shut {U : Type} (mk : Well → Nat → Wells → U) (W : Wells)
    (wells_ecl : List Well) (current_timeIdx : Nat) :
    (∀ c, constructWellContainer mk (some W) wells_ecl current_timeIdx = Except.ok c →
      c = (List.range W.number_of_wells).filterMap fun w =>
        match findWellEcl wells_ecl (W.name w) with
        | some well_ecl =>
          if well_ecl.getStatus current_timeIdx = WellCommon.StatusEnum.SHUT then none
          else some (mk well_ecl current_timeIdx W)
        | none => none) ∧
    ((∀ w, w < W.number_of_wells → ∃ well_ecl,
        findWellEcl wells_ecl (W.name w) = some well_ecl ∧
        (well_ecl.getStatus current_timeIdx = WellCommon.StatusEnum.SHUT
          ∨ well_ecl.isMultiSegment current_timeIdx = false)) →
      ∃ c, constructWellContainer mk (some W) wells_ecl current_timeIdx = Except.ok c) ∧
    (W.number_of_wells = 0 →
      constructWellContainer mk (some W) wells_ecl current_timeIdx = Except.ok []) ∧
    constructWellContainer mk none wells_ecl current_timeIdx = Except.ok [] := by
  have hzero : W.number_of_wells = 0 →
      constructWellContainer mk (some W) wells_ecl current_timeIdx = Except.ok [] := by
    intro h0
    simp [constructWellContainer, createWellContainer, localWellsActiveOf, h0]
  refine ⟨?_, ?_, hzero, ?_⟩
  · intro c hc
    by_cases hlocal : 0 < W.number_of_wells
    · rw [constructWellContainer_some mk W wells_ecl current_timeIdx hlocal] at hc
      exact createWellContainerLoop_ok mk wells_ecl current_timeIdx W _ c hc
    · have h0 : W.number_of_wells = 0 := by omega
      rw [hzero h0] at hc
      cases hc
      rw [h0]
      rfl
  · intro h
    by_cases hlocal : 0 < W.number_of_wells
    · rw [constructWellContainer_some mk W wells_ecl current_timeIdx hlocal]
      exact createWellContainerLoop_total mk wells_ecl current_timeIdx W _ h
    · exact ⟨[], hzero (by omega)⟩
  · simp [constructWellContainer, createWellContainer, localWellsActiveOf]

/-- The construction on the struct `fxWellsTwo` when `P1` is SHUT and `P2` is
OPEN: the container holds the unit of `P2` only. -/
theorem fxWellsTwo_shut_open {U : Type} (mk : Well → Nat → Wells → U) :
    constructWellContainer mk (some fxWellsTwo)
        [fxWellEcl "P1" WellCommon.StatusEnum.SHUT false,
          fxWellEcl "P2" WellCommon.StatusEnum.OPEN false] 0
      = Except.ok [mk (fxWellEcl "P2" WellCommon.StatusEnum.OPEN false) 0 fxWellsTwo] := by
  simp [constructWellContainer, createWellContainer, localWellsActiveOf, createWellContainerLoop,
    createWellContainerWell, findWellEcl, fxWellsTwo, fxWellEcl]

/-- Instance of C21: `P1` is SHUT and `P2` is OPEN; the container holds the
unit of `P2` only. -/
theorem constructWellContainer_not_shut_witness :
    constructWellContainer (fun well _ _ => well.name) (some fxWellsTwo)
        [fxWellEcl "P1" WellCommon.StatusEnum.SHUT false,
          fxWellEcl "P2" WellCommon.StatusEnum.OPEN false] 0 = Except.ok ["P2"] ∧
    ["P2"] = (List.range fxWellsTwo.number_of_wells).filterMap fun w =>
      match findWellEcl [fxWellEcl "P1" WellCommon.StatusEnum.SHUT false,
          fxWellEcl "P2" WellCommon.StatusEnum.OPEN false] (fxWellsTwo.name w) with
      | some well_ecl =>
        if well_ecl.getStatus 0 = WellCommon.StatusEnum.SHUT then none
        else some ((fun well (_ : Nat) (_ : Wells) => well.name) well_ecl 0 fxWellsTwo)
      | none => none :=
  ⟨fxWellsTwo_shut_open _,
    (constructWellContainer_not_shut (fun well _ _ => well.name) fxWellsTwo
      [fxWellEcl "P1" WellCommon.StatusEnum.SHUT false,
        fxWellEcl "P2" WellCommon.StatusEnum.OPEN false] 0).1 ["P2"] (fxWellsTwo_shut_open _)⟩

theorem createWellContainerLoop_aligned {U : Type} (mk : Well → Nat → Wells → U)
    (wells_ecl_ : List Well) (current_timeIdx_ : Nat) (wells_arg : Wells) (n : Nat)
    (c : List U)
    (h : createWellContainerLoop mk wells_ecl_ current_timeIdx_ wells_arg n = Except.ok c)
    (hopen : ∀ w well_ecl, w < n →
      findWellEcl wells_ecl_ (wells_arg.name w) = some well_ecl →
      well_ecl.getStatus current_timeIdx_ ≠ WellCommon.StatusEnum.SHUT) :
    c.length = n ∧
    ∀ w, w < n → ∃ well_ecl,
      findWellEcl wells_ecl_ (wells_arg.name w) = some well_ecl ∧
      c.get? w = some (mk well_ecl current_timeIdx_ wells_arg) := by
  induction n generalizing c with
  | zero =>
    simp only [createWellContainerLoop] at h
    cases h
    exact ⟨rfl, fun w hw => absurd hw (Nat.not_lt_zero w)⟩
  | succ n ih =>
    simp only [createWellContainerLoop] at h
    cases hl : createWellContainerLoop mk wells_ecl_ current_timeIdx_ wells_arg n with
    | error e => rw [hl] at h; cases h
    | ok c0 =>
      rw [hl] at h
      simp only at h
      obtain ⟨hlen, hget⟩ := ih c0 hl (fun w well_ecl hw => hopen w well_ecl (Nat.lt_succ_of_lt hw))
      unfold createWellContainerWell at h
      cases hf : findWellEcl wells_ecl_ (wells_arg.name n) with
      | none => simp only [hf] at h; cases h
      | some well_ecl =>
        simp only [hf] at h
        have hs := hopen n well_ecl (Nat.lt_succ_self n) hf
        rw [if_neg hs] at h
        by_cases hm : well_ecl.isMultiSegment current_timeIdx_ = true
        · rw [if_pos hm] at h; cases h
        · rw [if_neg hm] at h
          cases h
          refine ⟨by simp [hlen], fun w hw => ?_⟩
          by_cases hwn : w < n
          · obtain ⟨we, hwe, hg⟩ := hget w hwn
            refine ⟨we, hwe, ?_⟩
            rw [List.get?_eq_getElem?, List.getElem?_append_left (by rw [hlen]; exact hwn),
              ← List.get?_eq_getElem?, hg]
          · have hwe : w = n := by omega
            subst hwe
            refine ⟨well_ecl, hf, ?_⟩
            rw [List.get?_eq_getElem?, List.getElem?_append_right (by rw [hlen]), hlen]
            simp

/-- When the construction succeeds and no well of the struct is SHUT, the
container has `number_of_wells` entries and the entry `w` is the unit of the
well `w` of the struct. -/
theorem constructWellContainer_aligned {U : Type} (mk : Well → Nat → Wells → U) (W : Wells)
    (wells_ecl : List Well) (current_timeIdx : Nat) (c : List U)
    (hc : constructWellContainer mk (some W) wells_ecl current_timeIdx = Except.ok c)
    (hopen : ∀ w well_ecl, w < W.number_of_wells →
      findWellEcl wells_ecl (W.name w) = some well_ecl →
      well_ecl.getStatus current_timeIdx ≠ WellCommon.StatusEnum.SHUT) :
    c.length = W.number_of_wells ∧
    ∀ w, w < W.number_of_wells → ∃ well_ecl,
      findWellEcl wells_ecl (W.name w) = some well_ecl ∧
      c.get? w = some (mk well_ecl current_timeIdx W) := by
  by_cases hlocal : 0 < W.number_of_wells
  · rw [constructWellContainer_some mk W wells_ecl current_timeIdx hlocal] at hc
    exact createWellContainerLoop_aligned mk wells_ecl current_timeIdx W _ c hc hopen
  · exact ⟨by
      have h0 : W.number_of_wells = 0 := by omega
      have : constructWellContainer mk (some W) wells_ecl current_timeIdx = Except.ok [] := by
        simp [constructWellContainer, createWellContainer, localWellsActiveOf, h0]
      rw [this] at hc
      cases hc
      rw [h0]
      rfl, fun w hw => absurd (Nat.lt_of_le_of_lt (Nat.zero_le w) hw) hlocal⟩

theorem foldlM_none_of_mem {σ α : Type} (f : σ → α → Option σ) (l : List α) (x : α)
    (hx : x ∈ l) (hf : ∀ s, f s x = none) (s : σ) : l.foldlM f s = none := by
  induction l generalizing s with
  | nil => cases hx
  | cons y ys ih =>
    rw [List.foldlM_cons]
    rcases List.mem_cons.mp hx with h | h
    · subst h
      rw [hf s]
      rfl
    · cases hy : f s y with
      | none => rfl
      | some s1 => exact ih h s1

theorem assembleWellEq_out_of_range {ι : Type} (m : StandardWellsDense ι) (only_wells : Bool)
    (s : SimState ι) (h : m.well_container_.length < m.number_of_wells_) :
    m.assembleWellEq only_wells s = none := by
  unfold StandardWellsDense.assembleWellEq
  apply foldlM_none_of_mem _ _ m.well_container_.length (List.mem_range.mpr h)
  intro s1
  rw [List.get?_eq_none.mpr (Nat.le_refl _)]
  rfl

/-- Claim C22, evaluated at a failing input. The struct holds the wells `P1`
and `P2`, and `P1` is SHUT at the current step. The construction succeeds with
a container of one entry, the unit of `P2`, while `number_of_wells_` is 2: the
entry 0 is not the unit of the well 0, and `assembleWellEq` on a coordinator
with these members reads `well_container_[1]` outside the container. -/
theorem constructWellContainer_shut_well_misaligned :
    fxWellsTwo.number_of_wells = 2 ∧ fxWellsTwo.name 0 = "P1" ∧ fxWellsTwo.name 1 = "P2" ∧
    (∀ (U : Type) (mk : Well → Nat → Wells → U),
      constructWellContainer mk (some fxWellsTwo)
          [fxWellEcl "P1" WellCommon.StatusEnum.SHUT false,
            fxWellEcl "P2" WellCommon.StatusEnum.OPEN false] 0
        = Except.ok [mk (fxWellEcl "P2" WellCommon.StatusEnum.OPEN false) 0 fxWellsTwo]) ∧
    (∀ (m : StandardWellsDense Nat) (well : StandardWell Nat) (only_wells : Bool)
        (s : SimState Nat),
      m.number_of_wells_ = 2 → m.well_container_ = [well] →
      m.assembleWellEq only_wells s = none) := by
  refine ⟨rfl, rfl, rfl, fun U mk => fxWellsTwo_shut_open mk, ?_⟩
  intro m well only_wells s hn hc
  apply assembleWellEq_out_of_range
  rw [hc, hn]
  exact Nat.lt_succ_self 1

/-! ## The flags of the well nodes -/

theorem getD_set_eq {α : Type} (l : List α) (j i : Nat) (a d : α) :
    (l.set j a).getD i d = if j = i ∧ j < l.length then a else l.getD i d := by
  simp only [List.getD_eq_getElem?_getD, List.getElem?_set]
  by_cases hji : j = i
  · subst hji
    by_cases hj : j < l.length
    · simp [hj]
    · simp [hj, List.getElem?_eq_none (Nat.le_of_not_lt hj)]
  · simp [hji]

theorem findWellNode_cons_eq (node : WellNode) (rest : List WellNode) (name : String)
    (h : node.name = name) : findWellNode (node :: rest) name = some node := by
  simp [findWellNode, List.find?, h]

theorem findWellNode_cons_ne (node : WellNode) (rest : List WellNode) (name : String)
    (h : ¬ node.name = name) : findWellNode (node :: rest) name = findWellNode rest name := by
  simp [findWellNode, List.find?, h]

theorem findWellNode_setIndividualControlOf (leaf_nodes : List WellNode) (name name1 : String)
    (b : Bool) :
    findWellNode (setIndividualControlOf leaf_nodes name b) name1
      = if name1 = name then
          (findWellNode leaf_nodes name).map fun node => node.setIndividualControl b
        else findWellNode leaf_nodes name1 := by
  induction leaf_nodes with
  | nil =>
    simp [setIndividualControlOf, findWellNode]
  | cons node rest ih =>
    unfold setIndividualControlOf
    by_cases hn : node.name = name
    · rw [if_pos hn, findWellNode_cons_eq node rest name hn]
      by_cases h1 : name1 = name
      · rw [if_pos h1, findWellNode_cons_eq _ _ _ (by rw [h1]; exact hn)]
        rfl
      · rw [if_neg h1]
        have h2 : ¬ node.name = name1 := fun h => h1 (h.symm.trans hn)
        rw [findWellNode_cons_ne _ _ _ (by exact h2), findWellNode_cons_ne _ _ _ h2]
    · rw [if_neg hn, findWellNode_cons_ne node rest name hn]
      by_cases h1 : node.name = name1
      · have h2 : ¬ name1 = name := fun h => hn (h1.trans h)
        rw [if_neg h2, findWellNode_cons_eq _ _ _ h1, findWellNode_cons_eq _ _ _ h1]
      · rw [findWellNode_cons_ne _ _ _ h1, findWellNode_cons_ne _ _ _ h1, ih]

namespace StandardWellsDense

variable {ι : Type}

/-- One pass of the first loop of `prepareTimeStep` with group control active,
for a well that has a node. -/
theorem prepareTimeStepWell_active (m : StandardWellsDense ι) (W : Wells) (w : Nat)
    (s : SimState ι) (well_node : WellNode)
    (hW : m.wells_ = some W) (hw : w < W.number_of_wells)
    (hact : ∀ s1 : SimState ι, s1.ext = s.ext → m.well_collection_.groupControlActive s1 = true)
    (hnode : findWellNode s.leaf_nodes (W.name w) = some well_node)
    (hlen : W.number_of_wells ≤ s.well_state.currentControls.length) :
    ∃ s1, m.prepareTimeStepWell W w s = some s1 ∧ s1.ext = s.ext ∧
      s1.well_state.currentControls.length = s.well_state.currentControls.length ∧
      (∀ v, v ≠ w → s1.well_state.currentControls.getD v 0
        = s.well_state.currentControls.getD v 0) ∧
      (∀ v, v < W.number_of_wells →
        s1.ctrl_current v = s1.well_state.currentControls.getD v 0) ∧
      s1.leaf_nodes = setIndividualControlOf s.leaf_nodes (W.name w)
        (decide ¬ (0 ≤ well_node.groupControlIndex
          ∧ s1.ctrl_current w = well_node.groupControlIndex)) := by
  have hreset : m.resetWellControlFromState s.well_state s.ctrl_current
      = some (recoverWellControls W.number_of_wells s.well_state.currentControls
          s.ctrl_current) := by
    unfold resetWellControlFromState
    simp only [hW]
  have hc : ∀ v, v < W.number_of_wells →
      recoverWellControls W.number_of_wells s.well_state.currentControls s.ctrl_current v
        = s.well_state.currentControls.getD v 0 := by
    intro v hv
    rw [recoverWellControls_apply, if_pos hv]
  have hgca : m.well_collection_.groupControlActive
      { s with
        ctrl_current := recoverWellControls W.number_of_wells s.well_state.currentControls
          s.ctrl_current } = true := hact _ rfl
  unfold prepareTimeStepWell
  rw [hreset]
  simp only [hgca, if_true, hnode]
  by_cases hfix : well_node.groupControlIndex ≥ 0
      ∧ recoverWellControls W.number_of_wells s.well_state.currentControls s.ctrl_current w < 0
  · simp only [if_pos hfix, Function.update_same]
    rw [if_pos ⟨hfix.1, trivial⟩]
    refine ⟨_, rfl, rfl, by simp, ?_, ?_, ?_⟩
    · intro v hv
      show (s.well_state.currentControls.set w well_node.groupControlIndex).getD v 0 = _
      rw [getD_set_eq, if_neg (fun h => hv h.1.symm)]
    · intro v hv
      show Function.update
          (recoverWellControls W.number_of_wells s.well_state.currentControls s.ctrl_current)
          w well_node.groupControlIndex v
        = (s.well_state.currentControls.set w well_node.groupControlIndex).getD v 0
      rw [getD_set_eq]
      by_cases hvw : v = w
      · subst hvw
        rw [Function.update_same, if_pos ⟨rfl, Nat.lt_of_lt_of_le hw hlen⟩]
      · rw [Function.update_noteq hvw, if_neg (fun h => hvw h.1.symm), hc v hv]
    · have h0 : 0 ≤ well_node.groupControlIndex := hfix.1
      simp [h0]
  · simp only [if_neg hfix]
    by_cases hflag : well_node.groupControlIndex ≥ 0
        ∧ recoverWellControls W.number_of_wells s.well_state.currentControls s.ctrl_current w
          = well_node.groupControlIndex
    · rw [if_pos hflag]
      refine ⟨_, rfl, rfl, rfl, fun v _ => rfl, fun v hv => hc v hv, ?_⟩
      have h0 : 0 ≤ well_node.groupControlIndex := hflag.1
      simp [h0, hflag.2]
    · rw [if_neg hflag]
      refine ⟨_, rfl, rfl, rfl, fun v _ => rfl, fun v hv => hc v hv, ?_⟩
      have h1 : ¬ (0 ≤ well_node.groupControlIndex
          ∧ recoverWellControls W.number_of_wells s.well_state.currentControls s.ctrl_current w
            = well_node.groupControlIndex) := hflag
      simp [h1]

/-- The state after the first `n` passes of the first loop of
`prepareTimeStep`, with group control active. -/
theorem prepareTimeStepControls_flags (m : StandardWellsDense ι) (W : Wells) (s : SimState ι)
    (hW : m.wells_ = some W)
    (hact : ∀ s1 : SimState ι, s1.ext = s.ext → m.well_collection_.groupControlActive s1 = true)
    (hnodes : ∀ w, w < W.number_of_wells → findWellNode s.leaf_nodes (W.name w) ≠ none)
    (hnames : ∀ v w, v < W.number_of_wells → w < W.number_of_wells →
      W.name v = W.name w → v = w)
    (hlen : W.number_of_wells ≤ s.well_state.currentControls.length) (n : Nat)
    (hn : n ≤ W.number_of_wells) :
    ∃ sn, m.prepareTimeStepControls W n s = some sn ∧ sn.ext = s.ext ∧
      sn.well_state.currentControls.length = s.well_state.currentControls.length ∧
      (∀ name, (findWellNode sn.leaf_nodes name).map (fun node => node.groupControlIndex)
        = (findWellNode s.leaf_nodes name).map fun node => node.groupControlIndex) ∧
      (0 < n → ∀ v, v < W.number_of_wells →
        sn.ctrl_current v = sn.well_state.currentControls.getD v 0) ∧
      (∀ w, w < n → ∃ well_node, findWellNode sn.leaf_nodes (W.name w) = some well_node ∧
        (well_node.individualControl = false ↔
          (0 ≤ well_node.groupControlIndex
            ∧ sn.well_state.currentControls.getD w 0 = well_node.groupControlIndex))) := by
  induction n with
  | zero =>
    exact ⟨s, rfl, rfl, rfl, fun _ => rfl, fun h => absurd h (Nat.lt_irrefl 0),
      fun w hw => absurd hw (Nat.not_lt_zero w)⟩
  | succ n ih =>
    obtain ⟨sn, hsn, hext, hclen, hgci, _, hflags⟩ := ih (Nat.le_of_succ_le hn)
    have hnlt : n < W.number_of_wells := hn
    -- the node of the well `n`
    have hfind : ∃ well_node, findWellNode sn.leaf_nodes (W.name n) = some well_node := by
      have h1 := hgci (W.name n)
      cases hf : findWellNode sn.leaf_nodes (W.name n) with
      | some well_node => exact ⟨well_node, rfl⟩
      | none =>
        rw [hf] at h1
        cases hs : findWellNode s.leaf_nodes (W.name n) with
        | none => exact absurd hs (hnodes n hnlt)
        | some nd => rw [hs] at h1; cases h1
    obtain ⟨well_node, hnode⟩ := hfind
    obtain ⟨s1, hs1, hext1, hclen1, hother, hsync, hleaf⟩ :=
      m.prepareTimeStepWell_active W n sn well_node hW hnlt
        (fun s2 h2 => hact s2 (h2.trans hext)) hnode (by rw [hclen]; exact hlen)
    refine ⟨s1, ?_, hext1.trans hext, hclen1.trans hclen, ?_, fun _ => hsync, ?_⟩
    · unfold prepareTimeStepControls at hsn ⊢
      rw [List.range_succ, List.foldlM_append, hsn]
      show (m.prepareTimeStepWell W n sn).bind _ = _
      rw [hs1]
      rfl
    · intro name
      rw [hleaf, findWellNode_setIndividualControlOf, ← hgci name]
      by_cases h1 : name = W.name n
      · rw [if_pos h1, h1, hnode]
        rfl
      · rw [if_neg h1]
    · intro w hw
      by_cases hwn : w = n
      · subst hwn
        refine ⟨well_node.setIndividualControl
          (decide ¬ (0 ≤ well_node.groupControlIndex
            ∧ s1.ctrl_current w = well_node.groupControlIndex)), ?_, ?_⟩
        · rw [hleaf, findWellNode_setIndividualControlOf, if_pos rfl, hnode]
          rfl
        · rw [← hsync w hnlt]
          simp [WellNode.setIndividualControl]
      · have hwlt : w < n := by omega
        obtain ⟨nd, hnd, hiff⟩ := hflags w hwlt
        have hname : ¬ W.name w = W.name n := fun h =>
          hwn (hnames w n (Nat.lt_trans hwlt hnlt) hnlt h)
        refine ⟨nd, ?_, ?_⟩
        · rw [hleaf, findWellNode_setIndividualControlOf, if_neg hname, hnd]
        · rw [hother w hwn]
          exact hiff

/-- Claim C24, as amended. With group control active, a node for every well,
distinct well names and a control index stored for every well, the per-well
pass of `prepareTimeStep` returns and leaves the node of each well flagged as
under group control (`individualControl = false`) exactly when the
group-control index of the node is not negative and equals the current control
index of the well, and as under individual control otherwise; the current
control of the well is also the one recorded in the well state, and the pass
does not change the group-control index of a node. -/
theorem prepareTimeStepControls_individualControl (m : StandardWellsDense ι) (W : Wells)
    (s : SimState ι)
    (hW : m.wells_ = some W)
    (hact : ∀ s1 : SimState ι, s1.ext = s.ext → m.well_collection_.groupControlActive s1 = true)
    (hnodes : ∀ w, w < W.number_of_wells → findWellNode s.leaf_nodes (W.name w) ≠ none)
    (hnames : ∀ v w, v < W.number_of_wells → w < W.number_of_wells →
      W.name v = W.name w → v = w)
    (hlen : W.number_of_wells ≤ s.well_state.currentControls.length) :
    ∃ s1, m.prepareTimeStepControls W W.number_of_wells s = some s1 ∧
      ∀ w, w < W.number_of_wells →
        ∃ well_node, findWellNode s1.leaf_nodes (W.name w) = some well_node ∧
          (findWellNode s.leaf_nodes (W.name w)).map (fun node => node.groupControlIndex)
            = some well_node.groupControlIndex ∧
          s1.well_state.currentControls.getD w 0 = s1.ctrl_current w ∧
          (well_node.individualControl = false ↔
            (0 ≤ well_node.groupControlIndex
              ∧ s1.ctrl_current w = well_node.groupControlIndex)) ∧
          (well_node.individualControl = true ↔
            ¬ (0 ≤ well_node.groupControlIndex
              ∧ s1.ctrl_current w = well_node.groupControlIndex)) := by
  obtain ⟨s1, hs1, _, _, hgci, hsync, hflags⟩ :=
    m.prepareTimeStepControls_flags W s hW hact hnodes hnames hlen W.number_of_wells
      (Nat.le_refl _)
  refine ⟨s1, hs1, fun w hw => ?_⟩
  obtain ⟨well_node, hnode, hiff⟩ := hflags w hw
  have hs := hsync (Nat.lt_of_le_of_lt (Nat.zero_le w) hw) w hw
  have hg := hgci (W.name w)
  rw [hnode] at hg
  rw [← hs] at hiff
  refine ⟨well_node, hnode, hg.symm, hs.symm, hiff, ?_⟩
  rw [← hiff]
  cases well_node.individualControl <;> simp

/-- The per-well pass of `prepareTimeStep` on the example `fxEntryGroup`. -/
theorem fxModelGroup_prepareTimeStepControls :
    ∃ s1, fxModelGroup.prepareTimeStepControls fxWellsTwo 2 fxEntryGroup = some s1 ∧
      s1.ctrl_current 0 = 1 ∧ s1.ctrl_current 1 = -1 ∧
      s1.well_state.currentControls = [1, -1] ∧
      s1.leaf_nodes = [⟨"P1", 0, false, 1, false⟩, ⟨"P2", 1, false, -1, true⟩] :=
  ⟨_, rfl, rfl, rfl, rfl, rfl⟩

/-- Instance of the amended C24: after a restart both wells have the control
index -1; the group has assigned the control 1 to `P1` and none to `P2`. The
pass puts `P1` on the control 1 and flags it as under group control; `P2`
keeps the index -1 and is flagged as under individual control. -/
theorem prepareTimeStepControls_individualControl_witness :
    ∃ s1, fxModelGroup.prepareTimeStepControls fxWellsTwo 2 fxEntryGroup = some s1 ∧
      (∃ node, findWellNode s1.leaf_nodes "P1" = some node ∧ node.groupControlIndex = 1 ∧
        s1.ctrl_current 0 = 1 ∧ node.individualControl = false) ∧
      (∃ node, findWellNode s1.leaf_nodes "P2" = some node ∧ node.groupControlIndex = -1 ∧
        s1.ctrl_current 1 = -1 ∧ node.individualControl = true) := by
  have hnodes : ∀ w, w < fxWellsTwo.number_of_wells →
      findWellNode fxEntryGroup.leaf_nodes (fxWellsTwo.name w) ≠ none := by
    intro w hw
    have hw2 : w < 2 := hw
    interval_cases w <;> simp [findWellNode, fxEntryGroup, fxWellsTwo]
  have hnames : ∀ v w, v < fxWellsTwo.number_of_wells → w < fxWellsTwo.number_of_wells →
      fxWellsTwo.name v = fxWellsTwo.name w → v = w := by
    intro v w hv hw
    have hv2 : v < 2 := hv
    have hw2 : w < 2 := hw
    interval_cases v <;> interval_cases w <;> simp [fxWellsTwo]
  obtain ⟨s1, hs1, h⟩ := prepareTimeStepControls_individualControl fxModelGroup fxWellsTwo
    fxEntryGroup rfl (fun _ _ => rfl) hnodes hnames (by simp [fxWellsTwo, fxEntryGroup])
  obtain ⟨s2, hs2, hc0, hc1, _, _⟩ := fxModelGroup_prepareTimeStepControls
  have he : s2 = s1 := Option.some.inj (hs2.symm.trans hs1)
  subst he
  obtain ⟨n0, hn0, hg0, _, hiff0, _⟩ := h 0 (by simp [fxWellsTwo])
  obtain ⟨n1, hn1, hg1, _, _, hiff1⟩ := h 1 (by simp [fxWellsTwo])
  have hg0v : n0.groupControlIndex = 1 := by
    have e : (findWellNode fxEntryGroup.leaf_nodes (fxWellsTwo.name 0)).map
        (fun node => node.groupControlIndex) = some 1 := by
      simp [findWellNode, fxEntryGroup, fxWellsTwo]
    rw [e] at hg0
    exact (Option.some.inj hg0).symm
  have hg1v : n1.groupControlIndex = -1 := by
    have e : (findWellNode fxEntryGroup.leaf_nodes (fxWellsTwo.name 1)).map
        (fun node => node.groupControlIndex) = some (-1) := by
      simp [findWellNode, fxEntryGroup, fxWellsTwo]
    rw [e] at hg1
    exact (Option.some.inj hg1).symm
  refine ⟨s2, hs1, ⟨n0, hn0, hg0v, hc0, ?_⟩, ⟨n1, hn1, hg1v, hc1, ?_⟩⟩
  · rw [hiff0, hg0v, hc0]
    exact ⟨by decide, rfl⟩
  · rw [hiff1, hg1v]
    intro hcon
    exact absurd hcon.1 (by decide)

/-- Claim C24, refuted as stated. Group control is active; the well `P2` has the
current control index -1 and its node has the group-control index -1: the two
indices are equal, and after the per-well pass of `prepareTimeStep` the node is
flagged as under individual control, not as under group control. -/
theorem prepareTimeStepControls_equal_negative_indices :
    ∃ s1 node, fxModelGroup.prepareTimeStepControls fxWellsTwo 2 fxEntryGroup = some s1 ∧
      fxModelGroup.well_collection_.groupControlActive s1 = true ∧
      findWellNode s1.leaf_nodes (fxWellsTwo.name 1) = some node ∧
      s1.ctrl_current 1 = -1 ∧ node.groupControlIndex = -1 ∧
      s1.ctrl_current 1 = node.groupControlIndex ∧
      node.individualControl = true := by
  obtain ⟨s1, hs1, _, hc1, _, hleaf⟩ := fxModelGroup_prepareTimeStepControls
  refine ⟨s1, ⟨"P2", 1, false, -1, true⟩, hs1, rfl, ?_, hc1, rfl, hc1, rfl⟩
  rw [hleaf]
  simp [findWellNode, fxWellsTwo]

end StandardWellsDense

namespace StandardWellsDense

variable {ι : Type}

/-! ## The controls of the injectors of VREP groups -/

/-- The method `computeWellVoidageRates` returns when `wells_` is not null. -/
theorem computeWellVoidageRates_some (m : StandardWellsDense ι) (W : Wells)
    (well_state : WellState) (r c : List ℚ) (hW : m.wells_ = some W) :
    ∃ rc, m.computeWellVoidageRates well_state r c = some rc := by
  unfold computeWellVoidageRates wells
  by_cases h : m.localWellsActive = false
  · rw [if_pos h]
    exact ⟨_, rfl⟩
  · rw [if_neg h]
    simp only [hW]
    exact ⟨_, rfl⟩

/-- The loop of `applyVREPGroupControl` over a list of leaves, when `wells_` is
not null: the loop returns, a qualifying leaf has its group-control index as the
current control of its well unless a later qualifying leaf of the same well
index has another one, and the wells of no qualifying leaf keep their control. -/
theorem applyVREPGroupControlNode_loop (m : StandardWellsDense ι) (W : Wells)
    (hW : m.wells_ = some W) (L : List WellNode) (s : SimState ι) :
    ∃ s2, L.foldlM (fun s well_node => m.applyVREPGroupControlNode s well_node) s = some s2 ∧
      s2.well_state.currentControls.length = s.well_state.currentControls.length ∧
      (∀ well_node, well_node ∈ L →
        well_node.isInjector = true → well_node.individualControl = false →
        well_node.selfIndex < s.well_state.currentControls.length →
        (∀ other, other ∈ L → other.isInjector = true → other.individualControl = false →
          other.selfIndex = well_node.selfIndex →
          other.groupControlIndex = well_node.groupControlIndex) →
        s2.well_state.currentControls.getD well_node.selfIndex 0 = well_node.groupControlIndex
          ∧ s2.ctrl_current well_node.selfIndex = well_node.groupControlIndex) ∧
      (∀ w, (∀ well_node, well_node ∈ L →
          well_node.isInjector = true → well_node.individualControl = false →
          well_node.selfIndex ≠ w) →
        s2.well_state.currentControls.getD w 0 = s.well_state.currentControls.getD w 0
          ∧ s2.ctrl_current w = s.ctrl_current w) := by
  induction L using List.reverseRecOn with
  | nil =>
    refine ⟨s, rfl, rfl, ?_, fun w _ => ⟨rfl, rfl⟩⟩
    intro well_node hmem
    cases hmem
  | append_singleton L x ih =>
    obtain ⟨s1, hs1, hlen1, ha, hb⟩ := ih
    rw [List.foldlM_append, hs1]
    by_cases hq : x.isInjector = true ∧ x.individualControl = false
    · -- the leaf `x` qualifies
      have hstep : m.applyVREPGroupControlNode s1 x
          = some { s1 with
              well_state :=
                { s1.well_state with
                  currentControls :=
                    s1.well_state.currentControls.set x.selfIndex x.groupControlIndex }
              ctrl_current :=
                Function.update s1.ctrl_current x.selfIndex x.groupControlIndex } := by
        unfold applyVREPGroupControlNode wells
        rw [if_pos hq]
        simp only [hW]
      refine ⟨_, by
        show (m.applyVREPGroupControlNode s1 x).bind _ = _
        rw [hstep]
        rfl, ?_, ?_, ?_⟩
      · show (s1.well_state.currentControls.set x.selfIndex x.groupControlIndex).length = _
        rw [List.length_set, hlen1]
      · intro well_node hmem hinj hind hin hcons
        show (s1.well_state.currentControls.set x.selfIndex x.groupControlIndex).getD
            well_node.selfIndex 0 = well_node.groupControlIndex
          ∧ Function.update s1.ctrl_current x.selfIndex x.groupControlIndex well_node.selfIndex
            = well_node.groupControlIndex
        rw [getD_set_eq]
        by_cases hsame : x.selfIndex = well_node.selfIndex
        · have hg : x.groupControlIndex = well_node.groupControlIndex :=
            hcons x (List.mem_append.mpr (Or.inr (List.mem_singleton.mpr rfl))) hq.1 hq.2 hsame
          rw [if_pos ⟨hsame, by rw [hsame, hlen1]; exact hin⟩, hsame, Function.update_same]
          exact ⟨hg, hg⟩
        · have hmemL : well_node ∈ L := by
            rcases List.mem_append.mp hmem with h | h
            · exact h
            · rw [List.mem_singleton.mp h] at hsame
              exact absurd rfl hsame
          rw [if_neg (fun h => hsame h.1), Function.update_noteq (fun h => hsame h.symm)]
          exact ha well_node hmemL hinj hind hin
            (fun other ho => hcons other (List.mem_append.mpr (Or.inl ho)))
      · intro w hw
        have hx : x.selfIndex ≠ w :=
          hw x (List.mem_append.mpr (Or.inr (List.mem_singleton.mpr rfl))) hq.1 hq.2
        show (s1.well_state.currentControls.set x.selfIndex x.groupControlIndex).getD w 0 = _
          ∧ Function.update s1.ctrl_current x.selfIndex x.groupControlIndex w = _
        rw [getD_set_eq, if_neg (fun h => hx h.1), Function.update_noteq (fun h => hx h.symm)]
        exact hb w (fun nd hnd => hw nd (List.mem_append.mpr (Or.inl hnd)))
    · -- the leaf `x` does not qualify
      have hstep : m.applyVREPGroupControlNode s1 x = some s1 := by
        unfold applyVREPGroupControlNode
        rw [if_neg hq]
      refine ⟨s1, by
        show (m.applyVREPGroupControlNode s1 x).bind _ = _
        rw [hstep]
        rfl, hlen1, ?_, ?_⟩
      · intro well_node hmem hinj hind hin hcons
        have hmemL : well_node ∈ L := by
          rcases List.mem_append.mp hmem with h | h
          · exact h
          · rw [List.mem_singleton.mp h] at hinj hind
            exact absurd ⟨hinj, hind⟩ hq
        exact ha well_node hmemL hinj hind hin
          (fun other ho => hcons other (List.mem_append.mpr (Or.inl ho)))
      · intro w hw
        exact hb w (fun nd hnd => hw nd (List.mem_append.mpr (Or.inl hnd)))

/-- Claim C25. When the well collection has VREP groups (and `wells_` is not
null), `applyVREPGroupControl` returns. With `s1` the data left by the call
`applyVREPGroupControls` of the collection, every injector leaf that is not
under individual control has its group-control index as the current control of
the well `selfIndex`, in the well state and in the control set of the well
(the index is within `currentControls`, and no other such leaf of the same well
index has another group-control index); the current control of a well that is
the well of no such leaf (a producer, an individually controlled well) is the
one of `s1`, and the one at the call when the collection does not change the
current controls. -/
theorem applyVREPGroupControl_injectors (m : StandardWellsDense ι) (W : Wells) (s : SimState ι)
    (hW : m.wells_ = some W)
    (hvrep : m.well_collection_.havingVREPGroups s = true) :
    ∃ rates coeffs s2, m.computeWellVoidageRates s.well_state [] [] = some (rates, coeffs) ∧
      m.applyVREPGroupControl s = some s2 ∧
      (∀ well_node, well_node ∈ (m.well_collection_.applyVREPGroupControls rates coeffs s).leaf_nodes →
        well_node.isInjector = true → well_node.individualControl = false →
        well_node.selfIndex < (m.well_collection_.applyVREPGroupControls rates coeffs
          s).well_state.currentControls.length →
        (∀ other,
          other ∈ (m.well_collection_.applyVREPGroupControls rates coeffs s).leaf_nodes →
          other.isInjector = true → other.individualControl = false →
          other.selfIndex = well_node.selfIndex →
          other.groupControlIndex = well_node.groupControlIndex) →
        s2.well_state.currentControls.getD well_node.selfIndex 0 = well_node.groupControlIndex
          ∧ s2.ctrl_current well_node.selfIndex = well_node.groupControlIndex) ∧
      (∀ w, (∀ well_node,
          well_node ∈ (m.well_collection_.applyVREPGroupControls rates coeffs s).leaf_nodes →
          well_node.isInjector = true → well_node.individualControl = false →
          well_node.selfIndex ≠ w) →
        (s2.well_state.currentControls.getD w 0
            = (m.well_collection_.applyVREPGroupControls rates coeffs
                s).well_state.currentControls.getD w 0
          ∧ s2.ctrl_current w
            = (m.well_collection_.applyVREPGroupControls rates coeffs s).ctrl_current w) ∧
        ((m.well_collection_.applyVREPGroupControls rates coeffs s).well_state.currentControls
            = s.well_state.currentControls →
          (m.well_collection_.applyVREPGroupControls rates coeffs s).ctrl_current
            = s.ctrl_current →
          s2.well_state.currentControls.getD w 0 = s.well_state.currentControls.getD w 0
            ∧ s2.ctrl_current w = s.ctrl_current w)) := by
  obtain ⟨⟨rates, coeffs⟩, hrc⟩ := m.computeWellVoidageRates_some W s.well_state [] [] hW
  obtain ⟨s2, hs2, _, ha, hb⟩ := m.applyVREPGroupControlNode_loop W hW
    (m.well_collection_.applyVREPGroupControls rates coeffs s).leaf_nodes
    (m.well_collection_.applyVREPGroupControls rates coeffs s)
  refine ⟨rates, coeffs, s2, hrc, ?_, ha, ?_⟩
  · unfold applyVREPGroupControl
    simp only [hvrep, if_true, hrc]
    exact hs2
  · intro w hw
    refine ⟨hb w hw, fun h1 h2 => ?_⟩
    rw [← h1, ← h2]
    exact hb w hw

/-- Instance of C25: of the three wells on the control 0, the injector under
group control takes its group-control index 3; the producer and the
individually controlled injector keep the control 0. -/
theorem applyVREPGroupControl_injectors_witness :
    ∃ s2, fxModelVREP.applyVREPGroupControl fxEntryVREP = some s2 ∧
      s2.well_state.currentControls.getD 0 0 = 3 ∧ s2.ctrl_current 0 = 3 ∧
      s2.well_state.currentControls.getD 1 0 = 0 ∧ s2.ctrl_current 1 = 0 ∧
      s2.well_state.currentControls.getD 2 0 = 0 ∧ s2.ctrl_current 2 = 0 := by
  obtain ⟨rates, coeffs, s2, _, hs2, ha, hb⟩ :=
    applyVREPGroupControl_injectors fxModelVREP fxWellsThree fxEntryVREP rfl rfl
  have hleaf : (fxModelVREP.well_collection_.applyVREPGroupControls rates coeffs
      fxEntryVREP) = fxEntryVREP := rfl
  rw [hleaf] at ha hb
  have h0 := ha ⟨"I1", 0, true, 3, false⟩ (by simp [fxEntryVREP]) rfl rfl
    (by simp [fxEntryVREP])
    (by
      intro other ho hinj hind hidx
      simp only [fxEntryVREP, List.mem_cons, List.mem_singleton, List.not_mem_nil,
        or_false] at ho
      rcases ho with h | h | h
      · subst h; rfl
      · subst h; cases hinj
      · subst h; cases hind)
  have hnot : ∀ w, w ≠ 0 → ∀ well_node, well_node ∈ fxEntryVREP.leaf_nodes →
      well_node.isInjector = true → well_node.individualControl = false →
      well_node.selfIndex ≠ w := by
    intro w hw0 well_node hn hinj hind
    simp only [fxEntryVREP, List.mem_cons, List.mem_singleton, List.not_mem_nil,
      or_false] at hn
    rcases hn with h | h | h
    · subst h; exact fun h => hw0 h.symm
    · subst h; cases hinj
    · subst h; cases hind
  have h1 := (hb 1 (hnot 1 (by decide))).1
  have h2 := (hb 2 (hnot 2 (by decide))).1
  exact ⟨s2, hs2, h0.1, h0.2, h1.1, h1.2, h2.1, h2.2⟩

end StandardWellsDense

/-! ## The failures of the geometry derivation -/

namespace CartesianToCompressed

theorem find_insert_eq_none (map : CartesianToCompressed) (key value key1 : Int) :
    find (insert map key value) key1 = none ↔ find map key1 = none ∧ key ≠ key1 := by
  unfold insert
  cases hk : find map key with
  | some v =>
    simp only
    constructor
    · intro h
      refine ⟨h, fun hkk => ?_⟩
      rw [hkk, h] at hk
      cases hk
    · exact fun h => h.1
  | none =>
    simp only
    unfold find
    rw [List.find?_append]
    cases hf : List.find? (fun kv => decide (kv.1 = key1)) map with
    | some kv => simp
    | none =>
      by_cases hkk : key = key1
      · simp [List.find?, hkk]
      · simp [List.find?, hkk]

end CartesianToCompressed

/-- The keys of the map built by `setupCompressedToCartesian` from the empty
map are the entries of `global_cell`, or the cell indices themselves for a null
array. -/
theorem setupCompressedToCartesian_find_eq_none (global_cell : Option (Nat → Int))
    (number_of_cells : Nat) (key : Int) :
    CartesianToCompressed.find (setupCompressedToCartesian global_cell number_of_cells []) key
        = none
      ↔ ∀ i, i < number_of_cells →
          (match global_cell with
            | some global_cell => global_cell i
            | none => (i : Int)) ≠ key := by
  have hfold : ∀ (f : Nat → Int) (n : Nat),
      CartesianToCompressed.find
          ((List.range n).foldl (fun map i => CartesianToCompressed.insert map (f i) i) []) key
        = none ↔ ∀ i, i < n → f i ≠ key := by
    intro f n
    induction n with
    | zero => simp [CartesianToCompressed.find]
    | succ n ih =>
      rw [List.range_succ, List.foldl_append]
      simp only [List.foldl_cons, List.foldl_nil]
      rw [CartesianToCompressed.find_insert_eq_none, ih]
      constructor
      · rintro ⟨h1, h2⟩ i hi
        by_cases hin : i = n
        · rw [hin]; exact h2
        · exact h1 i (by omega)
      · intro h
        exact ⟨fun i hi => h i (Nat.lt_succ_of_lt hi), h n (Nat.lt_succ_self n)⟩
  cases global_cell with
  | some gc => exact hfold gc number_of_cells
  | none => exact hfold (fun i => (i : Int)) number_of_cells

theorem computeRepRadiusPerfLengthCompletions_error (ctx : GeometryContext) (grid : Grid)
    (map : CartesianToCompressed) (well : Well) (completion : Completion)
    (hbad : ∀ g, ∃ e,
      computeRepRadiusPerfLengthCompletion ctx grid map well g completion = Except.error e)
    (cs : List Completion) (hmem : completion ∈ cs) (g : PerfGeometry) :
    ∃ e, computeRepRadiusPerfLengthCompletions ctx grid map well g cs = Except.error e := by
  induction cs generalizing g with
  | nil => cases hmem
  | cons c rest ih =>
    unfold computeRepRadiusPerfLengthCompletions
    rcases List.mem_cons.mp hmem with h | h
    · subst h
      obtain ⟨e, he⟩ := hbad g
      rw [he]
      exact ⟨e, rfl⟩
    · cases hc : computeRepRadiusPerfLengthCompletion ctx grid map well g c with
      | error e => exact ⟨e, rfl⟩
      | ok g1 => exact ih h g1

theorem computeRepRadiusPerfLengthWells_error (ctx : GeometryContext) (grid : Grid)
    (map : CartesianToCompressed) (well : Well)
    (hbad : ∀ g, ∃ e, computeRepRadiusPerfLengthWell ctx grid map g well = Except.error e)
    (ws : List Well) (hmem : well ∈ ws) (g : PerfGeometry) :
    ∃ e, computeRepRadiusPerfLengthWells ctx grid map g ws = Except.error e := by
  induction ws generalizing g with
  | nil => cases hmem
  | cons w rest ih =>
    unfold computeRepRadiusPerfLengthWells
    rcases List.mem_cons.mp hmem with h | h
    · subst h
      obtain ⟨e, he⟩ := hbad g
      rw [he]
      exact ⟨e, rfl⟩
    · cases hc : computeRepRadiusPerfLengthWell ctx grid map g w with
      | error e => exact ⟨e, rfl⟩
      | ok g1 => exact ih h g1

/-- Claim C23, as amended. The method `computeRepRadiusPerfLength` fails when
a well of `wells_ecl_` that is not SHUT at the current step has a completion
that is OPEN with a cartesian index `i + nx * (j + ny * k)`, computed as a 32-bit
`int`, that is not a key of the cartesian-to-compressed map, or OPEN with a
direction that is none of X, Y and Z, or in a state that is neither OPEN nor
SHUT. -/
theorem computeRepRadiusPerfLength_fails (ctx : GeometryContext) (grid : Grid)
    (g : PerfGeometry) (well : Well) (completion : Completion)
    (hwell : well ∈ ctx.wells_ecl_)
    (hstatus : well.getStatus ctx.current_timeIdx_ ≠ WellCommon.StatusEnum.SHUT)
    (hcompletion : completion ∈ well.getCompletions ctx.current_timeIdx_)
    (hbad :
      (completion.getState = WellCompletion.StateEnum.OPEN ∧
        CartesianToCompressed.find
          (setupCompressedToCartesian grid.globalCell grid.numCells [])
          (wrapInt32 (completion.getI + grid.cartDims 0 * (completion.getJ
            + grid.cartDims 1 * completion.getK))) = none)
      ∨ (completion.getState = WellCompletion.StateEnum.OPEN ∧
        completion.getDirection ≠ WellCompletion.DirectionEnum.X ∧
        completion.getDirection ≠ WellCompletion.DirectionEnum.Y ∧
        completion.getDirection ≠ WellCompletion.DirectionEnum.Z)
      ∨ (completion.getState ≠ WellCompletion.StateEnum.OPEN ∧
        completion.getState ≠ WellCompletion.StateEnum.SHUT)) :
    ∃ e, computeRepRadiusPerfLength ctx grid g = Except.error e := by
  have hstep : ∀ g1, ∃ e, computeRepRadiusPerfLengthCompletion ctx grid
      (setupCompressedToCartesian grid.globalCell grid.numCells []) well g1 completion
      = Except.error e := by
    intro g1
    unfold computeRepRadiusPerfLengthCompletion
    rcases hbad with ⟨hopen, hkey⟩ | ⟨hopen, hx, hy, hz⟩ | ⟨hnopen, hnshut⟩
    · simp only [hopen, if_true, hkey]
      exact ⟨_, rfl⟩
    · have hdir : completion.getDirection = WellCompletion.DirectionEnum.OTHER := by
        cases h : completion.getDirection with
        | X => exact absurd h hx
        | Y => exact absurd h hy
        | Z => exact absurd h hz
        | OTHER => rfl
      simp only [hopen, if_true, hdir]
      cases CartesianToCompressed.find
          (setupCompressedToCartesian grid.globalCell grid.numCells [])
          (wrapInt32 (completion.getI + grid.cartDims 0 * (completion.getJ
            + grid.cartDims 1 * completion.getK))) with
      | none => exact ⟨_, rfl⟩
      | some cell => exact ⟨_, rfl⟩
    · rw [if_neg hnopen, if_pos hnshut]
      exact ⟨_, rfl⟩
  have hwellstep : ∀ g1, ∃ e, computeRepRadiusPerfLengthWell ctx grid
      (setupCompressedToCartesian grid.globalCell grid.numCells []) g1 well
      = Except.error e := by
    intro g1
    unfold computeRepRadiusPerfLengthWell
    simp only [if_neg hstatus]
    exact computeRepRadiusPerfLengthCompletions_error ctx grid _ well completion hstep _
      hcompletion g1
  unfold computeRepRadiusPerfLength
  have hne : ¬ ctx.wells_ecl_.length = 0 := by
    intro h0
    rw [List.length_eq_zero] at h0
    rw [h0] at hwell
    cases hwell
  simp only [if_neg hne]
  cases ctx.wells_ with
  | none => exact ⟨_, rfl⟩
  | some W =>
    exact computeRepRadiusPerfLengthWells_error ctx grid _ well hwellstep _ hwell _

/-- Instance of the amended C23: on a grid of 2 x 2 x 1 cells the OPEN well `P1` has an
OPEN completion in the cell `(5, 0, 0)`, whose cartesian index 5 is not a key
of the map. -/
theorem computeRepRadiusPerfLength_fails_witness :
    ∃ e, computeRepRadiusPerfLength
      (fxGeometryCtx (fxWellCompletions WellCommon.StatusEnum.OPEN
        [fxCompletion WellCompletion.StateEnum.OPEN 1 WellCompletion.DirectionEnum.Z,
          fxCompletion WellCompletion.StateEnum.OPEN 5 WellCompletion.DirectionEnum.Z]))
      fxGrid ⟨[], [], []⟩ = Except.error e :=
  computeRepRadiusPerfLength_fails _ fxGrid ⟨[], [], []⟩
    (fxWellCompletions WellCommon.StatusEnum.OPEN
      [fxCompletion WellCompletion.StateEnum.OPEN 1 WellCompletion.DirectionEnum.Z,
        fxCompletion WellCompletion.StateEnum.OPEN 5 WellCompletion.DirectionEnum.Z])
    (fxCompletion WellCompletion.StateEnum.OPEN 5 WellCompletion.DirectionEnum.Z)
    (by simp [fxGeometryCtx])
    (by simp [fxGeometryCtx, fxWellCompletions, fxWellEcl])
    (by simp [fxGeometryCtx, fxWellCompletions])
    (Or.inl ⟨rfl, by
      rw [setupCompressedToCartesian_find_eq_none]
      intro i hi
      have hi4 : i < 4 := hi
      interval_cases i <;> simp [fxGrid, fxCompletion, wrapInt32]⟩)

/-- Claim C23, refuted as stated. The only schedule well `P1` is SHUT at the
current step and has a completion whose state is neither OPEN nor SHUT (and
whose direction is none of X, Y, Z): the completions of a SHUT well are not
examined and `computeRepRadiusPerfLength` returns, with the three vectors
emptied. -/
theorem computeRepRadiusPerfLength_shut_well :
    fxWellCompletions WellCommon.StatusEnum.SHUT
        [fxCompletion WellCompletion.StateEnum.OTHER 5 WellCompletion.DirectionEnum.OTHER]
      ∈ (fxGeometryCtx (fxWellCompletions WellCommon.StatusEnum.SHUT
        [fxCompletion WellCompletion.StateEnum.OTHER 5
          WellCompletion.DirectionEnum.OTHER])).wells_ecl_ ∧
    fxCompletion WellCompletion.StateEnum.OTHER 5 WellCompletion.DirectionEnum.OTHER
      ∈ (fxWellCompletions WellCommon.StatusEnum.SHUT
        [fxCompletion WellCompletion.StateEnum.OTHER 5
          WellCompletion.DirectionEnum.OTHER]).getCompletions 0 ∧
    (fxCompletion WellCompletion.StateEnum.OTHER 5
      WellCompletion.DirectionEnum.OTHER).getState ≠ WellCompletion.StateEnum.OPEN ∧
    (fxCompletion WellCompletion.StateEnum.OTHER 5
      WellCompletion.DirectionEnum.OTHER).getState ≠ WellCompletion.StateEnum.SHUT ∧
    computeRepRadiusPerfLength
      (fxGeometryCtx (fxWellCompletions WellCommon.StatusEnum.SHUT
        [fxCompletion WellCompletion.StateEnum.OTHER 5 WellCompletion.DirectionEnum.OTHER]))
      fxGrid ⟨[1], [2], [3]⟩ = Except.ok ⟨[], [], []⟩ := by
  refine ⟨by simp [fxGeometryCtx], by simp [fxWellCompletions], by simp [fxCompletion],
    by simp [fxCompletion], ?_⟩
  simp [computeRepRadiusPerfLength, computeRepRadiusPerfLengthWells,
    computeRepRadiusPerfLengthWell, fxGeometryCtx, fxWellCompletions, fxWellEcl]

/-! ## Equality of lists entry by entry -/

theorem list_ext_getD (l1 l2 : List ℚ) (hlen : l1.length = l2.length)
    (h : ∀ i, l1.getD i 0 = l2.getD i 0) : l1 = l2 := by
  apply List.ext_getElem hlen
  intro i h1 h2
  have := h i
  rwa [List.getD_eq_getElem _ _ h1, List.getD_eq_getElem _ _ h2] at this

/-! ## The state left by the preparation of a time step -/

/-- The first switch of `updateWellStateWithTarget` writes neither the control
indices nor the flags of the new wells. -/
theorem targetIntoState_keeps (ctx : TargetContext) (W : Wells) (wc : WellControls)
    (current : Int) (well_index : Nat) (xw xw1 : WellState)
    (h : targetIntoState ctx W wc current well_index xw = Except.ok xw1) :
    xw1.currentControls = xw.currentControls ∧ xw1.isNewWell = xw.isNewWell := by
  unfold targetIntoState at h
  cases ht : wc.iget_type current <;> simp only [ht] at h
  · cases h
    exact ⟨rfl, rfl⟩
  · cases hr : targetRates W well_index (wc.iget_target current) (wc.iget_distr current)
        xw.wellRates with
    | error e => simp [hr] at h
    | ok r =>
      simp only [hr] at h
      cases h
      exact ⟨rfl, rfl⟩
  · cases hr : targetRates W well_index (wc.iget_target current) (wc.iget_distr current)
        xw.wellRates with
    | error e => simp [hr] at h
    | ok r =>
      simp only [hr] at h
      cases h
      exact ⟨rfl, rfl⟩
  · cases hty : W.type well_index <;> simp only [hty] at h
    · cases hv : ctx.vfp_properties_ with
      | none => simp [hv] at h
      | some v =>
        simp only [hv] at h
        cases h
        exact ⟨rfl, rfl⟩
    · cases hv : ctx.vfp_properties_ with
      | none => simp [hv] at h
      | some v =>
        simp only [hv] at h
        cases h
        exact ⟨rfl, rfl⟩
    · simp at h

/-- The method `updateWellStateWithTarget` writes neither the control indices
nor the flags of the new wells. -/
theorem updateWellStateWithTarget_keeps (ctx : TargetContext) (wc : WellControls)
    (current : Int) (well_index : Nat) (xw xw2 : WellState)
    (h : updateWellStateWithTarget ctx wc current well_index xw = Except.ok xw2) :
    xw2.currentControls = xw.currentControls ∧ xw2.isNewWell = xw.isNewWell := by
  unfold updateWellStateWithTarget at h
  cases hw : ctx.wells_ with
  | none => simp [hw] at h
  | some W =>
    simp only [hw] at h
    cases h1 : targetIntoState ctx W wc current well_index xw with
    | error e => simp [h1] at h
    | ok xw1 =>
      simp only [h1] at h
      obtain ⟨hc, hn⟩ := targetIntoState_keeps ctx W wc current well_index xw xw1 h1
      cases hf : targetFractions ctx W (wc.iget_distr current) well_index
          (targetWeights W.number_of_phases (wc.iget_type current) (wc.iget_distr current)) xw1
          (targetXvarWell ctx W (wc.iget_type current) well_index
            (targetWeights W.number_of_phases (wc.iget_type current) (wc.iget_distr current))
            xw1) with
      | error e => simp [hf] at h
      | ok ws1 =>
        simp only [hf] at h
        cases h
        exact ⟨hc, hn⟩

/-- The first switch of `updateWellStateWithTarget` returns for a producer and
for an injector, when the VFP tables are there. -/
theorem targetIntoState_ok (ctx : TargetContext) (W : Wells) (wc : WellControls)
    (current : Int) (well_index : Nat) (xw : WellState)
    (htype : W.type well_index = WellType.PRODUCER ∨ W.type well_index = WellType.INJECTOR)
    (hvfp : ctx.vfp_properties_ ≠ none) :
    ∃ xw1, targetIntoState ctx W wc current well_index xw = Except.ok xw1 := by
  obtain ⟨v, hv⟩ := Option.ne_none_iff_exists'.mp hvfp
  unfold targetIntoState
  cases ht : wc.iget_type current <;> simp only [ht]
  · exact ⟨_, rfl⟩
  · unfold targetRates
    rcases htype with hp | hi
    · simp only [hp]
      split_ifs <;> exact ⟨_, rfl⟩
    · simp only [hi]
      exact ⟨_, rfl⟩
  · unfold targetRates
    rcases htype with hp | hi
    · simp only [hp]
      split_ifs <;> exact ⟨_, rfl⟩
    · simp only [hi]
      exact ⟨_, rfl⟩
  · rcases htype with hp | hi
    · simp only [hp, hv]
      exact ⟨_, rfl⟩
    · simp only [hi, hv]
      exact ⟨_, rfl⟩

namespace StandardWellsDense

variable {ι : Type}

/-- One pass of the last loop of `prepareTimeStep`: the control index of the
well `w` is stored in the well state, the flag of the well is cleared, and the
control indices and the flags of the other wells are kept. -/
theorem prepareTimeStepTarget_spec (m : StandardWellsDense ι) (w : Nat) (s s1 : SimState ι)
    (h : m.prepareTimeStepTarget w s = some s1) :
    s1.ctrl_current = s.ctrl_current ∧
    s1.well_state.currentControls = s.well_state.currentControls.set w (s.ctrl_current w) ∧
    s1.well_state.isNewWell w = false ∧
    ∀ v, v ≠ w → s1.well_state.isNewWell v = s.well_state.isNewWell v := by
  unfold prepareTimeStepTarget at h
  simp only [] at h
  cases hu : updateWellStateWithTarget { m.target_ s with wells_ := m.wells_ } (m.ctrls s w)
      (s.ctrl_current w) w
      { s.well_state with
        currentControls := s.well_state.currentControls.set w (s.ctrl_current w) } with
  | error e => simp [hu] at h
  | ok xw2 =>
    simp only [hu] at h
    obtain ⟨hc, hn⟩ := updateWellStateWithTarget_keeps _ _ _ _ _ _ hu
    have hs1 := Option.some.inj h
    subst hs1
    refine ⟨rfl, ?_, ?_, ?_⟩
    · split_ifs <;> exact hc
    · split_ifs with hcond
      · exact Function.update_same _ _ _
      · simpa using hcond
    · intro v hv
      split_ifs with hcond
      · show Function.update xw2.isNewWell w false v = _
        rw [Function.update_noteq hv]
        exact congrFun hn v
      · exact congrFun hn v

/-- The last loop of `prepareTimeStep` over the wells `0, ..., n - 1`. -/
theorem prepareTimeStepTarget_loop (m : StandardWellsDense ι) (n : Nat) (s s1 : SimState ι)
    (h : (List.range n).foldlM (fun s w => m.prepareTimeStepTarget w s) s = some s1) :
    s1.ctrl_current = s.ctrl_current ∧
    s1.well_state.currentControls.length = s.well_state.currentControls.length ∧
    (∀ w, w < n → w < s1.well_state.currentControls.length →
      s1.well_state.currentControls.getD w 0 = s1.ctrl_current w) ∧
    (∀ w, w < n → s1.well_state.isNewWell w = false) := by
  induction n generalizing s1 with
  | zero =>
    have hs : s = s1 := by simpa using h
    rw [← hs]
    exact ⟨rfl, rfl, fun w hw => absurd hw (Nat.not_lt_zero w),
      fun w hw => absurd hw (Nat.not_lt_zero w)⟩
  | succ n ih =>
    rw [List.range_succ, List.foldlM_append] at h
    cases hmid : (List.range n).foldlM (fun s w => m.prepareTimeStepTarget w s) s with
    | none => simp [hmid] at h
    | some s0 =>
      rw [hmid] at h
      have hlast : m.prepareTimeStepTarget n s0 = some s1 := by simpa using h
      obtain ⟨hc0, hl0, hsync0, hnew0⟩ := ih s0 hmid
      obtain ⟨hc1, hcc1, hn1, hnv1⟩ := m.prepareTimeStepTarget_spec n s0 s1 hlast
      refine ⟨hc1.trans hc0, ?_, ?_, ?_⟩
      · rw [hcc1, List.length_set, hl0]
      · intro w hw hwl
        rw [hcc1, List.length_set] at hwl
        rw [hcc1, hc1]
        rcases Nat.lt_succ_iff_lt_or_eq.mp hw with hlt | heq
        · have hne : ¬ (n = w ∧ n < s0.well_state.currentControls.length) :=
            fun hcon => absurd hcon.1 (by omega)
          rw [List.getD_eq_getElem?_getD, List.getElem?_set_ne (by omega),
            ← List.getD_eq_getElem?_getD]
          exact hsync0 w hlt hwl
        · subst heq
          rw [List.getD_eq_getElem?_getD, List.getElem?_set_self hwl]
          rfl
      · intro w hw
        rcases Nat.lt_succ_iff_lt_or_eq.mp hw with hlt | heq
        · rw [hnv1 w (by omega)]
          exact hnew0 w hlt
        · subst heq
          exact hn1

/-- The last loop of `prepareTimeStep` returns when every well is a producer or
an injector and the VFP tables are there. -/
theorem prepareTimeStepTarget_loop_some (m : StandardWellsDense ι) (W : Wells)
    (hW : m.wells_ = some W)
    (htype : ∀ w, w < W.number_of_wells →
      W.type w = WellType.PRODUCER ∨ W.type w = WellType.INJECTOR)
    (hvfp : ∀ s1 : SimState ι, (m.target_ s1).vfp_properties_ ≠ none)
    (n : Nat) (hn : n ≤ W.number_of_wells) (s : SimState ι) :
    ∃ s1, (List.range n).foldlM (fun s w => m.prepareTimeStepTarget w s) s = some s1 := by
  induction n with
  | zero => exact ⟨s, rfl⟩
  | succ n ih =>
    obtain ⟨s0, h0⟩ := ih (Nat.le_of_succ_le hn)
    rw [List.range_succ, List.foldlM_append, h0]
    obtain ⟨xw1, hx1⟩ := targetIntoState_ok { m.target_ s0 with wells_ := m.wells_ } W
      (m.ctrls s0 n) (s0.ctrl_current n) n
      { s0.well_state with
        currentControls := s0.well_state.currentControls.set n (s0.ctrl_current n) }
      (htype n hn) (hvfp s0)
    obtain ⟨ws1, _, hu⟩ := updateWellStateWithTarget_of_state
      { m.target_ s0 with wells_ := m.wells_ } W (m.ctrls s0 n) (s0.ctrl_current n) n _ xw1 hW
      (htype n hn) hx1
    have hne : m.prepareTimeStepTarget n s0 ≠ none := by
      unfold prepareTimeStepTarget
      simp only [hu]
      exact Option.some_ne_none _
    obtain ⟨s1, hs1⟩ := Option.ne_none_iff_exists'.mp hne
    exact ⟨s1, by simp [hs1]⟩

/-- Claim C31. When `prepareTimeStep` returns, every well `w` of the struct is
not flagged as newly added, and the control index recorded for it in the well
state is the current control of its control set (for every well that has an
entry in `currentControls`). The method returns, without group control, when
every well is a producer or an injector and the VFP tables are there. -/
theorem prepareTimeStep_controls_synchronised (m : StandardWellsDense ι) (W : Wells)
    (s : SimState ι) (hW : m.wells_ = some W) :
    (∀ s3, m.prepareTimeStep s = some s3 → ∀ w, w < W.number_of_wells →
      (w < s3.well_state.currentControls.length →
        s3.well_state.currentControls.getD w 0 = s3.ctrl_current w) ∧
      s3.well_state.isNewWell w = false) ∧
    ((∀ s1 : SimState ι, m.well_collection_.groupControlActive s1 = false) →
      (∀ w, w < W.number_of_wells →
        W.type w = WellType.PRODUCER ∨ W.type w = WellType.INJECTOR) →
      (∀ s1 : SimState ι, (m.target_ s1).vfp_properties_ ≠ none) →
      ∃ s3, m.prepareTimeStep s = some s3) := by
  constructor
  · intro s3 h w hw
    unfold prepareTimeStep wells at h
    simp only [hW] at h
    cases h1 : m.prepareTimeStepControls W W.number_of_wells s with
    | none => simp [h1] at h
    | some s1 =>
      simp only [h1] at h
      cases h2 : m.prepareTimeStepGroup s1 with
      | none => simp [h2] at h
      | some s2 =>
        simp only [h2] at h
        obtain ⟨_, _, hsync, hnew⟩ := m.prepareTimeStepTarget_loop W.number_of_wells s2 s3 h
        exact ⟨hsync w hw, hnew w hw⟩
  · intro hgroup htype hvfp
    have hctl : ∀ n (s0 : SimState ι), ∃ s1, m.prepareTimeStepControls W n s0 = some s1 := by
      intro n
      induction n with
      | zero => exact fun s0 => ⟨s0, rfl⟩
      | succ n ih =>
        intro s0
        obtain ⟨s1, h1⟩ := ih s0
        unfold prepareTimeStepControls at h1 ⊢
        rw [List.range_succ, List.foldlM_append, h1]
        have hne : m.prepareTimeStepWell W n s1 ≠ none := by
          unfold prepareTimeStepWell resetWellControlFromState
          simp only [hW, hgroup]
          exact Option.some_ne_none _
        obtain ⟨s2, hs2⟩ := Option.ne_none_iff_exists'.mp hne
        exact ⟨s2, by simp [hs2]⟩
    obtain ⟨s1, h1⟩ := hctl W.number_of_wells s
    have h2 : m.prepareTimeStepGroup s1 = some s1 := by
      unfold prepareTimeStepGroup
      simp [hgroup]
    obtain ⟨s3, h3⟩ := m.prepareTimeStepTarget_loop_some W hW htype hvfp W.number_of_wells
      (Nat.le_refl _) s1
    refine ⟨s3, ?_⟩
    unfold prepareTimeStep wells
    simp only [hW, h1, h2]
    exact h3

end StandardWellsDense

/-! ## The voidage rates of the wells -/

theorem getD_map_range (f : Nat → ℚ) (n p : Nat) :
    ((List.range n).map f).getD p 0 = if p < n then f p else 0 := by
  by_cases hp : p < n
  · rw [if_pos hp, List.getD_eq_getElem?_getD, List.getElem?_map,
      List.getElem?_range hp]
    rfl
  · rw [if_neg hp]
    exact getD_of_length_le _ _ (by simpa using hp)

namespace StandardWellsDense

variable {ι : Type}

/-- The loop of `computeWellVoidageRates` over the wells `0, ..., n - 1`, from
the vectors resized from empty ones, when the rate converter keeps the length
of the coefficient vector and its result does not depend on the content that
the vector had. -/
theorem computeWellVoidageRates_loop (m : StandardWellsDense ι) (W : Wells)
    (well_state : WellState)
    (hlen : ∀ r c, c.length = well_state.numPhases →
      (m.calcCoeff r 0 c).length = well_state.numPhases)
    (hind : ∀ r c c2, c.length = well_state.numPhases → c2.length = well_state.numPhases →
      m.calcCoeff r 0 c = m.calcCoeff r 0 c2)
    (n : Nat) (hn : n ≤ well_state.numWells) :
    ((List.range n).foldl (fun st w => m.computeWellVoidageRatesWell W well_state w st)
        (List.replicate well_state.numPhases 1, List.replicate well_state.numWells 0,
          List.replicate (well_state.numWells * well_state.numPhases) 1)).1.length
      = well_state.numPhases ∧
    ((List.range n).foldl (fun st w => m.computeWellVoidageRatesWell W well_state w st)
        (List.replicate well_state.numPhases 1, List.replicate well_state.numWells 0,
          List.replicate (well_state.numWells * well_state.numPhases) 1)).2.1.length
      = well_state.numWells ∧
    ((List.range n).foldl (fun st w => m.computeWellVoidageRatesWell W well_state w st)
        (List.replicate well_state.numPhases 1, List.replicate well_state.numWells 0,
          List.replicate (well_state.numWells * well_state.numPhases) 1)).2.2.length
      = well_state.numWells * well_state.numPhases ∧
    ∀ w, w < well_state.numWells →
      (w < n → W.type w = WellType.PRODUCER →
        ((List.range n).foldl (fun st w => m.computeWellVoidageRatesWell W well_state w st)
          (List.replicate well_state.numPhases 1, List.replicate well_state.numWells 0,
            List.replicate (well_state.numWells * well_state.numPhases) 1)).2.1.getD w 0
          = ∑ p in Finset.range well_state.numPhases,
              (- well_state.wellRates.getD (well_state.numPhases * w + p) 0)
                * (m.calcCoeff
                    ((List.range well_state.numPhases).map fun p =>
                      - well_state.wellRates.getD (well_state.numPhases * w + p) 0)
                    0 (List.replicate well_state.numPhases 1)).getD p 0) ∧
      (w < n → W.type w ≠ WellType.PRODUCER → ∀ p, p < well_state.numPhases →
        ((List.range n).foldl (fun st w => m.computeWellVoidageRatesWell W well_state w st)
          (List.replicate well_state.numPhases 1, List.replicate well_state.numWells 0,
            List.replicate (well_state.numWells * well_state.numPhases) 1)).2.2.getD
            (well_state.numPhases * w + p) 0
          = (m.calcCoeff
              ((List.range well_state.numPhases).map fun p =>
                well_state.wellRates.getD (well_state.numPhases * w + p) 0)
              0 (List.replicate well_state.numPhases 1)).getD p 0) ∧
      ((n ≤ w ∨ W.type w ≠ WellType.PRODUCER) →
        ((List.range n).foldl (fun st w => m.computeWellVoidageRatesWell W well_state w st)
          (List.replicate well_state.numPhases 1, List.replicate well_state.numWells 0,
            List.replicate (well_state.numWells * well_state.numPhases) 1)).2.1.getD w 0 = 0) ∧
      ((n ≤ w ∨ W.type w = WellType.PRODUCER) → ∀ p, p < well_state.numPhases →
        ((List.range n).foldl (fun st w => m.computeWellVoidageRatesWell W well_state w st)
          (List.replicate well_state.numPhases 1, List.replicate well_state.numWells 0,
            List.replicate (well_state.numWells * well_state.numPhases) 1)).2.2.getD
            (well_state.numPhases * w + p) 0 = 1) := by
  induction n with
  | zero =>
    refine ⟨by simp, by simp, by simp, fun w hw => ⟨fun h => absurd h (Nat.not_lt_zero w),
      fun h => absurd h (Nat.not_lt_zero w), fun _ => ?_, fun _ p hp => ?_⟩⟩
    · simp [List.getD_eq_getElem?_getD, hw]
    · have hidx : well_state.numPhases * w + p < well_state.numWells * well_state.numPhases := by
        calc well_state.numPhases * w + p < well_state.numPhases * w + well_state.numPhases :=
              Nat.add_lt_add_left hp _
          _ = well_state.numPhases * (w + 1) := by ring
          _ ≤ well_state.numPhases * well_state.numWells := Nat.mul_le_mul_left _ hw
          _ = well_state.numWells * well_state.numPhases := Nat.mul_comm _ _
      simp [List.getD_eq_getElem?_getD, hidx]
  | succ n ih =>
    obtain ⟨hcl, hrl, hkl, hprop⟩ := ih (Nat.le_of_succ_le hn)
    have hnlt : n < well_state.numWells := hn
    rw [List.range_succ, List.foldl_append, List.foldl_cons, List.foldl_nil]
    generalize (List.range n).foldl (fun st w => m.computeWellVoidageRatesWell W well_state w st)
      (List.replicate well_state.numPhases 1, List.replicate well_state.numWells 0,
        List.replicate (well_state.numWells * well_state.numPhases) 1) = st
      at hcl hrl hkl hprop ⊢
    have hidx : ∀ w p, w < well_state.numWells → p < well_state.numPhases →
        well_state.numPhases * w + p < well_state.numWells * well_state.numPhases := by
      intro w p hw hp
      calc well_state.numPhases * w + p < well_state.numPhases * w + well_state.numPhases :=
            Nat.add_lt_add_left hp _
        _ = well_state.numPhases * (w + 1) := by ring
        _ ≤ well_state.numPhases * well_state.numWells := Nat.mul_le_mul_left _ hw
        _ = well_state.numWells * well_state.numPhases := Nat.mul_comm _ _
    have hr1 : (List.replicate well_state.numPhases (1 : ℚ)).length = well_state.numPhases :=
      List.length_replicate _ _
    by_cases hprod : W.type n = WellType.PRODUCER
    · have hstep : m.computeWellVoidageRatesWell W well_state n st
          = (m.calcCoeff ((List.range well_state.numPhases).map fun p =>
                - well_state.wellRates.getD (well_state.numPhases * n + p) 0) 0 st.1,
              st.2.1.set n ((List.range well_state.numPhases).foldl
                (fun acc p => acc
                  + ((List.range well_state.numPhases).map fun p =>
                      - well_state.wellRates.getD (well_state.numPhases * n + p) 0).getD p 0
                    * (m.calcCoeff ((List.range well_state.numPhases).map fun p =>
                        - well_state.wellRates.getD (well_state.numPhases * n + p) 0) 0
                        st.1).getD p 0) 0),
              st.2.2) := by
        simp [computeWellVoidageRatesWell, hprod]
      rw [hstep]
      refine ⟨hlen _ _ hcl, by simp [hrl], hkl, fun w hw => ⟨?_, ?_, ?_, ?_⟩⟩
      · intro hwn hwp
        show (st.2.1.set n _).getD w 0 = _
        rw [getD_set_rat]
        rcases Nat.lt_succ_iff_lt_or_eq.mp hwn with hlt | heq
        · rw [if_neg (fun hcon => absurd hcon.1 (by omega))]
          exact (hprop w hw).1 hlt hwp
        · subst heq
          rw [if_pos ⟨rfl, by rw [hrl]; exact hw⟩, foldl_range_sum,
            hind _ st.1 (List.replicate well_state.numPhases 1) hcl hr1]
          apply Finset.sum_congr rfl
          intro p hp
          rw [getD_map_range, if_pos (Finset.mem_range.mp hp)]
      · intro hwn hwp p hp
        rcases Nat.lt_succ_iff_lt_or_eq.mp hwn with hlt | heq
        · exact (hprop w hw).2.1 hlt hwp p hp
        · subst heq
          exact absurd hprod hwp
      · intro hor
        show (st.2.1.set n _).getD w 0 = _
        rw [getD_set_rat]
        have hwn : n ≠ w := by
          rintro rfl
          rcases hor with h | h
          · omega
          · exact h hprod
        rw [if_neg (fun hcon => hwn hcon.1)]
        rcases hor with h | h
        · exact (hprop w hw).2.2.1 (Or.inl (by omega))
        · exact (hprop w hw).2.2.1 (Or.inr h)
      · intro hor p hp
        rcases hor with h | h
        · exact (hprop w hw).2.2.2 (Or.inl (by omega)) p hp
        · exact (hprop w hw).2.2.2 (Or.inr h) p hp
    · have hcc : (m.calcCoeff ((List.range well_state.numPhases).map fun p =>
          well_state.wellRates.getD (well_state.numPhases * n + p) 0) 0 st.1).length
          = well_state.numPhases := hlen _ _ hcl
      have hstep : m.computeWellVoidageRatesWell W well_state n st
          = (m.calcCoeff ((List.range well_state.numPhases).map fun p =>
                well_state.wellRates.getD (well_state.numPhases * n + p) 0) 0 st.1,
              st.2.1,
              (List.range well_state.numPhases).foldl
                (fun coeffs p => coeffs.set (well_state.numPhases * n + p)
                  ((fun ph (_ : ℚ) => (m.calcCoeff ((List.range well_state.numPhases).map fun p =>
                    well_state.wellRates.getD (well_state.numPhases * n + p) 0) 0
                    st.1).getD ph 0) p (coeffs.getD (well_state.numPhases * n + p) 0)))
                st.2.2) := by
        unfold computeWellVoidageRatesWell
        simp only [hprod, decide_False, Bool.false_eq_true, if_false, hcc]
      rw [hstep]
      have hget := foldl_range_set_getD
        (fun ph (_ : ℚ) => (m.calcCoeff ((List.range well_state.numPhases).map fun p =>
          well_state.wellRates.getD (well_state.numPhases * n + p) 0) 0 st.1).getD ph 0)
        (well_state.numPhases * n) st.2.2 well_state.numPhases
      have hlen2 := foldl_range_set_length
        (fun (r : List ℚ) ph => (fun ph (_ : ℚ) =>
          (m.calcCoeff ((List.range well_state.numPhases).map fun p =>
            well_state.wellRates.getD (well_state.numPhases * n + p) 0) 0 st.1).getD ph 0) ph
          (r.getD (well_state.numPhases * n + ph) 0))
        (well_state.numPhases * n) st.2.2 well_state.numPhases
      refine ⟨hcc, hrl, hlen2.trans hkl, fun w hw => ⟨?_, ?_, ?_, ?_⟩⟩
      · intro hwn hwp
        rcases Nat.lt_succ_iff_lt_or_eq.mp hwn with hlt | heq
        · exact (hprop w hw).1 hlt hwp
        · subst heq
          exact absurd hwp hprod
      · intro hwn hwp p hp
        show ((List.range well_state.numPhases).foldl _ st.2.2).getD _ 0 = _
        rw [hget]
        rcases Nat.lt_succ_iff_lt_or_eq.mp hwn with hlt | heq
        · have hlow : well_state.numPhases * w + p < well_state.numPhases * n := by
            calc well_state.numPhases * w + p
                < well_state.numPhases * w + well_state.numPhases := Nat.add_lt_add_left hp _
              _ = well_state.numPhases * (w + 1) := by ring
              _ ≤ well_state.numPhases * n := Nat.mul_le_mul_left _ hlt
          rw [if_neg (fun hcon => absurd hcon.1 (by omega))]
          exact (hprop w hw).2.1 hlt hwp p hp
        · subst heq
          have hi := hidx w p hw hp
          rw [if_pos ⟨Nat.le_add_right _ _, Nat.add_lt_add_left hp _, by rw [hkl]; exact hi⟩,
            Nat.add_sub_cancel_left,
            hind _ st.1 (List.replicate well_state.numPhases 1) hcl hr1]
      · intro hor
        show st.2.1.getD w 0 = 0
        rcases hor with h | h
        · exact (hprop w hw).2.2.1 (Or.inl (by omega))
        · exact (hprop w hw).2.2.1 (Or.inr h)
      · intro hor p hp
        show ((List.range well_state.numPhases).foldl _ st.2.2).getD _ 0 = _
        rw [hget]
        have hout : ¬ (well_state.numPhases * n ≤ well_state.numPhases * w + p ∧
            well_state.numPhases * w + p < well_state.numPhases * n + well_state.numPhases ∧
            well_state.numPhases * w + p < st.2.2.length) := by
          rintro ⟨h1, h2, _⟩
          rcases Nat.lt_trichotomy w n with hlt | heq | hgt
          · have : well_state.numPhases * w + p < well_state.numPhases * n := by
              calc well_state.numPhases * w + p
                  < well_state.numPhases * w + well_state.numPhases :=
                    Nat.add_lt_add_left hp _
                _ = well_state.numPhases * (w + 1) := by ring
                _ ≤ well_state.numPhases * n := Nat.mul_le_mul_left _ hlt
            omega
          · subst heq
            rcases hor with h | h
            · omega
            · exact hprod h
          · have : well_state.numPhases * n + well_state.numPhases
                ≤ well_state.numPhases * w := by
              calc well_state.numPhases * n + well_state.numPhases
                  = well_state.numPhases * (n + 1) := by ring
                _ ≤ well_state.numPhases * w := Nat.mul_le_mul_left _ hgt
            omega
        rw [if_neg hout]
        rcases hor with h | h
        · exact (hprop w hw).2.2.2 (Or.inl (by omega)) p hp
        · exact (hprop w hw).2.2.2 (Or.inr h) p hp

end StandardWellsDense

/-! ## The consistency of the directives of one pass -/

theorem consistentDirectives_mono (used used2 : String → Prop) (l : DynamicListEconLimited)
    (h : ∀ x, used x → used2 x) (hl : consistentDirectives used l) :
    consistentDirectives used2 l :=
  ⟨fun x hx => h x (hl.1 x hx), fun x hx => h x (hl.2.1 x hx),
    fun e he => h e.1 (hl.2.2.1 e he), hl.2.2.2.1, hl.2.2.2.2.1, hl.2.2.2.2.2⟩

theorem consistentDirectives_addShutWell (used : String → Prop) (l : DynamicListEconLimited)
    (name : String) (hl : consistentDirectives used l) (hname : name ∉ l.stopped_wells) :
    consistentDirectives (fun x => used x ∨ x = name) (l.addShutWell name) := by
  obtain ⟨ha, hb, hc, hd, he, hf⟩ := hl
  refine ⟨?_, fun x hx => Or.inl (hb x hx), fun e h => Or.inl (hc e h), ?_, he, hf⟩
  · intro x hx
    rcases List.mem_append.mp hx with h | h
    · exact Or.inl (ha x h)
    · exact Or.inr (List.mem_singleton.mp h)
  · intro x hx
    rcases List.mem_append.mp hx with h | h
    · exact hd x h
    · rw [List.mem_singleton.mp h]
      exact hname

theorem consistentDirectives_addStoppedWell (used : String → Prop)
    (l : DynamicListEconLimited) (name : String) (hl : consistentDirectives used l)
    (hname : ¬ used name) :
    consistentDirectives (fun x => used x ∨ x = name) (l.addStoppedWell name) := by
  obtain ⟨ha, hb, hc, hd, he, hf⟩ := hl
  refine ⟨fun x hx => Or.inl (ha x hx), ?_, fun e h => Or.inl (hc e h), ?_, ?_, hf⟩
  · intro x hx
    rcases List.mem_append.mp hx with h | h
    · exact Or.inl (hb x h)
    · exact Or.inr (List.mem_singleton.mp h)
  · intro x hx hmem
    rcases List.mem_append.mp hmem with h | h
    · exact hd x hx h
    · rw [List.mem_singleton.mp h] at hx
      exact hname (ha name hx)
  · intro x hx e hmem
    rcases List.mem_append.mp hx with h | h
    · exact he x h e hmem
    · rw [List.mem_singleton.mp h]
      intro heq
      exact hname (heq ▸ hc e hmem)

theorem consistentDirectives_addClosedConnectionsForWell (used : String → Prop)
    (l : DynamicListEconLimited) (name : String) (cell : Int)
    (hl : consistentDirectives used l) (hname : ¬ used name) :
    consistentDirectives (fun x => used x ∨ x = name)
      (l.addClosedConnectionsForWell name cell) := by
  obtain ⟨ha, hb, hc, hd, he, hf⟩ := hl
  refine ⟨fun x hx => Or.inl (ha x hx), fun x hx => Or.inl (hb x hx), ?_, hd, ?_, ?_⟩
  · intro e hmem
    rcases List.mem_append.mp hmem with h | h
    · exact Or.inl (hc e h)
    · rw [List.mem_singleton.mp h]
      exact Or.inr rfl
  · intro x hx e hmem
    rcases List.mem_append.mp hmem with h | h
    · exact he x hx e h
    · rw [List.mem_singleton.mp h]
      intro heq
      have hnx : name = x := heq
      rw [hnx] at hname
      exact hname (hb x hx)
  · intro x
    show ((l.closed_connections ++ [(name, cell)]).filter fun e => decide (e.1 = x)).length ≤ 1
    rw [List.filter_append, List.length_append]
    by_cases hx : name = x
    · have hnone : (l.closed_connections.filter fun e => decide (e.1 = x)) = [] := by
        rw [List.filter_eq_nil_iff]
        intro e hmem
        simp only [decide_eq_true_eq]
        intro heq
        exact hname (hx ▸ heq ▸ hc e hmem)
      rw [hnone]
      simp [hx]
    · have hlast : ([(name, cell)].filter fun e : String × Int => decide (e.1 = x)) = [] := by
        simp [hx]
      rw [hlast]
      exact hf x

/-- The directive list after the pass for the well `w` is consistent when the
list before it is and does not name the well. -/
theorem updateListEconLimitedWell_consistent (ctx : EconContext) (schedule : Schedule)
    (current_step : Nat) (wells_struct : Wells) (well_state : WellState) (w : Nat)
    (acc : DynamicListEconLimited × OpmLog) (used : String → Prop)
    (hl : consistentDirectives used acc.1) (hname : ¬ used (wells_struct.name w)) :
    consistentDirectives (fun x => used x ∨ x = wells_struct.name w)
      (updateListEconLimitedWell ctx schedule current_step wells_struct well_state w acc).1 := by
  have hkeep : consistentDirectives (fun x => used x ∨ x = wells_struct.name w) acc.1 :=
    consistentDirectives_mono _ _ _ (fun x hx => Or.inl hx) hl
  have hstop : wells_struct.name w ∉ acc.1.stopped_wells :=
    fun h => hname (hl.2.1 _ h)
  rw [updateListEconLimitedWell_fst]
  split_ifs
  · exact hkeep
  · exact consistentDirectives_addShutWell _ _ _ hl hstop
  · exact consistentDirectives_addStoppedWell _ _ _ hl hname
  · have h1 := consistentDirectives_addClosedConnectionsForWell used acc.1
      (wells_struct.name w)
      (wells_struct.well_cells (((well_state.wellMap (wells_struct.name w)).perf_start : Int)
        + (checkRatioEconLimits ctx
            ((schedule.getWell (wells_struct.name w)).getEconProductionLimits current_step)
            well_state (well_state.wellMap (wells_struct.name w))).1.worst_offending_connection))
      hl hname
    have h2 := consistentDirectives_addShutWell _ _ (wells_struct.name w) h1 hstop
    exact consistentDirectives_mono _ _ _ (fun x hx => hx.elim id Or.inr) h2
  · exact consistentDirectives_addClosedConnectionsForWell _ _ _ _ hl hname
  · exact hkeep

/-- The directive list after the passes for the wells `0, ..., n - 1`, from the
empty list, is consistent and names only these wells. -/
theorem updateListEconLimitedLoop_consistent (ctx : EconContext) (schedule : Schedule)
    (current_step : Nat) (wells_struct : Wells) (well_state : WellState)
    (hnames : ∀ v w, v < wells_struct.number_of_wells → w < wells_struct.number_of_wells →
      wells_struct.name v = wells_struct.name w → v = w)
    (n : Nat) (hn : n ≤ wells_struct.number_of_wells) :
    consistentDirectives (fun x => ∃ w, w < n ∧ wells_struct.name w = x)
      (updateListEconLimitedLoop ctx schedule current_step wells_struct well_state n
        ({}, [])).1 := by
  induction n with
  | zero =>
    refine ⟨?_, ?_, ?_, ?_, ?_, ?_⟩ <;> simp [updateListEconLimitedLoop]
  | succ n ih =>
    have hfresh : ¬ ∃ w, w < n ∧ wells_struct.name w = wells_struct.name n := by
      rintro ⟨w, hw, heq⟩
      have := hnames w n (by omega) (by omega) heq
      omega
    have h := updateListEconLimitedWell_consistent ctx schedule current_step wells_struct
      well_state n
      (updateListEconLimitedLoop ctx schedule current_step wells_struct well_state n ({}, []))
      _ (ih (Nat.le_of_succ_le hn)) hfresh
    refine consistentDirectives_mono _ _ _ ?_ h
    rintro x (⟨w, hw, heq⟩ | hx)
    · exact ⟨w, Nat.lt_succ_of_lt hw, heq⟩
    · exact ⟨n, Nat.lt_succ_self n, hx.symm⟩

/-- Claim C33. In one pass of `updateListEconLimited` over an empty directive
list, with distinct well names in the `Wells` struct, no well is put both in
the shut list and in the stopped list, a well put in the stopped list has no
closed-connection directive, and a well gets at most one closed-connection
directive; every well named by a directive is a well of the struct. -/
theorem updateListEconLimited_consistent (ctx : EconContext) (schedule : Schedule)
    (current_step : Nat) (wells_struct : Option Wells) (well_state : WellState)
    (hnames : ∀ ws, wells_struct = some ws → ∀ v w, v < ws.number_of_wells →
      w < ws.number_of_wells → ws.name v = ws.name w → v = w) :
    (∀ x, ¬ (x ∈ (updateListEconLimited ctx schedule current_step wells_struct well_state
          {}).1.shut_wells ∧
        x ∈ (updateListEconLimited ctx schedule current_step wells_struct well_state
          {}).1.stopped_wells)) ∧
    (∀ x, x ∈ (updateListEconLimited ctx schedule current_step wells_struct well_state
          {}).1.stopped_wells →
      ∀ cell, (x, cell) ∉ (updateListEconLimited ctx schedule current_step wells_struct
          well_state {}).1.closed_connections) ∧
    (∀ x : String,
      ((updateListEconLimited ctx schedule current_step wells_struct well_state
          {}).1.closed_connections.filter fun e => decide (e.1 = x)).length ≤ 1) ∧
    (∀ x, (x ∈ (updateListEconLimited ctx schedule current_step wells_struct well_state
          {}).1.shut_wells ∨
        x ∈ (updateListEconLimited ctx schedule current_step wells_struct well_state
          {}).1.stopped_wells ∨
        ∃ cell, (x, cell) ∈ (updateListEconLimited ctx schedule current_step wells_struct
          well_state {}).1.closed_connections) →
      ∃ ws w, wells_struct = some ws ∧ w < ws.number_of_wells ∧ ws.name w = x) := by
  cases wells_struct with
  | none =>
    refine ⟨?_, ?_, ?_, ?_⟩ <;> simp [updateListEconLimited]
  | some ws =>
    obtain ⟨ha, hb, hc, hd, he, hf⟩ := updateListEconLimitedLoop_consistent ctx schedule
      current_step ws well_state (hnames ws rfl) ws.number_of_wells (Nat.le_refl _)
    refine ⟨fun x hx => hd x hx.1 hx.2, fun x hx cell hmem => he x hx _ hmem rfl, hf, ?_⟩
    rintro x (hx | hx | ⟨cell, hx⟩)
    · obtain ⟨w, hw, heq⟩ := ha x hx
      exact ⟨ws, w, rfl, hw, heq⟩
    · obtain ⟨w, hw, heq⟩ := hb x hx
      exact ⟨ws, w, rfl, hw, heq⟩
    · obtain ⟨w, hw, heq⟩ := hc _ hx
      exact ⟨ws, w, rfl, hw, heq⟩

/-- The directives of `updateListEconLimited` on the example of the two
producers: `P1` violates its minimum oil rate and is stopped, `P2` violates its
maximum water cut and gets its first connection closed. -/
theorem fxStateTwoProducers_directives :
    (updateListEconLimited fxCtx fxScheduleTwo 0 (some fxWellsTwo) fxStateTwoProducers {}).1
      = ⟨[], ["P1"], [("P2", 101)]⟩ := by
  have hrate1 : (checkRateEconLimits fxCtx fxMinOil fxStateTwoProducers 0).1 = true := by
    norm_num [checkRateEconLimits, fxMinOil, fxStateTwoProducers, fxCtx, fxPhaseUsage]
  have hrate2 : (checkRateEconLimits fxCtx fxMaxWaterCut fxStateTwoProducers 1).1 = false := by
    simp [checkRateEconLimits, fxMaxWaterCut]
  have hcut : wellWaterCut fxCtx fxStateTwoProducers 1 = 9 / 10 := by
    norm_num [wellWaterCut, fxStateTwoProducers, fxCtx, fxPhaseUsage]
  have hperf0 : perfWaterCut fxCtx fxStateTwoProducers 1 = 19 / 20 := by
    norm_num [perfWaterCut, fxStateTwoProducers, fxCtx, fxPhaseUsage]
  have hperf1 : perfWaterCut fxCtx fxStateTwoProducers 2 = 3 / 4 := by
    norm_num [perfWaterCut, fxStateTwoProducers, fxCtx, fxPhaseUsage]
  have hmax : checkMaxWaterCutLimit fxCtx fxMaxWaterCut fxStateTwoProducers ⟨1, 1, 2⟩
      = ⟨true, false, 0, 19 / 20 / (4 / 5)⟩ := by
    have hget0 := waterCutPerf_getD fxCtx fxStateTwoProducers 1 2 0 (by decide)
    have hget1 := waterCutPerf_getD fxCtx fxStateTwoProducers 1 2 1 (by decide)
    rw [hperf0] at hget0
    rw [hperf1] at hget1
    unfold checkMaxWaterCutLimit
    simp only [hcut]
    have hscan : worstOffendingScan (waterCutPerf fxCtx fxStateTwoProducers 1 2) 2
        (fxCtx.INVALIDCONNECTION, 0) = (0, 19 / 20) := by
      unfold worstOffendingScan
      have hr : List.range 2 = [0, 1] := rfl
      rw [hr]
      simp only [List.foldl_cons, List.foldl_nil, hget0, hget1]
      norm_num
    simp only [hscan]
    norm_num [fxMaxWaterCut]
  have hratio : (checkRatioEconLimits fxCtx fxMaxWaterCut fxStateTwoProducers ⟨1, 1, 2⟩).1
      = ⟨true, false, 0, 19 / 20 / (4 / 5)⟩ := by
    rw [checkRatioEconLimits_fst, hmax]
    norm_num [fxMaxWaterCut]
  show (updateListEconLimitedWell fxCtx fxScheduleTwo 0 fxWellsTwo fxStateTwoProducers 1
    (updateListEconLimitedWell fxCtx fxScheduleTwo 0 fxWellsTwo fxStateTwoProducers 0
      ({}, []))).1 = _
  rw [updateListEconLimitedWell_fst, updateListEconLimitedWell_fst]
  have n0 : fxWellsTwo.name 0 = "P1" := rfl
  have n1 : fxWellsTwo.name 1 = "P2" := rfl
  have m0 : fxStateTwoProducers.wellMap "P1" = ⟨0, 0, 1⟩ := rfl
  have m1 : fxStateTwoProducers.wellMap "P2" = ⟨1, 1, 2⟩ := by
    simp [fxStateTwoProducers]
  have l0 : (fxScheduleTwo.getWell "P1").getEconProductionLimits 0 = fxMinOil := rfl
  have l1 : (fxScheduleTwo.getWell "P2").getEconProductionLimits 0 = fxMaxWaterCut := by
    simp [fxScheduleTwo]
  rw [n0, n1, m0, m1, l0, l1, hratio]
  simp [hrate1, hrate2, fxWellsTwo, fxScheduleTwo, DynamicListEconLimited.addStoppedWell,
    DynamicListEconLimited.addClosedConnectionsForWell]

/-- Instance of C33: the two producers `P1`, which is stopped, and `P2`, which
gets one connection closed. -/
theorem updateListEconLimited_consistent_witness :
    (updateListEconLimited fxCtx fxScheduleTwo 0 (some fxWellsTwo) fxStateTwoProducers {}).1
      = ⟨[], ["P1"], [("P2", 101)]⟩ ∧
    (∀ x, ¬ (x ∈ (updateListEconLimited fxCtx fxScheduleTwo 0 (some fxWellsTwo)
          fxStateTwoProducers {}).1.shut_wells ∧
        x ∈ (updateListEconLimited fxCtx fxScheduleTwo 0 (some fxWellsTwo)
          fxStateTwoProducers {}).1.stopped_wells)) ∧
    (∀ x, x ∈ (updateListEconLimited fxCtx fxScheduleTwo 0 (some fxWellsTwo)
          fxStateTwoProducers {}).1.stopped_wells →
      ∀ cell, (x, cell) ∉ (updateListEconLimited fxCtx fxScheduleTwo 0 (some fxWellsTwo)
          fxStateTwoProducers {}).1.closed_connections) ∧
    (∀ x : String,
      ((updateListEconLimited fxCtx fxScheduleTwo 0 (some fxWellsTwo) fxStateTwoProducers
          {}).1.closed_connections.filter fun e => decide (e.1 = x)).length ≤ 1) := by
  have hnames : ∀ ws, some fxWellsTwo = some ws → ∀ v w, v < ws.number_of_wells →
      w < ws.number_of_wells → ws.name v = ws.name w → v = w := by
    intro ws hws v w hv hw heq
    have hws2 : fxWellsTwo = ws := Option.some.inj hws
    subst hws2
    have hv2 : v < 2 := hv
    have hw2 : w < 2 := hw
    interval_cases v <;> interval_cases w <;> simp [fxWellsTwo] at heq ⊢
  have h := updateListEconLimited_consistent fxCtx fxScheduleTwo 0 (some fxWellsTwo)
    fxStateTwoProducers hnames
  exact ⟨fxStateTwoProducers_directives, h.1, h.2.1, h.2.2.1⟩

/-! ## The fractions of a well that does not flow -/

theorem targetXvarWell_length_eq (ctx : TargetContext) (W : Wells) (type : WellControlType)
    (well_index : Nat) (g : List ℚ) (xw : WellState) :
    (targetXvarWell ctx W type well_index g xw).length = xw.wellSolutions.length := by
  unfold targetXvarWell
  cases type <;> simp only [] <;> first
    | exact List.length_set _ _ _
    | (split_ifs
       · rw [foldl_range_set_at_length
          (fun ws p => Double.add (ws.getD (W.number_of_wells * ctx.XvarWell + well_index) 0)
            (Double.mul (xw.wellRates.getD (W.number_of_phases * well_index + p) 0)
              (W.comp_frac (W.number_of_phases * well_index + p))))]
         exact List.length_set _ _ _
       · rw [foldl_range_set_at_length
          (fun ws p => Double.add (ws.getD (W.number_of_wells * ctx.XvarWell + well_index) 0)
            (Double.mul (g.getD p 0)
              (xw.wellRates.getD (W.number_of_phases * well_index + p) 0)))]
         exact List.length_set _ _ _)

/-- The last part of `updateWellStateWithTarget` for a producer whose weighted
total rate is zero. -/
theorem targetFractions_zero_producer (ctx : TargetContext) (W : Wells) (distr : Nat → ℚ)
    (well_index : Nat) (g : List ℚ) (xw : WellState) (ws : List ℚ)
    (hT : totWellRate W.number_of_phases well_index g xw.wellRates = 0)
    (hprod : W.type well_index = WellType.PRODUCER) :
    targetFractions ctx W distr well_index g xw ws
      = Except.ok
          (if ctx.active_ Phase.Gas then
            (if ctx.active_ Phase.Water then
              ws.set (ctx.WFrac * W.number_of_wells + well_index)
                (1 / (W.number_of_phases : ℚ))
            else ws).set (ctx.GFrac * W.number_of_wells + well_index)
              (1 / (W.number_of_phases : ℚ))
          else
            (if ctx.active_ Phase.Water then
              ws.set (ctx.WFrac * W.number_of_wells + well_index)
                (1 / (W.number_of_phases : ℚ))
            else ws)) := by
  unfold targetFractions
  simp only [hT, abs_zero, gt_iff_lt, lt_self_iff_false, if_false, hprod]

/-- The last part of `updateWellStateWithTarget` for an injector without
solvent whose weighted total rate is zero. -/
theorem targetFractions_zero_injector (ctx : TargetContext) (W : Wells) (distr : Nat → ℚ)
    (well_index : Nat) (g : List ℚ) (xw : WellState) (ws : List ℚ)
    (hT : totWellRate W.number_of_phases well_index g xw.wellRates = 0)
    (hinj : W.type well_index = WellType.INJECTOR) (hsolvent : ctx.has_solvent_ = false) :
    targetFractions ctx W distr well_index g xw ws
      = Except.ok
          (if ctx.active_ Phase.Gas then
            (if ctx.active_ Phase.Water then
              ws.set (ctx.WFrac * W.number_of_wells + well_index)
                (if distr (ctx.phaseIndex Phase.Water) > 0 then 1 else 0)
            else ws).set (ctx.GFrac * W.number_of_wells + well_index)
              (if distr (ctx.phaseIndex Phase.Gas) > 0 then 1 else 0)
          else
            (if ctx.active_ Phase.Water then
              ws.set (ctx.WFrac * W.number_of_wells + well_index)
                (if distr (ctx.phaseIndex Phase.Water) > 0 then 1 else 0)
            else ws)) := by
  unfold targetFractions
  simp only [hT, abs_zero, gt_iff_lt, lt_self_iff_false, if_false, hinj, wsolvent, hsolvent,
    if_true, sub_zero, Bool.false_eq_true]
  congr 1
  by_cases hg : ctx.active_ Phase.Gas = true
  · simp only [hg, if_true]
    by_cases hw : ctx.active_ Phase.Water = true
    · simp only [hw, if_true]
      split_ifs <;> rfl
    · simp only [hw]
      split_ifs <;> rfl
  · simp only [hg]
    by_cases hw : ctx.active_ Phase.Water = true
    · simp only [hw, if_true]
      split_ifs <;> rfl
    · simp only [hw]
      rfl

theorem foldl_set_const_length (e : ℚ) (ps : List Nat) (f : List ℚ) :
    (ps.foldl (fun factors perf => factors.set perf e) f).length = f.length := by
  induction ps generalizing f with
  | nil => rfl
  | cons p rest ih => rw [List.foldl_cons, ih, List.length_set]

theorem foldl_set_const_getD (e : ℚ) (ps : List Nat) (f : List ℚ) (i : Nat) :
    (ps.foldl (fun factors perf => factors.set perf e) f).getD i 0
      = if i ∈ ps ∧ i < f.length then e else f.getD i 0 := by
  induction ps generalizing f with
  | nil => simp
  | cons p rest ih =>
    rw [List.foldl_cons, ih, List.length_set, getD_set_rat]
    by_cases hi : i < f.length
    · by_cases hr : i ∈ rest
      · simp [hr, hi]
      · by_cases hp : p = i
        · subst hp
          simp [hr, hi]
        · have hp2 : ¬ i = p := fun h => hp h.symm
          simp [hr, hi, hp, hp2]
    · have hpi : ¬ (p = i ∧ p < f.length) := fun h => hi (h.1 ▸ h.2)
      simp only [hi, and_false, if_false, hpi]

namespace EfficiencyContext

/-- The loop of `calculateEfficiencyFactors` over the wells `0, ..., n - 1`,
when every well has a node and `well_connpos` does not decrease: the loop
returns, keeps the length of the vector, and leaves the factor of the node of
the well `w < n` at the perforations of that well. -/
theorem calculateEfficiencyFactors_loop (ctx : EfficiencyContext) (W : Wells) (f0 : List ℚ)
    (hnodes : ∀ w, w < W.number_of_wells → findWellNode ctx.leaf_nodes (W.name w) ≠ none)
    (hmono : ∀ w, w < W.number_of_wells → W.well_connpos w ≤ W.well_connpos (w + 1))
    (hlen : f0.length = W.well_connpos W.number_of_wells) (n : Nat)
    (hn : n ≤ W.number_of_wells) :
    ∃ f, (List.range n).foldlM (fun factors w => ctx.calculateEfficiencyFactorsWell W w factors)
        f0 = some f ∧ f.length = f0.length ∧
      ∀ w, w < n → ∀ p, W.well_connpos w ≤ p → p < W.well_connpos (w + 1) →
        ∃ well_node, findWellNode ctx.leaf_nodes (W.name w) = some well_node ∧
          f.getD p 0 = ctx.getAccumulativeEfficiencyFactor well_node := by
  have hchain : ∀ a b, a ≤ b → b ≤ W.number_of_wells →
      W.well_connpos a ≤ W.well_connpos b := by
    intro a b hab hb
    induction b with
    | zero =>
      have : a = 0 := Nat.le_zero.mp hab
      rw [this]
    | succ k ih =>
      by_cases hak : a = k + 1
      · rw [hak]
      · have hle : a ≤ k := by omega
        exact Nat.le_trans (ih hle (by omega)) (hmono k (by omega))
  induction n with
  | zero => exact ⟨f0, rfl, rfl, fun w hw => absurd hw (Nat.not_lt_zero w)⟩
  | succ n ih =>
    obtain ⟨f, hf, hfl, hprop⟩ := ih (Nat.le_of_succ_le hn)
    have hnlt : n < W.number_of_wells := hn
    obtain ⟨node, hnode⟩ := Option.ne_none_iff_exists'.mp (hnodes n hnlt)
    refine ⟨(List.range' (W.well_connpos n) (W.well_connpos (n + 1) - W.well_connpos n)).foldl
      (fun factors perf => factors.set perf (ctx.getAccumulativeEfficiencyFactor node)) f,
      ?_, ?_, ?_⟩
    · rw [List.range_succ, List.foldlM_append, hf]
      simp [calculateEfficiencyFactorsWell, hnode]
    · rw [foldl_set_const_length, hfl]
    · intro w hw p hp1 hp2
      rw [foldl_set_const_getD]
      have hmn := hmono n hnlt
      rcases Nat.lt_succ_iff_lt_or_eq.mp hw with hwn | hwn
      · obtain ⟨nd, hnd, hval⟩ := hprop w hwn p hp1 hp2
        refine ⟨nd, hnd, ?_⟩
        have hle : W.well_connpos (w + 1) ≤ W.well_connpos n :=
          hchain (w + 1) n hwn (Nat.le_of_lt hnlt)
        have hnot : ¬ (p ∈ List.range' (W.well_connpos n)
            (W.well_connpos (n + 1) - W.well_connpos n) ∧ p < f.length) := by
          rw [List.mem_range'_1]
          omega
        rw [if_neg hnot, hval]
      · subst hwn
        refine ⟨node, hnode, ?_⟩
        have hle : W.well_connpos (w + 1) ≤ W.well_connpos W.number_of_wells :=
          hchain (w + 1) _ hnlt (Nat.le_refl _)
        have hyes : p ∈ List.range' (W.well_connpos w)
            (W.well_connpos (w + 1) - W.well_connpos w) ∧ p < f.length := by
          rw [List.mem_range'_1, hfl, hlen]
          omega
        rw [if_pos hyes]

/-- Claim C35. The vector of the perforation efficiency factors is constructed
with `well_connpos[number_of_wells]` entries, all of them 1.0. When every well
of the struct has a leaf of its name in the well collection and `well_connpos`
does not decrease, `calculateEfficiencyFactors` returns, `init` leaves the
vector that `calculateEfficiencyFactors` leaves, and afterwards the factor at
every perforation `p` with `well_connpos[w] <= p < well_connpos[w + 1]` is the
accumulated efficiency factor of the leaf named like the well `w`. -/
theorem calculateEfficiencyFactors_perforations (ctx : EfficiencyContext) (W : Wells)
    (hW : ctx.wells_ = some W)
    (hnodes : ∀ w, w < W.number_of_wells → findWellNode ctx.leaf_nodes (W.name w) ≠ none)
    (hmono : ∀ w, w < W.number_of_wells → W.well_connpos w ≤ W.well_connpos (w + 1)) :
    (wellPerfEfficiencyFactorsInit ctx.wells_).length = W.well_connpos W.number_of_wells ∧
    (∀ p, p < W.well_connpos W.number_of_wells →
      (wellPerfEfficiencyFactorsInit ctx.wells_).getD p 0 = 1) ∧
    ∃ factors,
      ctx.calculateEfficiencyFactors (wellPerfEfficiencyFactorsInit ctx.wells_) = some factors ∧
      ctx.init (wellPerfEfficiencyFactorsInit ctx.wells_) = some factors ∧
      factors.length = W.well_connpos W.number_of_wells ∧
      ∀ w, w < W.number_of_wells → ∀ p, W.well_connpos w ≤ p → p < W.well_connpos (w + 1) →
        ∃ well_node, findWellNode ctx.leaf_nodes (W.name w) = some well_node ∧
          factors.getD p 0 = ctx.getAccumulativeEfficiencyFactor well_node := by
  have hlen : (wellPerfEfficiencyFactorsInit ctx.wells_).length
      = W.well_connpos W.number_of_wells := by
    simp [wellPerfEfficiencyFactorsInit, hW]
  refine ⟨hlen, ?_, ?_⟩
  · intro p hp
    simp [wellPerfEfficiencyFactorsInit, hW, List.getD_eq_getElem?_getD, hp]
  · by_cases hact : localWellsActiveOf ctx.wells_ = false
    · have hzero : W.number_of_wells = 0 := by
        simpa [localWellsActiveOf, hW] using hact
      refine ⟨wellPerfEfficiencyFactorsInit ctx.wells_, ?_, ?_, hlen, ?_⟩
      · unfold calculateEfficiencyFactors
        rw [if_pos hact]
      · unfold init
        rw [if_pos hact]
      · intro w hw
        rw [hzero] at hw
        exact absurd hw (Nat.not_lt_zero w)
    · obtain ⟨f, hf, hfl, hprop⟩ := ctx.calculateEfficiencyFactors_loop W
        (wellPerfEfficiencyFactorsInit ctx.wells_) hnodes hmono hlen W.number_of_wells
        (Nat.le_refl _)
      have hcalc : ctx.calculateEfficiencyFactors (wellPerfEfficiencyFactorsInit ctx.wells_)
          = some f := by
        unfold calculateEfficiencyFactors
        rw [if_neg hact]
        rw [hW] at hf ⊢
        exact hf
      refine ⟨f, hcalc, ?_, hfl.trans hlen, hprop⟩
      unfold init
      rw [if_neg hact]
      exact hcalc

/-- Instance of C35: the wells `P1`, of the perforations 0, 1, 2, and `P2`, of
the perforations 3, 4, with the accumulated factors 1/2 and 3/4. -/
theorem calculateEfficiencyFactors_perforations_witness :
    wellPerfEfficiencyFactorsInit fxEfficiencyCtx.wells_ = [1, 1, 1, 1, 1] ∧
    fxEfficiencyCtx.calculateEfficiencyFactors (wellPerfEfficiencyFactorsInit fxEfficiencyCtx.wells_)
      = some [1 / 2, 1 / 2, 1 / 2, 3 / 4, 3 / 4] := by
  have hnodes : ∀ w, w < fxWellsPerfs.number_of_wells →
      findWellNode fxEfficiencyCtx.leaf_nodes (fxWellsPerfs.name w) ≠ none := by
    intro w hw
    have hw2 : w < 2 := hw
    interval_cases w <;> simp [findWellNode, fxEfficiencyCtx, fxWellsPerfs, fxWellsTwo]
  have hmono : ∀ w, w < fxWellsPerfs.number_of_wells →
      fxWellsPerfs.well_connpos w ≤ fxWellsPerfs.well_connpos (w + 1) := by
    intro w hw
    have hw2 : w < 2 := hw
    interval_cases w <;> simp [fxWellsPerfs]
  obtain ⟨hl, _, factors, hf, _, hfl, hprop⟩ :=
    calculateEfficiencyFactors_perforations fxEfficiencyCtx fxWellsPerfs rfl hnodes hmono
  have hinit : wellPerfEfficiencyFactorsInit fxEfficiencyCtx.wells_ = [1, 1, 1, 1, 1] := by
    simp [wellPerfEfficiencyFactorsInit, fxEfficiencyCtx, fxWellsPerfs, fxWellsTwo,
      List.replicate]
  refine ⟨hinit, ?_⟩
  rw [hf]
  congr 1
  have hfl5 : factors.length = 5 := by
    rw [hfl]
    simp [fxWellsPerfs, fxWellsTwo]
  have e1 : findWellNode fxEfficiencyCtx.leaf_nodes (fxWellsPerfs.name 0)
      = some ⟨"P1", 0, false, -1, true⟩ := by
    simp [findWellNode, fxEfficiencyCtx, fxWellsPerfs, fxWellsTwo]
  have e2 : findWellNode fxEfficiencyCtx.leaf_nodes (fxWellsPerfs.name 1)
      = some ⟨"P2", 1, false, -1, true⟩ := by
    simp [findWellNode, fxEfficiencyCtx, fxWellsPerfs, fxWellsTwo]
  have v : ∀ w p (nd : WellNode), w < fxWellsPerfs.number_of_wells →
      fxWellsPerfs.well_connpos w ≤ p → p < fxWellsPerfs.well_connpos (w + 1) →
      findWellNode fxEfficiencyCtx.leaf_nodes (fxWellsPerfs.name w) = some nd →
      factors.getD p 0 = fxEfficiencyCtx.getAccumulativeEfficiencyFactor nd := by
    intro w p nd hw h1 h2 hnd
    obtain ⟨nd2, hnd2, hv⟩ := hprop w hw p h1 h2
    rw [hnd] at hnd2
    rw [hv, ← Option.some.inj hnd2]
  have v0 := v 0 0 _ (by decide) (by simp [fxWellsPerfs]) (by simp [fxWellsPerfs]) e1
  have v1 := v 0 1 _ (by decide) (by simp [fxWellsPerfs]) (by simp [fxWellsPerfs]) e1
  have v2 := v 0 2 _ (by decide) (by simp [fxWellsPerfs]) (by simp [fxWellsPerfs]) e1
  have v3 := v 1 3 _ (by decide) (by simp [fxWellsPerfs]) (by simp [fxWellsPerfs]) e2
  have v4 := v 1 4 _ (by decide) (by simp [fxWellsPerfs]) (by simp [fxWellsPerfs]) e2
  match factors, hfl5 with
  | [a, b, c, d, e], _ =>
    simp [fxEfficiencyCtx] at v0 v1 v2 v3 v4
    simp [v0, v1, v2, v3, v4]

end EfficiencyContext

/-! ## The keywords that flow does not support -/

/-- The messages of `checkKeywords` for a deck that passes `checkDeck`: one for
each keyword of the deck whose name is an entry of `unsupported_keywords`, in
the order of the deck, and none for any other keyword. -/
theorem checkKeywords_eq (checkDeck : List DeckKeyword → Bool) (deck : List DeckKeyword)
    (hcheck : checkDeck deck = true) :
    checkKeywords checkDeck deck
      = (deck.filter fun keyword => decide (keyword.name ∈ unsupported_keywords)).map
          checkKeywordsMessage := by
  unfold checkKeywords
  rw [if_pos hcheck]
  have key : ∀ (ks : List DeckKeyword) (log : List String),
      ks.foldl
        (fun log keyword =>
          match unsupported_keywords.find? (fun entry => entry == keyword.name) with
          | some _ => log ++ [checkKeywordsMessage keyword]
          | none => log) log
      = log ++ (ks.filter fun keyword => decide (keyword.name ∈ unsupported_keywords)).map
          checkKeywordsMessage := by
    intro ks
    induction ks with
    | nil => intro log; simp
    | cons k rest ih =>
      intro log
      rw [List.foldl_cons, ih]
      by_cases hk : k.name ∈ unsupported_keywords
      · have hf : ∃ e, unsupported_keywords.find? (fun entry => entry == k.name) = some e := by
          cases hfe : unsupported_keywords.find? (fun entry => entry == k.name) with
          | some e => exact ⟨e, rfl⟩
          | none =>
            rw [List.find?_eq_none] at hfe
            exact absurd (by simp) (hfe k.name hk)
        obtain ⟨e, he⟩ := hf
        rw [he]
        simp [List.filter_cons, hk]
      · have hf : unsupported_keywords.find? (fun entry => entry == k.name) = none := by
          rw [List.find?_eq_none]
          intro x hx hxe
          have : x = k.name := by simpa using hxe
          exact hk (this ▸ hx)
        rw [hf]
        simp [List.filter_cons, hk]
  rw [key]
  simp

/-- Claim C36, evaluated at a failing input. The deck passes `checkDeck` and
holds the keywords `AQUDIMS`, `AQUNUM`, `BLOCK_PROBE` and `COMPLUMP`. The list
of the source has the single entry `AQUNUMBLOCK_PROBE` where the two names were
meant, so neither `AQUNUM` nor `BLOCK_PROBE` is an entry of it: `checkKeywords`
logs the error for `AQUDIMS` and for `COMPLUMP` only. -/
theorem checkKeywords_aqunum_block_probe :
    "AQUNUMBLOCK_PROBE" ∈ unsupported_keywords ∧
    "AQUNUM" ∉ unsupported_keywords ∧ "BLOCK_PROBE" ∉ unsupported_keywords ∧
    checkKeywords (fun _ => true) fxDeck
      = ["Keyword 'AQUDIMS' is not supported by flow.\nIn file CASE.DATA, line 10\n",
          "Keyword 'COMPLUMP' is not supported by flow.\nIn file CASE.DATA, line 13\n"] ∧
    checkKeywords (fun _ => true) [⟨"AQUNUM", "CASE.DATA", 11⟩] = [] ∧
    checkKeywords (fun _ => true) [⟨"BLOCK_PROBE", "CASE.DATA", 12⟩] = [] := by
  have h1 : "AQUNUMBLOCK_PROBE" ∈ unsupported_keywords := by
    simp [unsupported_keywords]
  have h2 : "AQUNUM" ∉ unsupported_keywords := by
    simp [unsupported_keywords]
  have h3 : "BLOCK_PROBE" ∉ unsupported_keywords := by
    simp [unsupported_keywords]
  have h4 : "AQUDIMS" ∈ unsupported_keywords := by simp [unsupported_keywords]
  have h5 : "COMPLUMP" ∈ unsupported_keywords := by simp [unsupported_keywords]
  refine ⟨h1, h2, h3, ?_, ?_, ?_⟩
  · rw [checkKeywords_eq _ _ rfl]
    simp [fxDeck, List.filter_cons, h2, h3, h4, h5, checkKeywordsMessage]
    decide
  · rw [checkKeywords_eq _ _ rfl]
    simp [List.filter_cons, h2]
  · rw [checkKeywords_eq _ _ rfl]
    simp [List.filter_cons, h3]

/-! ## The entries of the perforation geometry -/

/-- The body of the loop over the completions, for a completion that is SHUT,
or OPEN with its cell found and a direction among X, Y, Z: it returns, and an
OPEN completion adds one entry to each of the three vectors. -/
theorem computeRepRadiusPerfLengthCompletion_ok (ctx : GeometryContext) (grid : Grid)
    (map : CartesianToCompressed) (well : Well) (g : PerfGeometry) (c : Completion)
    (hc : (c.getState = WellCompletion.StateEnum.OPEN ∧
        (∃ cell, CartesianToCompressed.find map
          (wrapInt32 (c.getI + grid.cartDims 0 * (c.getJ + grid.cartDims 1 * c.getK))) = some cell) ∧
        c.getDirection ≠ WellCompletion.DirectionEnum.OTHER)
      ∨ c.getState = WellCompletion.StateEnum.SHUT) :
    ∃ g1, computeRepRadiusPerfLengthCompletion ctx grid map well g c = Except.ok g1 ∧
      g1.wells_rep_radius_.length = g.wells_rep_radius_.length
        + ([c].filter fun completion =>
            decide (completion.getState = WellCompletion.StateEnum.OPEN)).length ∧
      g1.wells_bore_diameter_ = g.wells_bore_diameter_ ++
        ([c].filter fun completion =>
          decide (completion.getState = WellCompletion.StateEnum.OPEN)).map
          (specBoreDiameter ctx) ∧
      ∃ perf, g1.wells_perf_length_ = g.wells_perf_length_ ++ perf ∧
        List.Forall₂
          (fun completion len => ∃ cell, CartesianToCompressed.find map
              (wrapInt32 (completion.getI + grid.cartDims 0
                * (completion.getJ + grid.cartDims 1 * completion.getK))) = some cell ∧
            len = specPerfLength (grid.getCubeDim cell) completion.getDirection)
          ([c].filter fun completion =>
            decide (completion.getState = WellCompletion.StateEnum.OPEN)) perf := by
  rcases hc with ⟨hopen, ⟨cell, hcell⟩, hdir⟩ | hshut
  · have hbore : 2 * (if 1 / 2 * c.getDiameter ≤ 0 then 1 / 2 * ctx.feet
        else 1 / 2 * c.getDiameter) = specBoreDiameter ctx c := by
      unfold specBoreDiameter
      by_cases hd : 0 < c.getDiameter
      · have h1 : ¬ (1 / 2 * c.getDiameter ≤ 0) := by linarith
        rw [if_neg h1, if_pos hd]
        ring
      · have h1 : 1 / 2 * c.getDiameter ≤ 0 := by linarith
        rw [if_pos h1, if_neg hd]
        ring
    have hfilter : ([c].filter fun completion =>
        decide (completion.getState = WellCompletion.StateEnum.OPEN)) = [c] := by
      simp [hopen]
    rw [hfilter]
    unfold computeRepRadiusPerfLengthCompletion
    rw [if_pos hopen]
    simp only [hcell]
    cases hd : c.getDirection with
    | OTHER => exact absurd hd hdir
    | X =>
      refine ⟨_, rfl, by simp, congrArg (fun x => g.wells_bore_diameter_ ++ [x]) hbore,
        [(grid.getCubeDim cell).1], rfl, ?_⟩
      exact List.Forall₂.cons ⟨cell, hcell, by rw [hd]; rfl⟩ List.Forall₂.nil
    | Y =>
      refine ⟨_, rfl, by simp, congrArg (fun x => g.wells_bore_diameter_ ++ [x]) hbore,
        [(grid.getCubeDim cell).2.1], rfl, ?_⟩
      exact List.Forall₂.cons ⟨cell, hcell, by rw [hd]; rfl⟩ List.Forall₂.nil
    | Z =>
      refine ⟨_, rfl, by simp, congrArg (fun x => g.wells_bore_diameter_ ++ [x]) hbore,
        [(grid.getCubeDim cell).2.2], rfl, ?_⟩
      exact List.Forall₂.cons ⟨cell, hcell, by rw [hd]; rfl⟩ List.Forall₂.nil
  · have hno : ¬ c.getState = WellCompletion.StateEnum.OPEN := by
      rw [hshut]
      decide
    have hfilter : ([c].filter fun completion =>
        decide (completion.getState = WellCompletion.StateEnum.OPEN)) = [] := by
      simp [hno]
    rw [hfilter]
    unfold computeRepRadiusPerfLengthCompletion
    rw [if_neg hno, if_neg (not_not.mpr hshut)]
    exact ⟨g, rfl, rfl, by simp, [], by simp, List.Forall₂.nil⟩

/-- The loop over the completions of a well, when every completion is SHUT, or
OPEN with its cell found and a direction among X, Y, Z. -/
theorem computeRepRadiusPerfLengthCompletions_ok (ctx : GeometryContext) (grid : Grid)
    (map : CartesianToCompressed) (well : Well) (cs : List Completion) (g : PerfGeometry)
    (hc : ∀ c ∈ cs, (c.getState = WellCompletion.StateEnum.OPEN ∧
        (∃ cell, CartesianToCompressed.find map
          (wrapInt32 (c.getI + grid.cartDims 0 * (c.getJ + grid.cartDims 1 * c.getK))) = some cell) ∧
        c.getDirection ≠ WellCompletion.DirectionEnum.OTHER)
      ∨ c.getState = WellCompletion.StateEnum.SHUT) :
    ∃ g1, computeRepRadiusPerfLengthCompletions ctx grid map well g cs = Except.ok g1 ∧
      g1.wells_rep_radius_.length = g.wells_rep_radius_.length
        + (cs.filter fun completion =>
            decide (completion.getState = WellCompletion.StateEnum.OPEN)).length ∧
      g1.wells_bore_diameter_ = g.wells_bore_diameter_ ++
        (cs.filter fun completion =>
          decide (completion.getState = WellCompletion.StateEnum.OPEN)).map
          (specBoreDiameter ctx) ∧
      ∃ perf, g1.wells_perf_length_ = g.wells_perf_length_ ++ perf ∧
        List.Forall₂
          (fun completion len => ∃ cell, CartesianToCompressed.find map
              (wrapInt32 (completion.getI + grid.cartDims 0
                * (completion.getJ + grid.cartDims 1 * completion.getK))) = some cell ∧
            len = specPerfLength (grid.getCubeDim cell) completion.getDirection)
          (cs.filter fun completion =>
            decide (completion.getState = WellCompletion.StateEnum.OPEN)) perf := by
  induction cs generalizing g with
  | nil => exact ⟨g, rfl, rfl, by simp, [], by simp, List.Forall₂.nil⟩
  | cons c rest ih =>
    obtain ⟨g1, h1, hr1, hb1, p1, hp1, hf1⟩ :=
      computeRepRadiusPerfLengthCompletion_ok ctx grid map well g c
        (hc c (List.mem_cons_self c rest))
    obtain ⟨g2, h2, hr2, hb2, p2, hp2, hf2⟩ :=
      ih g1 (fun c2 hc2 => hc c2 (List.mem_cons_of_mem c hc2))
    have hsplit : ((c :: rest).filter fun completion =>
        decide (completion.getState = WellCompletion.StateEnum.OPEN))
        = ([c].filter fun completion =>
            decide (completion.getState = WellCompletion.StateEnum.OPEN))
          ++ (rest.filter fun completion =>
            decide (completion.getState = WellCompletion.StateEnum.OPEN)) := by
      rw [← List.filter_append]
      rfl
    refine ⟨g2, ?_, ?_, ?_, p1 ++ p2, ?_, ?_⟩
    · simp only [computeRepRadiusPerfLengthCompletions, h1, h2]
    · rw [hr2, hr1, hsplit, List.length_append, Nat.add_assoc]
    · rw [hb2, hb1, hsplit, List.map_append, List.append_assoc]
    · rw [hp2, hp1, List.append_assoc]
    · rw [hsplit]
      exact List.rel_append hf1 hf2

/-- The loop over the schedule wells, when every completion of a well that is
not SHUT is SHUT, or OPEN with its cell found and a direction among X, Y, Z. -/
theorem computeRepRadiusPerfLengthWells_ok (ctx : GeometryContext) (grid : Grid)
    (map : CartesianToCompressed) (ws : List Well) (g : PerfGeometry)
    (hc : ∀ well ∈ ws, well.getStatus ctx.current_timeIdx_ ≠ WellCommon.StatusEnum.SHUT →
      ∀ c ∈ well.getCompletions ctx.current_timeIdx_,
        (c.getState = WellCompletion.StateEnum.OPEN ∧
          (∃ cell, CartesianToCompressed.find map
            (wrapInt32 (c.getI + grid.cartDims 0 * (c.getJ + grid.cartDims 1 * c.getK))) = some cell) ∧
          c.getDirection ≠ WellCompletion.DirectionEnum.OTHER)
        ∨ c.getState = WellCompletion.StateEnum.SHUT) :
    ∃ g1, computeRepRadiusPerfLengthWells ctx grid map g ws = Except.ok g1 ∧
      g1.wells_rep_radius_.length = g.wells_rep_radius_.length
        + (openCompletionsProcessed { ctx with wells_ecl_ := ws }).length ∧
      g1.wells_bore_diameter_ = g.wells_bore_diameter_ ++
        (openCompletionsProcessed { ctx with wells_ecl_ := ws }).map (specBoreDiameter ctx) ∧
      ∃ perf, g1.wells_perf_length_ = g.wells_perf_length_ ++ perf ∧
        List.Forall₂
          (fun completion len => ∃ cell, CartesianToCompressed.find map
              (wrapInt32 (completion.getI + grid.cartDims 0
                * (completion.getJ + grid.cartDims 1 * completion.getK))) = some cell ∧
            len = specPerfLength (grid.getCubeDim cell) completion.getDirection)
          (openCompletionsProcessed { ctx with wells_ecl_ := ws }) perf := by
  induction ws generalizing g with
  | nil => exact ⟨g, rfl, rfl, by simp [openCompletionsProcessed], [], by simp,
      by simp [openCompletionsProcessed]⟩
  | cons well rest ih =>
    by_cases hshut : well.getStatus ctx.current_timeIdx_ = WellCommon.StatusEnum.SHUT
    · obtain ⟨g2, h2, hr2, hb2, p2, hp2, hf2⟩ :=
        ih g (fun w2 hw2 => hc w2 (List.mem_cons_of_mem well hw2))
      have hopen : openCompletionsProcessed { ctx with wells_ecl_ := well :: rest }
          = openCompletionsProcessed { ctx with wells_ecl_ := rest } := by
        simp [openCompletionsProcessed, List.filter_cons, hshut]
      refine ⟨g2, ?_, ?_, ?_, p2, hp2, ?_⟩
      · simp only [computeRepRadiusPerfLengthWells, computeRepRadiusPerfLengthWell, hshut,
          if_true, h2]
      · rw [hr2, hopen]
      · rw [hb2, hopen]
      · rw [hopen]
        exact hf2
    · obtain ⟨g1, h1, hr1, hb1, p1, hp1, hf1⟩ :=
        computeRepRadiusPerfLengthCompletions_ok ctx grid map well
          (well.getCompletions ctx.current_timeIdx_) g
          (hc well (List.mem_cons_self well rest) hshut)
      obtain ⟨g2, h2, hr2, hb2, p2, hp2, hf2⟩ :=
        ih g1 (fun w2 hw2 => hc w2 (List.mem_cons_of_mem well hw2))
      have hopen : openCompletionsProcessed { ctx with wells_ecl_ := well :: rest }
          = ((well.getCompletions ctx.current_timeIdx_).filter fun completion =>
              decide (completion.getState = WellCompletion.StateEnum.OPEN))
            ++ openCompletionsProcessed { ctx with wells_ecl_ := rest } := by
        simp [openCompletionsProcessed, List.filter_cons, hshut]
      refine ⟨g2, ?_, ?_, ?_, p1 ++ p2, ?_, ?_⟩
      · simp only [computeRepRadiusPerfLengthWells, computeRepRadiusPerfLengthWell, hshut,
          if_false, h1, h2]
      · rw [hr2, hr1, hopen, List.length_append, Nat.add_assoc]
      · rw [hb2, hb1, hopen, List.map_append, List.append_assoc]
      · rw [hp2, hp1, List.append_assoc]
      · rw [hopen]
        exact List.rel_append hf1 hf2

/-- With no well in the schedule `computeRepRadiusPerfLength` returns at once
and leaves the three vectors as they are. -/
theorem computeRepRadiusPerfLength_no_wells (ctx : GeometryContext) (grid : Grid)
    (g : PerfGeometry) (h : ctx.wells_ecl_ = []) :
    computeRepRadiusPerfLength ctx grid g = Except.ok g := by
  unfold computeRepRadiusPerfLength
  simp [h]

/-- The pass on local water cuts 0.9, 0.95 and 0.6 with the limit 0.8 closes the
connection of the largest local water cut, the second one, which is in the
cell 101; the well is neither shut nor stopped. -/
theorem updateListEconLimited_closes_second_connection :
    (fxWells WellType.PRODUCER).well_cells 1 = 101 ∧
    (updateListEconLimited fxCtx (fxSchedule true fxMaxWaterCut) 0
      (some (fxWells WellType.PRODUCER)) fxStateThreePerf {}).1
      = ⟨[], [], [("P1", 101)]⟩ := by
  obtain ⟨hcut, h0, h1, h2⟩ := fxStateThreePerf_cuts
  have hviol : wellWaterCut fxCtx fxStateThreePerf 0 > fxMaxWaterCut.maxWaterCut := by
    rw [hcut]; norm_num [fxMaxWaterCut]
  have hrate : (checkRateEconLimits fxCtx fxMaxWaterCut fxStateThreePerf 0).1 = false := by
    simp [checkRateEconLimits, fxMaxWaterCut]
  obtain ⟨_, _, hworst⟩ :=
    updateListEconLimited_closes_worst_connection fxCtx (fxSchedule true fxMaxWaterCut) 0
      (fxWells WellType.PRODUCER) fxStateThreePerf {} ({}, []) 0 (by decide) rfl hrate rfl
      (by decide) hviol
  obtain ⟨c, hc, hidx, hmax, _⟩ := hworst
    ⟨by norm_num [fxSchedule, fxMaxWaterCut], 0, by decide, by
      show 0 < perfWaterCut fxCtx fxStateThreePerf (0 + 0)
      rw [Nat.zero_add, h0]; norm_num⟩
  have hc3 : c < 3 := hc
  have hm1 : perfWaterCut fxCtx fxStateThreePerf (0 + 1) ≤ perfWaterCut fxCtx fxStateThreePerf (0 + c) :=
    hmax 1 (by decide)
  have hc1 : c = 1 := by
    interval_cases c
    · rw [Nat.zero_add, Nat.zero_add, h0, h1] at hm1; norm_num at hm1
    · rfl
    · rw [Nat.zero_add, Nat.zero_add, h2, h1] at hm1; norm_num at hm1
  rw [hc1] at hidx
  have hidx1 : (checkRatioEconLimits fxCtx fxMaxWaterCut fxStateThreePerf
      ⟨0, 0, 3⟩).1.worst_offending_connection = 1 := hidx
  refine ⟨rfl, ?_⟩
  rw [updateListEconLimited_three_connections.2.2, hidx1]
  rfl

/-! ## The connection closed when no local water cut is positive -/

/-- Claim C4, evaluated at a failing input. The producer `P1` has no rate-limit
violation, two connections (cells 100 and 101) and a well water cut of 0.9 above
the active limit 0.8; the local water cuts are -10 and -1/11, so that the
connection of the largest local water cut is the second one, in cell 101.
`updateListEconLimited` adds one closed-connection directive and leaves the shut
and the stopped lists empty, but the directive is for the cell
`well_cells[perf_start + INVALIDCONNECTION]` (the cell -99900 with -100000 for
the constant): for every value of the constant other than 0 and 1 the cell
closed is none of the cells of the two connections of the well. -/
theorem updateListEconLimited_closes_invalid_connection :
    (fxWells WellType.PRODUCER).type 0 = WellType.PRODUCER ∧
    (checkRateEconLimits fxCtx fxMaxWaterCut fxStateCrossflowTwo 0).1 = false ∧
    fxMaxWaterCut.onMaxWaterCut = true ∧
    (fxStateCrossflowTwo.wellMap "P1").perf_start = 0 ∧
    (fxStateCrossflowTwo.wellMap "P1").perf_number = 2 ∧
    wellWaterCut fxCtx fxStateCrossflowTwo 0 > fxMaxWaterCut.maxWaterCut ∧
    perfWaterCut fxCtx fxStateCrossflowTwo 0 = -10 ∧
    perfWaterCut fxCtx fxStateCrossflowTwo 1 = -1 / 11 ∧
    (fxWells WellType.PRODUCER).well_cells 0 = 100 ∧
    (fxWells WellType.PRODUCER).well_cells 1 = 101 ∧
    (updateListEconLimited fxCtx (fxSchedule true fxMaxWaterCut) 0
      (some (fxWells WellType.PRODUCER)) fxStateCrossflowTwo {}).1
      = ⟨[], [], [("P1", -99900)]⟩ ∧
    (∀ inv : Int, inv ≠ 0 → inv ≠ 1 →
      (updateListEconLimited ⟨fxPhaseUsage, fun _ => true, inv⟩ (fxSchedule true fxMaxWaterCut) 0
        (some (fxWells WellType.PRODUCER)) fxStateCrossflowTwo {}).1.closed_connections
        = [("P1", (fxWells WellType.PRODUCER).well_cells (0 + inv))] ∧
      (fxWells WellType.PRODUCER).well_cells (0 + inv) ≠ 100 ∧
      (fxWells WellType.PRODUCER).well_cells (0 + inv) ≠ 101) := by
  obtain ⟨hcut, hperf0, hperf1, _, _⟩ := fxStateCrossflowTwo_checks (-100000)
  have hcut2 : wellWaterCut fxCtx fxStateCrossflowTwo 0 = 9 / 10 := hcut
  refine ⟨rfl, by simp [checkRateEconLimits, fxMaxWaterCut], rfl, rfl, rfl, ?_, hperf0, hperf1,
    rfl, rfl, fxStateCrossflowTwo_directives (-100000), ?_⟩
  · rw [hcut2]; norm_num [fxMaxWaterCut]
  · intro inv h0 h1
    rw [fxStateCrossflowTwo_directives inv]
    refine ⟨by simp [fxWells], ?_, ?_⟩
    · show (100 : Int) + (0 + inv) ≠ 100
      omega
    · show (100 : Int) + (0 + inv) ≠ 101
      omega

/-! ## The liquid rate of the rate limits -/

/-- The doubles `0.1` and `0.2`, and their sum in double precision: the exact
sum `10808639105689191 / 2^55` lies half-way between two doubles and is rounded
to the even one, `5404319552844596 / 2^54` (the double `0.30000000000000004`). -/
theorem fxStateLiquid_rates :
    Double.round (1 / 10) = 3602879701896397 / 2 ^ 55 ∧
    Double.round (2 / 10) = 3602879701896397 / 2 ^ 54 ∧
    Double.add (Double.round (1 / 10)) (Double.round (2 / 10)) = 5404319552844596 / 2 ^ 54 := by
  have h1 : Double.round (1 / 10) = 3602879701896397 / 2 ^ 55 := by
    rw [Double.round_of_near (1 / 10) (-4) 7205759403792794 (by norm_num [abs_of_pos])
      (by norm_num [abs_of_pos]) (by norm_num) (by norm_num) (by norm_num)]
    norm_num
  have h2 : Double.round (2 / 10) = 3602879701896397 / 2 ^ 54 := by
    rw [Double.round_of_near (2 / 10) (-3) 7205759403792794 (by norm_num [abs_of_pos])
      (by norm_num [abs_of_pos]) (by norm_num) (by norm_num) (by norm_num)]
    norm_num
  refine ⟨h1, h2, ?_⟩
  rw [h1, h2]
  unfold Double.add
  rw [Double.round_of_tie _ (-2) 5404319552844595 (by norm_num [abs_of_pos])
    (by norm_num [abs_of_pos]) (by norm_num) (by norm_num)]
  norm_num

/-- Claim C5, refuted as stated. The minimum liquid rate is the only limit, at
`5404319552844596 / 2^54` (the double `0.30000000000000004`); the oil rate is
the double `0.1` and the water rate the double `0.2`. The exact sum of the two
rates is below the limit, but the liquid rate that the method computes is the
sum rounded to a double, which is the limit itself: `checkRateEconLimits`
returns false. -/
theorem checkRateEconLimits_liquid_sum_rounded :
    (fxMinLiquid (5404319552844596 / 2 ^ 54)).onMinLiquidRate = true ∧
    fxStateLiquid.wellRates.getD (0 * fxStateLiquid.numPhases + fxCtx.phase_usage_.phase_pos Phase.Oil) 0
      = 3602879701896397 / 2 ^ 55 ∧
    fxStateLiquid.wellRates.getD (0 * fxStateLiquid.numPhases + fxCtx.phase_usage_.phase_pos Phase.Water) 0
      = 3602879701896397 / 2 ^ 54 ∧
    |fxStateLiquid.wellRates.getD (0 * fxStateLiquid.numPhases + fxCtx.phase_usage_.phase_pos Phase.Oil) 0
        + fxStateLiquid.wellRates.getD
          (0 * fxStateLiquid.numPhases + fxCtx.phase_usage_.phase_pos Phase.Water) 0|
      < (fxMinLiquid (5404319552844596 / 2 ^ 54)).minLiquidRate ∧
    (checkRateEconLimits fxCtx (fxMinLiquid (5404319552844596 / 2 ^ 54)) fxStateLiquid 0).1
      = false := by
  obtain ⟨h1, h2, h3⟩ := fxStateLiquid_rates
  have hoil : fxStateLiquid.wellRates.getD
      (0 * fxStateLiquid.numPhases + fxCtx.phase_usage_.phase_pos Phase.Oil) 0
      = 3602879701896397 / 2 ^ 55 := by
    rw [← h1]; rfl
  have hwater : fxStateLiquid.wellRates.getD
      (0 * fxStateLiquid.numPhases + fxCtx.phase_usage_.phase_pos Phase.Water) 0
      = 3602879701896397 / 2 ^ 54 := by
    rw [← h2]; rfl
  refine ⟨rfl, hoil, hwater, ?_, ?_⟩
  · rw [hoil, hwater]
    norm_num [fxMinLiquid, abs_of_pos]
  · rw [Bool.eq_false_iff]
    intro h
    rw [checkRateEconLimits_fst_iff] at h
    rcases h with h | h | h
    · exact absurd h.1 (by simp [fxMinLiquid])
    · exact absurd h.1 (by simp [fxMinLiquid])
    · have hlt := h.2
      rw [hoil, hwater, ← h1, ← h2, h3] at hlt
      norm_num [fxMinLiquid, abs_of_pos] at hlt

/-- Instance of the amended C5: with the double `0.1` of oil, the double `0.2`
of water and the minimum liquid rate 1 the liquid rate, the double
`0.30000000000000004`, is below the limit and the method returns true. -/
theorem checkRateEconLimits_spec_witness :
    (checkRateEconLimits fxCtx (fxMinLiquid 1) fxStateLiquid 0).1 = true := by
  obtain ⟨h1, h2, h3⟩ := fxStateLiquid_rates
  refine (checkRateEconLimits_spec fxCtx (fxMinLiquid 1) fxStateLiquid 0).1.mpr
    (Or.inr (Or.inr ⟨rfl, ?_⟩))
  have hoil : fxStateLiquid.wellRates.getD
      (0 * fxStateLiquid.numPhases + fxCtx.phase_usage_.phase_pos Phase.Oil) 0
      = Double.round (1 / 10) := rfl
  have hwater : fxStateLiquid.wellRates.getD
      (0 * fxStateLiquid.numPhases + fxCtx.phase_usage_.phase_pos Phase.Water) 0
      = Double.round (2 / 10) := rfl
  rw [hoil, hwater, h3]
  norm_num [fxMinLiquid, abs_of_pos]

/-! ## The passes of the well-only solve -/

namespace StandardWellsDense

variable {ι : Type}

/-- When the container has one unit for each of the `number_of_wells_` wells, the
loop of `assembleWellEq` assembles the units of the container one after the
other. -/
theorem assembleWellEq_eq_foldl (m : StandardWellsDense ι) (only_wells : Bool) (s : SimState ι)
    (hlen : m.number_of_wells_ = m.well_container_.length) :
    m.assembleWellEq only_wells s
      = some (m.well_container_.foldl (fun s1 well => well.assembleWellEq only_wells s1) s) := by
  have key : ∀ k, k ≤ m.well_container_.length →
      (List.range k).foldlM
        (fun s1 w => (m.well_container_.get? w).map fun well => well.assembleWellEq only_wells s1) s
      = some ((m.well_container_.take k).foldl
          (fun s1 well => well.assembleWellEq only_wells s1) s) := by
    intro k
    induction k with
    | zero => intro _; rfl
    | succ k ih =>
      intro hk
      have hk2 : k < m.well_container_.length := hk
      rw [List.range_succ, List.foldlM_append, ih (Nat.le_of_succ_le hk)]
      rw [List.take_succ, List.foldl_append]
      simp [List.getElem?_eq_getElem hk2]
  unfold assembleWellEq
  rw [hlen, key _ (Nat.le_refl _), List.take_length]

/-- The rest of a pass of the loop of `solveWellEq` after a failed test, written
with the operations of the well units. -/
theorem solveWellEqUpdate_eq (m : StandardWellsDense ι) (W : Wells) (s : SimState ι)
    (hW : m.wells_ = some W) :
    m.solveWellEqUpdate s =
      (if m.wells_active_ = true then
        m.well_container_.foldl (fun s1 well => well.setWellVariables s1)
          (m.updateGroupControls
            (m.well_container_.foldl (fun s1 well => well.updateWellControl s1)
              (if 0 < W.number_of_wells then
                m.well_container_.foldl (fun s1 well => well.wellEqIteration s1) s
              else s)))
      else
        (if 0 < W.number_of_wells then
          m.well_container_.foldl (fun s1 well => well.wellEqIteration s1) s
        else s)) := by
  unfold solveWellEqUpdate localWellsActive wellsActive setWellVariables updateWellControls
    wellsActive
  simp only [hW]
  by_cases ha : m.wells_active_ = true
  · by_cases hn : 0 < W.number_of_wells <;> simp [ha, hn]
  · by_cases hn : 0 < W.number_of_wells <;> simp [ha, hn]

/-- Claim C9. The container has one unit for each well. A pass of the loop is
the well-only assembly of every unit (`asm`), then, after the convergence test,
the Newton step `wellEqIteration` of every unit (`newton`) and the refresh of
the controls, of the group targets and of the well variables (`refresh`). If
the test made after the assembly fails in each of the 15 passes (some unit is
not converged, or group control is active and the group targets are not
converged), `solveWellEq` returns after exactly 15 assemblies and 15 Newton
steps: the report has `converged = false` and `total_well_iterations = 15`, the
well state is the well state at entry, the current control of every well
`w < nw` is the control index recorded for `w` in that entry state, and the
rest of the data is what the 15 passes left. -/
theorem solveWellEq_unconverged_rollback (m : StandardWellsDense ι) (W : Wells)
    (s : SimState ι) (asm newton refresh : SimState ι → SimState ι)
    (hW : m.wells_ = some W)
    (hlen : m.number_of_wells_ = m.well_container_.length)
    (hasm : ∀ s0, asm s0
      = m.well_container_.foldl (fun s1 well => well.assembleWellEq true s1) s0)
    (hnewton : ∀ s0, newton s0
      = if 0 < W.number_of_wells then
          m.well_container_.foldl (fun s1 well => well.wellEqIteration s1) s0
        else s0)
    (hrefresh : ∀ s0, refresh s0
      = if m.wells_active_ = true then
          m.well_container_.foldl (fun s1 well => well.setWellVariables s1)
            (m.updateGroupControls
              (m.well_container_.foldl (fun s1 well => well.updateWellControl s1) s0))
        else s0)
    (hfail : ∀ k, k < 15 →
      (∃ well, well ∈ m.well_container_ ∧
        well.getWellConvergence
          (m.computeAverageFormationFactor s (List.replicate m.numComponents 0))
          (asm ((fun s0 => refresh (newton (asm s0)))^[k] s)) = false) ∨
      (m.well_collection_.groupControlActive
          (asm ((fun s0 => refresh (newton (asm s0)))^[k] s)) = true ∧
        m.well_collection_.groupTargetConverged
          (asm ((fun s0 => refresh (newton (asm s0)))^[k] s)).well_state.wellRates
          (asm ((fun s0 => refresh (newton (asm s0)))^[k] s)) = false)) :
    ∃ s2, m.solveWellEq s = some (⟨false, 15⟩, s2) ∧
      s2.well_state = s.well_state ∧
      (∀ w, w < W.number_of_wells → s2.ctrl_current w = s.well_state.currentControls.getD w 0) ∧
      (∀ w, ¬ w < W.number_of_wells →
        s2.ctrl_current w = ((fun s0 => refresh (newton (asm s0)))^[15] s).ctrl_current w) ∧
      s2.leaf_nodes = ((fun s0 => refresh (newton (asm s0)))^[15] s).leaf_nodes ∧
      s2.ext = ((fun s0 => refresh (newton (asm s0)))^[15] s).ext := by
  have hupd : ∀ s1, m.solveWellEqUpdate s1 = refresh (newton s1) := by
    intro s1
    rw [m.solveWellEqUpdate_eq W s1 hW, hrefresh, hnewton]
  have hass : ∀ s1, m.assembleWellEq true s1 = some (asm s1) := by
    intro s1
    rw [m.assembleWellEq_eq_foldl true s1 hlen, hasm]
  have hpasses : ∀ k, m.solveWellEqPasses k s
      = some ((fun s0 => refresh (newton (asm s0)))^[k] s) := by
    intro k
    induction k with
    | zero => rfl
    | succ k ih =>
      rw [m.solveWellEqPasses_succ s _ _ k ih (hass _), hupd, Function.iterate_succ_apply']
  have htest : ∀ k, k < 15 →
      m.solveWellEqTestAt (m.computeAverageFormationFactor s (List.replicate m.numComponents 0))
        s k = some false := by
    intro k hk
    unfold solveWellEqTestAt
    simp only [hpasses k, hass, Option.map_some', Option.some.injEq]
    unfold solveWellEqConverged
    rcases hfail k hk with ⟨well, hmem, hwell⟩ | ⟨hg, ht⟩
    · have hconv : m.getWellConvergence
          (m.computeAverageFormationFactor s (List.replicate m.numComponents 0))
          (asm ((fun s0 => refresh (newton (asm s0)))^[k] s)) = false := by
        cases hc : m.getWellConvergence
          (m.computeAverageFormationFactor s (List.replicate m.numComponents 0))
          (asm ((fun s0 => refresh (newton (asm s0)))^[k] s)) with
        | false => rfl
        | true =>
          have := (m.getWellConvergence_iff _ _).mp hc well hmem
          rw [hwell] at this
          exact absurd this (by decide)
      simp [hconv]
    · simp [hg, ht]
  obtain ⟨s15, h15, hres⟩ := m.solveWellEq_of_all_fail W s hW htest
  rw [hpasses 15] at h15
  cases h15
  refine ⟨_, hres, rfl, ?_, ?_, rfl, rfl⟩
  · intro w hw
    simp [hw]
  · intro w hw
    simp [hw]

/-- Instance of C9: a well unit that never converges and counts the assemblies
and the Newton steps made on it. `solveWellEq` reports `converged = false` and
`total_well_iterations = 15`; the counters end at 15 assemblies and 15 Newton
steps; and the well state and the control 2 of the entry are restored although
every pass moved the rates and switched to control 7. -/
theorem solveWellEq_unconverged_rollback_witness :
    ∃ s2, fxModelCounting.solveWellEq fxEntryCounting = some (⟨false, 15⟩, s2) ∧
      s2.well_state = fxEntryCounting.well_state ∧ s2.ctrl_current 0 = 2 ∧
      s2.ext = (15, 15) := by
  obtain ⟨s2, hres, hws, hctrl, _, _, hext⟩ :=
    solveWellEq_unconverged_rollback fxModelCounting (fxWells WellType.PRODUCER)
      fxEntryCounting
      (fun s0 : SimState (Nat × Nat) =>
        [fxCounting].foldl (fun s1 (well : StandardWell (Nat × Nat)) => well.assembleWellEq true s1) s0)
      (fun s0 : SimState (Nat × Nat) =>
        [fxCounting].foldl (fun s1 (well : StandardWell (Nat × Nat)) => well.wellEqIteration s1) s0)
      (fun s0 : SimState (Nat × Nat) =>
        [fxCounting].foldl (fun s1 (well : StandardWell (Nat × Nat)) => well.setWellVariables s1)
          ([fxCounting].foldl
            (fun s1 (well : StandardWell (Nat × Nat)) => well.updateWellControl s1) s0))
      rfl rfl (fun _ => rfl) (fun _ => rfl) (fun _ => rfl)
      (fun k _ => Or.inl ⟨fxCounting, List.mem_singleton.mpr rfl, rfl⟩)
  refine ⟨s2, hres, hws, ?_, ?_⟩
  · rw [hctrl 0 (by decide)]
    rfl
  · rw [hext]
    rfl

end StandardWellsDense

/-! ## The linear-operator actions in double precision -/

namespace BVector

/-- The rounded sum of two vectors of integers is the exact one when the
magnitudes stay below `2^53`. -/
theorem add_eq_exactAdd (a b : BVector) (B M : Nat)
    (ha : ∀ u, u ∈ a → Double.isInt B u) (hb : ∀ v, v ∈ b → Double.isInt M v)
    (h : B + M < 2 ^ 53) : add a b = exactAdd a b := by
  unfold add exactAdd
  induction a generalizing b with
  | nil => simp
  | cons u a ih =>
    cases b with
    | nil => simp
    | cons v b =>
      simp only [List.zipWith_cons_cons, List.cons.injEq]
      exact ⟨Double.add_of_isInt B M u v (ha u (List.mem_cons_self u a))
          (hb v (List.mem_cons_self v b)) h,
        ih b (fun w hw => ha w (List.mem_cons_of_mem u hw))
          (fun w hw => hb w (List.mem_cons_of_mem v hw))⟩

theorem exactAdd_isInt (a b : BVector) (B M : Nat)
    (ha : ∀ u, u ∈ a → Double.isInt B u) (hb : ∀ v, v ∈ b → Double.isInt M v) :
    ∀ w, w ∈ exactAdd a b → Double.isInt (B + M) w := by
  unfold exactAdd
  induction a generalizing b with
  | nil => simp
  | cons u a ih =>
    cases b with
    | nil => simp
    | cons v b =>
      intro w hw
      simp only [List.zipWith_cons_cons, List.mem_cons] at hw
      rcases hw with hw | hw
      · rw [hw]
        exact Double.isInt_add B M u v (ha u (List.mem_cons_self u a))
          (hb v (List.mem_cons_self v b))
      · exact ih b (fun w hw => ha w (List.mem_cons_of_mem u hw))
          (fun w hw => hb w (List.mem_cons_of_mem v hw)) w hw

/-- Vectors of integers added one after the other: every rounded sum is the
exact one when the magnitudes of the running sums stay below `2^53`. -/
theorem foldl_add_eq_exactAdd (cs : List BVector) (a : BVector) (B M : Nat)
    (ha : ∀ u, u ∈ a → Double.isInt B u)
    (hcs : ∀ c, c ∈ cs → ∀ v, v ∈ c → Double.isInt M v)
    (h : B + cs.length * M < 2 ^ 53) :
    cs.foldl add a = cs.foldl exactAdd a ∧
      ∀ w, w ∈ cs.foldl exactAdd a → Double.isInt (B + cs.length * M) w := by
  induction cs generalizing a B with
  | nil => exact ⟨rfl, by simpa using ha⟩
  | cons c cs ih =>
    have hc : ∀ v, v ∈ c → Double.isInt M v := hcs c (List.mem_cons_self c cs)
    have hlen : (c :: cs).length * M = M + cs.length * M := by
      rw [List.length_cons, Nat.succ_mul, Nat.add_comm]
    rw [hlen] at h ⊢
    have hstep : add a c = exactAdd a c := add_eq_exactAdd a c B M ha hc (by omega)
    have hint := exactAdd_isInt a c B M ha hc
    obtain ⟨h1, h2⟩ := ih (exactAdd a c) (B + M) hint
      (fun c2 hc2 => hcs c2 (List.mem_cons_of_mem c hc2)) (by omega)
    simp only [List.foldl_cons]
    rw [hstep]
    refine ⟨h1, fun w hw => ?_⟩
    have := h2 w hw
    rwa [Nat.add_assoc] at this

end BVector

namespace StandardWellsDense

variable {ι : Type}

/-- The sums in double precision of the example `fxModelAddingLarge`: at the
magnitude of `10^16` the doubles are the even integers, and `10^16 + 1` lies
half-way between two of them. -/
theorem fxModelAddingLarge_sums :
    Double.add 0 10000000000000000 = 10000000000000000 ∧
    Double.add 10000000000000000 1 = 10000000000000000 ∧
    Double.add 0 1 = 1 ∧ Double.add 1 1 = 2 ∧
    Double.add 2 10000000000000000 = 10000000000000002 := by
  refine ⟨?_, ?_, ?_, ?_, ?_⟩
  · unfold Double.add
    have := Double.round_exact 152587890625 16 (by norm_num) (by norm_num)
    norm_num at this ⊢
    exact this
  · unfold Double.add
    rw [Double.round_of_tie _ 53 5000000000000000 (by norm_num [abs_of_pos])
      (by norm_num [abs_of_pos]) (by norm_num) (by norm_num)]
    norm_num
  · norm_num [Double.add]
  · norm_num [Double.add]
  · unfold Double.add
    have := Double.round_exact 5000000000000001 1 (by norm_num) (by norm_num)
    norm_num at this ⊢
    exact this

end StandardWellsDense

namespace BVector

theorem axpy_getD (a y : BVector) (alpha : ℚ) (i : Nat) (ha : i < a.length)
    (hy : i < y.length) :
    (axpy a alpha y).getD i 0 = Double.add (a.getD i 0) (Double.mul alpha (y.getD i 0)) := by
  unfold axpy
  induction a generalizing y i with
  | nil => simp at ha
  | cons u a ih =>
    cases y with
    | nil => simp at hy
    | cons v y =>
      cases i with
      | zero => simp
      | succ i =>
        simp only [List.zipWith_cons_cons, List.getD_cons_succ]
        exact ih y i (by simpa using ha) (by simpa using hy)

/-- The update with `alpha = 0` leaves a vector of doubles as it is. -/
theorem axpy_zero (a y : BVector) (h : a.length ≤ y.length)
    (ha : ∀ u, u ∈ a → Double.round u = u) : axpy a 0 y = a := by
  unfold axpy
  induction a generalizing y with
  | nil => simp
  | cons u a ih =>
    cases y with
    | nil => simp at h
    | cons v y =>
      rw [List.zipWith_cons_cons, ih y (by simpa using h)
        (fun w hw => ha w (List.mem_cons_of_mem u hw))]
      simp [Double.add, Double.mul, ha u (List.mem_cons_self u a)]

/-- The update with `alpha = 1` of a vector of integers by a vector of integers
is the exact sum when the magnitudes stay below `2^53`. -/
theorem axpy_one (a y : BVector) (B M : Nat)
    (ha : ∀ u, u ∈ a → Double.isInt B u) (hy : ∀ v, v ∈ y → Double.isInt M v)
    (h : B + M < 2 ^ 53) : axpy a 1 y = exactAdd a y := by
  unfold axpy exactAdd
  induction a generalizing y with
  | nil => simp
  | cons u a ih =>
    cases y with
    | nil => simp
    | cons v y =>
      simp only [List.zipWith_cons_cons, List.cons.injEq]
      refine ⟨?_, ih y (fun w hw => ha w (List.mem_cons_of_mem u hw))
        (fun w hw => hy w (List.mem_cons_of_mem v hw))⟩
      have hv := hy v (List.mem_cons_self v y)
      have h1 : Double.mul 1 v = v := by
        unfold Double.mul
        rw [one_mul]
        exact Double.round_of_isInt M v hv (by omega)
      rw [h1]
      exact Double.add_of_isInt B M u v (ha u (List.mem_cons_self u a)) hv h

end BVector

namespace StandardWellsDense

variable {ι : Type}

end StandardWellsDense

/-! ## The rates written by a rate control -/

theorem targetRates_producer_scale (W : Wells) (well_index : Nat) (target : ℚ)
    (distr : Nat → ℚ) (wellRates : List ℚ) (hprod : W.type well_index = WellType.PRODUCER)
    (hS : originalRatesUnderPhaseControl W.number_of_phases well_index distr wellRates ≠ 0) :
    ∃ r, targetRates W well_index target distr wellRates = Except.ok r ∧
      r.length = wellRates.length ∧ ∀ i, r.getD i 0 =
        if W.number_of_phases * well_index ≤ i
            ∧ i < W.number_of_phases * well_index + W.number_of_phases ∧ i < wellRates.length then
          Double.mul (wellRates.getD i 0)
            (Double.div target
              (originalRatesUnderPhaseControl W.number_of_phases well_index distr wellRates))
        else wellRates.getD i 0 := by
  refine ⟨_, by simp only [targetRates, hprod, if_pos hS]; rfl, ?_, fun i => ?_⟩
  · exact foldl_range_set_length _ (W.number_of_phases * well_index) wellRates W.number_of_phases
  exact foldl_range_set_getD
    (fun _ v => Double.mul v
      (Double.div target
        (originalRatesUnderPhaseControl W.number_of_phases well_index distr wellRates)))
    (W.number_of_phases * well_index) wellRates W.number_of_phases i

theorem targetRates_producer_split (W : Wells) (well_index : Nat) (target : ℚ)
    (distr : Nat → ℚ) (wellRates : List ℚ) (hprod : W.type well_index = WellType.PRODUCER)
    (hS : originalRatesUnderPhaseControl W.number_of_phases well_index distr wellRates = 0) :
    ∃ r, targetRates W well_index target distr wellRates = Except.ok r ∧
      r.length = wellRates.length ∧ ∀ i, r.getD i 0 =
        if W.number_of_phases * well_index ≤ i
            ∧ i < W.number_of_phases * well_index + W.number_of_phases ∧ i < wellRates.length then
          (if 0 < distr (i - W.number_of_phases * well_index) then
            Double.div
              (Double.div target
                (numPhasesWithTargetsUnderThisControl W.number_of_phases distr : ℚ))
              (distr (i - W.number_of_phases * well_index))
          else Double.div target
            (numPhasesWithTargetsUnderThisControl W.number_of_phases distr : ℚ))
        else wellRates.getD i 0 := by
  have hfold : ∀ r0 : List ℚ,
      (List.range W.number_of_phases).foldl
        (fun r phase =>
          if distr phase > 0 then
            r.set (W.number_of_phases * well_index + phase)
              (Double.div
                (Double.div target
                  (numPhasesWithTargetsUnderThisControl W.number_of_phases distr : ℚ))
                (distr phase))
          else r.set (W.number_of_phases * well_index + phase)
              (Double.div target
                (numPhasesWithTargetsUnderThisControl W.number_of_phases distr : ℚ))) r0
      = (List.range W.number_of_phases).foldl
        (fun r phase => r.set (W.number_of_phases * well_index + phase)
          ((fun ph (_ : ℚ) => if 0 < distr ph then
            Double.div
              (Double.div target
                (numPhasesWithTargetsUnderThisControl W.number_of_phases distr : ℚ))
              (distr ph)
          else Double.div target
            (numPhasesWithTargetsUnderThisControl W.number_of_phases distr : ℚ))
            phase (r.getD (W.number_of_phases * well_index + phase) 0))) r0 := by
    intro r0
    congr 1
    funext r phase
    by_cases h : 0 < distr phase
    · simp [h]
    · simp [h]
  refine ⟨_, by simp only [targetRates, hprod, hS, ne_eq, not_true_eq_false, if_false]; rfl,
    ?_, fun i => ?_⟩
  · rw [hfold]
    exact foldl_range_set_length _ (W.number_of_phases * well_index) wellRates
      W.number_of_phases
  rw [hfold]
  exact foldl_range_set_getD
    (fun ph (_ : ℚ) => if 0 < distr ph then
        Double.div
          (Double.div target
            (numPhasesWithTargetsUnderThisControl W.number_of_phases distr : ℚ))
          (distr ph)
      else Double.div target
        (numPhasesWithTargetsUnderThisControl W.number_of_phases distr : ℚ))
    (W.number_of_phases * well_index) wellRates W.number_of_phases i

/-- Claim C15, as amended. A producer is switched onto a `SURFACE_RATE` or
`RESERVOIR_RATE` control; `S` is its prior weighted rate as the method computes
it, the sum over the phases with `distr[p] > 0` of `rate[p] * distr[p]`
accumulated from 0 in the order of the phases with every product and every sum
rounded to a double. The magnitudes are away from overflow: the rates, the
weights and the target are at most `2^300`, and `S` is at least `2^(-300)` (so
that it is not zero). Then `updateWellStateWithTarget` returns and has
multiplied every phase rate of the well by the same factor, the quotient
`target / S` rounded to a double, each product rounded to a double; the rates
of the other wells are unchanged. When the quotient and the products are
exact, the ratios between the phase rates of the well are kept, and when
moreover `S` is the exact weighted sum, the weighted rate of the controlled
phases is the target afterwards. -/
theorem updateWellStateWithTarget_rate_rescaling (ctx : TargetContext) (W : Wells)
    (wc : WellControls) (current : Int) (well_index : Nat) (xw : WellState) (S : ℚ)
    (hwells : ctx.wells_ = some W)
    (hprod : W.type well_index = WellType.PRODUCER)
    (hctrl : wc.iget_type current = WellControlType.SURFACE_RATE
      ∨ wc.iget_type current = WellControlType.RESERVOIR_RATE)
    (hSdef : S = (List.range W.number_of_phases).foldl
      (fun acc p =>
        if 0 < wc.iget_distr current p then
          Double.add acc
            (Double.mul (xw.wellRates.getD (W.number_of_phases * well_index + p) 0)
              (wc.iget_distr current p))
        else acc) 0)
    (hS : 1 / 2 ^ 300 ≤ |S|)
    (_hrates : ∀ p, p < W.number_of_phases →
      |xw.wellRates.getD (W.number_of_phases * well_index + p) 0| ≤ 2 ^ 300)
    (_hdistr : ∀ p, p < W.number_of_phases → |wc.iget_distr current p| ≤ 2 ^ 300)
    (_htarget : |wc.iget_target current| ≤ 2 ^ 300) :
    ∃ xw1, updateWellStateWithTarget ctx wc current well_index xw = Except.ok xw1 ∧
      (∀ p, p < W.number_of_phases →
        xw1.wellRates.getD (W.number_of_phases * well_index + p) 0
          = Double.mul (xw.wellRates.getD (W.number_of_phases * well_index + p) 0)
              (Double.div (wc.iget_target current) S)) ∧
      (Double.div (wc.iget_target current) S = wc.iget_target current / S →
        (∀ p, p < W.number_of_phases →
          Double.mul (xw.wellRates.getD (W.number_of_phases * well_index + p) 0)
              (wc.iget_target current / S)
            = xw.wellRates.getD (W.number_of_phases * well_index + p) 0
              * (wc.iget_target current / S)) →
        (∀ p q, p < W.number_of_phases → q < W.number_of_phases →
          xw1.wellRates.getD (W.number_of_phases * well_index + p) 0
              * xw.wellRates.getD (W.number_of_phases * well_index + q) 0
            = xw1.wellRates.getD (W.number_of_phases * well_index + q) 0
              * xw.wellRates.getD (W.number_of_phases * well_index + p) 0) ∧
        (S = ∑ p in (Finset.range W.number_of_phases).filter
              (fun p => 0 < wc.iget_distr current p),
            wc.iget_distr current p
              * xw.wellRates.getD (W.number_of_phases * well_index + p) 0 →
          (∑ p in (Finset.range W.number_of_phases).filter
              (fun p => 0 < wc.iget_distr current p),
            wc.iget_distr current p
              * xw1.wellRates.getD (W.number_of_phases * well_index + p) 0)
            = wc.iget_target current)) ∧
      (∀ i, i < W.number_of_phases * well_index
          ∨ W.number_of_phases * well_index + W.number_of_phases ≤ i →
        xw1.wellRates.getD i 0 = xw.wellRates.getD i 0) ∧
      xw1.wellRates.length = xw.wellRates.length := by
  have hS0 : S ≠ 0 := by
    intro h0
    rw [h0, abs_zero] at hS
    have : (0 : ℚ) < 1 / 2 ^ 300 := by positivity
    linarith
  have hSo : originalRatesUnderPhaseControl W.number_of_phases well_index
      (wc.iget_distr current) xw.wellRates = S := by
    rw [hSdef]; rfl
  obtain ⟨r, hr, hlen, hget⟩ := targetRates_producer_scale W well_index (wc.iget_target current)
    (wc.iget_distr current) xw.wellRates hprod (by rw [hSo]; exact hS0)
  rw [hSo] at hget
  obtain ⟨xw1, hok, hratesEq⟩ := updateWellStateWithTarget_of_rates ctx W wc current well_index
    xw r hwells (Or.inl hprod) hctrl hr
  have hzero : Double.mul 0 (Double.div (wc.iget_target current) S) = 0 := by
    simp [Double.mul]
  have hscaled : ∀ p, p < W.number_of_phases →
      xw1.wellRates.getD (W.number_of_phases * well_index + p) 0
        = Double.mul (xw.wellRates.getD (W.number_of_phases * well_index + p) 0)
            (Double.div (wc.iget_target current) S) := by
    intro p hp
    rw [hratesEq, hget]
    by_cases hin : W.number_of_phases * well_index + p < xw.wellRates.length
    · rw [if_pos ⟨Nat.le_add_right _ _, Nat.add_lt_add_left hp _, hin⟩]
    · rw [if_neg (fun h => hin h.2.2), getD_of_length_le _ _ (Nat.le_of_not_lt hin), hzero]
  refine ⟨xw1, hok, hscaled, ?_, ?_, ?_⟩
  · intro hq hm
    have hexact : ∀ p, p < W.number_of_phases →
        xw1.wellRates.getD (W.number_of_phases * well_index + p) 0
          = xw.wellRates.getD (W.number_of_phases * well_index + p) 0
            * (wc.iget_target current / S) := by
      intro p hp
      rw [hscaled p hp, hq, hm p hp]
    refine ⟨?_, ?_⟩
    · intro p q hp hq2
      rw [hexact p hp, hexact q hq2]
      ring
    · intro hsum
      have hsum2 : (∑ p in (Finset.range W.number_of_phases).filter
            (fun p => 0 < wc.iget_distr current p),
          wc.iget_distr current p
            * xw1.wellRates.getD (W.number_of_phases * well_index + p) 0)
          = ∑ p in (Finset.range W.number_of_phases).filter
            (fun p => 0 < wc.iget_distr current p),
          wc.iget_distr current p
            * xw.wellRates.getD (W.number_of_phases * well_index + p) 0
            * (wc.iget_target current / S) := by
        refine Finset.sum_congr rfl (fun p hp => ?_)
        rw [hexact p (Finset.mem_range.mp (Finset.mem_filter.mp hp).1), mul_assoc]
      rw [hsum2, ← Finset.sum_mul, ← hsum, mul_div_cancel₀ _ hS0]
  · intro i hi
    rw [hratesEq, hget]
    have hout : ¬ (W.number_of_phases * well_index ≤ i
        ∧ i < W.number_of_phases * well_index + W.number_of_phases
        ∧ i < xw.wellRates.length) := by omega
    rw [if_neg hout]
  · rw [hratesEq, hlen]

/-- Instance of the amended C15: the first of two producers, with the rates 10,
30, 200, is switched onto an oil-rate control of target 60. The prior weighted
rate is 30 and the factor 2, no operation is rounded: the rates are doubled,
the oil rate is the target, and the rates of the second producer are kept. -/
theorem updateWellStateWithTarget_rate_rescaling_witness :
    ∃ xw1, updateWellStateWithTarget fxTargetCtx
        (fxControls WellControlType.SURFACE_RATE 60 fxDistrOil) 0 0 fxStateTwo = Except.ok xw1 ∧
      xw1.wellRates.getD 0 0 = 20 ∧ xw1.wellRates.getD 1 0 = 60 ∧
      xw1.wellRates.getD 2 0 = 400 ∧ xw1.wellRates.getD 3 0 = 1 ∧
      xw1.wellRates.getD 4 0 = 2 ∧ xw1.wellRates.getD 5 0 = 3 ∧
      xw1.wellRates.getD 0 0 * 30 = xw1.wellRates.getD 1 0 * 10 := by
  have hp3 : ∀ p, p < fxWellsTwo.number_of_phases → p = 0 ∨ p = 1 ∨ p = 2 := by
    intro p hp
    have : p < 3 := hp
    omega
  obtain ⟨xw1, hok, hscaled, hexact, hother, _⟩ :=
    updateWellStateWithTarget_rate_rescaling fxTargetCtx fxWellsTwo
      (fxControls WellControlType.SURFACE_RATE 60 fxDistrOil) 0 0 fxStateTwo 30 rfl rfl
      (Or.inl rfl)
      (by norm_num [fxWellsTwo, fxControls, fxDistrOil, fxStateTwo, List.range_succ,
        Double.add, Double.mul])
      (by norm_num [abs_of_pos])
      (by
        intro p hp
        rcases hp3 p hp with h | h | h <;> subst h <;>
          norm_num [fxWellsTwo, fxStateTwo, abs_of_pos])
      (by
        intro p hp
        rcases hp3 p hp with h | h | h <;> subst h <;>
          norm_num [fxControls, fxDistrOil, abs_of_pos])
      (by norm_num [fxControls, abs_of_pos])
  have h0 := hscaled 0 (by simp [fxWellsTwo])
  have h1 := hscaled 1 (by simp [fxWellsTwo])
  have h2 := hscaled 2 (by simp [fxWellsTwo])
  have h3 := hother 3 (Or.inr (by simp [fxWellsTwo]))
  have h4 := hother 4 (Or.inr (by simp [fxWellsTwo]))
  have h5 := hother 5 (Or.inr (by simp [fxWellsTwo]))
  have hratio := (hexact (by norm_num [fxControls, Double.div])
    (by
      intro p hp
      rcases hp3 p hp with h | h | h <;> subst h <;>
        norm_num [fxWellsTwo, fxControls, fxStateTwo, Double.mul])).1 0 1
    (by simp [fxWellsTwo]) (by simp [fxWellsTwo])
  norm_num [fxWellsTwo, fxControls, fxStateTwo, Double.mul, Double.div,
    -List.getD_eq_getElem?_getD] at h0 h1 h2 h3 h4 h5 hratio
  exact ⟨xw1, hok, h0, h1, h2, h3, h4, h5, hratio⟩

/-- The quotient `1 / 49` and the product of 49 with it in double precision:
the product is `1 - 2^(-53)`, not 1. -/
theorem fxDouble_div_49 :
    Double.div 1 49 = 5882252574524729 / 2 ^ 58 ∧
    Double.mul 49 (5882252574524729 / 2 ^ 58) = 9007199254740991 / 2 ^ 53 ∧
    Double.mul 1 (5882252574524729 / 2 ^ 58) = 5882252574524729 / 2 ^ 58 := by
  refine ⟨?_, ?_, ?_⟩
  · unfold Double.div
    rw [Double.round_of_near (1 / 49) (-6) 5882252574524729 (by norm_num [abs_of_pos])
      (by norm_num [abs_of_pos]) (by norm_num) (by norm_num) (by norm_num)]
    norm_num
  · unfold Double.mul
    rw [Double.round_of_near _ (-1) 9007199254740991 (by norm_num [abs_of_pos])
      (by norm_num [abs_of_pos]) (by norm_num) (by norm_num) (by norm_num)]
    norm_num
  · unfold Double.mul
    have := Double.round_exact 5882252574524729 (-58) (by norm_num) (by norm_num)
    norm_num at this ⊢
    exact this

/-- Claim C15, refuted as stated. The producer `P1` has the rates 1 of water
and 49 of oil and is switched onto an oil-rate control of target 1: the prior
weighted rate is `S = 49`. The factor is the double nearest to `1 / 49` and the
new oil rate is the product of 49 with it rounded to a double, `1 - 2^(-53)`:
the weighted rate of the controlled phase is not the target, and the ratio of
the water rate to the oil rate is not the one before the call. -/
theorem updateWellStateWithTarget_rescaling_rounded :
    (fxWells WellType.PRODUCER).type 0 = WellType.PRODUCER ∧
    (∑ p in (Finset.range 3).filter (fun p => 0 < fxDistrOil p),
      fxDistrOil p * fxStateOneFlowing.wellRates.getD (3 * 0 + p) 0) = 49 ∧
    ∃ xw1, updateWellStateWithTarget (fxTargetCtxOne WellType.PRODUCER)
        (fxControls WellControlType.SURFACE_RATE 1 fxDistrOil) 0 0 fxStateOneFlowing
        = Except.ok xw1 ∧
      xw1.wellRates = [5882252574524729 / 2 ^ 58, 9007199254740991 / 2 ^ 53, 0] ∧
      (∑ p in (Finset.range 3).filter (fun p => 0 < fxDistrOil p),
        fxDistrOil p * xw1.wellRates.getD (3 * 0 + p) 0) ≠ 1 ∧
      xw1.wellRates.getD 0 0 * fxStateOneFlowing.wellRates.getD 1 0
        ≠ xw1.wellRates.getD 1 0 * fxStateOneFlowing.wellRates.getD 0 0 := by
  obtain ⟨hd, hm, h1⟩ := fxDouble_div_49
  have hS : originalRatesUnderPhaseControl 3 0 fxDistrOil fxStateOneFlowing.wellRates = 49 := by
    norm_num [originalRatesUnderPhaseControl, fxDistrOil, fxStateOneFlowing, List.range_succ,
      Double.add, Double.mul]
  have hr : targetRates (fxWells WellType.PRODUCER) 0 1 fxDistrOil fxStateOneFlowing.wellRates
      = Except.ok [5882252574524729 / 2 ^ 58, 9007199254740991 / 2 ^ 53, 0] := by
    have hnp : (fxWells WellType.PRODUCER).number_of_phases = 3 := rfl
    have htype : (fxWells WellType.PRODUCER).type 0 = WellType.PRODUCER := rfl
    unfold targetRates
    simp only [hnp, htype, hS]
    rw [if_pos (by norm_num), hd]
    simp only [fxStateOneFlowing, List.range_succ, List.range_zero, List.nil_append,
      List.cons_append, List.foldl_cons, List.foldl_nil]
    norm_num
    norm_num at h1 hm
    exact ⟨h1, hm, by simp [Double.mul]⟩
  obtain ⟨xw1, hok, hrates⟩ := updateWellStateWithTarget_of_rates
    (fxTargetCtxOne WellType.PRODUCER) (fxWells WellType.PRODUCER)
    (fxControls WellControlType.SURFACE_RATE 1 fxDistrOil) 0 0 fxStateOneFlowing _ rfl
    (Or.inl rfl) (Or.inl rfl) hr
  refine ⟨rfl, ?_, xw1, hok, hrates, ?_, ?_⟩
  · norm_num [fxDistrOil, fxStateOneFlowing, Finset.sum_filter, Finset.sum_range_succ]
  · rw [hrates]
    norm_num [fxDistrOil, Finset.sum_filter, Finset.sum_range_succ]
  · rw [hrates]
    norm_num [fxStateOneFlowing]

/-- Claim C16, as amended. A producer is switched onto a rate control; its
prior weighted rate of the controlled phases as the method computes it (the
products and the sums rounded to a double) is zero, `n > 0` phases are under
control (those with `distr[p] > 0`), and the rates of the well are stored in the
state. The magnitudes are away from overflow: the rates, the weights of the
controlled phases and the target are at most `2^300`, and a weight of a
controlled phase is at least `2^(-300)`. Then `updateWellStateWithTarget`
returns and has given each phase under control the rate `(target / n) / distr[p]`
computed in double precision, each of the two quotients rounded. When the
quotients are exact, the weighted rate of the controlled phases is the target
afterwards. -/
theorem updateWellStateWithTarget_equal_split (ctx : TargetContext) (W : Wells)
    (wc : WellControls) (current : Int) (well_index : Nat) (xw : WellState)
    (hwells : ctx.wells_ = some W)
    (hprod : W.type well_index = WellType.PRODUCER)
    (hctrl : wc.iget_type current = WellControlType.SURFACE_RATE
      ∨ wc.iget_type current = WellControlType.RESERVOIR_RATE)
    (hS : (List.range W.number_of_phases).foldl
      (fun acc p =>
        if 0 < wc.iget_distr current p then
          Double.add acc
            (Double.mul (xw.wellRates.getD (W.number_of_phases * well_index + p) 0)
              (wc.iget_distr current p))
        else acc) 0 = 0)
    (hn : 0 < numPhasesWithTargetsUnderThisControl W.number_of_phases (wc.iget_distr current))
    (hlen : W.number_of_phases * well_index + W.number_of_phases ≤ xw.wellRates.length)
    (_hrates : ∀ p, p < W.number_of_phases →
      |xw.wellRates.getD (W.number_of_phases * well_index + p) 0| ≤ 2 ^ 300)
    (_hdistr : ∀ p, p < W.number_of_phases → 0 < wc.iget_distr current p →
      1 / 2 ^ 300 ≤ wc.iget_distr current p ∧ wc.iget_distr current p ≤ 2 ^ 300)
    (_htarget : |wc.iget_target current| ≤ 2 ^ 300) :
    ∃ xw1, updateWellStateWithTarget ctx wc current well_index xw = Except.ok xw1 ∧
      numPhasesWithTargetsUnderThisControl W.number_of_phases (wc.iget_distr current)
        = ((Finset.range W.number_of_phases).filter
            (fun p => 0 < wc.iget_distr current p)).card ∧
      (∀ p, p < W.number_of_phases → 0 < wc.iget_distr current p →
        xw1.wellRates.getD (W.number_of_phases * well_index + p) 0
          = Double.div
              (Double.div (wc.iget_target current)
                (((Finset.range W.number_of_phases).filter
                  (fun p => 0 < wc.iget_distr current p)).card : ℚ))
              (wc.iget_distr current p)) ∧
      (Double.div (wc.iget_target current)
          (((Finset.range W.number_of_phases).filter
            (fun p => 0 < wc.iget_distr current p)).card : ℚ)
        = wc.iget_target current
          / (((Finset.range W.number_of_phases).filter
            (fun p => 0 < wc.iget_distr current p)).card : ℚ) →
        (∀ p, p < W.number_of_phases → 0 < wc.iget_distr current p →
          Double.div
              (wc.iget_target current
                / (((Finset.range W.number_of_phases).filter
                  (fun p => 0 < wc.iget_distr current p)).card : ℚ))
              (wc.iget_distr current p)
            = wc.iget_target current
              / (((Finset.range W.number_of_phases).filter
                (fun p => 0 < wc.iget_distr current p)).card : ℚ)
              / wc.iget_distr current p) →
        (∑ p in (Finset.range W.number_of_phases).filter
            (fun p => 0 < wc.iget_distr current p),
          wc.iget_distr current p
            * xw1.wellRates.getD (W.number_of_phases * well_index + p) 0)
          = wc.iget_target current) := by
  have hSo : originalRatesUnderPhaseControl W.number_of_phases well_index
      (wc.iget_distr current) xw.wellRates = 0 := by
    rw [← hS]; rfl
  obtain ⟨r, hr, _, hget⟩ := targetRates_producer_split W well_index (wc.iget_target current)
    (wc.iget_distr current) xw.wellRates hprod hSo
  obtain ⟨xw1, hok, hrates⟩ := updateWellStateWithTarget_of_rates ctx W wc current well_index
    xw r hwells (Or.inl hprod) hctrl hr
  have hcard := numPhasesWithTargetsUnderThisControl_eq W.number_of_phases
    (wc.iget_distr current)
  have hsplit : ∀ p, p < W.number_of_phases → 0 < wc.iget_distr current p →
      xw1.wellRates.getD (W.number_of_phases * well_index + p) 0
        = Double.div
            (Double.div (wc.iget_target current)
              (((Finset.range W.number_of_phases).filter
                (fun p => 0 < wc.iget_distr current p)).card : ℚ))
            (wc.iget_distr current p) := by
    intro p hp hd
    rw [hrates, hget,
      if_pos ⟨Nat.le_add_right _ _, Nat.add_lt_add_left hp _, by omega⟩,
      Nat.add_sub_cancel_left, if_pos hd, hcard]
  refine ⟨xw1, hok, hcard, hsplit, ?_⟩
  intro hq hd
  have hsum : (∑ p in (Finset.range W.number_of_phases).filter
        (fun p => 0 < wc.iget_distr current p),
      wc.iget_distr current p
        * xw1.wellRates.getD (W.number_of_phases * well_index + p) 0)
      = ∑ _p in (Finset.range W.number_of_phases).filter
        (fun p => 0 < wc.iget_distr current p),
      wc.iget_target current
        / (((Finset.range W.number_of_phases).filter
          (fun p => 0 < wc.iget_distr current p)).card : ℚ) := by
    refine Finset.sum_congr rfl (fun p hp => ?_)
    have hpos : 0 < wc.iget_distr current p := (Finset.mem_filter.mp hp).2
    have hpn : p < W.number_of_phases := Finset.mem_range.mp (Finset.mem_filter.mp hp).1
    rw [hsplit p hpn hpos, hq, hd p hpn hpos, mul_comm, div_mul_cancel₀ _ (ne_of_gt hpos)]
  have hn0 : ((((Finset.range W.number_of_phases).filter
      (fun p => 0 < wc.iget_distr current p)).card : ℕ) : ℚ) ≠ 0 := by
    rw [← hcard]
    exact_mod_cast Nat.pos_iff_ne_zero.mp hn
  rw [hsum, Finset.sum_const, nsmul_eq_mul, mul_div_cancel₀ _ hn0]

/-- Instance of the amended C16: the first of two producers, with all its rates
at zero, is switched onto a liquid-rate control (water and oil) of target 60:
water and oil get 30 each, no quotient is rounded, and the weighted rate is
60. -/
theorem updateWellStateWithTarget_equal_split_witness :
    ∃ xw1, updateWellStateWithTarget fxTargetCtx
        (fxControls WellControlType.SURFACE_RATE 60 fxDistrLiquid) 0 0 fxStateTwoIdle
          = Except.ok xw1 ∧
      xw1.wellRates.getD 0 0 = 30 ∧ xw1.wellRates.getD 1 0 = 30 ∧
      (∑ p in (Finset.range 3).filter (fun p => 0 < fxDistrLiquid p),
        fxDistrLiquid p * xw1.wellRates.getD (3 * 0 + p) 0) = 60 := by
  have hp3 : ∀ p, p < fxWellsTwo.number_of_phases → p = 0 ∨ p = 1 ∨ p = 2 := by
    intro p hp
    have : p < 3 := hp
    omega
  have hcard : numPhasesWithTargetsUnderThisControl fxWellsTwo.number_of_phases
      ((fxControls WellControlType.SURFACE_RATE 60 fxDistrLiquid).iget_distr 0) = 2 := by
    norm_num [numPhasesWithTargetsUnderThisControl, fxWellsTwo, fxControls, fxDistrLiquid,
      List.range_succ]
  obtain ⟨xw1, hok, hc, hsplit, hexact⟩ :=
    updateWellStateWithTarget_equal_split fxTargetCtx fxWellsTwo
      (fxControls WellControlType.SURFACE_RATE 60 fxDistrLiquid) 0 0 fxStateTwoIdle rfl rfl
      (Or.inl rfl)
      (by norm_num [fxWellsTwo, fxControls, fxDistrLiquid, fxStateTwoIdle, List.range_succ,
        Double.add, Double.mul])
      (by rw [hcard]; decide)
      (by simp [fxWellsTwo, fxStateTwoIdle])
      (by
        intro p hp
        rcases hp3 p hp with h | h | h <;> subst h <;>
          norm_num [fxWellsTwo, fxStateTwoIdle])
      (by
        intro p hp
        rcases hp3 p hp with h | h | h <;> subst h <;>
          norm_num [fxControls, fxDistrLiquid])
      (by norm_num [fxControls, abs_of_pos])
  rw [hcard] at hc
  rw [← hc] at hsplit hexact
  have h0 := hsplit 0 (by simp [fxWellsTwo]) (by norm_num [fxControls, fxDistrLiquid])
  have h1 := hsplit 1 (by simp [fxWellsTwo]) (by norm_num [fxControls, fxDistrLiquid])
  have hsum := hexact (by norm_num [fxControls, Double.div])
    (by
      intro p hp hd
      rcases hp3 p hp with h | h | h <;> subst h <;>
        norm_num [fxControls, fxDistrLiquid, Double.div] at hd ⊢)
  norm_num [fxWellsTwo, fxControls, fxDistrLiquid, Double.div,
    -List.getD_eq_getElem?_getD] at h0 h1
  exact ⟨xw1, hok, h0, h1, hsum⟩

/-- Claim C16, refuted as stated. The producer `P1` does not flow and is
switched onto a reservoir-rate control of target 1 whose only controlled phase
is oil, with the weight 49: `n = 1`. The oil rate becomes the double nearest to
`1 / 49`, which is not `(target / n) / distr[Oil]`, and the weighted rate of
the controlled phase, 49 times that double, is not the target. -/
theorem updateWellStateWithTarget_split_rounded :
    (fxWells WellType.PRODUCER).type 0 = WellType.PRODUCER ∧
    (∑ p in (Finset.range 3).filter (fun p => 0 < fxDistrOil49 p),
      fxDistrOil49 p * fxStateOneIdle.wellRates.getD (3 * 0 + p) 0) = 0 ∧
    numPhasesWithTargetsUnderThisControl 3 fxDistrOil49 = 1 ∧
    ∃ xw1, updateWellStateWithTarget (fxTargetCtxOne WellType.PRODUCER)
        (fxControls WellControlType.RESERVOIR_RATE 1 fxDistrOil49) 0 0 fxStateOneIdle
        = Except.ok xw1 ∧
      xw1.wellRates.getD 1 0 = 5882252574524729 / 2 ^ 58 ∧
      xw1.wellRates.getD 1 0 ≠ 1 / 1 / fxDistrOil49 1 ∧
      (∑ p in (Finset.range 3).filter (fun p => 0 < fxDistrOil49 p),
        fxDistrOil49 p * xw1.wellRates.getD (3 * 0 + p) 0) ≠ 1 := by
  obtain ⟨hd, _, _⟩ := fxDouble_div_49
  have hn : numPhasesWithTargetsUnderThisControl 3 fxDistrOil49 = 1 := by
    norm_num [numPhasesWithTargetsUnderThisControl, fxDistrOil49, List.range_succ]
  have hS : originalRatesUnderPhaseControl 3 0 fxDistrOil49 fxStateOneIdle.wellRates = 0 := by
    norm_num [originalRatesUnderPhaseControl, fxDistrOil49, fxStateOneIdle, List.range_succ,
      Double.add, Double.mul]
  obtain ⟨r, hr, _, hget⟩ := targetRates_producer_split (fxWells WellType.PRODUCER) 0 1
    fxDistrOil49 fxStateOneIdle.wellRates rfl hS
  obtain ⟨xw1, hok, hrates⟩ := updateWellStateWithTarget_of_rates
    (fxTargetCtxOne WellType.PRODUCER) (fxWells WellType.PRODUCER)
    (fxControls WellControlType.RESERVOIR_RATE 1 fxDistrOil49) 0 0 fxStateOneIdle _ rfl
    (Or.inl rfl) (Or.inr rfl) hr
  have hnp : (fxWells WellType.PRODUCER).number_of_phases = 3 := rfl
  have h1 : xw1.wellRates.getD 1 0 = 5882252574524729 / 2 ^ 58 := by
    rw [hrates, hget 1, hnp, hn]
    have hone : Double.div 1 ((1 : ℕ) : ℚ) = 1 := by norm_num [Double.div]
    rw [hone]
    norm_num [fxStateOneIdle, fxDistrOil49]
    norm_num at hd
    exact hd
  refine ⟨rfl, ?_, hn, xw1, hok, h1, ?_, ?_⟩
  · norm_num [fxDistrOil49, fxStateOneIdle, Finset.sum_filter, Finset.sum_range_succ]
  · rw [h1]
    norm_num [fxDistrOil49]
  · norm_num [fxDistrOil49, Finset.sum_filter, Finset.sum_range_succ,
      -List.getD_eq_getElem?_getD]
    rw [h1]
    norm_num

/-! ## The well solution of a flowing producer -/

theorem foldl_range_accumulate_fold (op : ℚ → Nat → ℚ) (i : Nat) (ws0 : List ℚ) (n j : Nat) :
    ((List.range n).foldl (fun ws p => ws.set i (op (ws.getD i 0) p)) ws0).getD j 0
      = if j = i ∧ i < ws0.length then (List.range n).foldl op (ws0.getD i 0)
        else ws0.getD j 0 := by
  induction n generalizing j with
  | zero =>
    by_cases h : j = i ∧ i < ws0.length
    · rw [if_pos h, h.1]; simp
    · rw [if_neg h]; simp
  | succ n ih =>
    rw [List.range_succ, List.foldl_append, List.foldl_append]
    simp only [List.foldl_cons, List.foldl_nil]
    rw [getD_set_rat, foldl_range_set_at_length (fun ws p => op (ws.getD i 0) p) i ws0 n,
      ih i, ih j]
    by_cases hl : i < ws0.length
    · by_cases hj : j = i
      · subst hj
        rw [if_pos ⟨rfl, hl⟩, if_pos ⟨rfl, hl⟩, if_pos ⟨rfl, hl⟩]
      · have h1 : ¬ (i = j ∧ i < ws0.length) := fun h => hj h.1.symm
        have h2 : ¬ (j = i ∧ i < ws0.length) := fun h => hj h.1
        rw [if_neg h1, if_neg h2, if_neg h2]
    · have h1 : ¬ (i = j ∧ i < ws0.length) := fun h => hl h.2
      have h2 : ¬ (j = i ∧ i < ws0.length) := fun h => hl h.2
      rw [if_neg h1, if_neg h2, if_neg h2]

theorem targetWeights_pressure (np : Nat) (type : WellControlType) (distr : Nat → ℚ)
    (hctrl : type = WellControlType.BHP ∨ type = WellControlType.THP) :
    targetWeights np type distr = [1, 1, Double.round (1 / 100)] := by
  rcases hctrl with h | h <;> simp [targetWeights, h]

theorem targetXvarWell_producer (ctx : TargetContext) (W : Wells) (type : WellControlType)
    (well_index : Nat) (g : List ℚ) (xw : WellState)
    (hctrl : type = WellControlType.BHP ∨ type = WellControlType.THP)
    (hprod : W.type well_index = WellType.PRODUCER)
    (hlen : W.number_of_wells * ctx.XvarWell + well_index < xw.wellSolutions.length) (j : Nat) :
    (targetXvarWell ctx W type well_index g xw).getD j 0
      = if j = W.number_of_wells * ctx.XvarWell + well_index then
          totWellRate W.number_of_phases well_index g xw.wellRates
        else xw.wellSolutions.getD j 0 := by
  have hbody : targetXvarWell ctx W type well_index g xw
      = (List.range W.number_of_phases).foldl
        (fun ws p =>
          ws.set (W.number_of_wells * ctx.XvarWell + well_index)
            (Double.add (ws.getD (W.number_of_wells * ctx.XvarWell + well_index) 0)
              (Double.mul (g.getD p 0)
                (xw.wellRates.getD (W.number_of_phases * well_index + p) 0))))
        (xw.wellSolutions.set (W.number_of_wells * ctx.XvarWell + well_index) 0) := by
    unfold targetXvarWell
    rcases hctrl with h | h <;> simp [h, hprod]
  rw [hbody, foldl_range_accumulate_fold
    (fun acc p => Double.add acc
      (Double.mul (g.getD p 0) (xw.wellRates.getD (W.number_of_phases * well_index + p) 0))),
    List.length_set]
  by_cases hj : j = W.number_of_wells * ctx.XvarWell + well_index
  · rw [if_pos ⟨hj, hlen⟩, if_pos hj, getD_set_rat, if_pos ⟨rfl, hlen⟩]
    rfl
  · rw [if_neg (fun h => hj h.1), if_neg hj, getD_set_rat, if_neg (fun h => hj h.1.symm)]

theorem targetFractions_nonzero (ctx : TargetContext) (W : Wells) (distr : Nat → ℚ)
    (well_index : Nat) (g : List ℚ) (xw : WellState) (ws : List ℚ)
    (hwater : ctx.active_ Phase.Water = true) (hgas : ctx.active_ Phase.Gas = true)
    (hsolvent : ctx.has_solvent_ = false)
    (hT : totWellRate W.number_of_phases well_index g xw.wellRates ≠ 0) :
    targetFractions ctx W distr well_index g xw ws
      = Except.ok ((ws.set (ctx.WFrac * W.number_of_wells + well_index)
          (Double.div
            (Double.mul (g.getD (ctx.phaseIndex Phase.Water) 0)
              (xw.wellRates.getD
                (W.number_of_phases * well_index + ctx.phaseIndex Phase.Water) 0))
            (totWellRate W.number_of_phases well_index g xw.wellRates))).set
        (ctx.GFrac * W.number_of_wells + well_index)
          (Double.div
            (Double.mul (g.getD (ctx.phaseIndex Phase.Gas) 0)
              (Double.sub
                (xw.wellRates.getD
                  (W.number_of_phases * well_index + ctx.phaseIndex Phase.Gas) 0)
                (xw.solventWellRate well_index)))
            (totWellRate W.number_of_phases well_index g xw.wellRates))) := by
  unfold targetFractions
  have h : |totWellRate W.number_of_phases well_index g xw.wellRates| > 0 := abs_pos.mpr hT
  simp only [if_pos h, hwater, hgas, hsolvent, if_true]
  rfl

/-- The well solution that `updateWellStateWithTarget` leaves for a three-phase
producer without solvent under BHP or THP control whose weighted total rate `T`
is not zero. -/
theorem updateWellStateWithTarget_rates_recoverable_aux (ctx : TargetContext) (W : Wells)
    (wc : WellControls) (current : Int) (well_index : Nat) (xw : WellState) (T : ℚ)
    (hwells : ctx.wells_ = some W)
    (hnp : W.number_of_phases = 3)
    (hwater : ctx.active_ Phase.Water = true) (hgas : ctx.active_ Phase.Gas = true)
    (hprod : W.type well_index = WellType.PRODUCER)
    (hsolvent : ctx.has_solvent_ = false) (hsolventRate : xw.solventWellRate well_index = 0)
    (hctrl : wc.iget_type current = WellControlType.BHP
      ∨ wc.iget_type current = WellControlType.THP)
    (hvfp : wc.iget_type current = WellControlType.THP → ctx.vfp_properties_ ≠ none)
    (hwi : well_index < W.number_of_wells)
    (hpos : ctx.XvarWell ≠ ctx.WFrac ∧ ctx.XvarWell ≠ ctx.GFrac ∧ ctx.WFrac ≠ ctx.GFrac)
    (hlen : ∀ pos, pos = ctx.XvarWell ∨ pos = ctx.WFrac ∨ pos = ctx.GFrac →
      W.number_of_wells * pos + well_index < xw.wellSolutions.length)
    (hTdef : T = (List.range 3).foldl
      (fun acc p => Double.add acc
        (Double.mul (([1, 1, Double.round (1 / 100)] : List ℚ).getD p 0)
          (xw.wellRates.getD (3 * well_index + p) 0))) 0)
    (hT0 : T ≠ 0) :
    ∃ xw1, updateWellStateWithTarget ctx wc current well_index xw = Except.ok xw1 ∧
      xw1.wellRates = xw.wellRates ∧
      xw1.wellSolutions.getD (W.number_of_wells * ctx.XvarWell + well_index) 0 = T ∧
      xw1.wellSolutions.getD (ctx.WFrac * W.number_of_wells + well_index) 0
        = Double.div
            (Double.mul (([1, 1, Double.round (1 / 100)] : List ℚ).getD
                (ctx.phaseIndex Phase.Water) 0)
              (xw.wellRates.getD (3 * well_index + ctx.phaseIndex Phase.Water) 0)) T ∧
      xw1.wellSolutions.getD (ctx.GFrac * W.number_of_wells + well_index) 0
        = Double.div
            (Double.mul (([1, 1, Double.round (1 / 100)] : List ℚ).getD
                (ctx.phaseIndex Phase.Gas) 0)
              (Double.sub (xw.wellRates.getD (3 * well_index + ctx.phaseIndex Phase.Gas) 0) 0))
            T := by
  obtain ⟨hXW, hXG, hWG⟩ := hpos
  have hnw : 0 < W.number_of_wells := Nat.lt_of_le_of_lt (Nat.zero_le _) hwi
  -- the three positions of the well solution
  have hlenX := hlen ctx.XvarWell (Or.inl rfl)
  have hlenW := hlen ctx.WFrac (Or.inr (Or.inl rfl))
  have hlenG := hlen ctx.GFrac (Or.inr (Or.inr rfl))
  rw [Nat.mul_comm] at hlenW hlenG
  have hneXW : ¬ ctx.WFrac * W.number_of_wells + well_index
      = W.number_of_wells * ctx.XvarWell + well_index := by
    intro h
    rw [Nat.mul_comm] at h
    exact hXW (Nat.eq_of_mul_eq_mul_left hnw (Nat.add_right_cancel h)).symm
  have hneXG : ¬ ctx.GFrac * W.number_of_wells + well_index
      = W.number_of_wells * ctx.XvarWell + well_index := by
    intro h
    rw [Nat.mul_comm] at h
    exact hXG (Nat.eq_of_mul_eq_mul_left hnw (Nat.add_right_cancel h)).symm
  have hneWG : ¬ ctx.GFrac * W.number_of_wells + well_index
      = ctx.WFrac * W.number_of_wells + well_index := by
    intro h
    exact hWG (Nat.eq_of_mul_eq_mul_right hnw (Nat.add_right_cancel h)).symm
  -- the three stages of the method
  obtain ⟨xw1, h1, hrates, hsol, hsolv⟩ := targetIntoState_pressure ctx W wc current well_index
    xw hprod hctrl hvfp
  obtain ⟨ws1, hws1, hok⟩ := updateWellStateWithTarget_of_state ctx W wc current well_index xw
    xw1 hwells (Or.inl hprod) h1
  rw [targetWeights_pressure _ _ _ hctrl] at hws1
  have hTot : totWellRate W.number_of_phases well_index [1, 1, Double.round (1 / 100)]
      xw1.wellRates = T := by
    rw [hrates, hnp, hTdef]
    rfl
  rw [targetFractions_nonzero ctx W _ well_index _ xw1 _ hwater hgas hsolvent
    (by rw [hTot]; exact hT0)] at hws1
  have hws : ws1 = _ := (Except.ok.inj hws1).symm
  rw [hTot, hrates, hsolv, hsolventRate, hnp] at hws
  have hXlen := targetXvarWell_length_eq ctx W (wc.iget_type current) well_index
    [1, 1, Double.round (1 / 100)] xw1
  rw [hsol] at hXlen
  have hX : ws1.getD (W.number_of_wells * ctx.XvarWell + well_index) 0 = T := by
    rw [hws, getD_set_rat, if_neg (fun h => hneXG h.1), getD_set_rat,
      if_neg (fun h => hneXW h.1),
      targetXvarWell_producer ctx W _ well_index _ xw1 hctrl hprod (by rw [hsol]; exact hlenX),
      if_pos rfl, hTot]
  have hW : ws1.getD (ctx.WFrac * W.number_of_wells + well_index) 0
      = Double.div
          (Double.mul (([1, 1, Double.round (1 / 100)] : List ℚ).getD
              (ctx.phaseIndex Phase.Water) 0)
            (xw.wellRates.getD (3 * well_index + ctx.phaseIndex Phase.Water) 0)) T := by
    rw [hws, getD_set_rat, if_neg (fun h => hneWG h.1), getD_set_rat,
      if_pos ⟨rfl, by rw [hXlen]; exact hlenW⟩]
  have hG : ws1.getD (ctx.GFrac * W.number_of_wells + well_index) 0
      = Double.div
          (Double.mul (([1, 1, Double.round (1 / 100)] : List ℚ).getD
              (ctx.phaseIndex Phase.Gas) 0)
            (Double.sub (xw.wellRates.getD (3 * well_index + ctx.phaseIndex Phase.Gas) 0) 0))
          T := by
    rw [hws, getD_set_rat,
      if_pos ⟨rfl, by rw [List.length_set, hXlen]; exact hlenG⟩]
  exact ⟨_, hok, hrates, hX, hW, hG⟩

/-- Claim C18, as amended. A three-phase producer without solvent is under BHP
or THP control; `T` is its weighted total rate as the method computes it, the
sum of `g[p] * rate[p]` accumulated from 0 in the order of the phases with
every product and every sum rounded to a double, where `g = (1, 1, 0.01)` and
`0.01` is the double nearest to `1 / 100`. The magnitudes are away from
overflow: the rates are at most `2^300` and `T` is at least `2^(-300)` (so that
it is not zero). Then `updateWellStateWithTarget` returns with the rates
unchanged and with the entries of the well solution `XvarWell = T`,
`WFrac = (g[Water] * rate[Water]) / T` and `GFrac = (g[Gas] * rate[Gas]) / T`,
each product and each quotient rounded to a double. When the product and the
quotient of a fraction are exact, the product of the fraction with `XvarWell`
gives back `g[p] * rate[p]`; when moreover `T` is the exact weighted sum and
`Water`, `Oil`, `Gas` are at 0, 1, 2, the remainder gives the oil rate,
`(1 - WFrac - GFrac) * XvarWell = g[Oil] * rate[Oil]`. The three positions are
distinct and stored in the well solution, and the VFP tables are present under
THP control. -/
theorem updateWellStateWithTarget_rates_recoverable (ctx : TargetContext) (W : Wells)
    (wc : WellControls) (current : Int) (well_index : Nat) (xw : WellState) (T : ℚ)
    (hwells : ctx.wells_ = some W)
    (hnp : W.number_of_phases = 3)
    (hwater : ctx.active_ Phase.Water = true) (hgas : ctx.active_ Phase.Gas = true)
    (hprod : W.type well_index = WellType.PRODUCER)
    (hsolvent : ctx.has_solvent_ = false) (hsolventRate : xw.solventWellRate well_index = 0)
    (hctrl : wc.iget_type current = WellControlType.BHP
      ∨ wc.iget_type current = WellControlType.THP)
    (hvfp : wc.iget_type current = WellControlType.THP → ctx.vfp_properties_ ≠ none)
    (hwi : well_index < W.number_of_wells)
    (hpos : ctx.XvarWell ≠ ctx.WFrac ∧ ctx.XvarWell ≠ ctx.GFrac ∧ ctx.WFrac ≠ ctx.GFrac)
    (hlen : ∀ pos, pos = ctx.XvarWell ∨ pos = ctx.WFrac ∨ pos = ctx.GFrac →
      W.number_of_wells * pos + well_index < xw.wellSolutions.length)
    (hTdef : T = (List.range 3).foldl
      (fun acc p => Double.add acc
        (Double.mul (([1, 1, Double.round (1 / 100)] : List ℚ).getD p 0)
          (xw.wellRates.getD (3 * well_index + p) 0))) 0)
    (hT : 1 / 2 ^ 300 ≤ |T|)
    (_hrates : ∀ p, p < 3 → |xw.wellRates.getD (3 * well_index + p) 0| ≤ 2 ^ 300) :
    ∃ xw1, updateWellStateWithTarget ctx wc current well_index xw = Except.ok xw1 ∧
      xw1.wellRates = xw.wellRates ∧
      xw1.wellSolutions.getD (W.number_of_wells * ctx.XvarWell + well_index) 0 = T ∧
      xw1.wellSolutions.getD (ctx.WFrac * W.number_of_wells + well_index) 0
        = Double.div
            (Double.mul (([1, 1, Double.round (1 / 100)] : List ℚ).getD
                (ctx.phaseIndex Phase.Water) 0)
              (xw.wellRates.getD (3 * well_index + ctx.phaseIndex Phase.Water) 0)) T ∧
      xw1.wellSolutions.getD (ctx.GFrac * W.number_of_wells + well_index) 0
        = Double.div
            (Double.mul (([1, 1, Double.round (1 / 100)] : List ℚ).getD
                (ctx.phaseIndex Phase.Gas) 0)
              (Double.sub (xw.wellRates.getD (3 * well_index + ctx.phaseIndex Phase.Gas) 0) 0))
            T ∧
      (∀ gW rW gG rG : ℚ,
        gW = ([1, 1, Double.round (1 / 100)] : List ℚ).getD (ctx.phaseIndex Phase.Water) 0 →
        rW = xw.wellRates.getD (3 * well_index + ctx.phaseIndex Phase.Water) 0 →
        gG = ([1, 1, Double.round (1 / 100)] : List ℚ).getD (ctx.phaseIndex Phase.Gas) 0 →
        rG = xw.wellRates.getD (3 * well_index + ctx.phaseIndex Phase.Gas) 0 →
        (Double.div (Double.mul gW rW) T = gW * rW / T →
          xw1.wellSolutions.getD (ctx.WFrac * W.number_of_wells + well_index) 0
              * xw1.wellSolutions.getD (W.number_of_wells * ctx.XvarWell + well_index) 0
            = gW * rW) ∧
        (Double.div (Double.mul gG (Double.sub rG 0)) T = gG * rG / T →
          xw1.wellSolutions.getD (ctx.GFrac * W.number_of_wells + well_index) 0
              * xw1.wellSolutions.getD (W.number_of_wells * ctx.XvarWell + well_index) 0
            = gG * rG) ∧
        (Double.div (Double.mul gW rW) T = gW * rW / T →
          Double.div (Double.mul gG (Double.sub rG 0)) T = gG * rG / T →
          ctx.phaseIndex Phase.Water = 0 ∧ ctx.phaseIndex Phase.Oil = 1
            ∧ ctx.phaseIndex Phase.Gas = 2 →
          T = ∑ p in Finset.range 3,
            ([1, 1, Double.round (1 / 100)] : List ℚ).getD p 0
              * xw.wellRates.getD (3 * well_index + p) 0 →
          (1 - xw1.wellSolutions.getD (ctx.WFrac * W.number_of_wells + well_index) 0
              - xw1.wellSolutions.getD (ctx.GFrac * W.number_of_wells + well_index) 0)
            * xw1.wellSolutions.getD (W.number_of_wells * ctx.XvarWell + well_index) 0
          = ([1, 1, Double.round (1 / 100)] : List ℚ).getD (ctx.phaseIndex Phase.Oil) 0
            * xw.wellRates.getD (3 * well_index + ctx.phaseIndex Phase.Oil) 0)) := by
  have hT0 : T ≠ 0 := by
    intro h0
    rw [h0, abs_zero] at hT
    have : (0 : ℚ) < 1 / 2 ^ 300 := by positivity
    linarith
  obtain ⟨xw1, hok, hrates, hX, hW, hG⟩ :=
    updateWellStateWithTarget_rates_recoverable_aux ctx W wc current well_index xw T hwells hnp
      hwater hgas hprod hsolvent hsolventRate hctrl hvfp hwi hpos hlen hTdef hT0
  refine ⟨xw1, hok, hrates, hX, hW, hG, ?_⟩
  intro gW rW gG rG hgW hrW hgG hrG
  subst hgW hrW hgG hrG
  refine ⟨?_, ?_, ?_⟩
  · intro he
    rw [hW, hX, he, div_mul_cancel₀ _ hT0]
  · intro he
    rw [hG, hX, he, div_mul_cancel₀ _ hT0]
  · rintro heW heG ⟨hiW, hiO, hiG⟩ hsum
    rw [hW, hG, hX, heW, heG, hiW, hiO, hiG, sub_mul, sub_mul, div_mul_cancel₀ _ hT0,
      div_mul_cancel₀ _ hT0, one_mul]
    rw [hsum]
    simp [Finset.sum_range_succ]
    ring

/-- Instance of the amended C18: a producer with the rates 16 of water, 48 of
oil and 0 of gas is set under a BHP control. The weighted total rate is 64 and
no operation is rounded: the well solution holds 64, `16 / 64` and 0, and the
three rates are given back. -/
theorem updateWellStateWithTarget_rates_recoverable_witness :
    ∃ xw1, updateWellStateWithTarget (fxTargetCtxOne WellType.PRODUCER)
        (fxControls WellControlType.BHP 300 fxDistrOil) 0 0 fxStateOnePowers = Except.ok xw1 ∧
      xw1.wellRates = [16, 48, 0] ∧
      xw1.wellSolutions.getD 0 0 = 64 ∧
      xw1.wellSolutions.getD 1 0 = 1 / 4 ∧
      xw1.wellSolutions.getD 2 0 = 0 ∧
      xw1.wellSolutions.getD 1 0 * xw1.wellSolutions.getD 0 0 = 16 ∧
      (1 - xw1.wellSolutions.getD 1 0 - xw1.wellSolutions.getD 2 0)
        * xw1.wellSolutions.getD 0 0 = 48 := by
  have hquarter : Double.round (1 / 4) = 1 / 4 := by
    have := Double.round_exact 1 (-2) (by norm_num) (by norm_num)
    norm_num at this ⊢
    exact this
  have hp3 : ∀ p, p < 3 → p = 0 ∨ p = 1 ∨ p = 2 := by
    intro p hp
    omega
  obtain ⟨xw1, hok, hrates, hX, hW, hG, hexact⟩ :=
    updateWellStateWithTarget_rates_recoverable (fxTargetCtxOne WellType.PRODUCER)
      (fxWells WellType.PRODUCER)
      (fxControls WellControlType.BHP 300 fxDistrOil) 0 0 fxStateOnePowers 64 rfl rfl rfl rfl
      rfl rfl rfl (Or.inl rfl) (by simp [fxControls]) (by simp [fxWells])
      (by simp [fxTargetCtxOne, fxTargetCtx])
      (by
        intro pos hp
        rcases hp with h | h | h <;>
          simp [h, fxTargetCtxOne, fxTargetCtx, fxWells, fxStateOnePowers])
      (by norm_num [fxStateOnePowers, List.range_succ, Double.add, Double.mul])
      (by norm_num [abs_of_pos])
      (by
        intro p hp
        rcases hp3 p hp with h | h | h <;> subst h <;>
          norm_num [fxStateOnePowers, abs_of_pos])
  obtain ⟨heW, _, heO⟩ := hexact _ _ _ _ rfl rfl rfl rfl
  have hdW : Double.div (Double.mul
      (([1, 1, Double.round (1 / 100)] : List ℚ).getD
        ((fxTargetCtxOne WellType.PRODUCER).phaseIndex Phase.Water) 0)
      (fxStateOnePowers.wellRates.getD
        (3 * 0 + (fxTargetCtxOne WellType.PRODUCER).phaseIndex Phase.Water) 0)) 64
      = 1 / 4 := by
    norm_num [fxTargetCtxOne, fxTargetCtx, fxStateOnePowers, Double.div, Double.mul, hquarter]
  have hdG : Double.div (Double.mul
      (([1, 1, Double.round (1 / 100)] : List ℚ).getD
        ((fxTargetCtxOne WellType.PRODUCER).phaseIndex Phase.Gas) 0)
      (Double.sub (fxStateOnePowers.wellRates.getD
        (3 * 0 + (fxTargetCtxOne WellType.PRODUCER).phaseIndex Phase.Gas) 0) 0)) 64 = 0 := by
    norm_num [fxTargetCtxOne, fxTargetCtx, fxStateOnePowers, Double.div, Double.mul, Double.sub]
  have hW2 := heW (by
    rw [hdW]
    norm_num [fxTargetCtxOne, fxTargetCtx, fxStateOnePowers])
  have hO2 := heO (by
      rw [hdW]
      norm_num [fxTargetCtxOne, fxTargetCtx, fxStateOnePowers])
    (by
      rw [hdG]
      norm_num [fxTargetCtxOne, fxTargetCtx, fxStateOnePowers])
    ⟨rfl, rfl, rfl⟩
    (by norm_num [fxStateOnePowers, Finset.sum_range_succ])
  rw [hdW] at hW
  rw [hdG] at hG
  norm_num [fxTargetCtxOne, fxTargetCtx, fxWells, fxStateOnePowers,
    -List.getD_eq_getElem?_getD] at hX hW hG hW2 hO2
  exact ⟨xw1, hok, hrates, hX, hW, hG, hW2, hO2⟩

/-- Claim C18, refuted as stated. A producer with the rates 1 of water, 48 of
oil and 0 of gas is set under a BHP control: the weighted total rate is
`T = 49`. The entry `XvarWell` holds 49 and the entry `WFrac` the double nearest
to `1 / 49`; their product is not `g[Water] * rate[Water] = 1`. -/
theorem updateWellStateWithTarget_rates_not_recovered :
    (fxWells WellType.PRODUCER).type 0 = WellType.PRODUCER ∧
    (∑ p in Finset.range 3,
      ([1, 1, 1 / 100] : List ℚ).getD p 0 * fxStateOneLiquid.wellRates.getD (3 * 0 + p) 0)
      = 49 ∧
    ∃ xw1, updateWellStateWithTarget (fxTargetCtxOne WellType.PRODUCER)
        (fxControls WellControlType.BHP 300 fxDistrOil) 0 0 fxStateOneLiquid = Except.ok xw1 ∧
      xw1.wellRates = [1, 48, 0] ∧
      xw1.wellSolutions.getD 0 0 = 49 ∧
      xw1.wellSolutions.getD 1 0 = 5882252574524729 / 2 ^ 58 ∧
      xw1.wellSolutions.getD 1 0 * xw1.wellSolutions.getD 0 0
        ≠ ([1, 1, 1 / 100] : List ℚ).getD 0 0 * fxStateOneLiquid.wellRates.getD (3 * 0 + 0) 0 := by
  obtain ⟨hd, _, _⟩ := fxDouble_div_49
  have hp3 : ∀ p, p < 3 → p = 0 ∨ p = 1 ∨ p = 2 := by
    intro p hp
    omega
  obtain ⟨xw1, hok, hrates, hX, hW, _⟩ :=
    updateWellStateWithTarget_rates_recoverable_aux (fxTargetCtxOne WellType.PRODUCER)
      (fxWells WellType.PRODUCER)
      (fxControls WellControlType.BHP 300 fxDistrOil) 0 0 fxStateOneLiquid 49 rfl rfl rfl rfl
      rfl rfl rfl (Or.inl rfl) (by simp [fxControls]) (by simp [fxWells])
      (by simp [fxTargetCtxOne, fxTargetCtx])
      (by
        intro pos hp
        rcases hp with h | h | h <;>
          simp [h, fxTargetCtxOne, fxTargetCtx, fxWells, fxStateOneLiquid])
      (by norm_num [fxStateOneLiquid, List.range_succ, Double.add, Double.mul])
      (by norm_num)
  have hW1 : xw1.wellSolutions.getD 1 0 = 5882252574524729 / 2 ^ 58 := by
    have : xw1.wellSolutions.getD 1 0 = Double.div 1 49 := by
      rw [show (1 : Nat) = (fxTargetCtxOne WellType.PRODUCER).WFrac
        * (fxWells WellType.PRODUCER).number_of_wells + 0 from rfl, hW]
      norm_num [fxTargetCtxOne, fxTargetCtx, fxStateOneLiquid, Double.mul]
    rw [this, hd]
  have hX0 : xw1.wellSolutions.getD 0 0 = 49 := hX
  refine ⟨rfl, ?_, xw1, hok, hrates, hX0, hW1, ?_⟩
  · norm_num [fxStateOneLiquid, Finset.sum_range_succ]
  · rw [hW1, hX0]
    norm_num [fxStateOneLiquid]

/-! ## The cartesian index of a completion -/

/-- The cartesian index of a completion is reduced to 32 bits before the
look-up. On a grid with the cartesian dimensions 65536 x 65536 x 1 the OPEN
completion `(0, 0, 1)` of the OPEN well `P1` has `i + nx * (j + ny * k) = 2^32`,
which is not a key of the map, while the `int` that the method looks up is 0,
the key of the first cell: the method returns with one entry in each vector. -/
theorem computeRepRadiusPerfLength_index_wraps :
    fxCompletionLayer.getI + fxGridWide.cartDims 0 * (fxCompletionLayer.getJ
      + fxGridWide.cartDims 1 * fxCompletionLayer.getK) = 2 ^ 32 ∧
    CartesianToCompressed.find
      (setupCompressedToCartesian fxGridWide.globalCell fxGridWide.numCells [])
      (2 ^ 32) = none ∧
    wrapInt32 (2 ^ 32) = 0 ∧
    computeRepRadiusPerfLength
      (fxGeometryCtx (fxWellCompletions WellCommon.StatusEnum.OPEN [fxCompletionLayer]))
      fxGridWide ⟨[], [], []⟩ = Except.ok ⟨[10 / 3], [10], [1 / 5]⟩ := by
  refine ⟨by norm_num [fxCompletionLayer, fxCompletion, fxGridWide], ?_, by decide, ?_⟩
  · rw [setupCompressedToCartesian_find_eq_none]
    intro i hi
    have hi4 : i < 4 := hi
    interval_cases i <;> simp [fxGridWide, fxGrid]
  · have hidx : wrapInt32 (fxCompletionLayer.getI + fxGridWide.cartDims 0
        * (fxCompletionLayer.getJ + fxGridWide.cartDims 1 * fxCompletionLayer.getK)) = 0 := by
      norm_num [fxCompletionLayer, fxCompletion, fxGridWide, wrapInt32]
    have hmap : CartesianToCompressed.find
        (setupCompressedToCartesian fxGridWide.globalCell fxGridWide.numCells []) 0
        = some 0 := by decide
    simp only [computeRepRadiusPerfLength, computeRepRadiusPerfLengthWells,
      computeRepRadiusPerfLengthWell, computeRepRadiusPerfLengthCompletions,
      computeRepRadiusPerfLengthCompletion, hidx, hmap]
    norm_num [fxGeometryCtx, fxWellCompletions, fxWellEcl, fxCompletionLayer, fxCompletion,
      fxGridWide, fxGrid]
    rw [if_neg (by decide)]

/-! ## The average formation volume factors -/

theorem computeAverageFormationFactorElem_length (ctx : FormationFactorContext) (np : Nat)
    (B_avg : List ℚ) (q : IntensiveQuantities) :
    (computeAverageFormationFactorElem ctx np B_avg q).length = B_avg.length := by
  have h1 : ((List.range np).foldl
      (fun B phaseIdx =>
        B.set phaseIdx (Double.add (B.getD phaseIdx 0)
          (Double.div 1 (q.invB (ctx.flowPhaseToEbosPhaseIdx phaseIdx)))))
      B_avg).length = B_avg.length := by
    have := foldl_range_set_length
      (fun B phaseIdx => Double.add (B.getD phaseIdx 0)
        (Double.div 1 (q.invB (ctx.flowPhaseToEbosPhaseIdx phaseIdx))))
      0 B_avg np
    simpa using this
  unfold computeAverageFormationFactorElem
  by_cases hs : ctx.has_solvent_ = true
  · simp only [hs, if_true, List.length_set]
    exact h1
  · have hs1 : ctx.has_solvent_ = false := by simpa using hs
    simp only [hs1, Bool.false_eq_true, if_false]
    exact h1

/-- The entry of a phase after the body of the loop for one element: the
quotient `1 / invB` of the phase is added to it. -/
theorem computeAverageFormationFactorElem_getD (ctx : FormationFactorContext) (np : Nat)
    (B_avg : List ℚ) (q : IntensiveQuantities) (p : Nat) (hp : p < np) (hl : p < B_avg.length)
    (hsolvent : ctx.has_solvent_ = true → ctx.solventSaturationIdx ≠ p) :
    (computeAverageFormationFactorElem ctx np B_avg q).getD p 0
      = Double.add (B_avg.getD p 0)
          (Double.div 1 (q.invB (ctx.flowPhaseToEbosPhaseIdx p))) := by
  have h1 : ((List.range np).foldl
      (fun B phaseIdx =>
        B.set phaseIdx (Double.add (B.getD phaseIdx 0)
          (Double.div 1 (q.invB (ctx.flowPhaseToEbosPhaseIdx phaseIdx)))))
      B_avg).getD p 0
      = Double.add (B_avg.getD p 0)
          (Double.div 1 (q.invB (ctx.flowPhaseToEbosPhaseIdx p))) := by
    have := foldl_range_set_getD
      (fun phaseIdx v => Double.add v
        (Double.div 1 (q.invB (ctx.flowPhaseToEbosPhaseIdx phaseIdx)))) 0 B_avg np p
    simp only [Nat.zero_add, Nat.zero_le, true_and, Nat.sub_zero] at this
    rw [this, if_pos ⟨hp, hl⟩]
  unfold computeAverageFormationFactorElem
  by_cases hs : ctx.has_solvent_ = true
  · simp only [hs, if_true]
    rw [getD_set_rat, if_neg (fun h => hsolvent hs h.1)]
    exact h1
  · have hs1 : ctx.has_solvent_ = false := by simpa using hs
    simp only [hs1, Bool.false_eq_true, if_false]
    exact h1

theorem computeAverageFormationFactorLocal_length (ctx : FormationFactorContext) (np : Nat)
    (elements : List IntensiveQuantities) (B_avg : List ℚ) :
    (computeAverageFormationFactorLocal ctx np elements B_avg).length = B_avg.length := by
  unfold computeAverageFormationFactorLocal
  induction elements generalizing B_avg with
  | nil => rfl
  | cons q rest ih =>
    rw [List.foldl_cons, ih, computeAverageFormationFactorElem_length]

/-- The entry of a phase after the loop over the elements of the process: the
quotients `1 / invB` of the elements are added to it one after the other, in
the order of the traversal. -/
theorem computeAverageFormationFactorLocal_getD (ctx : FormationFactorContext) (np : Nat)
    (elements : List IntensiveQuantities) (B_avg : List ℚ) (p : Nat) (hp : p < np)
    (hl : p < B_avg.length)
    (hsolvent : ctx.has_solvent_ = true → ctx.solventSaturationIdx ≠ p) :
    (computeAverageFormationFactorLocal ctx np elements B_avg).getD p 0
      = (elements.map fun q => Double.div 1 (q.invB (ctx.flowPhaseToEbosPhaseIdx p))).foldl
          Double.add (B_avg.getD p 0) := by
  unfold computeAverageFormationFactorLocal
  induction elements generalizing B_avg with
  | nil => rfl
  | cons q rest ih =>
    rw [List.foldl_cons, ih _ (by rw [computeAverageFormationFactorElem_length]; exact hl),
      computeAverageFormationFactorElem_getD ctx np B_avg q p hp hl hsolvent]
    rfl

theorem commSum_getD (B_avg : List ℚ) (others : List (List ℚ)) (i : Nat)
    (hi : i < B_avg.length) :
    (commSum B_avg others).getD i 0
      = (others.map fun v => v.getD i 0).foldl Double.add (B_avg.getD i 0) := by
  unfold commSum
  rw [List.getD_eq_getElem _ _ (by simpa using hi)]
  simp

/-- The entry of a phase that `computeAverageFormationFactor` leaves, from the
zero vector: the local sums of the processes, each accumulated from 0 in the
order of its traversal, are added in the order of the processes and the total
is divided by the count `global_nc_` converted to a double. -/
theorem computeAverageFormationFactor_entry (ctx : FormationFactorContext) (W : Wells)
    (elements : List IntensiveQuantities) (others : List (List IntensiveQuantities))
    (n p : Nat) (hW : ctx.wells_ = some W)
    (hp : p < W.number_of_phases) (hn : W.number_of_phases ≤ n)
    (hsolvent : ctx.has_solvent_ = true → ctx.solventSaturationIdx ≠ p) :
    ∃ B_avg, computeAverageFormationFactor ctx elements
        (others.map fun els => computeAverageFormationFactorLocal ctx
          W.number_of_phases els (List.replicate n 0))
        (List.replicate n 0) = some B_avg ∧
      B_avg.getD p 0
        = Double.div
            ((others.map fun els =>
                (els.map fun q => Double.div 1 (q.invB (ctx.flowPhaseToEbosPhaseIdx p))).foldl
                  Double.add 0).foldl Double.add
              ((elements.map fun q =>
                Double.div 1 (q.invB (ctx.flowPhaseToEbosPhaseIdx p))).foldl Double.add 0))
            (Double.round (ctx.global_nc_ : ℚ)) := by
  have hpn : p < n := Nat.lt_of_lt_of_le hp hn
  have hzero : (List.replicate n (0 : ℚ)).getD p 0 = 0 := by
    simp [List.getD_eq_getElem?_getD, hpn]
  have hloc : ∀ els : List IntensiveQuantities,
      (computeAverageFormationFactorLocal ctx W.number_of_phases els
        (List.replicate n 0)).getD p 0
      = (els.map fun q => Double.div 1 (q.invB (ctx.flowPhaseToEbosPhaseIdx p))).foldl
          Double.add 0 := by
    intro els
    rw [computeAverageFormationFactorLocal_getD ctx _ els _ p hp
      (by rw [List.length_replicate]; exact hpn) hsolvent, hzero]
  refine ⟨(commSum
      (computeAverageFormationFactorLocal ctx W.number_of_phases elements
        (List.replicate n 0))
      (others.map fun els => computeAverageFormationFactorLocal ctx
        W.number_of_phases els (List.replicate n 0))).map
    (fun bval => Double.div bval (Double.round (ctx.global_nc_ : ℚ))), ?_, ?_⟩
  · unfold computeAverageFormationFactor
    simp only [hW]
  · have hg : ∀ (l : List ℚ) (c : ℚ), p < l.length →
        (l.map fun bval => Double.div bval c).getD p 0 = Double.div (l.getD p 0) c := by
      intro l c hlt
      simp [List.getD_eq_getElem?_getD, List.getElem?_map, List.getElem?_eq_getElem hlt]
    have hlen : p < (commSum
        (computeAverageFormationFactorLocal ctx W.number_of_phases elements
          (List.replicate n 0))
        (others.map fun els => computeAverageFormationFactorLocal ctx
          W.number_of_phases els (List.replicate n 0))).length := by
      unfold commSum
      rw [List.length_map, List.length_range, computeAverageFormationFactorLocal_length,
        List.length_replicate]
      exact hpn
    rw [hg _ _ hlen, commSum_getD _ _ _ (by
      rw [computeAverageFormationFactorLocal_length, List.length_replicate]; exact hpn), hloc]
    congr 2
    rw [List.map_map]
    apply List.map_congr_left
    intro els _
    exact hloc els

namespace Double

/-- Integers added one after the other in double precision: every sum is the
exact one when the magnitudes of the running sums stay below `2^53`. -/
theorem foldl_add_exact (l : List ℚ) (a : ℚ) (B M : Nat) (ha : isInt B a)
    (hl : ∀ v, v ∈ l → isInt M v) (h : B + l.length * M < 2 ^ 53) :
    l.foldl add a = a + l.sum ∧ isInt (B + l.length * M) (a + l.sum) := by
  induction l generalizing a B with
  | nil => simpa using ha
  | cons v l ih =>
    have hv := hl v (List.mem_cons_self v l)
    have hlen : (v :: l).length * M = M + l.length * M := by
      rw [List.length_cons, Nat.succ_mul, Nat.add_comm]
    rw [hlen] at h ⊢
    have hstep : add a v = a + v := add_of_isInt B M a v ha hv (by omega)
    obtain ⟨h1, h2⟩ := ih (a + v) (B + M) (isInt_add B M a v ha hv)
      (fun w hw => hl w (List.mem_cons_of_mem v hw)) (by omega)
    simp only [List.foldl_cons, List.sum_cons]
    rw [hstep, h1, ← add_assoc]
    refine ⟨rfl, ?_⟩
    rw [← Nat.add_assoc]
    exact h2

end Double

/-- The total of the local sums of integers: no sum is rounded when the
magnitudes stay below `2^53`. -/
theorem formationTotal_exact (quot : IntensiveQuantities → ℚ)
    (elements : List IntensiveQuantities) (others : List (List IntensiveQuantities))
    (m M : Nat)
    (h : ∀ els, els ∈ elements :: others →
      els.length ≤ m ∧ ∀ q, q ∈ els → Double.isInt M (quot q))
    (hb : (others.length + 1) * (m * M) < 2 ^ 53) :
    (others.map fun els => (els.map quot).foldl Double.add 0).foldl Double.add
        ((elements.map quot).foldl Double.add 0)
      = ((elements :: others).map fun els => (els.map quot).sum).sum := by
  rw [Nat.add_mul, Nat.one_mul] at hb
  have hloc : ∀ els, els ∈ elements :: others →
      (els.map quot).foldl Double.add 0 = (els.map quot).sum ∧
        Double.isInt (m * M) ((els.map quot).sum) := by
    intro els hels
    obtain ⟨hlen, hq⟩ := h els hels
    have hmm : els.length * M ≤ m * M := Nat.mul_le_mul_right M hlen
    have hle : others.length * (m * M) + m * M < 2 ^ 53 := hb
    obtain ⟨h1, h2⟩ := Double.foldl_add_exact (els.map quot) 0 0 M (Double.isInt_zero 0)
      (by
        intro v hv
        obtain ⟨q, hqm, rfl⟩ := List.mem_map.mp hv
        exact hq q hqm)
      (by rw [List.length_map]; omega)
    simp only [zero_add, List.length_map] at h1 h2
    exact ⟨h1, Double.isInt_mono _ _ _ h2 (by omega)⟩
  have hmap : (others.map fun els => (els.map quot).foldl Double.add 0)
      = others.map fun els => (els.map quot).sum := by
    apply List.map_congr_left
    intro els hels
    exact (hloc els (List.mem_cons_of_mem _ hels)).1
  rw [hmap, (hloc elements (List.mem_cons_self _ _)).1]
  have := (Double.foldl_add_exact (others.map fun els => (els.map quot).sum)
    ((elements.map quot).sum) (m * M) (m * M) (hloc elements (List.mem_cons_self _ _)).2
    (by
      intro v hv
      obtain ⟨els, hels, rfl⟩ := List.mem_map.mp hv
      exact (hloc els (List.mem_cons_of_mem _ hels)).2)
    (by rw [List.length_map]; omega)).1
  rw [this, List.map_cons, List.sum_cons]

theorem forall₂_perm_mem (others others1 : List (List IntensiveQuantities))
    (h : List.Forall₂ List.Perm others others1) :
    ∀ els1, els1 ∈ others1 → ∃ els, els ∈ others ∧ els.Perm els1 := by
  induction h with
  | nil => intro els1 h1; cases h1
  | cons hab _ ih =>
    intro els1 h1
    rcases List.mem_cons.mp h1 with h2 | h2
    · subst h2
      exact ⟨_, List.mem_cons_self _ _, hab⟩
    · obtain ⟨els, hels, hp⟩ := ih els1 h2
      exact ⟨els, List.mem_cons_of_mem _ hels, hp⟩

/-- The sums in double precision of the formation volume factors 1, 1 and
`1 / 3` of three cells, in two orders, and their quotients by 3. -/
theorem fxDouble_thirds :
    Double.div 1 (1 / (1 / 3)) = 6004799503160661 / 2 ^ 54 ∧
    Double.div 1 (1 / 1) = 1 ∧
    Double.add (Double.add (Double.add 0 1) 1) (6004799503160661 / 2 ^ 54)
      = 5254199565265579 / 2 ^ 51 ∧
    Double.add (Double.add (Double.add 0 (6004799503160661 / 2 ^ 54)) 1) 1
      = 5254199565265578 / 2 ^ 51 ∧
    Double.div (5254199565265579 / 2 ^ 51) 3 = 7005599420354105 / 2 ^ 53 ∧
    Double.div (5254199565265578 / 2 ^ 51) 3 = 7005599420354104 / 2 ^ 53 := by
  have h2 : Double.add (Double.add 0 1) 1 = 2 := by norm_num [Double.add]
  have ht : Double.add 0 (6004799503160661 / 2 ^ 54) = 6004799503160661 / 2 ^ 54 := by
    unfold Double.add
    have := Double.round_exact 6004799503160661 (-54) (by norm_num) (by norm_num)
    norm_num at this ⊢
    exact this
  have ht1 : Double.add (6004799503160661 / 2 ^ 54) 1 = 6004799503160661 / 2 ^ 52 := by
    unfold Double.add
    rw [Double.round_of_near _ 0 6004799503160661 (by norm_num [abs_of_pos])
      (by norm_num [abs_of_pos]) (by norm_num) (by norm_num) (by norm_num)]
    norm_num
  refine ⟨?_, by norm_num [Double.div], ?_, ?_, ?_, ?_⟩
  · unfold Double.div
    rw [Double.round_of_near _ (-2) 6004799503160661 (by norm_num [abs_of_pos])
      (by norm_num [abs_of_pos]) (by norm_num) (by norm_num) (by norm_num)]
    norm_num
  · rw [h2]
    unfold Double.add
    rw [Double.round_of_near _ 1 5254199565265579 (by norm_num [abs_of_pos])
      (by norm_num [abs_of_pos]) (by norm_num) (by norm_num) (by norm_num)]
    norm_num
  · rw [ht, ht1]
    unfold Double.add
    rw [Double.round_of_tie _ 1 5254199565265578 (by norm_num [abs_of_pos])
      (by norm_num [abs_of_pos]) (by norm_num) (by norm_num)]
    norm_num
  · unfold Double.div
    rw [Double.round_of_near _ (-1) 7005599420354105 (by norm_num [abs_of_pos])
      (by norm_num [abs_of_pos]) (by norm_num) (by norm_num) (by norm_num)]
    norm_num
  · unfold Double.div
    rw [Double.round_of_near _ (-1) 7005599420354104 (by norm_num [abs_of_pos])
      (by norm_num [abs_of_pos]) (by norm_num) (by norm_num) (by norm_num)]
    norm_num

namespace StandardWellsDense

/-- The parts of `prepareTimeStep` that come before its last loop, on the example
`fxEntryNew`: the first loop resets the control set from the well state (control
2) and the application of the group controls then moves it to the control 1,
while the well state still records the control 2 and the flag of a new well. -/
theorem fxModelSwitching_prepareTimeStepGroup :
    ∃ s1 s2, fxModelSwitching.prepareTimeStepControls (fxWells WellType.PRODUCER) 1 fxEntryNew
        = some s1 ∧
      fxModelSwitching.prepareTimeStepGroup s1 = some s2 ∧
      s2.ctrl_current 0 = 1 ∧ s2.well_state.currentControls = [2] ∧
      s2.well_state.isNewWell 0 = true :=
  ⟨_, _, rfl, rfl, rfl, rfl, rfl⟩

/-- Instance of C31: a newly added well `P1` whose well state records the control
2 while the application of the group controls puts its control set on the
control 1. At return the well state records the control 1, the current control
of the control set, and the well is no more flagged as new. -/
theorem prepareTimeStep_controls_synchronised_witness :
    fxEntryNew.well_state.currentControls = [2] ∧ fxEntryNew.ctrl_current 0 = 0 ∧
    fxEntryNew.well_state.isNewWell 0 = true ∧
    ∃ s3, fxModelSwitching.prepareTimeStep fxEntryNew = some s3 ∧
      s3.ctrl_current 0 = 1 ∧ s3.well_state.currentControls = [1] ∧
      s3.well_state.currentControls.getD 0 0 = s3.ctrl_current 0 ∧
      s3.well_state.isNewWell 0 = false := by
  refine ⟨rfl, rfl, rfl, ?_⟩
  obtain ⟨s1, s2, h1, h2, hc2, hcc2, _⟩ := fxModelSwitching_prepareTimeStepGroup
  obtain ⟨s3, h3⟩ := prepareTimeStepTarget_loop_some fxModelSwitching
    (fxWells WellType.PRODUCER) rfl (fun _ _ => Or.inl rfl)
    (fun _ => by simp [fxModelSwitching, fxModel, fxTargetCtx]) 1 (Nat.le_refl _) s2
  have hprep : fxModelSwitching.prepareTimeStep fxEntryNew = some s3 := by
    unfold prepareTimeStep wells
    have hW : fxModelSwitching.wells_ = some (fxWells WellType.PRODUCER) := rfl
    simp only [hW]
    have h1b : fxModelSwitching.prepareTimeStepControls (fxWells WellType.PRODUCER)
        (fxWells WellType.PRODUCER).number_of_wells fxEntryNew = some s1 := h1
    simp only [h1b, h2]
    exact h3
  obtain ⟨hctrl, hlen, _, _⟩ := prepareTimeStepTarget_loop fxModelSwitching 1 s2 s3 h3
  obtain ⟨hsync, hnew⟩ := (prepareTimeStep_controls_synchronised fxModelSwitching
    (fxWells WellType.PRODUCER) fxEntryNew rfl).1 s3 hprep 0 (by decide)
  have hl3 : s3.well_state.currentControls.length = 1 := by rw [hlen, hcc2]; rfl
  have hs := hsync (by rw [hl3]; decide)
  have hc3 : s3.ctrl_current 0 = 1 := by rw [hctrl]; exact hc2
  refine ⟨s3, hprep, hc3, ?_, hs, hnew⟩
  rw [hc3] at hs
  match hcs : s3.well_state.currentControls, hl3, hs with
  | [c], _, hs' =>
    have : c = 1 := by simpa using hs'
    rw [this]

end StandardWellsDense

end Opm
